import Mathlib

/-!
# Surelog: the preprocessor cache and the parser cache

A shallow embedding of `src/Cache/PPCache.cpp` and `src/Cache/ParseCache.cpp`
(validation, save and restore of the on-disk caches) and of the part of
`src/SourceCompile/SV3_1aTreeShapeHelper.cpp` that registers design elements.

Conventions of the embedding.

* C++ objects reached through pointers (`m_pp`, the command line parser, the
  symbol table, the error container, the compilation unit) are records that
  are passed explicitly; a method that mutates one returns the new record.
* The cache files on disk are a function from file names to buffers
  (`openFlatBuffers`).  A buffer records whether it carries the identifier
  magic and what `GetPPCache` / `GetParseCache` reads from it.
* The validation walk and the restore walk recurse through the `includes`
  lists of the files on disk.  The source has no bound on that recursion, so
  both take a recursion budget (`fuel`) and answer `none` when it is used up.
* Paths are strings.  `std::filesystem` and `FileUtils` operations whose code
  is not part of the sources are fields of `Env`.  Where the source compares
  `std::filesystem::path` values the strings go through `Env.toPath` into a
  linearly ordered type.
-/

namespace SURELOG

/-! ## Symbols -/

abbrev SymbolId := Nat

abbrev NodeId := Nat

/-- Modelled from the spec: the symbol store of §4.A (class `SymbolTable`,
whose code is not among the sources).  Handle `0` is the bad symbol; handles are
assigned from a positive counter, so handle `k + 1` names the `k`-th registered
string. -/
structure SymbolTable where
  m_id2SymbolMap : List String
deriving DecidableEq, Repr

/-- Modelled from the spec: `symbol(handle)`, total for live handles and
`"<unknown>"` otherwise (§4.A). -/
def SymbolTable.getSymbol (t : SymbolTable) (id : SymbolId) : String :=
  match id with
  | 0 => "<unknown>"
  | k + 1 => t.m_id2SymbolMap.getD k "<unknown>"

/-- Modelled from the spec: `id(string)`, lookup only, the bad symbol when the
string is absent (§4.A). -/
def SymbolTable.getId (t : SymbolTable) (s : String) : SymbolId :=
  if s ∈ t.m_id2SymbolMap then t.m_id2SymbolMap.indexOf s + 1 else 0

/-- Modelled from the spec: `register(string)`, insert-if-absent (§4.A).
Returns the handle and the table after the call. -/
def SymbolTable.registerSymbol (t : SymbolTable) (s : String) : SymbolId × SymbolTable :=
  if s ∈ t.m_id2SymbolMap then (t.m_id2SymbolMap.indexOf s + 1, t)
  else (t.m_id2SymbolMap.length + 1, ⟨t.m_id2SymbolMap ++ [s]⟩)

/-- A freshly constructed table (`SymbolTable cacheSymbols;`). -/
def SymbolTable.empty : SymbolTable := ⟨[]⟩

/-- Runs a state-passing function over a list, left to right, collecting the
outputs: the shape of every `for (...) { ...; vec.push_back(...); }` loop that
registers symbols while it encodes or decodes. -/
def mapAccum {σ α β : Type} (f : σ → α → β × σ) : σ → List α → List β × σ
  | s, [] => ([], s)
  | s, a :: as =>
    let r := f s a
    let rs := mapAccum f r.2 as
    (r.1 :: rs.1, rs.2)

/-! ## `compareVectors` (PPCache.cpp) -/

/-- `compareVectors`: both arguments are taken by value, sorted, and compared
with `==`.  `std::sort` yields the sorted arrangement of its input; insertion
sort computes it. -/
def compareVectors {T : Type} [LinearOrder T] (a b : List T) : Bool :=
  let a1 := a.insertionSort (· ≤ ·)
  let b1 := b.insertionSort (· ≤ ·)
  decide (a1 = b1)

/-! ## Command line, environment, cache records -/

/-- The fields of `CommandLineParser` that the caches read.  The cache
directory and the precompiled directory are kept as the strings their symbols
stand for: `getCacheFileName_` registers the precompiled directory in the
command line's table and reads the returned handle back at once, which by the
symbol-store law `symbol(register(s)) = s` is the directory string itself. -/
structure CommandLineParser where
  m_cacheAllowed : Bool
  m_parseOnly : Bool
  m_lowMem : Bool
  m_noCacheHash : Bool
  m_includePaths : List SymbolId
  m_defineList : List (SymbolId × String)
  cacheDirName : String
  precompiledDirName : String

/-- Modelled from the spec: the cache header of §3 (`CACHE::Header`, generated
code that is not among the sources). -/
structure Header where
  schemaVersion : String
  sourceFilePath : String
  sourceFileMtime : Nat
  buildIdentifier : String
deriving DecidableEq, Repr

/-- Modelled from the spec: `MacroType` of §9, a closed enumeration. -/
inductive MacroType where
  | NO_ARGS
  | WITH_ARGS
deriving DecidableEq, Repr

/-- `MACROCACHE::Macro` as written by `MACROCACHE::CreateMacro`. -/
structure FbMacro where
  name : String
  type : MacroType
  start_line : Nat
  start_column : Nat
  end_line : Nat
  end_column : Nat
  arguments : List String
  tokens : List String
deriving DecidableEq, Repr

/-- `CACHE::TimeInfo` as written by `CACHE::CreateTimeInfo`; `file_id` is a
handle of the cache-local symbol table. -/
structure FbTimeInfo where
  type : Nat
  file_id : Nat
  line : Nat
  time_unit : Nat
  time_unit_value : Nat
  time_precision : Nat
  time_precision_value : Nat
deriving DecidableEq, Repr

/-- `MACROCACHE::LineTranslationInfo`. -/
structure FbLineTranslationInfo where
  pretend_file : String
  original_line : Nat
  pretend_line : Nat
deriving DecidableEq, Repr

/-- `MACROCACHE::IncludeFileInfo`. -/
structure FbIncludeFileInfo where
  context : Nat
  section_start_line : Nat
  section_file : String
  original_start_line : Nat
  original_start_column : Nat
  original_end_line : Nat
  original_end_column : Nat
  action : Nat
  index_opening : Nat
  index_closing : Nat
deriving DecidableEq, Repr

/-- Modelled from the spec: a cached error location (`CACHE::Location`); the two
symbols are handles of the cache-local table. -/
structure FbLocation where
  file_id : Nat
  line : Nat
  column : Nat
  object : Nat
deriving DecidableEq, Repr

/-- Modelled from the spec: a cached error (`CACHE::Error`). -/
structure FbError where
  error_id : Nat
  locations : List FbLocation
deriving DecidableEq, Repr

/-- Modelled from the spec: a cached parse-tree node (`CACHE::VObject`); name
and file are handles of the cache-local table, the links are node indices. -/
structure FbVObject where
  name : Nat
  file_id : Nat
  type : Nat
  line : Nat
  column : Nat
  end_line : Nat
  end_column : Nat
  parent : Nat
  definition : Nat
  child : Nat
  sibling : Nat
deriving DecidableEq, Repr

/-- `MACROCACHE::PPCache`, the arguments of `MACROCACHE::CreatePPCache` in
order.  `includes` and `body` are tested for null by the reader. -/
structure FbPPCache where
  header : Header
  macros : List FbMacro
  includes : Option (List String)
  body : Option String
  errors : List FbError
  symbols : List String
  cmd_include_paths : List String
  cmd_define_options : List String
  time_info : List FbTimeInfo
  line_translation_vec : List FbLineTranslationInfo
  include_file_info : List FbIncludeFileInfo
  objects : List FbVObject
deriving DecidableEq, Repr

/-- A preprocessor cache buffer as `openFlatBuffers` returns it:
`hasIdentifier` is `MACROCACHE::PPCacheBufferHasIdentifier`, `ppcache` is what
`MACROCACHE::GetPPCache` reads. -/
structure PPBuffer where
  hasIdentifier : Bool
  ppcache : FbPPCache
deriving DecidableEq, Repr

/-- `PARSECACHE::DesignElement` as written by `PARSECACHE::CreateDesignElement`. -/
structure FbDesignElement where
  name : Nat
  file_id : Nat
  type : Nat
  unique_id : Nat
  line : Nat
  column : Nat
  end_line : Nat
  end_column : Nat
  time_info : FbTimeInfo
  parent : Nat
  node : Nat
  default_net_type : Nat
deriving DecidableEq, Repr

/-- `PARSECACHE::ParseCache`, the arguments of `PARSECACHE::CreateParseCache`. -/
structure FbParseCache where
  header : Header
  errors : List FbError
  symbols : List String
  elements : List FbDesignElement
  objects : List FbVObject
deriving DecidableEq, Repr

/-- A parser cache buffer: `hasIdentifier` is
`PARSECACHE::ParseCacheBufferHasIdentifier`, `parsecache` is what
`PARSECACHE::GetParseCache` reads. -/
structure ParseBuffer where
  hasIdentifier : Bool
  parsecache : FbParseCache
deriving DecidableEq, Repr

/-- What the caches read from their surroundings and never change: the command
line, the precompiled-package registry, `FileUtils`, `std::filesystem`, the
library of the file, the header helpers of the cache base class (`Cache.cpp`
is not among the sources), the cache files on disk, whether writing a cache
file succeeds (the status of `saveFlatbuffers`), and `Cache::Capacity`. -/
structure Env (P : Type) where
  clp : CommandLineParser
  isFilePrecompiled : String → Bool
  basename : String → String
  getPathName : String → String
  hashPath : String → String
  pathAppend : String → String → String
  parentPath : String → String
  filename : String → String
  toPath : String → P
  libName : String
  checkIfCacheIsValid : Header → String → String → Bool
  createHeader : String → String → Header
  openFlatBuffers : String → Option PPBuffer
  openParseFlatBuffers : String → Option ParseBuffer
  saveFlatbuffers : String → Bool
  Capacity : Nat

/-- The schema version literal of both caches. -/
def FlbSchemaVersion : String := "1.2"

/-- The outcome of `getCacheFileName_`: the returned name, the directory handed
to `FileUtils::mkDirs`, and the value of `m_isPrecompiled` after the call. -/
structure CacheFileName where
  cacheFileName : String
  mkDirs : String
  isPrecompiled : Bool
deriving DecidableEq, Repr

/-- `PPCache::getCacheFileName_`.  `requested_file` empty stands for the default
argument, in which case the name of the preprocessed file (`fileNameLine1`,
`m_pp->getFileName(LINE1)`) is used.  `isPrecompiled` is `m_isPrecompiled`
before the call; the call only ever sets it. -/
def PPCache.getCacheFileName_ {P : Type} (env : Env P) (fileNameLine1 : String)
    (isPrecompiled : Bool) (requested_file : String) : CacheFileName :=
  let svFileName := if requested_file.isEmpty then fileNameLine1 else requested_file
  let baseFileName := env.basename svFileName
  let filePath := env.getPathName svFileName
  let hashedPath0 := if env.clp.m_noCacheHash then filePath else env.hashPath filePath
  let fileName0 := env.pathAppend hashedPath0 baseFileName
  let fileName1 := if env.clp.m_parseOnly then env.pathAppend filePath baseFileName else fileName0
  let pre := env.isFilePrecompiled baseFileName
  let cacheDirName := if pre then env.clp.precompiledDirName else env.clp.cacheDirName
  let fileName := if pre then baseFileName else fileName1
  let hashedPath := if pre then "" else hashedPath0
  let libName := if env.clp.m_parseOnly then "" else env.libName
  { cacheFileName :=
      env.pathAppend (env.pathAppend cacheDirName libName) (fileName ++ ".slpp")
    mkDirs := env.pathAppend (env.pathAppend cacheDirName libName) hashedPath
    isPrecompiled := isPrecompiled || pre }

/-- The include-path strings of the command line (`include_path_vec`). -/
def includePathVec (clp : CommandLineParser) (symbols : SymbolTable) : List String :=
  clp.m_includePaths.map symbols.getSymbol

/-- The `NAME=value` strings of the command-line defines (`define_vec`). -/
def defineVec (clp : CommandLineParser) (symbols : SymbolTable) : List String :=
  clp.m_defineList.map (fun definePair => symbols.getSymbol definePair.1 ++ "=" ++ definePair.2)

/-- The loop `for (include : *includes) if (!check(include)) return false;`
with `m_isPrecompiled` passed along.  `check` is the validation of one include
and answers `none` when it does not return. -/
def checkIncludes (check : String → Bool → Option (Bool × Bool)) :
    List String → Bool → Option (Bool × Bool)
  | [], isPrecompiled => some (true, isPrecompiled)
  | inc :: rest, isPrecompiled =>
    match check inc isPrecompiled with
    | none => none
    | some (false, pre) => some (false, pre)
    | some (true, pre) => checkIncludes check rest pre

/-- `PPCache::checkCacheIsValid_(cacheFileName, buffer)`.  The result is the
returned boolean and `m_isPrecompiled` after the call; `none` when the recursion
budget is used up.  The call on an include, `checkCacheIsValid_(
getCacheFileName_(include->str()))`, first computes the name (which may set
`m_isPrecompiled`), then runs the one-argument overload: hit under parse-only
or low-memory, otherwise the two-argument overload on the opened file. -/
def PPCache.checkCacheIsValid_ {P : Type} [LinearOrder P] (env : Env P)
    (symbols : SymbolTable) (fileNameLine1 : String) :
    Nat → String → Option PPBuffer → Bool → Option (Bool × Bool)
  | 0, _, _, _ => none
  | fuel + 1, cacheFileName, buffer, isPrecompiled =>
    match buffer with
    | none => some (false, isPrecompiled)
    | some buf =>
      if env.clp.m_parseOnly || env.clp.m_lowMem then some (true, isPrecompiled)
      else if !buf.hasIdentifier then some (false, isPrecompiled)
      else if env.clp.m_noCacheHash then some (true, isPrecompiled)
      else if !isPrecompiled then
        if !env.checkIfCacheIsValid buf.ppcache.header FlbSchemaVersion cacheFileName then
          some (false, isPrecompiled)
        else if !compareVectors ((includePathVec env.clp symbols).map env.toPath)
            (buf.ppcache.cmd_include_paths.map env.toPath) then
          some (false, isPrecompiled)
        else if !compareVectors (defineVec env.clp symbols) buf.ppcache.cmd_define_options then
          some (false, isPrecompiled)
        else
          match buf.ppcache.includes with
          | none => some (true, isPrecompiled)
          | some includes =>
            checkIncludes
              (fun inc pre =>
                let n := PPCache.getCacheFileName_ env fileNameLine1 pre inc
                if env.clp.m_parseOnly || env.clp.m_lowMem then some (true, n.isPrecompiled)
                else PPCache.checkCacheIsValid_ env symbols fileNameLine1 fuel n.cacheFileName
                  (env.openFlatBuffers n.cacheFileName) n.isPrecompiled)
              includes isPrecompiled
      else some (true, isPrecompiled)

/-- `PPCache::checkCacheIsValid_(cacheFileName)`, the one-argument overload. -/
def PPCache.checkCacheIsValid_file {P : Type} [LinearOrder P] (env : Env P)
    (symbols : SymbolTable) (fileNameLine1 : String) (fuel : Nat) (cacheFileName : String)
    (isPrecompiled : Bool) : Option (Bool × Bool) :=
  if env.clp.m_parseOnly || env.clp.m_lowMem then some (true, isPrecompiled)
  else PPCache.checkCacheIsValid_ env symbols fileNameLine1 fuel cacheFileName
    (env.openFlatBuffers cacheFileName) isPrecompiled

/-- The validation of one entry of an includes list,
`checkCacheIsValid_(getCacheFileName_(include->str()))`: the name is computed
first, then the one-argument overload runs. -/
def PPCache.validateInclude {P : Type} [LinearOrder P] (env : Env P)
    (symbols : SymbolTable) (fileNameLine1 : String) (fuel : Nat) (inc : String)
    (isPrecompiled : Bool) : Option (Bool × Bool) :=
  let n := PPCache.getCacheFileName_ env fileNameLine1 isPrecompiled inc
  PPCache.checkCacheIsValid_file env symbols fileNameLine1 fuel n.cacheFileName n.isPrecompiled

/-- The cache file name `getCacheFileName_` computes for a file name.  It does
not depend on `m_isPrecompiled` before the call. -/
def PPCache.cacheNameOf {P : Type} (env : Env P) (fileNameLine1 : String) (f : String) :
    String :=
  (PPCache.getCacheFileName_ env fileNameLine1 false f).cacheFileName

/-- The includes list of a buffer; empty when the buffer or the list is absent. -/
def PPCache.bufferIncludes (buffer : Option PPBuffer) : List String :=
  match buffer with
  | none => []
  | some buf => buf.ppcache.includes.getD []

/-- The includes list recorded in the cache file of `f` on disk. -/
def PPCache.includesOf {P : Type} (env : Env P) (fileNameLine1 : String) (f : String) :
    List String :=
  PPCache.bufferIncludes (env.openFlatBuffers (PPCache.cacheNameOf env fileNameLine1 f))

/-- The files a validation walk can come to from an includes list: its entries,
and the entries of the includes list of the cache of any file it can come to. -/
inductive PPCache.Reaches {P : Type} (env : Env P) (fileNameLine1 : String)
    (incs : List String) : String → Prop where
  | direct {f : String} : f ∈ incs → PPCache.Reaches env fileNameLine1 incs f
  | step {g f : String} : PPCache.Reaches env fileNameLine1 incs g →
      f ∈ PPCache.includesOf env fileNameLine1 g → PPCache.Reaches env fileNameLine1 incs f

/-- A cache file is valid on its own: the buffer is present, carries the PP
magic, passes the header check, and its include paths and defines are
permutations of the current ones.  This is the statement of the four checks of
`checkCacheIsValid_` that do not look at other files. -/
def PPCache.IndividuallyValid {P : Type} (env : Env P) (symbols : SymbolTable)
    (cacheFileName : String) (buffer : Option PPBuffer) : Prop :=
  ∃ buf, buffer = some buf ∧ buf.hasIdentifier = true ∧
    env.checkIfCacheIsValid buf.ppcache.header FlbSchemaVersion cacheFileName = true ∧
    List.Perm (buf.ppcache.cmd_include_paths.map env.toPath)
      ((includePathVec env.clp symbols).map env.toPath) ∧
    List.Perm buf.ppcache.cmd_define_options (defineVec env.clp symbols)

/-- `ParseCache::checkCacheIsValid_(cacheFileName, buffer)`; `isPrecompiled` is
`m_isPrecompiled` of the parse cache. -/
def ParseCache.checkCacheIsValid_ {P : Type} (env : Env P) (cacheFileName : String)
    (buffer : Option ParseBuffer) (isPrecompiled : Bool) : Bool :=
  match buffer with
  | none => false
  | some buf =>
    if !buf.hasIdentifier then false
    else if env.clp.m_noCacheHash then true
    else if !isPrecompiled &&
        !env.checkIfCacheIsValid buf.parsecache.header FlbSchemaVersion cacheFileName then false
    else true

/-! ## In-memory data of a preprocessed or parsed file -/

/-- Modelled from the spec: `TimeInfo::Type`, the kind of a time-info (§3); the
declaration is not among the sources. -/
inductive TimeInfoType where
  | Global
  | Module
  | File
deriving DecidableEq, Repr

/-- Modelled from the spec: `TimeInfo::Unit` (§3: s, ms, us, ns, ps, fs). -/
inductive TimeUnit where
  | Second
  | Millisecond
  | Microsecond
  | Nanosecond
  | Picosecond
  | Femtosecond
deriving DecidableEq, Repr

/-- The integer code of a time-info kind (position in the enumeration). -/
def TimeInfoType.toCode : TimeInfoType → Nat
  | .Global => 0
  | .Module => 1
  | .File => 2

/-- The cast `(TimeInfo::Type)code`. -/
def TimeInfoType.ofCode : Nat → TimeInfoType
  | 1 => .Module
  | 2 => .File
  | _ => .Global

/-- The integer code of a time unit. -/
def TimeUnit.toCode : TimeUnit → Nat
  | .Second => 0
  | .Millisecond => 1
  | .Microsecond => 2
  | .Nanosecond => 3
  | .Picosecond => 4
  | .Femtosecond => 5

/-- The cast `(TimeInfo::Unit)code`. -/
def TimeUnit.ofCode : Nat → TimeUnit
  | 1 => .Millisecond
  | 2 => .Microsecond
  | 3 => .Nanosecond
  | 4 => .Picosecond
  | 5 => .Femtosecond
  | _ => .Second

/-- Modelled from the spec: time-info (§3).  The unit values are carried as the
value stored, unchanged by save and restore. -/
structure TimeInfo where
  m_type : TimeInfoType
  m_fileId : SymbolId
  m_line : Nat
  m_timeUnit : TimeUnit
  m_timeUnitValue : Nat
  m_timePrecision : TimeUnit
  m_timePrecisionValue : Nat
deriving DecidableEq, Repr

/-- The kind of a recorded macro (`MacroInfo::WITH_ARGS` or not). -/
inductive MacroInfoType where
  | NO_ARGS
  | WITH_ARGS
deriving DecidableEq, Repr

/-- Modelled from the spec: the macro record of §3 (`MacroInfo`), the fields
`PPCache::save` reads. -/
structure MacroInfo where
  m_type : MacroInfoType
  m_startLine : Nat
  m_startColumn : Nat
  m_endLine : Nat
  m_endColumn : Nat
  m_arguments : List String
  m_tokens : List String
deriving DecidableEq, Repr

/-- Modelled from the spec: line translation (§3). -/
structure LineTranslationInfo where
  m_pretendFileId : SymbolId
  m_originalLine : Nat
  m_pretendLine : Nat
deriving DecidableEq, Repr

/-- Modelled from the spec: `IncludeFileInfo::Context` (§3: include,
macro-expansion). -/
inductive IncludeContext where
  | INCLUDE
  | MACRO
deriving DecidableEq, Repr

/-- Modelled from the spec: `IncludeFileInfo::Action` (§3: push, pop). -/
inductive IncludeAction where
  | PUSH
  | POP
deriving DecidableEq, Repr

/-- The integer code of an include context. -/
def IncludeContext.toCode : IncludeContext → Nat
  | .INCLUDE => 0
  | .MACRO => 1

/-- The cast `static_cast<IncludeFileInfo::Context>(code)`. -/
def IncludeContext.ofCode : Nat → IncludeContext
  | 1 => .MACRO
  | _ => .INCLUDE

/-- The integer code of an include action. -/
def IncludeAction.toCode : IncludeAction → Nat
  | .PUSH => 0
  | .POP => 1

/-- The cast `static_cast<IncludeFileInfo::Action>(code)`. -/
def IncludeAction.ofCode : Nat → IncludeAction
  | 1 => .POP
  | _ => .PUSH

/-- Modelled from the spec: include-file info (§3), the ten fields that
`PPCache::save` reads and `addIncludeFileInfo` receives. -/
structure IncludeFileInfo where
  m_context : IncludeContext
  m_sectionStartLine : Nat
  m_sectionFile : SymbolId
  m_originalStartLine : Nat
  m_originalStartColumn : Nat
  m_originalEndLine : Nat
  m_originalEndColumn : Nat
  m_action : IncludeAction
  m_indexOpening : Nat
  m_indexClosing : Nat
deriving DecidableEq, Repr

/-- Modelled from the spec: an error location (file, line, column, object). -/
structure Location where
  m_fileId : SymbolId
  m_line : Nat
  m_column : Nat
  m_object : SymbolId
deriving DecidableEq, Repr

/-- The kinds of error the caches name, and all others by their code. -/
inductive ErrorType where
  | CMD_CACHE_CAPACITY_EXCEEDED
  | other (code : Nat)
deriving DecidableEq, Repr

/-- Modelled from the spec: an error with its locations. -/
structure Error where
  m_errorId : ErrorType
  m_locations : List Location
deriving DecidableEq, Repr

/-- The integer code of an error kind in a cache record. -/
def ErrorType.toCode : ErrorType → Nat
  | .CMD_CACHE_CAPACITY_EXCEEDED => 0
  | .other code => code + 1

/-- The error kind of an integer code. -/
def ErrorType.ofCode : Nat → ErrorType
  | 0 => .CMD_CACHE_CAPACITY_EXCEEDED
  | code + 1 => .other code

/-- Modelled from the spec: a parse-tree node (`VObject`); name and file are
symbols, the links are node indices. -/
structure VObject where
  m_name : SymbolId
  m_fileId : SymbolId
  m_type : Nat
  m_line : Nat
  m_column : Nat
  m_endLine : Nat
  m_endColumn : Nat
  m_parent : NodeId
  m_definition : NodeId
  m_child : NodeId
  m_sibling : NodeId
deriving DecidableEq, Repr

/-- Modelled from the spec: `DesignElement::ElemType`, the element kinds of §3. -/
inductive ElemType where
  | Module
  | Package
  | Program
  | Class
  | Interface
  | Primitive
  | Config
  | Checker
  | Other
deriving DecidableEq, Repr

/-- The integer code of an element kind. -/
def ElemType.toCode : ElemType → Nat
  | .Module => 0
  | .Package => 1
  | .Program => 2
  | .Class => 3
  | .Interface => 4
  | .Primitive => 5
  | .Config => 6
  | .Checker => 7
  | .Other => 8

/-- The cast `(DesignElement::ElemType)code`. -/
def ElemType.ofCode : Nat → ElemType
  | 0 => .Module
  | 1 => .Package
  | 2 => .Program
  | 3 => .Class
  | 4 => .Interface
  | 5 => .Primitive
  | 6 => .Config
  | 7 => .Checker
  | _ => .Other

/-- Modelled from the spec: a design element (§3), the fields the parser cache
saves and restores. -/
structure DesignElement where
  m_name : SymbolId
  m_fileId : SymbolId
  m_type : ElemType
  m_uniqueId : NodeId
  m_line : Nat
  m_column : Nat
  m_endLine : Nat
  m_endColumn : Nat
  m_parent : NodeId
  m_node : NodeId
  m_defaultNetType : Nat
  m_timeInfo : TimeInfo
deriving DecidableEq, Repr

/-- Modelled from the spec: a file content (§3): its library, its file, its
parse-tree nodes, and its design elements in insertion order, each with the
key it was inserted under. -/
structure FileContent where
  m_fileId : SymbolId
  m_libraryName : String
  m_objects : List VObject
  m_elements : List (String × DesignElement)
deriving DecidableEq, Repr

/-- Modelled from the spec: `FileContent::addDesignElement(name, elem)`. -/
def FileContent.addDesignElement (fc : FileContent) (name : String) (elem : DesignElement) :
    FileContent :=
  { fc with m_elements := fc.m_elements ++ [(name, elem)] }

/-- The design elements of a file content (`getDesignElements()`). -/
def FileContent.getDesignElements (fc : FileContent) : List DesignElement :=
  fc.m_elements.map Prod.snd

/-- An included preprocess file as the `std::set<PreprocessFile*>` of
`PPCache::save` sees it: the address of the object, which orders the set, and
its raw file id. -/
structure IncludedFile where
  address : Nat
  rawFileId : SymbolId
deriving DecidableEq, Repr

/-- What is reachable from `m_pp`: the symbol table and the error container of
the compile source file, the time-infos of the compilation unit, the design's
record of preprocessor file contents, and the fields of the preprocess file
itself.  `m_includes` lists the included files in the order
`collectIncludedFiles` comes to them. -/
structure PreprocessFile where
  symbols : SymbolTable
  errors : List Error
  timeInfo : List TimeInfo
  ppFileContents : List SymbolId
  m_macros : List (String × MacroInfo)
  m_result : String
  m_lineTranslationVec : List LineTranslationInfo
  m_includeFileInfo : List IncludeFileInfo
  m_fileContent : Option FileContent
  m_includes : List IncludedFile
  m_isMacroBody : Bool
  m_fileId : Nat → SymbolId
  m_fileName : Nat → String
  m_libraryName : String

/-- The line constant `LINE1`. -/
def LINE1 : Nat := 1

/-- The `PPCache` object: its preprocess file and its precompiled mark. -/
structure PPCache where
  m_pp : PreprocessFile
  m_isPrecompiled : Bool

/-- Modelled from the spec: `PreprocessFile::recordMacro`, which re-registers a
macro into the macro table of the file.  The kind is not passed; it is taken
from the argument list. -/
def PreprocessFile.recordMacro (pp : PreprocessFile) (name : String)
    (startLine startColumn endLine endColumn : Nat) (arguments tokens : List String) :
    PreprocessFile :=
  { pp with m_macros := pp.m_macros ++
      [(name, { m_type := if arguments.isEmpty then .NO_ARGS else .WITH_ARGS
                m_startLine := startLine, m_startColumn := startColumn
                m_endLine := endLine, m_endColumn := endColumn
                m_arguments := arguments, m_tokens := tokens })] }

/-- Modelled from the spec: `PreprocessFile::append`, which appends text to the
preprocessed body of the file. -/
def PreprocessFile.append (pp : PreprocessFile) (text : String) : PreprocessFile :=
  { pp with m_result := pp.m_result ++ text }

/-- Modelled from the spec: `collectIncludedFiles` into a `std::set` of
pointers: the included files without repetition, in increasing address. -/
def PreprocessFile.collectIncludedFiles (pp : PreprocessFile) : List IncludedFile :=
  (pp.m_includes.dedup).insertionSort (fun a b => a.address ≤ b.address)

/-! ## Helpers of the cache base class -/

/-- One location of a cached error: both symbols are registered in the
cache-local table under the strings they name in the canonical table. -/
def cacheLocation (canonicalSymbols : SymbolTable) (cacheSymbols : SymbolTable)
    (loc : Location) : FbLocation × SymbolTable :=
  let f := cacheSymbols.registerSymbol (canonicalSymbols.getSymbol loc.m_fileId)
  let o := f.2.registerSymbol (canonicalSymbols.getSymbol loc.m_object)
  ({ file_id := f.1, line := loc.m_line, column := loc.m_column, object := o.1 }, o.2)

/-- Modelled from the spec: `Cache::cacheErrors`, the errors scoped to the
subject file, their symbols re-interned in the cache-local table (§4.E). -/
def cacheErrors (cacheSymbols : SymbolTable) (errors : List Error)
    (canonicalSymbols : SymbolTable) (subjectId : SymbolId) : List FbError × SymbolTable :=
  mapAccum
    (fun cs (e : Error) =>
      let r := mapAccum (cacheLocation canonicalSymbols) cs e.m_locations
      ({ error_id := e.m_errorId.toCode, locations := r.1 }, r.2))
    cacheSymbols
    (errors.filter (fun e => e.m_locations.any (fun loc => loc.m_fileId == subjectId)))

/-- Modelled from the spec: `Cache::createSymbolCache`, the contents of the
cache-local table in handle order. -/
def createSymbolCache (cacheSymbols : SymbolTable) : List String :=
  cacheSymbols.m_id2SymbolMap

/-- One cached parse-tree node. -/
def cacheVObject (canonicalSymbols : SymbolTable) (cacheSymbols : SymbolTable) (o : VObject) :
    FbVObject × SymbolTable :=
  let n := cacheSymbols.registerSymbol (canonicalSymbols.getSymbol o.m_name)
  let f := n.2.registerSymbol (canonicalSymbols.getSymbol o.m_fileId)
  ({ name := n.1, file_id := f.1, type := o.m_type, line := o.m_line, column := o.m_column
     end_line := o.m_endLine, end_column := o.m_endColumn, parent := o.m_parent
     definition := o.m_definition, child := o.m_child, sibling := o.m_sibling }, f.2)

/-- Modelled from the spec: `Cache::cacheVObjects`, the parse-tree nodes of the
file content (none when there is no file content). -/
def cacheVObjects (fcontent : Option FileContent) (cacheSymbols : SymbolTable)
    (canonicalSymbols : SymbolTable) : List FbVObject × SymbolTable :=
  match fcontent with
  | none => ([], cacheSymbols)
  | some fc => mapAccum (cacheVObject canonicalSymbols) cacheSymbols fc.m_objects

/-- The cache-local table a reader rebuilds from the `symbols` of a record:
each string registered in order in a fresh table. -/
def restoreSymbols (symbols : List String) : SymbolTable :=
  symbols.foldl (fun t s => (t.registerSymbol s).2) SymbolTable.empty

/-- One restored error location: cache-local handle to string to canonical
handle. -/
def restoreLocation (cacheSymbols : SymbolTable) (canonicalSymbols : SymbolTable)
    (loc : FbLocation) : Location × SymbolTable :=
  let f := canonicalSymbols.registerSymbol (cacheSymbols.getSymbol loc.file_id)
  let o := f.2.registerSymbol (cacheSymbols.getSymbol loc.object)
  ({ m_fileId := f.1, m_line := loc.line, m_column := loc.column, m_object := o.1 }, o.2)

/-- Modelled from the spec: the error part of `Cache::restoreErrors`: the
errors translated through the cache-local to canonical symbol map (§4.E). -/
def restoreErrorList (cacheSymbols : SymbolTable) (canonicalSymbols : SymbolTable)
    (errors : List FbError) : List Error × SymbolTable :=
  mapAccum
    (fun t (e : FbError) =>
      let r := mapAccum (restoreLocation cacheSymbols) t e.locations
      ({ m_errorId := ErrorType.ofCode e.error_id, m_locations := r.1 }, r.2))
    canonicalSymbols errors

/-- One restored parse-tree node. -/
def restoreVObject (cacheSymbols : SymbolTable) (canonicalSymbols : SymbolTable)
    (o : FbVObject) : VObject × SymbolTable :=
  let n := canonicalSymbols.registerSymbol (cacheSymbols.getSymbol o.name)
  let f := n.2.registerSymbol (cacheSymbols.getSymbol o.file_id)
  ({ m_name := n.1, m_fileId := f.1, m_type := o.type, m_line := o.line, m_column := o.column
     m_endLine := o.end_line, m_endColumn := o.end_column, m_parent := o.parent
     m_definition := o.definition, m_child := o.child, m_sibling := o.sibling }, f.2)

/-- Modelled from the spec: `Cache::restoreVObjects`, which decodes the
parse-tree nodes into the file content (§4.E). -/
def restoreVObjects (objects : List FbVObject) (cacheSymbols : SymbolTable)
    (canonicalSymbols : SymbolTable) (fileContent : FileContent) :
    FileContent × SymbolTable :=
  let r := mapAccum (restoreVObject cacheSymbols) canonicalSymbols objects
  ({ fileContent with m_objects := fileContent.m_objects ++ r.1 }, r.2)

/-- `CACHE::CreateTimeInfo(...)` as both `save` functions call it: the kind and
the units go through `static_cast<uint16_t>`, the file is registered in the
cache-local table under its string. -/
def cacheTimeInfo (canonicalSymbols : SymbolTable) (cacheSymbols : SymbolTable)
    (info : TimeInfo) : FbTimeInfo × SymbolTable :=
  let f := cacheSymbols.registerSymbol (canonicalSymbols.getSymbol info.m_fileId)
  ({ type := info.m_type.toCode % 65536, file_id := f.1, line := info.m_line
     time_unit := info.m_timeUnit.toCode % 65536, time_unit_value := info.m_timeUnitValue
     time_precision := info.m_timePrecision.toCode % 65536
     time_precision_value := info.m_timePrecisionValue }, f.2)

/-- The time-info a reader builds from a cached one (the body of the loop of
`PPCache::restore_`, and the `m_timeInfo` assignments of
`ParseCache::restore_`). -/
def restoreTimeInfo (cacheSymbols : SymbolTable) (canonicalSymbols : SymbolTable)
    (fb : FbTimeInfo) : TimeInfo × SymbolTable :=
  let f := canonicalSymbols.registerSymbol (cacheSymbols.getSymbol fb.file_id)
  ({ m_type := TimeInfoType.ofCode fb.type, m_fileId := f.1, m_line := fb.line
     m_timeUnit := TimeUnit.ofCode fb.time_unit, m_timeUnitValue := fb.time_unit_value
     m_timePrecision := TimeUnit.ofCode fb.time_precision
     m_timePrecisionValue := fb.time_precision_value }, f.2)

/-! ## `PPCache::save` -/

/-- `MACROCACHE::CreateMacro` on one entry of the macro table. -/
def cacheMacro (entry : String × MacroInfo) : FbMacro :=
  { name := entry.1
    type := if entry.2.m_type = MacroInfoType.WITH_ARGS then MacroType.WITH_ARGS
      else MacroType.NO_ARGS
    start_line := entry.2.m_startLine, start_column := entry.2.m_startColumn
    end_line := entry.2.m_endLine, end_column := entry.2.m_endColumn
    arguments := entry.2.m_arguments, tokens := entry.2.m_tokens }

/-- `MACROCACHE::CreateLineTranslationInfo` on one entry: the pretend file is
written as its string. -/
def cacheLineTranslationInfo (symbols : SymbolTable) (info : LineTranslationInfo) :
    FbLineTranslationInfo :=
  { pretend_file := symbols.getSymbol info.m_pretendFileId
    original_line := info.m_originalLine, pretend_line := info.m_pretendLine }

/-- `MACROCACHE::CreateIncludeFileInfo` on one entry: context and action go
through `static_cast<uint32_t>`, the section file is written as its string. -/
def cacheIncludeFileInfo (symbols : SymbolTable) (info : IncludeFileInfo) : FbIncludeFileInfo :=
  { context := info.m_context.toCode % 4294967296
    section_start_line := info.m_sectionStartLine
    section_file := symbols.getSymbol info.m_sectionFile
    original_start_line := info.m_originalStartLine
    original_start_column := info.m_originalStartColumn
    original_end_line := info.m_originalEndLine
    original_end_column := info.m_originalEndColumn
    action := info.m_action.toCode % 4294967296
    index_opening := info.m_indexOpening, index_closing := info.m_indexClosing }

/-- The record `PPCache::save` builds between `createHeader` and
`CreatePPCache`, in the order of the source: macros, included files, body,
errors, include paths, defines, time-infos of this file, line translations,
include-file infos, parse-tree nodes, and last the cache-local symbols. -/
def PPCache.buildRecord {P : Type} (env : Env P) (pp : PreprocessFile) : FbPPCache :=
  let header := env.createHeader FlbSchemaVersion (pp.m_fileName LINE1)
  let macro_vec := pp.m_macros.map cacheMacro
  let include_vec := pp.collectIncludedFiles.map (fun inc => pp.symbols.getSymbol inc.rawFileId)
  let body := pp.m_result
  let errorCache := cacheErrors SymbolTable.empty pp.errors pp.symbols (pp.m_fileId LINE1)
  let include_path_vec := includePathVec env.clp pp.symbols
  let define_vec := defineVec env.clp pp.symbols
  let timeinfo_vec := mapAccum (cacheTimeInfo pp.symbols) errorCache.2
    (pp.timeInfo.filter (fun info => info.m_fileId == pp.m_fileId 0))
  let linetrans_vec := pp.m_lineTranslationVec.map (cacheLineTranslationInfo pp.symbols)
  let lineinfo_vec := pp.m_includeFileInfo.map (cacheIncludeFileInfo pp.symbols)
  let object_vec := cacheVObjects pp.m_fileContent timeinfo_vec.2 pp.symbols
  let symbolVec := createSymbolCache object_vec.2
  { header := header, macros := macro_vec, includes := some include_vec, body := some body
    errors := errorCache.1, symbols := symbolVec, cmd_include_paths := include_path_vec
    cmd_define_options := define_vec, time_info := timeinfo_vec.1
    line_translation_vec := linetrans_vec, include_file_info := lineinfo_vec
    objects := object_vec.1 }

/-- What a call of `PPCache::save` leaves behind: the returned status, the
`cacheAllowed` flag of the command line, the error container, the precompiled
mark, the directory handed to `mkDirs` (if the call came that far), and the
cache file written (if any). -/
structure PPSaveResult where
  status : Bool
  cacheAllowed : Bool
  errors : List Error
  isPrecompiled : Bool
  mkDirs : Option String
  written : Option (String × PPBuffer)

/-- The error `Error err(ErrorDefinition::CMD_CACHE_CAPACITY_EXCEEDED, loc)` with
`Location loc(BadSymbolId)`. -/
def capacityError : Error :=
  { m_errorId := ErrorType.CMD_CACHE_CAPACITY_EXCEEDED
    m_locations := [{ m_fileId := 0, m_line := 0, m_column := 0, m_object := 0 }] }

/-- The number of parse-tree nodes `save` compares with the capacity: none to
compare when there is no file content. -/
def overCapacity (fcontent : Option FileContent) (capacity : Nat) : Bool :=
  match fcontent with
  | none => false
  | some fc => decide (fc.m_objects.length > capacity)

/-- `PPCache::save`. -/
def PPCache.save {P : Type} (env : Env P) (c : PPCache) : PPSaveResult :=
  if !env.clp.m_cacheAllowed then
    { status := false, cacheAllowed := env.clp.m_cacheAllowed, errors := c.m_pp.errors
      isPrecompiled := c.m_isPrecompiled, mkDirs := none, written := none }
  else if overCapacity c.m_pp.m_fileContent env.Capacity then
    { status := false, cacheAllowed := false, errors := c.m_pp.errors ++ [capacityError]
      isPrecompiled := c.m_isPrecompiled, mkDirs := none, written := none }
  else
    let n := PPCache.getCacheFileName_ env (c.m_pp.m_fileName LINE1) c.m_isPrecompiled ""
    if c.m_pp.m_isMacroBody then
      { status := false, cacheAllowed := env.clp.m_cacheAllowed, errors := c.m_pp.errors
        isPrecompiled := n.isPrecompiled, mkDirs := some n.mkDirs, written := none }
    else
      let buffer : PPBuffer := ⟨true, PPCache.buildRecord env c.m_pp⟩
      let status := env.saveFlatbuffers n.cacheFileName
      { status := status, cacheAllowed := env.clp.m_cacheAllowed, errors := c.m_pp.errors
        isPrecompiled := n.isPrecompiled, mkDirs := some n.mkDirs
        written := if status then some (n.cacheFileName, buffer) else none }

/-! ## `PPCache::restore_` -/

/-- The loop that always restores the macros. -/
def restoreMacros (pp : PreprocessFile) (macros : List FbMacro) : PreprocessFile :=
  macros.foldl
    (fun pp m => pp.recordMacro m.name m.start_line m.start_column m.end_line m.end_column
      m.arguments m.tokens)
    pp

/-- `restoreErrors(ppcache->errors(), ppcache->symbols(), &cacheSymbols, ...)`:
fills the cache-local table from the record and adds the translated errors to
the error container.  Returns the cache-local table as well. -/
def PreprocessFile.restoreErrors (pp : PreprocessFile) (errors : List FbError)
    (symbols : List String) : SymbolTable × PreprocessFile :=
  let cacheSymbols := restoreSymbols symbols
  let r := restoreErrorList cacheSymbols pp.symbols errors
  (cacheSymbols, { pp with errors := pp.errors ++ r.1, symbols := r.2 })

/-- The loop that restores the timescale directives into the compilation unit. -/
def PreprocessFile.restoreTimeInfos (pp : PreprocessFile) (cacheSymbols : SymbolTable)
    (infos : List FbTimeInfo) : PreprocessFile :=
  let r := mapAccum (restoreTimeInfo cacheSymbols) pp.symbols infos
  { pp with timeInfo := pp.timeInfo ++ r.1, symbols := r.2 }

/-- One restored line translation: the pretend file is registered in the symbol
table of the compile source file. -/
def restoreLineTranslationInfo (symbols : SymbolTable) (fb : FbLineTranslationInfo) :
    LineTranslationInfo × SymbolTable :=
  let f := symbols.registerSymbol fb.pretend_file
  ({ m_pretendFileId := f.1, m_originalLine := fb.original_line
     m_pretendLine := fb.pretend_line }, f.2)

/-- The loop that restores the file line info (`addLineTranslationInfo`). -/
def PreprocessFile.restoreLineTranslations (pp : PreprocessFile)
    (infos : List FbLineTranslationInfo) : PreprocessFile :=
  let r := mapAccum restoreLineTranslationInfo pp.symbols infos
  { pp with m_lineTranslationVec := pp.m_lineTranslationVec ++ r.1, symbols := r.2 }

/-- One restored include-file info, the arguments of `addIncludeFileInfo`. -/
def restoreIncludeFileInfo (symbols : SymbolTable) (fb : FbIncludeFileInfo) :
    IncludeFileInfo × SymbolTable :=
  let f := symbols.registerSymbol fb.section_file
  ({ m_context := IncludeContext.ofCode fb.context
     m_sectionStartLine := fb.section_start_line
     m_sectionFile := f.1
     m_originalStartLine := fb.original_start_line
     m_originalStartColumn := fb.original_start_column
     m_originalEndLine := fb.original_end_line
     m_originalEndColumn := fb.original_end_column
     m_action := IncludeAction.ofCode fb.action
     m_indexOpening := fb.index_opening, m_indexClosing := fb.index_closing }, f.2)

/-- The loop that restores the include file info (`addIncludeFileInfo`). -/
def PreprocessFile.restoreIncludeFileInfos (pp : PreprocessFile)
    (infos : List FbIncludeFileInfo) : PreprocessFile :=
  let r := mapAccum restoreIncludeFileInfo pp.symbols infos
  { pp with m_includeFileInfo := pp.m_includeFileInfo ++ r.1, symbols := r.2 }

/-- The loop `for (include : *includes) restore_(getCacheFileName_(include), errorsOnly);`:
the result of each call is dropped, its effects stay.  `none` when a call does
not return. -/
def restoreIncludes (restoreOne : String → PPCache → Option (Bool × PPCache)) :
    List String → PPCache → Option PPCache
  | [], c => some c
  | inc :: rest, c =>
    match restoreOne inc c with
    | none => none
    | some r => restoreIncludes restoreOne rest r.2

/-- The file body step: in a full restore a present, non-empty body is appended. -/
def PreprocessFile.restoreBody (pp : PreprocessFile) (errorsOnly : Bool)
    (body : Option String) : PreprocessFile :=
  if !errorsOnly then
    match body with
    | none => pp
    | some b => if !b.isEmpty then pp.append b else pp
  else pp

/-- The file content step: a file content is created and registered with the
design when the preprocess file has none; in a full restore the parse-tree
nodes are decoded into it. -/
def PreprocessFile.restoreFileContent (pp : PreprocessFile) (errorsOnly : Bool)
    (cacheSymbols : SymbolTable) (objects : List FbVObject) : PreprocessFile :=
  let created : FileContent × PreprocessFile :=
    match pp.m_fileContent with
    | some fc => (fc, pp)
    | none =>
      let fc : FileContent :=
        { m_fileId := pp.m_fileId 0, m_libraryName := pp.m_libraryName, m_objects := []
          m_elements := [] }
      (fc, { pp with m_fileContent := some fc
                     ppFileContents := pp.ppFileContents ++ [pp.m_fileId 0] })
  if !errorsOnly then
    let r := restoreVObjects objects cacheSymbols created.2.symbols created.1
    { created.2 with m_fileContent := some r.1, symbols := r.2 }
  else created.2

/-- The part of `PPCache::restore_` before the walk over the includes: the
macros (always), the errors, the timescale directives (only when `errorsOnly`
is off), the file line info and the include file info.  Returns the cache-local
symbol table as well. -/
def PreprocessFile.restoreRecordData (pp : PreprocessFile) (ppcache : FbPPCache)
    (errorsOnly : Bool) : SymbolTable × PreprocessFile :=
  let pp1 := restoreMacros pp ppcache.macros
  let e := pp1.restoreErrors ppcache.errors ppcache.symbols
  let cacheSymbols := e.1
  let pp3 := if !errorsOnly then e.2.restoreTimeInfos cacheSymbols ppcache.time_info else e.2
  let pp4 := pp3.restoreLineTranslations ppcache.line_translation_vec
  let pp5 := pp4.restoreIncludeFileInfos ppcache.include_file_info
  (cacheSymbols, pp5)

/-- `PPCache::restore_(cacheFileName, buffer, errorsOnly)`.  The result is the
returned boolean and the cache object (preprocess file and precompiled mark)
after the call; `none` when the recursion budget is used up.  The call on an
include is `restore_(getCacheFileName_(include->str()), errorsOnly)`, which
opens the cache file of the include and restores it into the same preprocess
file. -/
def PPCache.restore_ {P : Type} (env : Env P) :
    Nat → String → Option PPBuffer → Bool → PPCache → Option (Bool × PPCache)
  | 0, _, _, _, _ => none
  | fuel + 1, _, buffer, errorsOnly, c =>
    match buffer with
    | none => some (false, c)
    | some buf =>
      let ppcache := buf.ppcache
      let d := c.m_pp.restoreRecordData ppcache errorsOnly
      let cacheSymbols := d.1
      let c5 : PPCache := { c with m_pp := d.2 }
      let walked : Option PPCache :=
        match ppcache.includes with
        | none => some c5
        | some includes =>
          restoreIncludes
            (fun inc ci =>
              let n := PPCache.getCacheFileName_ env (ci.m_pp.m_fileName LINE1)
                ci.m_isPrecompiled inc
              PPCache.restore_ env fuel n.cacheFileName (env.openFlatBuffers n.cacheFileName)
                errorsOnly { ci with m_isPrecompiled := n.isPrecompiled })
            includes c5
      match walked with
      | none => none
      | some c6 =>
        let pp7 := c6.m_pp.restoreBody errorsOnly ppcache.body
        let pp8 := pp7.restoreFileContent errorsOnly cacheSymbols ppcache.objects
        some (true, { c6 with m_pp := pp8 })

/-- The restore of one entry of an includes list, as `restore_` calls it. -/
def PPCache.restoreInclude {P : Type} (env : Env P) (fuel : Nat) (errorsOnly : Bool)
    (inc : String) (ci : PPCache) : Option (Bool × PPCache) :=
  let n := PPCache.getCacheFileName_ env (ci.m_pp.m_fileName LINE1) ci.m_isPrecompiled inc
  PPCache.restore_ env fuel n.cacheFileName (env.openFlatBuffers n.cacheFileName) errorsOnly
    { ci with m_isPrecompiled := n.isPrecompiled }

/-- `PPCache::restore(errorsOnly)`. -/
def PPCache.restore {P : Type} [LinearOrder P] (env : Env P) (fuel : Nat) (errorsOnly : Bool)
    (c : PPCache) : Option (Bool × PPCache) :=
  if !env.clp.m_cacheAllowed then some (false, c)
  else if c.m_pp.m_isMacroBody then some (false, c)
  else
    let n := PPCache.getCacheFileName_ env (c.m_pp.m_fileName LINE1) c.m_isPrecompiled ""
    let c1 : PPCache := { c with m_isPrecompiled := n.isPrecompiled }
    match env.openFlatBuffers n.cacheFileName with
    | none => some (false, c1)
    | some buf =>
      match PPCache.checkCacheIsValid_ env c1.m_pp.symbols (c1.m_pp.m_fileName LINE1) fuel
          n.cacheFileName (some buf) c1.m_isPrecompiled with
      | none => none
      | some (false, pre) => some (false, { c1 with m_isPrecompiled := pre })
      | some (true, pre) =>
        PPCache.restore_ env fuel n.cacheFileName (some buf) errorsOnly
          { c1 with m_isPrecompiled := pre }

/-! ## The parser cache (ParseCache.cpp) -/

/-- What is reachable from `m_parse`: the symbol table and the error container
of the compile source file, the design's record of file contents, and the
fields of the parse file. -/
structure ParseFile where
  symbols : SymbolTable
  errors : List Error
  fileContents : List SymbolId
  m_fileContent : Option FileContent
  m_fileId : Nat → SymbolId
  m_fileName : Nat → String
  m_ppFileName : String
  m_libraryName : String

/-- The `ParseCache` object: its parse file and its precompiled mark. -/
structure ParseCache where
  m_parse : ParseFile
  m_isPrecompiled : Bool

/-- The loop of `ParseCache::getCacheFileName_` that keeps the characters after
the second `/`. -/
def afterSecondSlash : List Char → Nat → List Char
  | [], _ => []
  | c :: cs, nbSlash =>
    (if nbSlash ≥ 2 then [c] else []) ++
      afterSecondSlash cs (if c = '/' then nbSlash + 1 else nbSlash)

/-- `ParseCache::getCacheFileName_`.  `svFileNameIn` empty stands for the
default argument, in which case the name of the preprocessed file is used. -/
def ParseCache.getCacheFileName_ {P : Type} (env : Env P) (ppFileName : String)
    (isPrecompiled : Bool) (svFileNameIn : String) : CacheFileName :=
  let svFileName0 := if svFileNameIn.isEmpty then ppFileName else svFileNameIn
  let baseFileName := env.basename svFileName0
  let pre := env.isFilePrecompiled baseFileName
  let cacheDirName := if pre then env.clp.precompiledDirName else env.clp.cacheDirName
  let svFileName :=
    if pre then baseFileName
    else if env.clp.m_noCacheHash then svFileName0
    else env.pathAppend (env.filename (env.parentPath svFileName0)) baseFileName
  let cacheFileName0 :=
    if !pre && env.clp.m_noCacheHash then
      env.pathAppend env.clp.cacheDirName
        (String.mk (afterSecondSlash svFileName0.data 0) ++ ".slpa")
    else ""
  let cacheFileName :=
    if cacheFileName0.isEmpty then
      env.pathAppend (env.pathAppend cacheDirName env.libName) (svFileName ++ ".slpa")
    else cacheFileName0
  { cacheFileName := cacheFileName
    mkDirs := env.pathAppend cacheDirName env.libName
    isPrecompiled := isPrecompiled || pre }

/-- `strstr(haystack, needle) != nullptr` on character lists. -/
def containsChars (needle : List Char) : List Char → Bool
  | [] => needle.isEmpty
  | c :: cs => (needle.isPrefixOf (c :: cs)) || containsChars needle cs

/-- One design element as `ParseCache::save` encodes it: the time-info first,
then the element with its name and file registered in the cache-local table. -/
def cacheDesignElement (canonicalSymbols : SymbolTable) (cacheSymbols : SymbolTable)
    (elem : DesignElement) : FbDesignElement × SymbolTable :=
  let elemName := canonicalSymbols.getSymbol elem.m_name
  let timeInfo := cacheTimeInfo canonicalSymbols cacheSymbols elem.m_timeInfo
  let n := timeInfo.2.registerSymbol elemName
  let f := n.2.registerSymbol (canonicalSymbols.getSymbol elem.m_fileId)
  ({ name := n.1, file_id := f.1, type := elem.m_type.toCode, unique_id := elem.m_uniqueId
     line := elem.m_line, column := elem.m_column, end_line := elem.m_endLine
     end_column := elem.m_endColumn, time_info := timeInfo.1, parent := elem.m_parent
     node := elem.m_node, default_net_type := elem.m_defaultNetType }, f.2)

/-- The design elements of a file content that may be absent. -/
def designElementsOf (fcontent : Option FileContent) : List DesignElement :=
  match fcontent with
  | none => []
  | some fc => fc.getDesignElements

/-- The record `ParseCache::save` builds, in the order of the source: errors,
design elements, parse-tree nodes, and last the cache-local symbols.
`symbols` is the canonical table after the subject file was registered. -/
def ParseCache.buildRecord {P : Type} (env : Env P) (pf : ParseFile) (origFileName : String)
    (symbols : SymbolTable) (subjectFileId : SymbolId) : FbParseCache :=
  let header := env.createHeader FlbSchemaVersion origFileName
  let errorCache := cacheErrors SymbolTable.empty pf.errors symbols subjectFileId
  let element_vec := mapAccum (cacheDesignElement symbols) errorCache.2
    (designElementsOf pf.m_fileContent)
  let object_vec := cacheVObjects pf.m_fileContent element_vec.2 symbols
  let symbolVec := createSymbolCache object_vec.2
  { header := header, errors := errorCache.1, symbols := symbolVec
    elements := element_vec.1, objects := object_vec.1 }

/-- What a call of `ParseCache::save` leaves behind: the returned status, the
`cacheAllowed` flag, the error container, the precompiled mark, the canonical
symbol table, the directory handed to `mkDirs` and the cache file written (if
the call came that far). -/
structure ParseSaveResult where
  status : Bool
  cacheAllowed : Bool
  errors : List Error
  isPrecompiled : Bool
  symbols : SymbolTable
  mkDirs : Option String
  written : Option (String × ParseBuffer)

/-- `ParseCache::save`. -/
def ParseCache.save {P : Type} (env : Env P) (c : ParseCache) : ParseSaveResult :=
  if !env.clp.m_cacheAllowed then
    { status := true, cacheAllowed := env.clp.m_cacheAllowed, errors := c.m_parse.errors
      isPrecompiled := c.m_isPrecompiled, symbols := c.m_parse.symbols, mkDirs := none
      written := none }
  else if overCapacity c.m_parse.m_fileContent env.Capacity then
    { status := false, cacheAllowed := false, errors := c.m_parse.errors ++ [capacityError]
      isPrecompiled := c.m_isPrecompiled, symbols := c.m_parse.symbols, mkDirs := none
      written := none }
  else
    let svFileName := c.m_parse.m_ppFileName
    let origFileName :=
      if env.clp.m_parseOnly then
        env.pathAppend (env.pathAppend env.clp.cacheDirName "..") svFileName
      else svFileName
    let n := ParseCache.getCacheFileName_ env c.m_parse.m_ppFileName c.m_isPrecompiled ""
    if containsChars "@@BAD_SYMBOL@@".data n.cacheFileName.data then
      { status := true, cacheAllowed := env.clp.m_cacheAllowed, errors := c.m_parse.errors
        isPrecompiled := n.isPrecompiled, symbols := c.m_parse.symbols
        mkDirs := some n.mkDirs, written := none }
    else
      let subject := c.m_parse.symbols.registerSymbol (c.m_parse.m_fileName LINE1)
      let buffer : ParseBuffer :=
        ⟨true, ParseCache.buildRecord env c.m_parse origFileName subject.2 subject.1⟩
      let status := env.saveFlatbuffers n.cacheFileName
      { status := status, cacheAllowed := env.clp.m_cacheAllowed, errors := c.m_parse.errors
        isPrecompiled := n.isPrecompiled, symbols := subject.2, mkDirs := some n.mkDirs
        written := if status then some (n.cacheFileName, buffer) else none }

/-- One design element as `ParseCache::restore_` re-creates it, with the key
`<library>@<name>` it is inserted under. -/
def restoreDesignElement (cacheSymbols : SymbolTable) (libraryName : String)
    (symbols : SymbolTable) (elemc : FbDesignElement) :
    (String × DesignElement) × SymbolTable :=
  let elemName := cacheSymbols.getSymbol elemc.name
  let n := symbols.registerSymbol elemName
  let f := n.2.registerSymbol (cacheSymbols.getSymbol elemc.file_id)
  let t := restoreTimeInfo cacheSymbols f.2 elemc.time_info
  let elem : DesignElement :=
    { m_name := n.1, m_fileId := f.1, m_type := ElemType.ofCode elemc.type
      m_uniqueId := elemc.unique_id, m_line := elemc.line, m_column := elemc.column
      m_endLine := elemc.end_line, m_endColumn := elemc.end_column, m_parent := elemc.parent
      m_node := elemc.node, m_defaultNetType := elemc.default_net_type, m_timeInfo := t.1 }
  ((libraryName ++ "@" ++ elemName, elem), t.2)

/-- `ParseCache::restore_(cacheFileName, buffer)`. -/
def ParseCache.restore_ (buffer : Option ParseBuffer) (c : ParseCache) : Bool × ParseCache :=
  match buffer with
  | none => (false, c)
  | some buf =>
    let ppcache := buf.parsecache
    let cacheSymbols := restoreSymbols ppcache.symbols
    let e := restoreErrorList cacheSymbols c.m_parse.symbols ppcache.errors
    let pf1 : ParseFile := { c.m_parse with errors := c.m_parse.errors ++ e.1, symbols := e.2 }
    let created : FileContent × ParseFile :=
      match pf1.m_fileContent with
      | some fc => (fc, pf1)
      | none =>
        let fc : FileContent :=
          { m_fileId := pf1.m_fileId 0, m_libraryName := pf1.m_libraryName, m_objects := []
            m_elements := [] }
        (fc, { pf1 with m_fileContent := some fc
                        fileContents := pf1.fileContents ++ [pf1.m_fileId 0] })
    let elems := mapAccum (restoreDesignElement cacheSymbols created.1.m_libraryName)
      created.2.symbols ppcache.elements
    let fc2 : FileContent :=
      { created.1 with m_elements := created.1.m_elements ++ elems.1 }
    let r := restoreVObjects ppcache.objects cacheSymbols elems.2 fc2
    (true, { c with m_parse := { created.2 with m_fileContent := some r.1, symbols := r.2 } })

/-- `ParseCache::restore`. -/
def ParseCache.restore {P : Type} (env : Env P) (c : ParseCache) : Bool × ParseCache :=
  if !env.clp.m_cacheAllowed then (false, c)
  else
    let n := ParseCache.getCacheFileName_ env c.m_parse.m_ppFileName c.m_isPrecompiled ""
    let c1 : ParseCache := { c with m_isPrecompiled := n.isPrecompiled }
    let buffer := env.openParseFlatBuffers n.cacheFileName
    if !ParseCache.checkCacheIsValid_ env n.cacheFileName buffer c1.m_isPrecompiled then
      (false, c1)
    else ParseCache.restore_ buffer c1

/-! ## `SV3_1aTreeShapeHelper::addDesignElement` -/

/-- What `addDesignElement` reads through helpers whose code is not among the
sources: the location from `getFileLine`, the id from `generateDesignElemId`,
the time-info and the default net type from the compilation unit. -/
structure ElementSite where
  fileId : SymbolId
  line : Nat
  column : Nat
  endLine : Nat
  endColumn : Nat
  uniqueId : NodeId
  timeInfo : TimeInfo
  defaultNetType : Nat
deriving DecidableEq, Repr

/-- The constant `InvalidNodeId`. -/
def InvalidNodeId : NodeId := 0

/-- `SV3_1aTreeShapeHelper::addDesignElement`: the element is registered in the
file content under the key `<library>@<name>`, its name registered in the
symbol table of the parse file.  Returns the file content and the symbol table
after the call. -/
def SV3_1aTreeShapeHelper.addDesignElement (libraryName : String) (symbols : SymbolTable)
    (fileContent : FileContent) (site : ElementSite) (name : String) (elemtype : ElemType) :
    FileContent × SymbolTable :=
  let design_element := libraryName ++ "@" ++ name
  let n := symbols.registerSymbol name
  let elem : DesignElement :=
    { m_name := n.1, m_fileId := site.fileId, m_type := elemtype, m_uniqueId := site.uniqueId
      m_line := site.line, m_column := site.column, m_endLine := site.endLine
      m_endColumn := site.endColumn, m_parent := InvalidNodeId, m_node := InvalidNodeId
      m_defaultNetType := site.defaultNetType, m_timeInfo := site.timeInfo }
  (fileContent.addDesignElement design_element elem, n.2)

/-! ## Growth of a symbol table -/

/-- The table `t1` holds every entry of `t` at the same handle, and possibly
more. -/
def SymbolTable.Extends (t t1 : SymbolTable) : Prop :=
  ∃ more, t1.m_id2SymbolMap = t.m_id2SymbolMap ++ more

/-- The handle is live in the table: it is not the bad symbol and it is in range. -/
def SymbolTable.Live (t : SymbolTable) (id : SymbolId) : Prop :=
  0 < id ∧ id ≤ t.m_id2SymbolMap.length

/-! ## Reading records with their symbols as strings -/

/-- A macro table entry as the claim compares it: name, positions, ordered
arguments, ordered tokens. -/
def macroFields (entry : String × MacroInfo) :
    String × Nat × Nat × Nat × Nat × List String × List String :=
  (entry.1, entry.2.m_startLine, entry.2.m_startColumn, entry.2.m_endLine,
    entry.2.m_endColumn, entry.2.m_arguments, entry.2.m_tokens)

/-- A line translation with its pretend file read as a string. -/
def LineTranslationInfo.withStrings (symbols : SymbolTable) (info : LineTranslationInfo) :
    String × Nat × Nat :=
  (symbols.getSymbol info.m_pretendFileId, info.m_originalLine, info.m_pretendLine)

/-- An include-file info (all ten fields) with its section file read as a
string. -/
def IncludeFileInfo.withStrings (symbols : SymbolTable) (info : IncludeFileInfo) :
    IncludeContext × Nat × String × Nat × Nat × Nat × Nat × IncludeAction × Nat × Nat :=
  (info.m_context, info.m_sectionStartLine, symbols.getSymbol info.m_sectionFile,
    info.m_originalStartLine, info.m_originalStartColumn, info.m_originalEndLine,
    info.m_originalEndColumn, info.m_action, info.m_indexOpening, info.m_indexClosing)

/-- A time-info with its file read as a string. -/
def TimeInfo.withStrings (symbols : SymbolTable) (info : TimeInfo) :
    TimeInfoType × String × Nat × TimeUnit × Nat × TimeUnit × Nat :=
  (info.m_type, symbols.getSymbol info.m_fileId, info.m_line, info.m_timeUnit,
    info.m_timeUnitValue, info.m_timePrecision, info.m_timePrecisionValue)

/-- A design element with its symbols read as strings: the fields the parser
cache carries. -/
def DesignElement.withStrings (symbols : SymbolTable) (e : DesignElement) :
    String × String × ElemType × Nat × Nat × Nat × Nat × Nat × Nat × Nat × Nat ×
      (TimeInfoType × String × Nat × TimeUnit × Nat × TimeUnit × Nat) :=
  (symbols.getSymbol e.m_name, symbols.getSymbol e.m_fileId, e.m_type, e.m_uniqueId, e.m_line,
    e.m_column, e.m_endLine, e.m_endColumn, e.m_parent, e.m_node, e.m_defaultNetType,
    e.m_timeInfo.withStrings symbols)

/-- A cached design element read back with the cache-local table: the strings
of its symbols, the element kind its code stands for, and its other fields. -/
def FbDesignElement.withStrings (cacheSymbols : SymbolTable) (fb : FbDesignElement) :
    String × String × ElemType × Nat × Nat × Nat × Nat × Nat × Nat × Nat × Nat ×
      (TimeInfoType × String × Nat × TimeUnit × Nat × TimeUnit × Nat) :=
  (cacheSymbols.getSymbol fb.name, cacheSymbols.getSymbol fb.file_id, ElemType.ofCode fb.type,
    fb.unique_id, fb.line, fb.column, fb.end_line, fb.end_column, fb.parent, fb.node,
    fb.default_net_type,
    (TimeInfoType.ofCode fb.time_info.type, cacheSymbols.getSymbol fb.time_info.file_id,
      fb.time_info.line, TimeUnit.ofCode fb.time_info.time_unit, fb.time_info.time_unit_value,
      TimeUnit.ofCode fb.time_info.time_precision, fb.time_info.time_precision_value))

/-- No string is held twice: the state of every table built by `registerSymbol`
from a fresh one. -/
def SymbolTable.WellFormed (t : SymbolTable) : Prop :=
  t.m_id2SymbolMap.Nodup

/-- The library of the file content a restore inserts into: the one of the file
content the parse file holds, or of the one created for it. -/
def ParseFile.contentLibrary (pf : ParseFile) : String :=
  match pf.m_fileContent with
  | some fc => fc.m_libraryName
  | none => pf.m_libraryName

/-- The design elements (with their keys) the parse file holds before a
restore. -/
def ParseFile.contentElements (pf : ParseFile) : List (String × DesignElement) :=
  match pf.m_fileContent with
  | some fc => fc.m_elements
  | none => []

/-- The preprocess file holds at least as many line translations, include-file
infos and time-infos as before; with `errorsOnly` set the time-infos are the
same list. -/
def PPCache.Grows (errorsOnly : Bool) (c c1 : PPCache) : Prop :=
  c.m_pp.m_lineTranslationVec.length ≤ c1.m_pp.m_lineTranslationVec.length ∧
  c.m_pp.m_includeFileInfo.length ≤ c1.m_pp.m_includeFileInfo.length ∧
  c.m_pp.timeInfo.length ≤ c1.m_pp.timeInfo.length ∧
  (errorsOnly = true → c1.m_pp.timeInfo = c.m_pp.timeInfo)

/-! ## A run of saves over one command line -/

/-- One call of `save` in a run: on a preprocessor cache or on a parser cache. -/
inductive SaveCall where
  | pp (c : PPCache)
  | parse (c : ParseCache)

/-- What the calls of a run share and leave behind: the `cacheAllowed` flag of
the one command line (`setCacheAllowed` writes it, every `save` reads it), the
errors the calls added, and the names of the cache files they wrote. -/
structure SaveRun where
  cacheAllowed : Bool
  added : List Error
  written : List String

/-- The comparison with `Cache::Capacity` a call of `save` comes to. -/
def SaveCall.overCapacity {P : Type} (env : Env P) : SaveCall → Bool
  | SaveCall.pp c => SURELOG.overCapacity c.m_pp.m_fileContent env.Capacity
  | SaveCall.parse c => SURELOG.overCapacity c.m_parse.m_fileContent env.Capacity

/-- One call of `save` with the flag as the calls before left it: the flag the
call leaves, the errors it appended to its container, the file it wrote. -/
def SaveRun.step {P : Type} (env : Env P) (run : SaveRun) (call : SaveCall) : SaveRun :=
  let env1 : Env P := { env with clp := { env.clp with m_cacheAllowed := run.cacheAllowed } }
  match call with
  | SaveCall.pp c =>
    let r := PPCache.save env1 c
    { cacheAllowed := r.cacheAllowed
      added := run.added ++ r.errors.drop c.m_pp.errors.length
      written := run.written ++ (r.written.map Prod.fst).toList }
  | SaveCall.parse c =>
    let r := ParseCache.save env1 c
    { cacheAllowed := r.cacheAllowed
      added := run.added ++ r.errors.drop c.m_parse.errors.length
      written := run.written ++ (r.written.map Prod.fst).toList }

/-- A sequence of calls of `save`, one after the other. -/
def SaveRun.steps {P : Type} (env : Env P) (run : SaveRun) (calls : List SaveCall) : SaveRun :=
  calls.foldl (SaveRun.step env) run

/-! ## Two runs of `PPCache::save` -/

/-- The same included file in another run, where the allocator put the object
at address `σ a` instead of `a`. -/
def IncludedFile.relocate (σ : Nat → Nat) (f : IncludedFile) : IncludedFile :=
  { address := σ f.address, rawFileId := f.rawFileId }

/-- The same preprocess file in another run: every field as before, the
included `PreprocessFile` objects at other addresses. -/
def PreprocessFile.relocate (σ : Nat → Nat) (pp : PreprocessFile) : PreprocessFile :=
  { pp with m_includes := pp.m_includes.map (IncludedFile.relocate σ) }

/-! ## `std::filesystem::path::operator/` -/

/-- `std::filesystem::path::operator/` on POSIX path strings, after the C++
standard: a right operand that starts at the root replaces the left one;
otherwise the right operand is appended, after a separator when the left
operand has a file name (is not empty and does not end in a separator). -/
def fsAppendChars (a b : List Char) : List Char :=
  if b.head? = some '/' then b
  else if a = [] then b
  else if a.getLast? = some '/' then a ++ b
  else a ++ '/' :: b

/-- The same operator on strings. -/
def fsAppend (a b : String) : String :=
  String.mk (fsAppendChars a.data b.data)

/-! ## Strings and containers of the command line -/

/-- `s.find(p) == 0`: the string starts with `p`. -/
def startsWith (p s : String) : Bool := p.data.isPrefixOf s.data

/-- `s.substr(pos)` for a position within the string. -/
def substrFrom (s : String) (pos : Nat) : String := String.mk (s.data.drop pos)

/-- `s.substr(pos, len)` for a position within the string. -/
def substr (s : String) (pos len : Nat) : String := String.mk ((s.data.drop pos).take len)

/-- `s.find(c)`: the first position of the character, `none` for `npos`. -/
def findChar (s : String) (c : Char) : Option Nat :=
  if c ∈ s.data then some (s.data.indexOf c) else none

/-- The block that reads a definition out of an argument, as it stands for
`-D`, `-P` and `-pvalue+`: the name is what lies between the first `skip`
characters and the first `=`, the value what follows the `=`; without `=` the
name is all that follows the first `skip` characters and the value is empty.
The length `loc - skip` is a `size_t`: with the `=` before position `skip` it
wraps around and `substr` takes the string to its end. -/
def splitDefine (arg : String) (skip : Nat) : String × String :=
  match findChar arg '=' with
  | none => (substrFrom arg skip, "")
  | some loc =>
    (if loc < skip then substrFrom arg skip else substr arg skip (loc - skip),
      substrFrom arg (loc + 1))

/-- The strings that successive calls `getline(f, tmp, delim)` on a stream
over the characters return: `cur` holds, reversed, what the running call has
extracted; at the end of the stream a call that has extracted nothing fails. -/
def getlines (delim : Char) : List Char → List Char → List String
  | [], cur => if cur = [] then [] else [String.mk cur.reverse]
  | c :: cs, cur =>
    if c = delim then String.mk cur.reverse :: getlines delim cs []
    else getlines delim cs (c :: cur)

/-- Where `std::map` puts a new key: before the first entry with a larger
key. -/
def insertKey : List (SymbolId × String) → SymbolId → String → List (SymbolId × String)
  | [], id, value => [(id, value)]
  | e :: es, id, value =>
    if id < e.1 then (id, value) :: e :: es else e :: insertKey es id value

/-- `container.emplace(id, value)` on a `std::map` ordered by symbol id, kept
as the list of its entries in iteration order: with the key present the map
stays as it is. -/
def emplace (m : List (SymbolId × String)) (id : SymbolId) (value : String) :
    List (SymbolId × String) :=
  if id ∈ m.map Prod.fst then m else insertKey m id value

/-- Where `std::set` puts a new element: before the first larger one. -/
def insertElement {α : Type} [LT α] [DecidableRel (fun a b : α => a < b)] :
    List α → α → List α
  | [], x => [x]
  | e :: es, x => if x < e then x :: e :: es else e :: insertElement es x

/-- `set.insert(x)` on a `std::set`, kept as the list of its elements in
iteration order: with the element present the set stays as it is. -/
def setInsert {α : Type} [LT α] [DecidableRel (fun a b : α => a < b)] [DecidableEq α]
    (l : List α) (x : α) : List α :=
  if x ∈ l then l else insertElement l x

/-- `is_number`: every character is one of `-.0123456789`. -/
def is_number (s : String) : Bool :=
  s.data.all (fun c => decide (c ∈ "-.0123456789".data))

/-- `std::isspace` in the C locale. -/
def isspace (c : Char) : Bool :=
  c = ' ' || c = Char.ofNat 9 || c = Char.ofNat 10 || c = Char.ofNat 11 || c = Char.ofNat 12 ||
    c = Char.ofNat 13

/-- The two loops of `undecorateArg` that drop space at the front and at the
back. -/
def stripSpaces (arg : List Char) : List Char :=
  ((arg.dropWhile isspace).reverse.dropWhile isspace).reverse

/-- `undecorateArg`: space is dropped at both ends, then one pair of
surrounding double or single quotes, then space once more. -/
def undecorateArg (arg : String) : String :=
  let a := stripSpaces arg.data
  if a.length > 1 ∧
      ((a.head? = some (Char.ofNat 34) ∧ a.getLast? = some (Char.ofNat 34)) ∨
        (a.head? = some (Char.ofNat 39) ∧ a.getLast? = some (Char.ofNat 39))) then
    String.mk (stripSpaces (a.drop 1).dropLast)
  else String.mk a

/-- Modelled from the spec: the error kinds of the command line.  Their
enumeration `ErrorDefinition` is not among the sources; they are numbered
here in the order of their first use in CommandLineParser.cpp. -/
def ErrorDefinition.CMD_DASH_F_FILE_DOES_NOT_EXIST : ErrorType := ErrorType.other 1

/-- An output directory option without its directory. -/
def ErrorDefinition.CMD_PP_FILE_MISSING_ODIR : ErrorType := ErrorType.other 2

/-- The option `-d` without its level. -/
def ErrorDefinition.CMD_DEBUG_MISSING_LEVEL : ErrorType := ErrorType.other 3

/-- A debug level outside 0..4. -/
def ErrorDefinition.CMD_DEBUG_INCORRECT_LEVEL : ErrorType := ErrorType.other 4

/-- The option `-timescale=` without a setting. -/
def ErrorDefinition.CMD_TIMESCALE_MISSING_SETTING : ErrorType := ErrorType.other 5

/-- An include path that is missing or does not exist. -/
def ErrorDefinition.CMD_INCLUDE_PATH_DOES_NOT_EXIST : ErrorType := ErrorType.other 6

/-- The option `-split` without its size. -/
def ErrorDefinition.CMD_SPLIT_FILE_MISSING_SIZE : ErrorType := ErrorType.other 7

/-- A thread or process option without its level. -/
def ErrorDefinition.CMD_MT_MISSING_LEVEL : ErrorType := ErrorType.other 8

/-- A thread or process level above 512. -/
def ErrorDefinition.CMD_MT_INCORRECT_LEVEL : ErrorType := ErrorType.other 9

/-- The note on the number of threads and processes under `-profile`. -/
def ErrorDefinition.CMD_NUMBER_THREADS : ErrorType := ErrorType.other 10

/-- The option `-v` without its file. -/
def ErrorDefinition.CMD_LIBRARY_FILE_MISSING_FILE : ErrorType := ErrorType.other 11

/-- The option `-y` without its path. -/
def ErrorDefinition.CMD_LIBRARY_PATH_MISSING_PATH : ErrorType := ErrorType.other 12

/-- The option `-l` without its file. -/
def ErrorDefinition.CMD_LOG_FILE_MISSING_FILE : ErrorType := ErrorType.other 13

/-- An option without the file it names. -/
def ErrorDefinition.CMD_PP_FILE_MISSING_FILE : ErrorType := ErrorType.other 14

/-- The note on separate compilation units. -/
def ErrorDefinition.CMD_SEPARATE_COMPILATION_UNIT_ON : ErrorType := ErrorType.other 15

/-- An argument that is ignored, reported as a plus argument. -/
def ErrorDefinition.CMD_PLUS_ARG_IGNORED : ErrorType := ErrorType.other 16

/-- An unknown option starting with `-`. -/
def ErrorDefinition.CMD_MINUS_ARG_IGNORED : ErrorType := ErrorType.other 17

/-- `Location loc(id)`: a location that names a symbol only. -/
def Location.ofSymbol (id : SymbolId) : Location :=
  { m_fileId := id, m_line := 0, m_column := 0, m_object := 0 }

/-! ## `CommandLineParser::parseCommandLine` -/

/-- What the command-line parser reads from its surroundings through code that
is not among the sources: `FileUtils`, `StringUtils::leaf`, the path operator,
`std::thread::hardware_concurrency`, `std::stoi` (`none` when it throws) and
whether the build defines `SURELOG_WITH_PYTHON`.  The platform is one of those
with processes (the `#else` branches of the source). -/
structure CmdEnv where
  getPreferredPath : String → String
  fileExists : String → Bool
  basename : String → String
  getPathName : String → String
  leaf : String → String
  pathAppend : String → String → String
  hardware_concurrency : Nat
  stoi : String → Option Int
  withPython : Bool

/-- The members of `CommandLineParser` that `parseCommandLine` reads and
writes, together with what it reaches through its pointers and static calls:
the symbol table, the error container, the variables handed to
`StringUtils::registerEnvVar` (in the order of the calls), the directories
handed to `FileUtils::rmDirRecursively`, the directories handed to `chdir`, and
the calls of `PythonAPI`. -/
structure CmdLine where
  symbols : SymbolTable
  errors : List Error
  envVars : List (String × String)
  removedDirs : List String
  changedDirs : List String
  pythonStrictMode : Bool
  pythonScripts : List String
  pythonListenerScript : Option String
  m_writePpOutputFileId : SymbolId
  m_writePpOutput : Bool
  m_filterFileLine : Bool
  m_debugLevel : Int
  m_lineOffsetsAsComments : Bool
  m_liborder : Bool
  m_librescan : Bool
  m_libverbose : Bool
  m_nolibcell : Bool
  m_muteStdout : Bool
  m_verbose : Bool
  m_fileunit : Bool
  m_filterSimpleDirectives : Bool
  m_filterProtectedRegions : Bool
  m_filterComments : Bool
  m_parse : Bool
  m_parseOnly : Bool
  m_compile : Bool
  m_elaborate : Bool
  m_parametersubstitution : Bool
  m_letexprsubstitution : Bool
  m_diff_comp_mode : Bool
  m_help : Bool
  m_cacheAllowed : Bool
  m_debugCache : Bool
  m_nbMaxTreads : Nat
  m_nbMaxProcesses : Nat
  m_fullCompileDir : SymbolId
  m_cacheDirId : SymbolId
  m_note : Bool
  m_info : Bool
  m_warning : Bool
  m_pythonListener : Bool
  m_debugAstModel : Bool
  m_debugInstanceTree : Bool
  m_debugLibraryDef : Bool
  m_useTbb : Bool
  m_pythonAllowed : Bool
  m_nbLinesForFileSplitting : Int
  m_pythonEvalScriptPerFile : Bool
  m_pythonEvalScript : Bool
  m_pythonEvalScriptPerFileId : SymbolId
  m_pythonEvalScriptId : SymbolId
  m_pythonListenerFileId : SymbolId
  m_debugIncludeFileInfo : Bool
  m_createCache : Bool
  m_profile : Bool
  m_parseBuiltIn : Bool
  m_ppOutputFileLocation : Bool
  m_sverilog : Bool
  m_dumpUhdm : Bool
  m_elabUhdm : Bool
  m_coverUhdm : Bool
  m_showVpiIDs : Bool
  m_replay : Bool
  m_uhdmStats : Bool
  m_lowMem : Bool
  m_writeUhdm : Bool
  m_nonSynthesizable : Bool
  m_noCacheHash : Bool
  m_sepComp : Bool
  m_link : Bool
  m_logFileId : SymbolId
  m_compileUnitDirectory : SymbolId
  m_compileAllDirectory : SymbolId
  m_outputDir : SymbolId
  m_defaultLogFileId : SymbolId
  m_defaultCacheDirId : SymbolId
  m_precompiledDirId : SymbolId
  m_libraryExtensions : List SymbolId
  m_includePaths : List SymbolId
  m_includePathSet : List SymbolId
  m_defineList : List (SymbolId × String)
  m_paramList : List (SymbolId × String)
  m_sourceFiles : List SymbolId
  m_svSourceFiles : List String
  m_libraryFiles : List SymbolId
  m_libraryPaths : List SymbolId
  m_orderedLibraries : List SymbolId
  m_libraryMapFiles : List SymbolId
  m_configFiles : List SymbolId
  m_useConfigs : List SymbolId
  m_topLevelModules : List String
  m_blackboxModules : List String
  m_blackboxInstances : List String
  m_timescale : String
  m_exeCommand : String
  m_builtinPath : String

/-- The constructor `CommandLineParser(errors, symbolTable, diff_comp_mode,
fileUnit)`: the member initialisers, then the registrations of the default
names in the order of the body. -/
def CmdLine.construct (env : CmdEnv) (errors : List Error) (symbolTable : SymbolTable)
    (diff_comp_mode fileUnit : Bool) : CmdLine :=
  let logFile := symbolTable.registerSymbol "surelog.log"
  let unitDir := logFile.2.registerSymbol "slpp_unit"
  let allDir := unitDir.2.registerSymbol "slpp_all"
  let outputDir := allDir.2.registerSymbol "."
  let defaultLog := outputDir.2.registerSymbol "surelog.log"
  let defaultCache := defaultLog.2.registerSymbol "cache"
  let precompiled := defaultCache.2.registerSymbol "pkg"
  let libext := precompiled.2.registerSymbol ".v"
  { symbols := libext.2, errors := errors, envVars := [], removedDirs := [], changedDirs := []
    pythonStrictMode := false, pythonScripts := [], pythonListenerScript := none
    m_writePpOutputFileId := 0, m_writePpOutput := false, m_filterFileLine := true
    m_debugLevel := 0, m_lineOffsetsAsComments := false, m_liborder := false
    m_librescan := false, m_libverbose := false, m_nolibcell := false
    m_muteStdout := diff_comp_mode, m_verbose := false, m_fileunit := fileUnit
    m_filterSimpleDirectives := false, m_filterProtectedRegions := false
    m_filterComments := false, m_parse := false, m_parseOnly := false, m_compile := false
    m_elaborate := false, m_parametersubstitution := true, m_letexprsubstitution := true
    m_diff_comp_mode := diff_comp_mode, m_help := false, m_cacheAllowed := true
    m_debugCache := false, m_nbMaxTreads := 0, m_nbMaxProcesses := 0, m_fullCompileDir := 0
    m_cacheDirId := 0, m_note := true, m_info := true, m_warning := true
    m_pythonListener := false, m_debugAstModel := false, m_debugInstanceTree := false
    m_debugLibraryDef := false, m_useTbb := false, m_pythonAllowed := env.withPython
    m_nbLinesForFileSplitting := 10000000, m_pythonEvalScriptPerFile := false
    m_pythonEvalScript := false, m_pythonEvalScriptPerFileId := 0, m_pythonEvalScriptId := 0
    m_pythonListenerFileId := 0, m_debugIncludeFileInfo := false, m_createCache := false
    m_profile := false, m_parseBuiltIn := true, m_ppOutputFileLocation := false
    m_sverilog := false, m_dumpUhdm := false, m_elabUhdm := false, m_coverUhdm := false
    m_showVpiIDs := false, m_replay := false, m_uhdmStats := false, m_lowMem := false
    m_writeUhdm := true, m_nonSynthesizable := false, m_noCacheHash := false
    m_sepComp := false, m_link := false
    m_logFileId := logFile.1, m_compileUnitDirectory := unitDir.1
    m_compileAllDirectory := allDir.1, m_outputDir := outputDir.1
    m_defaultLogFileId := defaultLog.1, m_defaultCacheDirId := defaultCache.1
    m_precompiledDirId := precompiled.1, m_libraryExtensions := [libext.1]
    m_includePaths := [], m_includePathSet := [], m_defineList := [], m_paramList := []
    m_sourceFiles := [], m_svSourceFiles := [], m_libraryFiles := [], m_libraryPaths := []
    m_orderedLibraries := [], m_libraryMapFiles := [], m_configFiles := [], m_useConfigs := []
    m_topLevelModules := [], m_blackboxModules := [], m_blackboxInstances := []
    m_timescale := "", m_exeCommand := "", m_builtinPath := "" }

/-- The fields of the command line that the caches read, with the cache
directory and the precompiled directory as the strings of their symbols. -/
def CmdLine.toParser (s : CmdLine) : CommandLineParser :=
  { m_cacheAllowed := s.m_cacheAllowed, m_parseOnly := s.m_parseOnly, m_lowMem := s.m_lowMem
    m_noCacheHash := s.m_noCacheHash, m_includePaths := s.m_includePaths
    m_defineList := s.m_defineList
    cacheDirName := s.symbols.getSymbol s.m_cacheDirId
    precompiledDirName := s.symbols.getSymbol s.m_precompiledDirId }

/-- The three lines `Location loc(registerSymbol(text)); Error err(kind, loc);
m_errors->addError(err);`. -/
def CmdLine.report (s : CmdLine) (kind : ErrorType) (text : String) : CmdLine :=
  let r := s.symbols.registerSymbol text
  { s with symbols := r.2, errors := s.errors ++ [⟨kind, [Location.ofSymbol r.1]⟩] }

/-- Modelled from the spec: `StringUtils::registerEnvVar(name, value)`, which
exports the variable to the internal environment map consulted when `-f`
files are expanded; the calls are kept in their order. -/
def registerEnvVar (vars : List (String × String)) (name value : String) :
    List (String × String) :=
  vars ++ [(name, value)]

/-- `splitPlusArg_(s, pfx, container)` for a vector of symbols: every piece
between `+` signs that is neither empty nor the option word is registered and
pushed at the back. -/
def splitPlusArg_ (symbols : SymbolTable) (s pfx : String) (container : List SymbolId) :
    List SymbolId × SymbolTable :=
  (getlines '+' s.data []).foldl
    (fun acc tmp =>
      if tmp ≠ "" ∧ tmp ≠ pfx then
        let r := acc.2.registerSymbol tmp
        (acc.1 ++ [r.1], r.2)
      else acc)
    (container, symbols)

/-- `splitPlusArg_(s, pfx, container)` for the map of defines: every piece
that is neither empty nor the option word is cut at its first `=`; a
non-empty name is registered and emplaced with the value. -/
def splitPlusArg_map (symbols : SymbolTable) (s pfx : String)
    (container : List (SymbolId × String)) : List (SymbolId × String) × SymbolTable :=
  (getlines '+' s.data []).foldl
    (fun acc tmp =>
      if tmp ≠ "" ∧ tmp ≠ pfx then
        let dv : String × String :=
          match findChar tmp '=' with
          | none => (tmp, "")
          | some loc => (substr tmp 0 loc, substrFrom tmp (loc + 1))
        if dv.1 ≠ "" then
          let r := acc.2.registerSymbol dv.1
          (emplace acc.1 r.1 dv.2, r.2)
        else acc
      else acc)
    (container, symbols)

/-- `plus_arguments_(s)`: the state after the call when it returns true, `none`
when it returns false (nothing is changed then). -/
def CmdLine.plus_arguments_ (s : CmdLine) (arg : String) : Option CmdLine :=
  if arg = "" then none
  else if arg.data.head? ≠ some '+' then none
  else if startsWith "+incdir+" arg then
    let r := splitPlusArg_ s.symbols arg "incdir" s.m_includePaths
    some { s with m_includePaths := r.1, symbols := r.2 }
  else if startsWith "+libext+" arg then
    let r := splitPlusArg_ s.symbols arg "libext" []
    some { s with m_libraryExtensions := r.1, symbols := r.2 }
  else if startsWith "+define+" arg then
    let r := splitPlusArg_map s.symbols arg "define" s.m_defineList
    some { s with m_defineList := r.1, symbols := r.2 }
  else none

/-- The block of `-D<name>[=<value>]`, the same in the first pass over `argv`
and in the main loop: a non-empty name is registered as an environment
variable and emplaced in the map of defines. -/
def CmdLine.dashD (s : CmdLine) (arg : String) : CmdLine :=
  let dv := splitDefine arg 2
  if dv.1 ≠ "" then
    let r := s.symbols.registerSymbol dv.1
    { s with envVars := registerEnvVar s.envVars dv.1 dv.2, symbols := r.2
             m_defineList := emplace s.m_defineList r.1 dv.2 }
  else s

/-- The block of `-P<name>[=<value>]` and of `-pvalue+<name>[=<value>]`. -/
def CmdLine.dashP (s : CmdLine) (arg : String) (skip : Nat) : CmdLine :=
  let dv := splitDefine arg skip
  if dv.1 ≠ "" then
    let r := s.symbols.registerSymbol dv.1
    { s with symbols := r.2, m_paramList := emplace s.m_paramList r.1 dv.2 }
  else s

/-- The chain on the argument that follows `-d`; `none` when `std::stoi`
throws. -/
def CmdLine.debugOption (env : CmdEnv) (s : CmdLine) (level : String) : Option CmdLine :=
  if level = "ast" then some { s with m_debugAstModel := true }
  else if level = "inst" then some { s with m_debugInstanceTree := true }
  else if level = "lib" then some { s with m_debugLibraryDef := true }
  else if level = "incl" then some { s with m_debugIncludeFileInfo := true }
  else if level = "uhdm" then some { s with m_dumpUhdm := true }
  else if level = "uhdmstats" then some { s with m_uhdmStats := true }
  else if level = "coveruhdm" then some { s with m_coverUhdm := true }
  else if level = "cache" then some { s with m_debugCache := true }
  else if level = "vpi_ids" then some { s with m_showVpiIDs := true }
  else if level = "coverelab" then some s
  else if is_number level then
    match env.stoi level with
    | none => none
    | some debugLevel =>
      if debugLevel < 0 ∨ debugLevel > 4 then
        some (s.report ErrorDefinition.CMD_DEBUG_INCORRECT_LEVEL level)
      else some { s with m_debugLevel := debugLevel }
  else some s

/-- The loop over the comma-separated features of `--enable-feature=` (value
true) and `--disable-feature=` (value false). -/
def CmdLine.setFeatures (s : CmdLine) (value : Bool) (features : String) : CmdLine :=
  (getlines ',' features.data []).foldl
    (fun acc tmp =>
      if tmp = "parametersubstitution" then { acc with m_parametersubstitution := value }
      else if tmp = "letexprsubstitution" then { acc with m_letexprsubstitution := value }
      else acc)
    s

/-- The block of `-mt`, `--threads` and `-mp` once the level is there; `none`
when `std::stoi` throws.  `maxMT` is an `unsigned int`. -/
def CmdLine.threadOption (env : CmdEnv) (s : CmdLine) (arg level : String) : Option CmdLine :=
  let mt : Bool := arg = "-mt" || arg = "--threads"
  let parsed : Option Nat :=
    if level = "max" then some (env.hardware_concurrency % 4294967296)
    else (env.stoi level).map (fun n => (n % 4294967296).toNat)
  match parsed with
  | none => none
  | some maxMT0 =>
    if maxMT0 > 512 then some (s.report ErrorDefinition.CMD_MT_INCORRECT_LEVEL level)
    else
      let half := (env.hardware_concurrency % 4294967296) / 2
      let maxMT := if s.m_diff_comp_mode ∧ maxMT0 > half then half else maxMT0
      if maxMT = 0 then
        some { s with m_nbMaxTreads := maxMT
                      m_nbMaxProcesses := if !mt then maxMT else s.m_nbMaxProcesses }
      else
        let s1 : CmdLine :=
          if mt then { s with m_nbMaxTreads := if maxMT < 2 then 2 else maxMT }
          else { s with m_nbMaxProcesses := maxMT }
        if s1.m_profile then
          some (s1.report ErrorDefinition.CMD_NUMBER_THREADS
            (toString s1.m_nbMaxProcesses ++ " processes and " ++ toString s1.m_nbMaxTreads))
        else some s1

/-- `CommandLineParser::cleanCache`. -/
def CmdLine.cleanCache (env : CmdEnv) (s : CmdLine) : CmdLine :=
  let odir := env.pathAppend (s.symbols.getSymbol s.m_outputDir)
    (s.symbols.getSymbol
      (if s.m_fileunit then s.m_compileUnitDirectory else s.m_compileAllDirectory))
  let cachedir : String :=
    if s.m_cacheDirId ≠ 0 then s.symbols.getSymbol s.m_cacheDirId
    else env.pathAppend odir (s.symbols.getSymbol s.m_defaultCacheDirId)
  let s1 : CmdLine :=
    if s.m_cacheDirId ≠ 0 then s
    else
      let r := s.symbols.registerSymbol (env.getPreferredPath cachedir)
      { s with symbols := r.2, m_cacheDirId := r.1 }
  if !s1.m_cacheAllowed then { s1 with removedDirs := s1.removedDirs ++ [cachedir] } else s1

/-- The lines that put the directory of a source file among the include
paths, once per directory: `m_includePathSet` remembers the directories that
came in this way. -/
def CmdLine.addSourceDirectory (env : CmdEnv) (s : CmdLine) (path : String) : CmdLine :=
  let name := env.getPathName path
  if name ≠ "" then
    let p := s.symbols.registerSymbol name
    if p.1 ∉ s.m_includePathSet then
      { s with symbols := p.2, m_includePathSet := setInsert s.m_includePathSet p.1
               m_includePaths := s.m_includePaths ++ [p.1] }
    else { s with symbols := p.2 }
  else s

/-- The last branch of the main loop: the argument is a source file. -/
def CmdLine.addSourceFile (env : CmdEnv) (s : CmdLine) (arg : String) : CmdLine :=
  let path := env.getPreferredPath arg
  let r := s.symbols.registerSymbol path
  CmdLine.addSourceDirectory env
    { s with symbols := r.2, m_sourceFiles := s.m_sourceFiles ++ [r.1] } path

/-- `is_c_file`. -/
def is_c_file (env : CmdEnv) (s : String) : Bool :=
  env.leaf s = "c" || env.leaf s = "cpp" || env.leaf s = "cc"

/-- How one pass through the body of the main loop ends: at its end, with
`skip` telling whether the body advanced `i` past the next argument; by
`break`; by reading `all_arguments[i]` with `i` beyond the last argument; or
by an exception that leaves `parseCommandLine`. -/
inductive Step where
  | next (skip : Bool) (s : CmdLine)
  | stop (s : CmdLine)
  | beyond (s : CmdLine)
  | throws (s : CmdLine)

/-- An option that takes `i++` and then reads `all_arguments[i]` without
looking whether there is one. -/
def Step.unchecked (s : CmdLine) (rest : List String) (f : String → CmdLine) : Step :=
  match rest with
  | [] => Step.beyond s
  | a :: _ => Step.next true (f a)

/-- An option that first looks whether it is the last argument, reports
`kind` and leaves the loop if so, and otherwise takes `i++` and reads
`all_arguments[i]`. -/
def Step.checked (s : CmdLine) (arg : String) (rest : List String) (kind : ErrorType)
    (f : String → CmdLine) : Step :=
  match rest with
  | [] => Step.stop (s.report kind arg)
  | a :: _ => Step.next true (f a)

/-- The body of the main loop of `parseCommandLine` on `all_arguments[i]`
(`arg`) with the arguments after it (`rest`), branch by branch in the order of
the source. -/
def CmdLine.processArgument (env : CmdEnv) (s : CmdLine) (arg : String) (rest : List String) :
    Step :=
  if arg = "" then Step.next false s
  else if (s.plus_arguments_ arg).isSome then Step.next false ((s.plus_arguments_ arg).getD s)
  else if arg = "-d" then
    match rest with
    | [] => Step.stop (s.report ErrorDefinition.CMD_DEBUG_MISSING_LEVEL arg)
    | a :: _ =>
      match s.debugOption env a with
      | none => Step.throws s
      | some s1 => Step.next true s1
  else if startsWith "--enable-feature=" arg then
    Step.next false (s.setFeatures true (substrFrom arg 17))
  else if startsWith "--disable-feature=" arg then
    Step.next false (s.setFeatures false (substrFrom arg 18))
  else if startsWith "-timescale=" arg then
    if substrFrom arg 11 = "" then
      Step.stop (s.report ErrorDefinition.CMD_TIMESCALE_MISSING_SETTING arg)
    else Step.next false { s with m_timescale := substrFrom arg 11 }
  else if startsWith "-D" arg then Step.next false (s.dashD arg)
  else if startsWith "-P" arg then Step.next false (s.dashP arg 2)
  else if startsWith "-pvalue+" arg then Step.next false (s.dashP arg 8)
  else if startsWith "-I" arg then
    if substrFrom arg 2 = "" then
      Step.stop (s.report ErrorDefinition.CMD_INCLUDE_PATH_DOES_NOT_EXIST arg)
    else
      let r := s.symbols.registerSymbol (env.getPreferredPath (substrFrom arg 2))
      Step.next false { s with symbols := r.2, m_includePaths := s.m_includePaths ++ [r.1] }
  else if arg = "-split" then
    match rest with
    | [] => Step.stop (s.report ErrorDefinition.CMD_SPLIT_FILE_MISSING_SIZE arg)
    | a :: _ =>
      match env.stoi a with
      | none => Step.throws s
      | some n => Step.next true { s with m_nbLinesForFileSplitting := n }
  else if arg = "-cd" then Step.next true s
  else if arg = "-builtin" then Step.next true s
  else if arg = "-exe" then Step.unchecked s rest (fun a => { s with m_exeCommand := a })
  else if arg = "-lowmem" then
    Step.next false { s with m_nbMaxProcesses := 1, m_writePpOutput := true, m_lowMem := true }
  else if arg = "-nouhdm" then Step.next false { s with m_writeUhdm := false }
  else if arg = "-mt" ∨ arg = "--threads" ∨ arg = "-mp" then
    match rest with
    | [] => Step.stop (s.report ErrorDefinition.CMD_MT_MISSING_LEVEL arg)
    | a :: _ =>
      match s.threadOption env arg a with
      | none => Step.throws s
      | some s1 => Step.next true s1
  else if arg = "-strictpythoncheck" then Step.next false { s with pythonStrictMode := true }
  else if arg = "-tbb" then Step.next false { s with m_useTbb := true }
  else if arg = "--top-module" ∨ arg = "-top" then
    Step.unchecked s rest
      (fun a => { s with m_topLevelModules := setInsert s.m_topLevelModules a })
  else if arg = "-bb_mod" then
    Step.unchecked s rest
      (fun a => { s with m_blackboxModules := setInsert s.m_blackboxModules a })
  else if arg = "-bb_inst" then
    Step.unchecked s rest
      (fun a => { s with m_blackboxInstances := setInsert s.m_blackboxInstances a })
  else if arg = "-createcache" then Step.next false { s with m_createCache := true }
  else if arg = "-lineoffsetascomments" then
    Step.next false { s with m_lineOffsetsAsComments := true }
  else if arg = "-v" then
    Step.checked s arg rest ErrorDefinition.CMD_LIBRARY_FILE_MISSING_FILE
      (fun a =>
        let r := s.symbols.registerSymbol (env.getPreferredPath a)
        { s with symbols := r.2, m_libraryFiles := s.m_libraryFiles ++ [r.1] })
  else if arg = "-y" then
    Step.checked s arg rest ErrorDefinition.CMD_LIBRARY_PATH_MISSING_PATH
      (fun a =>
        let r := s.symbols.registerSymbol (env.getPreferredPath a)
        { s with symbols := r.2, m_libraryPaths := s.m_libraryPaths ++ [r.1] })
  else if arg = "-l" then
    Step.checked s arg rest ErrorDefinition.CMD_LOG_FILE_MISSING_FILE
      (fun a =>
        let r := s.symbols.registerSymbol a
        { s with symbols := r.2, m_logFileId := r.1 })
  else if arg = "-L" then
    Step.unchecked s rest
      (fun a =>
        let r := s.symbols.registerSymbol (env.getPreferredPath a)
        { s with symbols := r.2, m_orderedLibraries := s.m_orderedLibraries ++ [r.1] })
  else if arg = "-map" then
    Step.unchecked s rest
      (fun a =>
        let r := s.symbols.registerSymbol (env.getPreferredPath a)
        { s with symbols := r.2, m_libraryMapFiles := s.m_libraryMapFiles ++ [r.1] })
  else if arg = "-cfgfile" then
    Step.unchecked s rest
      (fun a =>
        let r := s.symbols.registerSymbol (env.getPreferredPath a)
        { s with symbols := r.2, m_configFiles := s.m_configFiles ++ [r.1] })
  else if arg = "-cfg" then
    Step.unchecked s rest
      (fun a =>
        let r := s.symbols.registerSymbol a
        { s with symbols := r.2, m_useConfigs := s.m_useConfigs ++ [r.1] })
  else if arg = "-writeppfile" then
    Step.checked s arg rest ErrorDefinition.CMD_PP_FILE_MISSING_FILE
      (fun a =>
        let r := s.symbols.registerSymbol (env.getPreferredPath a)
        { s with symbols := r.2, m_writePpOutputFileId := r.1 })
  else if arg = "-nohash" then Step.next false { s with m_noCacheHash := true }
  else if arg = "-cache" then
    Step.checked s arg rest ErrorDefinition.CMD_PP_FILE_MISSING_FILE
      (fun a =>
        let r := s.symbols.registerSymbol (env.getPreferredPath a)
        { s with symbols := r.2, m_cacheDirId := r.1 })
  else if arg = "-replay" then Step.next false { s with m_replay := true }
  else if arg = "-writepp" then Step.next false { s with m_writePpOutput := true }
  else if arg = "-noinfo" then Step.next false { s with m_info := false }
  else if arg = "-nonote" then Step.next false { s with m_note := false }
  else if arg = "-nowarning" then Step.next false { s with m_warning := false }
  else if arg = "-synth" then Step.next false { s with m_nonSynthesizable := true }
  else if arg = "-profile" then Step.next false { s with m_profile := true }
  else if arg = "-nobuiltin" then Step.next false { s with m_parseBuiltIn := false }
  else if arg = "-outputlineinfo" then Step.next false { s with m_filterFileLine := false }
  else if arg = "+liborder" then Step.next false { s with m_liborder := true }
  else if arg = "+librescan" then Step.next false { s with m_librescan := true }
  else if arg = "+libverbose" then Step.next false { s with m_libverbose := true }
  else if arg = "+nolibcell" then Step.next false { s with m_nolibcell := true }
  else if arg = "-sverilog" then Step.next false { s with m_sverilog := true }
  else if arg = "-fileunit" then
    Step.next false (s.report ErrorDefinition.CMD_SEPARATE_COMPILATION_UNIT_ON arg)
  else if arg = "-diffcompunit" then
    if s.m_fileunit then
      Step.next false (s.report ErrorDefinition.CMD_SEPARATE_COMPILATION_UNIT_ON arg)
    else Step.next false s
  else if arg = "-odir" then Step.next true s
  else if arg = "--Mdir" then Step.next true s
  else if arg = "-o" then Step.next true { s with m_writePpOutput := true, m_parse := true }
  else if arg = "-nostdout" then Step.next false { s with m_muteStdout := true }
  else if arg = "-verbose" then Step.next false { s with m_verbose := true }
  else if arg = "-filterdirectives" then
    Step.next false { s with m_filterSimpleDirectives := true }
  else if arg = "-filterprotected" then
    Step.next false { s with m_filterProtectedRegions := true }
  else if arg = "-filtercomments" then Step.next false { s with m_filterComments := true }
  else if arg = "-parse" then
    Step.next false
      { s with m_writePpOutput := true, m_parse := true, m_compile := true, m_elaborate := true }
  else if arg = "-parseonly" then
    Step.next false
      { s with m_writePpOutput := true, m_parse := true, m_compile := false
               m_elaborate := false, m_parseOnly := true }
  else if arg = "-init" then
    Step.next false (CmdLine.cleanCache env { s with m_cacheAllowed := false })
  else if arg = "-sepcomp" then
    Step.next false
      { s with m_sepComp := true, m_writePpOutput := true, m_parse := true, m_compile := false
               m_elaborate := false, m_elabUhdm := false, m_writeUhdm := false
               m_parseBuiltIn := false }
  else if arg = "-noparse" then
    Step.next false { s with m_parse := false, m_compile := false, m_elaborate := false }
  else if arg = "-nocomp" then
    Step.next false { s with m_compile := false, m_elaborate := false }
  else if arg = "-noelab" then Step.next false { s with m_elaborate := false }
  else if arg = "-elabuhdm" then
    Step.next false { s with m_elaborate := true, m_elabUhdm := true }
  else if arg = "-pploc" then Step.next false { s with m_ppOutputFileLocation := true }
  else if arg = "-pythonlistener" then
    Step.next false
      { s with m_writePpOutput := true, m_parse := true, m_compile := true, m_elaborate := true
               m_pythonListener := true }
  else if arg = "-nopython" then Step.next false { s with m_pythonAllowed := false }
  else if arg = "-withpython" then
    Step.next false { s with m_pythonAllowed := env.withPython || s.m_pythonAllowed }
  else if arg = "-pythonevalscriptperfile" then
    Step.checked s arg rest ErrorDefinition.CMD_PP_FILE_MISSING_FILE
      (fun a =>
        let r := s.symbols.registerSymbol a
        { s with m_writePpOutput := true, m_parse := true, m_compile := true
                 m_elaborate := true, m_pythonEvalScriptPerFile := true, symbols := r.2
                 m_pythonEvalScriptPerFileId := r.1
                 pythonScripts :=
                   if s.m_pythonAllowed then s.pythonScripts ++ [a] else s.pythonScripts })
  else if arg = "-pythonlistenerfile" then
    Step.checked s arg rest ErrorDefinition.CMD_PP_FILE_MISSING_FILE
      (fun a =>
        let r := s.symbols.registerSymbol (env.getPreferredPath a)
        { s with m_writePpOutput := true, m_parse := true, m_compile := true
                 m_elaborate := true, m_pythonListener := true, symbols := r.2
                 m_pythonListenerFileId := r.1, pythonListenerScript := some a })
  else if arg = "-pythonevalscript" then
    Step.checked s arg rest ErrorDefinition.CMD_PP_FILE_MISSING_FILE
      (fun a =>
        let r := s.symbols.registerSymbol (env.getPreferredPath a)
        { s with m_writePpOutput := true, m_parse := true, m_compile := true
                 m_elaborate := true, m_pythonEvalScript := true, symbols := r.2
                 m_pythonEvalScriptId := r.1
                 pythonScripts :=
                   if s.m_pythonAllowed then s.pythonScripts ++ [a] else s.pythonScripts })
  else if arg = "-nocache" then Step.next false { s with m_cacheAllowed := false }
  else if arg = "-sv" then
    if env.fileExists (env.getPreferredPath arg) then
      let svpath := env.getPreferredPath arg
      let r := s.symbols.registerSymbol svpath
      Step.next true
        (CmdLine.addSourceDirectory env
          { s with symbols := r.2, m_sourceFiles := s.m_sourceFiles ++ [r.1]
                   m_svSourceFiles := setInsert s.m_svSourceFiles (env.basename svpath) }
          svpath)
    else Step.next false { s with m_sverilog := true }
  else if arg = "--x-assign" then
    Step.next true (s.report ErrorDefinition.CMD_PLUS_ARG_IGNORED arg)
  else if arg = "--x-initial" then
    Step.next true (s.report ErrorDefinition.CMD_PLUS_ARG_IGNORED arg)
  else if arg.data.head? = some '+' then
    Step.next false (s.report ErrorDefinition.CMD_PLUS_ARG_IGNORED arg)
  else if arg.data.head? = some '-' then
    Step.next false (s.report ErrorDefinition.CMD_MINUS_ARG_IGNORED arg)
  else if arg.data.head? = some '-' ∨ is_number arg = true ∨ is_c_file env arg = true ∨
      containsChars ".vlt".data arg.data = true then
    Step.next false (s.report ErrorDefinition.CMD_PLUS_ARG_IGNORED arg)
  else Step.next false (CmdLine.addSourceFile env s arg)

/-- How the main loop of `parseCommandLine` ends: after the last argument; by
`break`, the arguments that follow left unread; by a read beyond the last
argument; or by an exception. -/
inductive LoopEnd where
  | finished (s : CmdLine)
  | stopped (s : CmdLine)
  | beyond (s : CmdLine)
  | throws (s : CmdLine)

/-- The main loop of `parseCommandLine`, `for (i = 0; i < all_arguments.size();
i++)`, on the arguments from `all_arguments[i]` on; `skip` tells that the
body before advanced `i` once more, so that the first of them is passed
over. -/
def CmdLine.mainLoop (env : CmdEnv) : Bool → List String → CmdLine → LoopEnd
  | _, [], s => LoopEnd.finished s
  | true, _ :: rest, s => CmdLine.mainLoop env false rest s
  | false, arg :: rest, s =>
    match s.processArgument env arg rest with
    | Step.next skip s1 => CmdLine.mainLoop env skip rest s1
    | Step.stop s1 => LoopEnd.stopped s1
    | Step.beyond s1 => LoopEnd.beyond s1
    | Step.throws s1 => LoopEnd.throws s1

/-- The state a loop ends in. -/
def LoopEnd.state : LoopEnd → CmdLine
  | LoopEnd.finished s => s
  | LoopEnd.stopped s => s
  | LoopEnd.beyond s => s
  | LoopEnd.throws s => s

/-- The first loop of `parseCommandLine`, over `argv[1..]`, on the arguments
from `argv[i]` on: the state it leaves and whether the function returned from
inside the loop (`-help` and `--version`).  Every argument is undecorated
first; `-cd`, `-builtin` and `-l` look at the argument after them, which the
loop then visits like any other. -/
def CmdLine.firstPass : List String → CmdLine → CmdLine × Bool
  | [], s => (s, false)
  | raw :: rest, s =>
    let arg := undecorateArg raw
    if arg = "-help" ∨ arg = "-h" ∨ arg = "--help" then ({ s with m_help := true }, true)
    else if arg = "--version" then ({ s with m_help := true }, true)
    else if arg = "-cd" then
      match rest with
      | [] => CmdLine.firstPass rest s
      | a :: _ =>
        CmdLine.firstPass rest { s with changedDirs := s.changedDirs ++ [undecorateArg a] }
    else if arg = "-builtin" then
      match rest with
      | [] => CmdLine.firstPass rest s
      | a :: _ => CmdLine.firstPass rest { s with m_builtinPath := undecorateArg a }
    else if arg = "-l" then
      match rest with
      | [] => CmdLine.firstPass rest s
      | a :: _ =>
        let r := s.symbols.registerSymbol (undecorateArg a)
        CmdLine.firstPass rest { s with symbols := r.2, m_logFileId := r.1 }
    else if startsWith "-D" arg then CmdLine.firstPass rest (s.dashD arg)
    else CmdLine.firstPass rest s

/-! ## The stage flags -/

/-- The four stage flags of the command line. -/
structure StageFlags where
  parse : Bool
  compile : Bool
  elaborate : Bool
  writePP : Bool
deriving DecidableEq, Repr

/-- The four stage flags as the members of the command line hold them. -/
def CmdLine.stageFlags (s : CmdLine) : StageFlags :=
  { parse := s.m_parse, compile := s.m_compile, elaborate := s.m_elaborate
    writePP := s.m_writePpOutput }

/-- The stage-selection flags. -/
def stageFlagNames : List String :=
  ["-parse", "-parseonly", "-sepcomp", "-noparse", "-nocomp", "-noelab", "-elabuhdm"]

/-- The table of the specification, row by row: what a stage-selection flag
makes of the four stage flags; a dash of the table is the old value. -/
def stageTable (flag : String) (f : StageFlags) : StageFlags :=
  if flag = "-parse" then
    { parse := true, compile := true, elaborate := true, writePP := true }
  else if flag = "-parseonly" then
    { parse := true, compile := false, elaborate := false, writePP := true }
  else if flag = "-sepcomp" then
    { parse := true, compile := false, elaborate := false, writePP := true }
  else if flag = "-noparse" then
    { parse := false, compile := false, elaborate := false, writePP := f.writePP }
  else if flag = "-nocomp" then
    { parse := f.parse, compile := false, elaborate := false, writePP := f.writePP }
  else if flag = "-noelab" then
    { parse := f.parse, compile := f.compile, elaborate := false, writePP := f.writePP }
  else if flag = "-elabuhdm" then
    { parse := f.parse, compile := f.compile, elaborate := true, writePP := f.writePP }
  else f

/-! ## `collectObjects_` (CompileProgram.cpp, CompilePackage.cpp) -/

/-- Modelled from the spec: `FileContent::Object(id)`, the parse-tree node kept
under a node id; the ids index the node vector and `0` is the invalid id. -/
def FileContent.Object (fC : FileContent) (id : NodeId) : VObject :=
  fC.m_objects.getD id
    { m_name := 0, m_fileId := 0, m_type := 0, m_line := 0, m_column := 0, m_endLine := 0
      m_endColumn := 0, m_parent := 0, m_definition := 0, m_child := 0, m_sibling := 0 }

/-- The three passes of `compile`. -/
inductive CollectType where
  | FUNCTION
  | DEFINITION
  | OTHER
deriving DecidableEq, Repr

/-- The enumerators of `VObjectType` that the walks name; the enumeration is
not among the sources, so its codes are taken as given. -/
structure VObjectTypes where
  slClass_declaration : Nat
  slFunction_body_declaration : Nat
  slTask_body_declaration : Nat
  slAttribute_instance : Nat

/-- The end of the loop body: the sibling is pushed first, then the child
unless the node is a stop point, so that the child is on top. -/
def pushLinks (stopPoints : List Nat) (current : VObject) (stack : List NodeId) :
    List NodeId :=
  let stack1 := if current.m_sibling ≠ 0 then current.m_sibling :: stack else stack
  if current.m_child ≠ 0 then
    if stopPoints ≠ [] then
      if current.m_type ∈ stopPoints then stack1 else current.m_child :: stack1
    else current.m_child :: stack1
  else stack1

/-- The loop `while (!stack.empty())` of `collectObjects_`: the top of the
stack is popped, the `switch` on its type runs (`visit`, which reads and writes
the design component, the helper and the locals of the function, and leaves
the stack and the tree alone), then the links are pushed.  The head of the
list is the top of the stack; `none` when the budget of iterations is used
up. -/
def collectWalk {σ : Type} (fC : FileContent) (stopPoints : List Nat)
    (visit : σ → NodeId → σ) : Nat → List NodeId → σ → Option σ
  | _, [], st => some st
  | 0, _ :: _, _ => none
  | fuel + 1, id :: stack, st =>
    collectWalk fC stopPoints visit fuel (pushLinks stopPoints (fC.Object id) stack)
      (visit st id)

/-- Where the walk starts: the first child of the declaration node, or its
sibling when there is none; `0` when there is neither. -/
def collectStart (fC : FileContent) (nodeId : NodeId) : NodeId :=
  if (fC.Object nodeId).m_child ≠ 0 then (fC.Object nodeId).m_child
  else (fC.Object nodeId).m_sibling

/-- The `do ... while` loop at the head of `CompileProgram::collectObjects_`,
which follows the child links down from the program node until there is no
child or the child is an attribute instance, and ends with that child; `none`
when the budget of iterations is used up. -/
def findAttributeInstance (types : VObjectTypes) (fC : FileContent) : Nat → NodeId → Option NodeId
  | 0, _ => none
  | fuel + 1, programId =>
    if (fC.Object programId).m_child ≠ 0 ∧
        (fC.Object (fC.Object programId).m_child).m_type ≠ types.slAttribute_instance then
      findAttributeInstance types fC fuel (fC.Object programId).m_child
    else some (fC.Object programId).m_child

/-- `CompileProgram::collectObjects_(collectType)` on the file content and the
node of the program.  `compileAttributes`, `importPackages` and `visit` stand
for the calls into the helper and for the `switch`; the result is the returned
boolean and the state they leave, `none` when a loop does not end within the
budget. -/
def CompileProgram.collectObjects_ {σ : Type} (types : VObjectTypes) (fC : FileContent)
    (nodeId : NodeId) (compileAttributes : σ → NodeId → σ) (importPackages : σ → σ)
    (visit : CollectType → σ → NodeId → σ) (collectType : CollectType) (fuel : Nat) (st : σ) :
    Option (Bool × σ) :=
  match findAttributeInstance types fC fuel nodeId with
  | none => none
  | some programId =>
    let st1 := if programId ≠ 0 then compileAttributes st programId else st
    if fC.m_objects.length = 0 then some (true, st1)
    else if collectStart fC nodeId = 0 then some (false, st1)
    else
      let st2 := if collectType = CollectType.FUNCTION then importPackages st1 else st1
      (collectWalk fC [types.slClass_declaration] (visit collectType) fuel
        [collectStart fC nodeId] st2).map (fun st3 => (true, st3))

/-- The loop over the file contents of the package in
`CompilePackage::collectObjects_`. -/
def CompilePackage.collectFiles {σ : Type} (types : VObjectTypes)
    (importPackages : σ → FileContent → σ) (visit : CollectType → FileContent → σ → NodeId → σ)
    (collectType : CollectType) (fuel : Nat) : List (FileContent × NodeId) → σ → Option (Bool × σ)
  | [], st => some (true, st)
  | (fC, nodeId) :: rest, st =>
    if collectStart fC nodeId = 0 then some (false, st)
    else
      let st1 := if collectType = CollectType.FUNCTION then importPackages st fC else st
      match collectWalk fC
          [types.slClass_declaration, types.slFunction_body_declaration,
            types.slTask_body_declaration]
          (visit collectType fC) fuel [collectStart fC nodeId] st1 with
      | none => none
      | some st2 => CompilePackage.collectFiles types importPackages visit collectType fuel rest st2

/-- `CompilePackage::collectObjects_(collectType, reduce)` on the file contents
and nodes of the package. -/
def CompilePackage.collectObjects_ {σ : Type} (types : VObjectTypes)
    (files : List (FileContent × NodeId)) (setDesign : σ → σ)
    (importPackages : σ → FileContent → σ) (visit : CollectType → FileContent → σ → NodeId → σ)
    (collectType : CollectType) (fuel : Nat) (st : σ) : Option (Bool × σ) :=
  CompilePackage.collectFiles types importPackages visit collectType fuel files (setDesign st)

/-- A finite tree in the first-child / next-sibling form of the parse tree:
no node, or a node with its id, its type, the tree under its first child and
the tree of its next sibling. -/
inductive NodeTree where
  | empty
  | node (id : NodeId) (type : Nat) (child sibling : NodeTree)

/-- The id at the root; the invalid id for no node. -/
def NodeTree.root : NodeTree → NodeId
  | NodeTree.empty => 0
  | NodeTree.node id _ _ _ => id

/-- The number of nodes. -/
def NodeTree.size : NodeTree → Nat
  | NodeTree.empty => 0
  | NodeTree.node _ _ child sibling => 1 + child.size + sibling.size

/-- The file content holds the tree: every node has a valid id, and the node
kept under that id has the type, the child link and the sibling link of the
tree. -/
def NodeTree.Stored (fC : FileContent) : NodeTree → Prop
  | NodeTree.empty => True
  | NodeTree.node id type child sibling =>
    id ≠ 0 ∧ (fC.Object id).m_type = type ∧ (fC.Object id).m_child = child.root ∧
      (fC.Object id).m_sibling = sibling.root ∧ child.Stored fC ∧ sibling.Stored fC

/-- All ids of the tree. -/
def NodeTree.ids : NodeTree → List NodeId
  | NodeTree.empty => []
  | NodeTree.node id _ child sibling => id :: (child.ids ++ sibling.ids)

/-- The pre-order of the tree that does not descend below stop points: a
node, then the tree under its child unless its type is a stop point, then the
tree of its sibling. -/
def NodeTree.preorder (stopPoints : List Nat) : NodeTree → List NodeId
  | NodeTree.empty => []
  | NodeTree.node id type child sibling =>
    id :: ((if type ∈ stopPoints then [] else child.preorder stopPoints) ++
      sibling.preorder stopPoints)

/-- The pre-orders of the trees of a stack, top first. -/
def preorderForest (stopPoints : List Nat) : List NodeTree → List NodeId
  | [] => []
  | t :: ts => t.preorder stopPoints ++ preorderForest stopPoints ts

/-- The nodes that can be come to from `start` through sibling links and
through the child links of nodes that are not stop points. -/
inductive Walked (fC : FileContent) (stopPoints : List Nat) (start : NodeId) : NodeId → Prop where
  | start : Walked fC stopPoints start start
  | sibling {n : NodeId} : Walked fC stopPoints start n → (fC.Object n).m_sibling ≠ 0 →
      Walked fC stopPoints start (fC.Object n).m_sibling
  | child {n : NodeId} : Walked fC stopPoints start n → (fC.Object n).m_child ≠ 0 →
      (fC.Object n).m_type ∉ stopPoints → Walked fC stopPoints start (fC.Object n).m_child

/-- The tree the walk starts on, for the tree of a declaration node: the tree
under its first child, or the tree of its sibling when it has no child. -/
def NodeTree.start : NodeTree → NodeTree
  | NodeTree.empty => NodeTree.empty
  | NodeTree.node _ _ NodeTree.empty sibling => sibling
  | NodeTree.node _ _ (NodeTree.node id type child sibling) _ =>
    NodeTree.node id type child sibling

/-! ## What a cache and the caches of its includes hold -/

/-- The fields of a cached macro that `recordMacro` receives. -/
def FbMacro.fields (m : FbMacro) :
    String × Nat × Nat × Nat × Nat × List String × List String :=
  (m.name, m.start_line, m.start_column, m.end_line, m.end_column, m.arguments, m.tokens)

/-- A cached line translation, its pretend file as the string it is written
with. -/
def FbLineTranslationInfo.fields (fb : FbLineTranslationInfo) : String × Nat × Nat :=
  (fb.pretend_file, fb.original_line, fb.pretend_line)

/-- A cached include-file info, its section file as the string it is written
with, context and action as the enumerators their codes stand for. -/
def FbIncludeFileInfo.fields (fb : FbIncludeFileInfo) :
    IncludeContext × Nat × String × Nat × Nat × Nat × Nat × IncludeAction × Nat × Nat :=
  (IncludeContext.ofCode fb.context, fb.section_start_line, fb.section_file,
    fb.original_start_line, fb.original_start_column, fb.original_end_line,
    fb.original_end_column, IncludeAction.ofCode fb.action, fb.index_opening,
    fb.index_closing)

/-- The entries of one kind (`own` picks them from a record) that a cache file
and the cache files of its includes hold, in the order in which a restore
comes to them: the entries of the file itself, then those of its includes in
list order, each with its own includes in the same way; nothing for a cache
file that cannot be opened.  The depth of the walk is `depth`. -/
def PPCache.cachedEntries {P α : Type} (env : Env P) (fileNameLine1 : String)
    (own : FbPPCache → List α) : Nat → Option PPBuffer → List α
  | 0, _ => []
  | _ + 1, none => []
  | depth + 1, some buf =>
    own buf.ppcache ++
      (buf.ppcache.includes.getD []).foldr
        (fun inc acc =>
          PPCache.cachedEntries env fileNameLine1 own depth
            (env.openFlatBuffers (PPCache.cacheNameOf env fileNameLine1 inc)) ++ acc)
        []

/-- The body text that a cache file and the cache files of its includes hold:
the bodies of the includes in list order, each preceded by the bodies of its
own includes, then the body of the file itself; nothing for a cache file that
cannot be opened. -/
def PPCache.cachedBody {P : Type} (env : Env P) (fileNameLine1 : String) :
    Nat → Option PPBuffer → String
  | 0, _ => ""
  | _ + 1, none => ""
  | depth + 1, some buf =>
    (buf.ppcache.includes.getD []).foldr
      (fun inc acc =>
        PPCache.cachedBody env fileNameLine1 depth
          (env.openFlatBuffers (PPCache.cacheNameOf env fileNameLine1 inc)) ++ acc)
      "" ++ buf.ppcache.body.getD ""

/-- The preprocess file of `c1` is the one of `c` with the macros `macros`,
the line translations `lines`, the include-file infos `infos` recorded after
those it had and the text `body` appended to its body; symbols are read as
strings in any table that holds the symbols of `c1`. -/
def PPCache.RestoredOnto (c c1 : PPCache)
    (macros : List (String × Nat × Nat × Nat × Nat × List String × List String))
    (lines : List (String × Nat × Nat))
    (infos : List
      (IncludeContext × Nat × String × Nat × Nat × Nat × Nat × IncludeAction × Nat × Nat))
    (body : String) : Prop :=
  c1.m_pp.m_fileName = c.m_pp.m_fileName ∧
  c.m_pp.symbols.Extends c1.m_pp.symbols ∧
  c1.m_pp.m_macros.map macroFields = c.m_pp.m_macros.map macroFields ++ macros ∧
  (∃ added, c1.m_pp.m_lineTranslationVec = c.m_pp.m_lineTranslationVec ++ added ∧
    ∀ T, c1.m_pp.symbols.Extends T →
      added.map (LineTranslationInfo.withStrings T) = lines) ∧
  (∃ added, c1.m_pp.m_includeFileInfo = c.m_pp.m_includeFileInfo ++ added ∧
    ∀ T, c1.m_pp.symbols.Extends T →
      added.map (IncludeFileInfo.withStrings T) = infos) ∧
  c1.m_pp.m_result = c.m_pp.m_result ++ body

/-! ## The whole of `parseCommandLine` -/

/-- A source file that does not exist (`checkCommandLine_`). -/
def ErrorDefinition.CMD_VERILOG_FILE_DOES_NOT_EXIST : ErrorType := ErrorType.other 18

/-- A library path that does not exist (`checkCommandLine_`). -/
def ErrorDefinition.CMD_LIBRARY_PATH_DOES_NOT_EXIST : ErrorType := ErrorType.other 19

/-- A library file that does not exist (`checkCommandLine_`). -/
def ErrorDefinition.CMD_LIBRARY_FILE_DOES_NOT_EXIST : ErrorType := ErrorType.other 20

/-- The output directory cannot be created (`prepareCompilation_`). -/
def ErrorDefinition.CMD_PP_CANNOT_CREATE_OUTPUT_DIR : ErrorType := ErrorType.other 21

/-- The note that names the log file (`prepareCompilation_`). -/
def ErrorDefinition.CMD_CREATING_LOG_FILE : ErrorType := ErrorType.other 22

/-- The cache directory cannot be created (`setupCache_`). -/
def ErrorDefinition.CMD_PP_CANNOT_CREATE_CACHE_DIR : ErrorType := ErrorType.other 23

/-- No Python listener was loaded (`executeCompilation`). -/
def ErrorDefinition.PY_NO_PYTHON_LISTENER_FOUND : ErrorType := ErrorType.other 24

/-- What `parseCommandLine` reads from its surroundings besides `CmdEnv`,
through code that is not among the sources: the directory of the running
program (`FileUtils::getPathName` of `GetProgramNameAbsolutePath(argv[0])`),
`FileUtils::fileIsDirectory`, the content of a file opened with
`std::ifstream` (`none` when the stream is bad), `StringUtils::removeComments`,
`StringUtils::evaluateEnvVars` (which consults the variables registered with
`StringUtils::registerEnvVar`), `StringUtils::tokenize` with the separators
blank, newline, tab and carriage return, the entries of a directory, the
extension of a path, `FileUtils::mkDirs`, `ErrorContainer::hasFatalErrors`
and the result of `ErrorContainer::printMessages` on the errors recorded so
far. -/
structure ParseEnv where
  cmd : CmdEnv
  exeDir : String → String
  fileIsDirectory : String → Bool
  readFile : String → Option String
  removeComments : String → String
  evaluateEnvVars : List (String × String) → String → String
  tokenize : String → List String
  listDirectory : String → List String
  extension : String → String
  mkDirs : String → Bool
  hasFatalErrors : List Error → Bool
  printMessages : List Error → Bool

/-- `addError` of an error of kind `kind` at `Location loc(id)`. -/
def CmdLine.addError (s : CmdLine) (kind : ErrorType) (id : SymbolId) : CmdLine :=
  { s with errors := s.errors ++ [⟨kind, [Location.ofSymbol id]⟩] }

/-- The head of `parseCommandLine`: the directory of precompiled packages is
`pkg` next to the program, or the first of the search path that is a
directory. -/
def CmdLine.findPrecompiledDir (env : ParseEnv) (argv0 : String) (s : CmdLine) : CmdLine :=
  let exe_dir := env.exeDir argv0
  let search_path : List String :=
    [exe_dir, env.cmd.pathAppend (env.cmd.pathAppend (env.cmd.pathAppend exe_dir "..") "lib")
      "surelog"]
  let r := s.symbols.registerSymbol (env.cmd.getPreferredPath (env.cmd.pathAppend exe_dir "pkg"))
  let s1 : CmdLine := { s with symbols := r.2, m_precompiledDirId := r.1 }
  match search_path.find?
      (fun dir => env.fileIsDirectory (env.cmd.getPreferredPath (env.cmd.pathAppend dir "pkg")))
    with
  | none => s1
  | some dir =>
    let r2 := s1.symbols.registerSymbol
      (env.cmd.getPreferredPath (env.cmd.pathAppend dir "pkg"))
    { s1 with symbols := r2.2, m_precompiledDirId := r2.1 }

/-- The test `arg == "-odir" || arg == "-o" || arg == "--Mdir"`. -/
def isOutputDirOption (arg : String) : Bool :=
  arg = "-odir" || arg = "-o" || arg = "--Mdir"

/-- `processOutputDirectory_(args)`: every output-directory option that has an
argument after it takes that argument (the loop then goes on behind it) and
sets `m_outputDir`; one that is the last argument is reported and ends the
loop. -/
def CmdLine.processOutputDirectory_ (env : CmdEnv) : List String → CmdLine → CmdLine
  | [], s => s
  | [last], s =>
    if isOutputDirOption (undecorateArg last) then
      s.report ErrorDefinition.CMD_PP_FILE_MISSING_ODIR last
    else s
  | arg :: a :: rest, s =>
    if isOutputDirOption (undecorateArg arg) then
      let r := s.symbols.registerSymbol (env.getPreferredPath (undecorateArg a))
      CmdLine.processOutputDirectory_ env rest { s with symbols := r.2, m_outputDir := r.1 }
    else CmdLine.processOutputDirectory_ env (a :: rest) s

/-- How `processArgs_` ends: at the end of its arguments, with the container
filled, or by reading `args[++i]` with `i` beyond the last argument. -/
inductive ArgsEnd where
  | done (s : CmdLine) (container : List String)
  | beyond (s : CmdLine) (container : List String)

/-- The block of `processArgs_` that opens the file `f`: a file that cannot be
opened is reported; otherwise comments are removed from its content,
variables are evaluated, the text is cut into arguments and these go through
`processArgs_` (`nested`). -/
def CmdLine.expandFile (env : ParseEnv)
    (nested : List String → CmdLine → List String → Option ArgsEnd) (f : String) (s : CmdLine)
    (container : List String) : Option ArgsEnd :=
  match env.readFile f with
  | none => some (ArgsEnd.done (s.report ErrorDefinition.CMD_DASH_F_FILE_DOES_NOT_EXIST f)
      container)
  | some fileContent =>
    nested (env.tokenize (env.evaluateEnvVars s.envVars (env.removeComments fileContent))) s
      container

/-- The loop of the `-link` block over the entries of the directory: every
entry with the extension `.sep_lst` is expanded like a `-f` file. -/
def CmdLine.expandFiles (env : ParseEnv)
    (nested : List String → CmdLine → List String → Option ArgsEnd) :
    List String → CmdLine → List String → Option ArgsEnd
  | [], s, container => some (ArgsEnd.done s container)
  | flist :: rest, s, container =>
    if env.extension flist = ".sep_lst" then
      match CmdLine.expandFile env nested (undecorateArg flist) s container with
      | some (ArgsEnd.done s1 c1) => CmdLine.expandFiles env nested rest s1 c1
      | other => other
    else CmdLine.expandFiles env nested rest s container

/-- The loop of `processArgs_(args, container)` with the recursive calls handed
in as `nested`: `-f` reads `args[++i]` without looking whether there is one
and expands the file; `-link` sets the stage flags and expands every
`.sep_lst` file of the compile directory; any other non-empty argument goes,
undecorated, at the back of the container. -/
def CmdLine.processArgsLoop (env : ParseEnv)
    (nested : List String → CmdLine → List String → Option ArgsEnd) :
    List String → CmdLine → List String → Option ArgsEnd
  | [], s, container => some (ArgsEnd.done s container)
  | raw :: rest, s, container =>
    if undecorateArg raw = "-f" then
      match rest with
      | [] => some (ArgsEnd.beyond s container)
      | a :: rest2 =>
        match CmdLine.expandFile env nested (undecorateArg a) s container with
        | some (ArgsEnd.done s1 c1) => CmdLine.processArgsLoop env nested rest2 s1 c1
        | other => other
    else if undecorateArg raw = "-link" then
      let s1 : CmdLine :=
        { s with m_parse := true, m_compile := true, m_elaborate := true
                 m_writePpOutput := true, m_link := true }
      let odir := env.cmd.getPreferredPath
        (env.cmd.pathAppend (s1.symbols.getSymbol s1.m_outputDir)
          (s1.symbols.getSymbol
            (if s1.m_fileunit then s1.m_compileUnitDirectory else s1.m_compileAllDirectory)))
      if env.cmd.fileExists odir then
        match CmdLine.expandFiles env nested (env.listDirectory odir) s1 container with
        | some (ArgsEnd.done s2 c2) => CmdLine.processArgsLoop env nested rest s2 c2
        | other => other
      else CmdLine.processArgsLoop env nested rest s1 container
    else if undecorateArg raw ≠ "" then
      CmdLine.processArgsLoop env nested rest s (container ++ [undecorateArg raw])
    else CmdLine.processArgsLoop env nested rest s container

/-- `processArgs_(args, container)`; the fuel bounds the depth of the files
that name files, and `none` stands for an expansion that does not return
within it. -/
def CmdLine.processArgs_ (env : ParseEnv) :
    Nat → List String → CmdLine → List String → Option ArgsEnd
  | 0 => fun _ _ _ => none
  | fuel + 1 => CmdLine.processArgsLoop env (CmdLine.processArgs_ env fuel)

/-- The loop of `parseCommandLine` over `all_arguments` that comes before
`prepareCompilation_`: five options are looked at ahead of the main loop. -/
def CmdLine.prePass (env : CmdEnv) (all_arguments : List String) (s : CmdLine) : CmdLine :=
  all_arguments.foldl
    (fun (s : CmdLine) argument =>
      if argument = "-nobuiltin" then { s with m_parseBuiltIn := false }
      else if argument = "-fileunit" then
        if s.m_diff_comp_mode = false then { s with m_fileunit := true } else s
      else if argument = "-mutestdout" then { s with m_muteStdout := true }
      else if argument = "-nopython" then { s with m_pythonAllowed := false }
      else if argument = "-withpython" then
        { s with m_pythonAllowed := env.withPython || s.m_pythonAllowed }
      else s)
    s

/-- `prepareCompilation_`: the compile directory and the log file are
registered under the output directory, the directory is made, the note that
names the log file is recorded; the result is false when the directory cannot
be made or a fatal error is on record.  (`m_errors->init()` and `logBanner`
write to the log and to the terminal only.) -/
def CmdLine.prepareCompilation_ (env : ParseEnv) (s : CmdLine) : Bool × CmdLine :=
  let odir := env.cmd.pathAppend (s.symbols.getSymbol s.m_outputDir)
    (s.symbols.getSymbol
      (if s.m_fileunit then s.m_compileUnitDirectory else s.m_compileAllDirectory))
  let r1 := s.symbols.registerSymbol (env.cmd.getPreferredPath odir)
  let s1 : CmdLine := { s with symbols := r1.2, m_fullCompileDir := r1.1 }
  let full_path := env.cmd.pathAppend odir (s1.symbols.getSymbol s1.m_logFileId)
  let r2 := s1.symbols.registerSymbol (env.cmd.getPreferredPath full_path)
  let s2 : CmdLine := { s1 with symbols := r2.2, m_logFileId := r2.1 }
  let made := env.mkDirs odir
  let s3 : CmdLine :=
    if !made then s2.addError ErrorDefinition.CMD_PP_CANNOT_CREATE_OUTPUT_DIR s2.m_fullCompileDir
    else s2
  let s4 := s3.addError ErrorDefinition.CMD_CREATING_LOG_FILE s3.m_logFileId
  (made && !env.hasFatalErrors s4.errors, s4)

/-- `setupCache_`: the cache directory is the one given, or `cache` under the
compile directory, which is then registered; with the cache allowed it is
made, otherwise it is removed. -/
def CmdLine.setupCache_ (env : ParseEnv) (s : CmdLine) : Bool × CmdLine :=
  let odir := env.cmd.pathAppend (s.symbols.getSymbol s.m_outputDir)
    (s.symbols.getSymbol
      (if s.m_fileunit then s.m_compileUnitDirectory else s.m_compileAllDirectory))
  let cachedir : String :=
    if s.m_cacheDirId ≠ 0 then s.symbols.getSymbol s.m_cacheDirId
    else env.cmd.pathAppend odir (s.symbols.getSymbol s.m_defaultCacheDirId)
  let s1 : CmdLine :=
    if s.m_cacheDirId ≠ 0 then s
    else
      let r := s.symbols.registerSymbol (env.cmd.getPreferredPath cachedir)
      { s with symbols := r.2, m_cacheDirId := r.1 }
  if s1.m_cacheAllowed then
    if !env.mkDirs cachedir then
      (false, s1.addError ErrorDefinition.CMD_PP_CANNOT_CREATE_CACHE_DIR s1.m_cacheDirId)
    else (true, s1)
  else (true, { s1 with removedDirs := s1.removedDirs ++ [cachedir] })

/-- One of the four loops of `checkCommandLine_`: every file or path of the
list that does not exist is reported. -/
def CmdLine.checkExist (env : CmdEnv) (kind : ErrorType) (ids : List SymbolId) (s : CmdLine) :
    CmdLine :=
  ids.foldl
    (fun (s : CmdLine) fid =>
      if !env.fileExists (s.symbols.getSymbol fid) then s.addError kind fid else s)
    s

/-- `checkCommandLine_`: source files, library paths, library files and include
paths that do not exist are reported; the result is false for a missing source
file or library file and when `printMessages` returns false. -/
def CmdLine.checkCommandLine_ (env : ParseEnv) (s : CmdLine) : Bool × CmdLine :=
  let s1 := CmdLine.checkExist env.cmd ErrorDefinition.CMD_VERILOG_FILE_DOES_NOT_EXIST
    s.m_sourceFiles s
  let s2 := CmdLine.checkExist env.cmd ErrorDefinition.CMD_LIBRARY_PATH_DOES_NOT_EXIST
    s1.m_libraryPaths s1
  let s3 := CmdLine.checkExist env.cmd ErrorDefinition.CMD_LIBRARY_FILE_DOES_NOT_EXIST
    s2.m_libraryFiles s2
  let s4 := CmdLine.checkExist env.cmd ErrorDefinition.CMD_INCLUDE_PATH_DOES_NOT_EXIST
    s3.m_includePaths s3
  ((s.m_sourceFiles.all (fun fid => env.cmd.fileExists (s.symbols.getSymbol fid))) &&
    (s.m_libraryFiles.all (fun fid => env.cmd.fileExists (s.symbols.getSymbol fid))) &&
    env.printMessages s4.errors, s4)

/-- How `parseCommandLine` ends: it returns its status; or it reads an
argument beyond the last one; or an exception leaves it. -/
inductive ParseEnd where
  | returns (status : Bool) (s : CmdLine)
  | beyond (s : CmdLine)
  | throws (s : CmdLine)

/-- `parseCommandLine(argc, argv)` with `argv[0]` and the arguments after it:
the directory of precompiled packages, the first pass over `argv`, the output
directory, the expansion of the arguments, the options looked at ahead,
`prepareCompilation_`, the main loop, `setupCache_` and `checkCommandLine_`.
The fuel is the one of `processArgs_`. -/
def CmdLine.parseCommandLine (env : ParseEnv) (fuel : Nat) (argv0 : String)
    (args : List String) (s : CmdLine) : Option ParseEnd :=
  let first := CmdLine.firstPass args (s.findPrecompiledDir env argv0)
  if first.2 then some (ParseEnd.returns true first.1)
  else
    let cmd_line := args.map undecorateArg
    match CmdLine.processArgs_ env fuel cmd_line
        (CmdLine.processOutputDirectory_ env.cmd cmd_line first.1) [] with
    | none => none
    | some (ArgsEnd.beyond s2 _) => some (ParseEnd.beyond s2)
    | some (ArgsEnd.done s2 all_arguments) =>
      let prepared := CmdLine.prepareCompilation_ env (CmdLine.prePass env.cmd all_arguments s2)
      if !prepared.1 then some (ParseEnd.returns false prepared.2)
      else
        match CmdLine.mainLoop env.cmd false all_arguments prepared.2 with
        | LoopEnd.beyond s4 => some (ParseEnd.beyond s4)
        | LoopEnd.throws s4 => some (ParseEnd.throws s4)
        | LoopEnd.finished s4 =>
          let cached := CmdLine.setupCache_ env s4
          if !cached.1 then some (ParseEnd.returns false cached.2)
          else
            some (ParseEnd.returns (CmdLine.checkCommandLine_ env cached.2).1
              (CmdLine.checkCommandLine_ env cached.2).2)
        | LoopEnd.stopped s4 =>
          let cached := CmdLine.setupCache_ env s4
          if !cached.1 then some (ParseEnd.returns false cached.2)
          else
            some (ParseEnd.returns (CmdLine.checkCommandLine_ env cached.2).1
              (CmdLine.checkCommandLine_ env cached.2).2)

/-- The state `s1` holds every define of `s` with its value, every symbol of
`s` at its handle, and one entry per name if `s` did. -/
def CmdLine.DefinesKept (s s1 : CmdLine) : Prop :=
  s.symbols.Extends s1.symbols ∧
  (∀ e ∈ s.m_defineList, e ∈ s1.m_defineList) ∧
  ((s.m_defineList.map Prod.fst).Nodup → (s1.m_defineList.map Prod.fst).Nodup)

/-! ## The driver (`main.cpp`) -/

/-- The counts of `ErrorContainer::Stats` that the driver reads. -/
structure Stats where
  nbFatal : Nat
  nbSyntax : Nat
  nbError : Nat
deriving DecidableEq, Repr

/-- Modelled from the spec: `Stats::operator+=`, which accumulates the counts
of a run into the overall statistics. -/
def Stats.add (a b : Stats) : Stats :=
  ⟨a.nbFatal + b.nbFatal, a.nbSyntax + b.nbSyntax, a.nbError + b.nbError⟩

/-- What one call of `executeCompilation` gets back from the code it calls:
the result of `parseCommandLine` and the options read off the parser
afterwards, whether the Python listener is loaded, whether `start_compiler`
returned a compiler, the statistics of the error container, the result of
`printStats`, the result of `system` on the `-exe` command and the pair
returned by `makeDiffCompUnitReport`. -/
structure Run where
  success : Bool
  parseOnly : Bool
  help : Bool
  pythonListener : Bool
  pythonEvalScriptPerFile : Bool
  pythonEvalScript : Bool
  isListenerLoaded : Bool
  compilerStarted : Bool
  stats : Stats
  printStats : Bool
  exeCommand : String
  systemResult : Int
  report : Bool × Bool

/-- `executeCompilation(argc, argv, diff_comp_mode, fileunit, overallStats)`,
its return value as a function of what the run gave: `codedReturn` is an
`unsigned int` that collects bits by `|=`, and a parse-only run returns 0. -/
def executeCompilation (diff_comp_mode fileunit : Bool) (r : Run) : Nat :=
  let started : Nat :=
    if r.success && !r.help then (if !r.compilerStarted then 0 ||| 1 else 0) else 0
  let fatal : Nat := if !r.help && decide (r.stats.nbFatal ≠ 0) then started ||| 1 else started
  let syntaxErrors : Nat :=
    if !r.help && decide (r.stats.nbSyntax ≠ 0) then fatal ||| 2 else fatal
  let errors : Nat :=
    if !r.help && decide (r.stats.nbError ≠ 0) then syntaxErrors ||| 4 else syntaxErrors
  let noFErrors : Bool := if !r.help then r.printStats else true
  let command : Nat :=
    if r.exeCommand ≠ "" then errors ||| (r.systemResult % 2 ^ 32).toNat else errors
  let success : Bool := if diff_comp_mode && fileunit then r.report.1 else r.success
  let noFatalErrors : Bool := if diff_comp_mode && fileunit then r.report.2 else noFErrors
  let codedReturn : Nat := if !noFatalErrors || !success then command ||| 1 else command
  if r.parseOnly then 0 else codedReturn

/-- What `batchCompilation` reads from its surroundings: whether `getcwd`
succeeds, whether the batch file can be opened, its lines as `std::getline`
returns them, `StringUtils::tokenize` with the separators blank, carriage
return and tab, `StringUtils::unquoted`, what a run of `executeCompilation` on
an argument vector gives in a state of the world, and whether `chdir` back to
the starting directory succeeds. -/
structure BatchEnv (W : Type) where
  getcwdOk : Bool
  streamGood : Bool
  lines : List String
  tokenize : String → List String
  unquoted : String → String
  compile : W → List String → Run × W
  chdir : W → Bool × W

/-- The scan of `batchCompilation` for `-cd`, over `args[i]` with `i` below
`args.size() - 1`: the unquoted argument after the first `-cd` that has an
argument after it, the empty path without one. -/
def findCd (unquoted : String → String) : List String → String
  | [] => ""
  | [_] => ""
  | a :: b :: rest => if a = "-cd" then unquoted b else findCd unquoted (b :: rest)

/-- `std::filesystem::path::is_absolute` on a POSIX path string: the path has
a root directory. -/
def is_absolute (p : String) : Bool := p.data.head? = some '/'

/-- The output directory `batchCompilation` hands to a line whose `-cd` scan
gave `cwd`. -/
def batchOutputDir (outputDir cwd : String) : String :=
  if cwd = "" ∨ is_absolute cwd = true then outputDir else fsAppend outputDir cwd

/-- The arguments of a batch line after `batchCompilation` has pushed `-o` and
the output directory at their back (nothing is pushed for an empty output
directory). -/
def batchArgs (unquoted : String → String) (outputDir : String) (args : List String) :
    List String :=
  if findCd unquoted args = "" ∨ is_absolute (findCd unquoted args) = true then
    if outputDir ≠ "" then args ++ ["-o", outputDir] else args
  else if outputDir ≠ "" then args ++ ["-o", fsAppend outputDir (findCd unquoted args)]
  else args

/-- The argument vector of a batch line: `argv0`, then the non-empty
arguments. -/
def batchArgv (argv0 : String) (args : List String) : List String :=
  argv0 :: args.filter (fun arg => arg ≠ "")

/-- The variables of `batchCompilation` as the loop over the lines carries
them, the state of the world, and the argument vectors handed to
`executeCompilation` so far, each with the code that came back. -/
structure BatchState (W : Type) where
  world : W
  returnCode : Nat
  count : Nat
  overallStats : Stats
  runs : List (List String × Nat)

/-- The body of the loop of `batchCompilation` on one line; `none` when the
scan for `-cd` reads `args[0]` of an empty vector (`args.size() - 1` wraps
around). -/
def batchLine {W : Type} (env : BatchEnv W) (argv0 outputDir line : String)
    (st : BatchState W) : Option (BatchState W) :=
  if line = "" then some st
  else if env.tokenize line = [] then none
  else
    let argv := batchArgv argv0 (batchArgs env.unquoted outputDir (env.tokenize line))
    if argv.length < 2 then some st
    else
      let run := env.compile st.world argv
      let code := executeCompilation false false run.1
      let back := env.chdir run.2
      some
        { world := back.2
          returnCode := if back.1 then st.returnCode ||| code else (st.returnCode ||| code) ||| 1
          count := st.count + 1
          overallStats := if !run.1.help then st.overallStats.add run.1.stats
            else st.overallStats
          runs := st.runs ++ [(argv, code)] }

/-- The loop of `batchCompilation` over the lines. -/
def batchLoop {W : Type} (env : BatchEnv W) (argv0 outputDir : String) :
    List String → BatchState W → Option (BatchState W)
  | [], st => some st
  | line :: rest, st =>
    match batchLine env argv0 outputDir line st with
    | none => none
    | some st1 => batchLoop env argv0 outputDir rest st1

/-- `batchCompilation(argv0, batchFile, outputDir, nostdout)`: the state it
returns in, `returnCode` being its return value. -/
def batchCompilation {W : Type} (env : BatchEnv W) (argv0 outputDir : String) (w : W) :
    Option (BatchState W) :=
  if !env.streamGood then
    some { world := w, returnCode := (if !env.getcwdOk then 0 ||| 1 else 0) ||| 1, count := 0
           overallStats := ⟨0, 0, 0⟩, runs := [] }
  else
    batchLoop env argv0 outputDir env.lines
      { world := w, returnCode := (if !env.getcwdOk then 0 ||| 1 else 0), count := 0
        overallStats := ⟨0, 0, 0⟩, runs := [] }

/-- Whether the scan of `processOutputDirectory_` ends on an output-directory
option that has no argument after it. -/
def danglingOutputOption : List String → Bool
  | [] => false
  | [last] => isOutputDirOption (undecorateArg last)
  | arg :: a :: rest =>
    if isOutputDirOption (undecorateArg arg) then danglingOutputOption rest
    else danglingOutputOption (a :: rest)

/-- The argument vector `batchCompilation` builds for a line. -/
def batchLineArgv {W : Type} (env : BatchEnv W) (argv0 outputDir line : String) : List String :=
  batchArgv argv0 (batchArgs env.unquoted outputDir (env.tokenize line))

/-- The lines of the batch file that `batchCompilation` hands to
`executeCompilation`: the non-empty ones whose argument vector holds an
argument besides `argv0`. -/
def compiledLines {W : Type} (env : BatchEnv W) (argv0 outputDir : String)
    (lines : List String) : List String :=
  lines.filter
    (fun line => decide (line ≠ "") && decide (2 ≤ (batchLineArgv env argv0 outputDir line).length))

/-! ## Concrete inputs -/

/-- A small `std::filesystem::path::operator/` for relative right operands. -/
def joinPath (a b : String) : String :=
  if a.isEmpty then b else a ++ "/" ++ b

/-- A command line with caching on, no shortcut mode, one include path (symbol
2) and the define `W=16` (symbol 1). -/
def clpW16 : CommandLineParser :=
  { m_cacheAllowed := true, m_parseOnly := false, m_lowMem := false, m_noCacheHash := false
    m_includePaths := [2], m_defineList := [(1, "16")]
    cacheDirName := "cache", precompiledDirName := "pkg" }

/-- The symbol table of the example runs: `W` is symbol 1, `/inc` symbol 2. -/
def symsW : SymbolTable := ⟨["W", "/inc"]⟩

/-- An empty preprocessor cache record saved with the define `W=8`. -/
def recW8 : FbPPCache :=
  { header := ⟨"1.2", "top.sv", 0, "build"⟩, macros := [], includes := some [], body := some ""
    errors := [], symbols := [], cmd_include_paths := ["/inc"], cmd_define_options := ["W=8"]
    time_info := [], line_translation_vec := [], include_file_info := [], objects := [] }

/-- The same record saved with the define `W=16`. -/
def recW16 : FbPPCache := { recW8 with cmd_define_options := ["W=16"] }

/-- An environment with no cache file on disk, no precompiled file, files in
the current directory, and a header check that compares the schema version. -/
def envW16 : Env String :=
  { clp := clpW16
    isFilePrecompiled := fun _ => false
    basename := fun s => s
    getPathName := fun _ => ""
    hashPath := fun _ => "h"
    pathAppend := joinPath
    parentPath := fun _ => ""
    filename := fun s => s
    toPath := fun s => s
    libName := "work"
    checkIfCacheIsValid := fun h v _ => decide (h.schemaVersion = v)
    createHeader := fun v f => ⟨v, f, 0, "build"⟩
    openFlatBuffers := fun _ => none
    openParseFlatBuffers := fun _ => none
    saveFlatbuffers := fun _ => true
    Capacity := 16777216 }

/-- The example environment in parse-only mode. -/
def envParseOnly : Env String :=
  { envW16 with clp := { clpW16 with m_parseOnly := true } }

/-- The example environment in no-hash mode. -/
def envNoHash : Env String :=
  { envW16 with clp := { clpW16 with m_noCacheHash := true } }

/-- The example environment with a header check that always fails (a stale or
foreign cache file). -/
def envStale : Env String :=
  { envW16 with checkIfCacheIsValid := fun _ _ _ => false }

/-- The cache record of `a.sv`, which includes `b.sv`. -/
def recA : FbPPCache := { recW16 with includes := some ["b.sv"] }

/-- The cache record of `b.sv`, which includes `a.sv`. -/
def recB : FbPPCache := { recW16 with includes := some ["a.sv"] }

/-- The circular include graph of the spec: the caches of `a.sv` and `b.sv` are
on disk and list one another. -/
def envCycle : Env String :=
  { envW16 with
    openFlatBuffers := fun n =>
      if n = "cache/work/h/a.sv.slpp" then some ⟨true, recA⟩
      else if n = "cache/work/h/b.sv.slpp" then some ⟨true, recB⟩
      else none }

/-- The include diamond of the spec: `top.sv` includes `a.svh` and `b.svh`, both
include `common.svh`; the four caches are on disk and were saved with the
current include paths and defines. -/
def envDiamond : Env String :=
  { envW16 with
    openFlatBuffers := fun n =>
      if n = "cache/work/h/top.sv.slpp" then
        some ⟨true, { recW16 with includes := some ["a.svh", "b.svh"] }⟩
      else if n = "cache/work/h/a.svh.slpp" then
        some ⟨true, { recW16 with includes := some ["common.svh"] }⟩
      else if n = "cache/work/h/b.svh.slpp" then
        some ⟨true, { recW16 with includes := some ["common.svh"] }⟩
      else if n = "cache/work/h/common.svh.slpp" then some ⟨true, recW16⟩
      else none }

/-- A rank on the files of the diamond that decreases along every include. -/
def rankDiamond (f : String) : Nat :=
  if f = "top.sv" then 2 else if f = "a.svh" then 1 else if f = "b.svh" then 1 else 0

/-- The files of the diamond. -/
def inDiamond (f : String) : Prop :=
  f = "top.sv" ∨ f = "a.svh" ∨ f = "b.svh" ∨ f = "common.svh"

/-- The symbol table of the run that saves: `top.sv` is symbol 1, `inc.svh`
symbol 2. -/
def symsTop : SymbolTable := ⟨["top.sv", "inc.svh"]⟩

/-- The preprocess file of `inc.svh` after preprocessing: one macro and a body. -/
def ppInc : PreprocessFile :=
  { symbols := symsTop, errors := [], timeInfo := [], ppFileContents := []
    m_macros := [("WIDTH", ⟨MacroInfoType.NO_ARGS, 1, 1, 1, 16, [], ["8", ""]⟩)]
    m_result := "wire w; "
    m_lineTranslationVec := []
    m_includeFileInfo := []
    m_fileContent := none
    m_includes := []
    m_isMacroBody := false
    m_fileId := fun _ => 2
    m_fileName := fun _ => "inc.svh"
    m_libraryName := "work" }

/-- The preprocess file of `top.sv`, which includes `inc.svh`: its body holds
the expansion of the include, its include-file infos bracket it. -/
def ppTop : PreprocessFile :=
  { ppInc with
    m_macros := [("DEPTH", ⟨MacroInfoType.WITH_ARGS, 2, 1, 2, 20, ["n"], ["n", "", "+1"]⟩)]
    m_result := "wire w; module m; endmodule"
    m_lineTranslationVec := [⟨1, 1, 1⟩]
    m_includeFileInfo :=
      [⟨IncludeContext.INCLUDE, 1, 2, 1, 1, 1, 19, IncludeAction.PUSH, 0, 1⟩,
       ⟨IncludeContext.INCLUDE, 2, 1, 1, 19, 1, 19, IncludeAction.POP, 1, 0⟩]
    m_includes := [⟨4096, 2⟩]
    m_fileId := fun _ => 1
    m_fileName := fun _ => "top.sv" }

/-- The same preprocess file without the included-file record. -/
def ppLeaf : PreprocessFile := { ppTop with m_includes := [] }

/-- A fresh preprocess file for `top.sv` in a later run. -/
def ppFresh : PreprocessFile :=
  { symbols := ⟨["top.sv"]⟩, errors := [], timeInfo := [], ppFileContents := []
    m_macros := [], m_result := "", m_lineTranslationVec := [], m_includeFileInfo := []
    m_fileContent := none, m_includes := [], m_isMacroBody := false
    m_fileId := fun _ => 1, m_fileName := fun _ => "top.sv", m_libraryName := "work" }

/-- The later run: on disk are the two cache files that `PPCache::save` wrote
for `top.sv` and for `inc.svh`. -/
def envRestoreTop : Env String :=
  { envW16 with
    openFlatBuffers := fun n =>
      if n = "cache/work/h/top.sv.slpp" then some ⟨true, PPCache.buildRecord envW16 ppTop⟩
      else if n = "cache/work/h/inc.svh.slpp" then some ⟨true, PPCache.buildRecord envW16 ppInc⟩
      else none }

/-- The preprocess file of `top.sv` with a timescale directive recorded for it. -/
def ppTimed : PreprocessFile :=
  { ppLeaf with
    timeInfo := [⟨TimeInfoType.Module, 1, 1, TimeUnit.Nanosecond, 1, TimeUnit.Picosecond, 10⟩] }

/-- Where the parser finds module `m` in `top.sv`. -/
def siteM : ElementSite :=
  { fileId := 1, line := 1, column := 1, endLine := 1, endColumn := 21, uniqueId := 1
    timeInfo := ⟨TimeInfoType.Module, 1, 1, TimeUnit.Nanosecond, 1, TimeUnit.Picosecond, 10⟩
    defaultNetType := 0 }

/-- The parse file of `top.sv` after the parser registered module `m` with
`addDesignElement`. -/
def pfSaved : ParseFile :=
  { symbols := (SV3_1aTreeShapeHelper.addDesignElement "work" ⟨["top.sv"]⟩ ⟨1, "work", [], []⟩
      siteM "m" ElemType.Module).2
    errors := []
    fileContents := [1]
    m_fileContent := some (SV3_1aTreeShapeHelper.addDesignElement "work" ⟨["top.sv"]⟩
      ⟨1, "work", [], []⟩ siteM "m" ElemType.Module).1
    m_fileId := fun _ => 1
    m_fileName := fun _ => "top.sv"
    m_ppFileName := "top.sv"
    m_libraryName := "work" }

/-- A parse file for `top.sv` in a later run, before anything is parsed. -/
def pfFresh : ParseFile :=
  { symbols := ⟨[]⟩, errors := [], fileContents := [], m_fileContent := none
    m_fileId := fun _ => 1, m_fileName := fun _ => "top.sv", m_ppFileName := "top.sv"
    m_libraryName := "work" }

/-- The parser cache buffer `ParseCache::save` writes for `pfSaved`. -/
def parseBufM : ParseBuffer :=
  ⟨true, ParseCache.buildRecord envW16 pfSaved "top.sv"
    (pfSaved.symbols.registerSymbol "top.sv").2 (pfSaved.symbols.registerSymbol "top.sv").1⟩

/-- A parser cache record with no content. -/
def recParse : FbParseCache :=
  { header := ⟨"1.2", "top.sv", 0, "build"⟩, errors := [], symbols := [], elements := []
    objects := [] }

/-- The example environment with room for two parse-tree nodes in a cache. -/
def envSmall : Env String := { envW16 with Capacity := 2 }

/-- A parse-tree node of `top.sv`. -/
def nodeV : VObject :=
  { m_name := 0, m_fileId := 1, m_type := 0, m_line := 1, m_column := 1, m_endLine := 1
    m_endColumn := 1, m_parent := 0, m_definition := 0, m_child := 0, m_sibling := 0 }

/-- The preprocess file of `top.sv` with three parse-tree nodes. -/
def ppThreeNodes : PreprocessFile :=
  { ppLeaf with m_fileContent := some ⟨1, "work", [nodeV, nodeV, nodeV], []⟩ }

/-- The preprocess file of `top.sv` with two parse-tree nodes. -/
def ppTwoNodes : PreprocessFile :=
  { ppLeaf with m_fileContent := some ⟨1, "work", [nodeV, nodeV], []⟩ }

/-- The parse file of `top.sv` with three parse-tree nodes. -/
def pfThreeNodes : ParseFile :=
  { pfFresh with m_fileContent := some ⟨1, "work", [nodeV, nodeV, nodeV], []⟩ }

/-- The parse file of `top.sv` with two parse-tree nodes. -/
def pfTwoNodes : ParseFile :=
  { pfFresh with m_fileContent := some ⟨1, "work", [nodeV, nodeV], []⟩ }

/-- The parse file of a built-in file: its preprocessed file has no name of
its own. -/
def pfBuiltin : ParseFile :=
  { pfFresh with m_ppFileName := "@@BAD_SYMBOL@@", m_fileName := fun _ => "@@BAD_SYMBOL@@" }

/-- The preprocess file of `top.sv` including `a.svh` and `b.svh`, whose
objects lie at the addresses 4096 and 8192. -/
def ppTwoIncludes : PreprocessFile :=
  { ppLeaf with
    symbols := ⟨["top.sv", "a.svh", "b.svh"]⟩
    m_includes := [⟨4096, 2⟩, ⟨8192, 3⟩] }

/-- An allocation that puts the two objects the other way round. -/
def otherOrder (a : Nat) : Nat :=
  if a = 4096 then 8192 else if a = 8192 then 4096 else a

/-- An allocation that moves every object up by one page. -/
def onePageUp (a : Nat) : Nat := a + 4096

/-- The example environment with `operator/` for the path operator, the file
in directory `rtl`, and `5f2a` for the hash of a directory. -/
def envFs : Env String :=
  { envW16 with pathAppend := fsAppend, getPathName := fun _ => "rtl", hashPath := fun _ => "5f2a" }

/-- The same environment in no-hash mode, the file in directory `/proj/rtl`. -/
def envFsNoHash : Env String :=
  { envFs with clp := { clpW16 with m_noCacheHash := true }, getPathName := fun _ => "/proj/rtl" }

/-- The example environment with `uvm_pkg.sv` registered as precompiled. -/
def envPkg : Env String :=
  { envFs with isFilePrecompiled := fun b => decide (b = "uvm_pkg.sv") }

/-- The surroundings of the example command lines: paths are preferred as
they are, every file exists, files lie in the current directory, eight
hardware threads, `stoi` reads decimal digits, a build without Python. -/
def cmdEnv : CmdEnv :=
  { getPreferredPath := fun p => p
    fileExists := fun _ => true
    basename := fun p => p
    getPathName := fun _ => ""
    leaf := fun _ => "sv"
    pathAppend := fsAppend
    hardware_concurrency := 8
    stoi := fun a =>
      if a.data ≠ [] ∧ a.data.all Char.isDigit then
        some (a.data.foldl (fun n c => 10 * n + (c.toNat - 48)) 0 : Nat)
      else none
    withPython := false }

/-- A freshly constructed command line outside diff-compilation mode. -/
def cmdFresh : CmdLine := CmdLine.construct cmdEnv [] SymbolTable.empty false false

/-- The same surroundings with every source file in directory `rtl`. -/
def cmdEnvRtl : CmdEnv := { cmdEnv with getPathName := fun _ => "rtl" }

/-- The environment with `uvm_pkg.sv` registered as precompiled and a header
check that always fails. -/
def envPkgStale : Env String := { envPkg with checkIfCacheIsValid := fun _ _ _ => false }

/-- A parse-tree node with its type and links only. -/
def linkNode (type : Nat) (child sibling : NodeId) : VObject :=
  { m_name := 0, m_fileId := 1, m_type := type, m_line := 1, m_column := 1, m_endLine := 1
    m_endColumn := 1, m_parent := 0, m_definition := 0, m_child := child, m_sibling := sibling }

/-- The codes of the node types in the example tree. -/
def typesEx : VObjectTypes :=
  { slClass_declaration := 7, slFunction_body_declaration := 8, slTask_body_declaration := 9
    slAttribute_instance := 10 }

/-- A program (node 1) with a class declaration (node 2, with the item 3 in
it) followed by a data declaration (node 4, with the item 5 in it); node 0 is
the slot of the invalid id. -/
def fcProgram : FileContent :=
  { m_fileId := 1, m_libraryName := "work"
    m_objects := [linkNode 0 0 0, linkNode 1 2 0, linkNode 7 3 4, linkNode 2 0 0,
      linkNode 3 5 0, linkNode 2 0 0]
    m_elements := [] }

/-- The tree under the program node of the example. -/
def treeProgram : NodeTree :=
  NodeTree.node 2 7 (NodeTree.node 3 2 NodeTree.empty NodeTree.empty)
    (NodeTree.node 4 3 (NodeTree.node 5 2 NodeTree.empty NodeTree.empty) NodeTree.empty)

/-- A rank on the two files of the later run of `top.sv` that decreases along
the include. -/
def rankTop (f : String) : Nat := if f = "top.sv" then 1 else 0

/-- The files of the later run of `top.sv`. -/
def inTop (f : String) : Prop := f = "top.sv" ∨ f = "inc.svh"

/-- A tokenizer for the example surroundings, on the characters that remain
and the piece collected so far (reversed): the text is cut at every separator,
and a separator that ends the text closes one more, empty, piece. -/
def cutAtSeparators (seps : List Char) : List Char → List Char → List String
  | [], _ => []
  | [c], cur =>
    if c ∈ seps then [String.mk cur.reverse, ""] else [String.mk (c :: cur).reverse]
  | c :: d :: rest, cur =>
    if c ∈ seps then String.mk cur.reverse :: cutAtSeparators seps (d :: rest) []
    else cutAtSeparators seps (d :: rest) (c :: cur)

/-- The value a variable was registered with last. -/
def lookupVar (vars : List (String × String)) (name : String) : Option String :=
  (vars.reverse.find? (fun v => v.1 = name)).map Prod.snd

/-- A variable expander for the example surroundings, on the characters that
remain; `pending` holds, reversed, the name after an opening dollar and brace
that has not been closed yet.  A reference to a registered variable is
replaced by its value, any other text stays. -/
def expandBraced (vars : List (String × String)) :
    List Char → Option (List Char) → List Char
  | [], none => []
  | [], some name => Char.ofNat 36 :: Char.ofNat 123 :: name.reverse
  | c :: rest, some name =>
    if c = Char.ofNat 125 then
      (match lookupVar vars (String.mk name.reverse) with
        | some v => v.data
        | none => Char.ofNat 36 :: Char.ofNat 123 :: (name.reverse ++ [Char.ofNat 125])) ++
        expandBraced vars rest none
    else expandBraced vars rest (some (c :: name))
  | [c], none => [c]
  | c :: d :: rest, none =>
    if c = Char.ofNat 36 ∧ d = Char.ofNat 123 then expandBraced vars rest (some [])
    else c :: expandBraced vars (d :: rest) none

/-- The error kinds that the example surroundings count as fatal. -/
def fatalKinds : List ErrorType :=
  [ErrorDefinition.CMD_PP_CANNOT_CREATE_OUTPUT_DIR,
   ErrorDefinition.CMD_PP_CANNOT_CREATE_CACHE_DIR]

/-- The surroundings of the example invocations: the program lies in
`/usr/bin`, no directory of precompiled packages exists, directories can be
made, no file can be opened, files have no comments. -/
def parseEnv : ParseEnv :=
  { cmd := cmdEnv
    exeDir := fun _ => "/usr/bin"
    fileIsDirectory := fun _ => false
    readFile := fun _ => none
    removeComments := fun text => text
    evaluateEnvVars := fun vars text => String.mk (expandBraced vars text.data none)
    tokenize := fun text =>
      cutAtSeparators [' ', Char.ofNat 10, Char.ofNat 9, Char.ofNat 13] text.data []
    listDirectory := fun _ => []
    extension := fun _ => ""
    mkDirs := fun _ => true
    hasFatalErrors := fun errors => errors.any (fun e => decide (e.m_errorId ∈ fatalKinds))
    printMessages := fun errors => !errors.any (fun e => decide (e.m_errorId ∈ fatalKinds)) }

/-- The surroundings of scenario 6 of the spec: `build.f` holds the include
option, a blank, the directory and the source file. -/
def parseEnvBuild : ParseEnv :=
  { parseEnv with
    readFile := fun f =>
      if f = "build.f" then some "-I $\x7bINC_ROOT\x7d/rtl top.sv" else none }

/-- The same surroundings with the directory attached to the include option
in `build.f`. -/
def parseEnvAttached : ParseEnv :=
  { parseEnv with
    readFile := fun f =>
      if f = "build.f" then some "-I$\x7bINC_ROOT\x7d/rtl top.sv" else none }

/-- The include paths a run of `parseCommandLine` returned with, as strings;
nothing for a run that did not return. -/
def includePathsOf : Option ParseEnd → List String
  | some (ParseEnd.returns _ s) => s.m_includePaths.map s.symbols.getSymbol
  | _ => []

/-- The source files a run of `parseCommandLine` returned with, as strings. -/
def sourceFilesOf : Option ParseEnd → List String
  | some (ParseEnd.returns _ s) => s.m_sourceFiles.map s.symbols.getSymbol
  | _ => []

/-- The defines a run of `parseCommandLine` returned with, names as strings. -/
def definesOf : Option ParseEnd → List (String × String)
  | some (ParseEnd.returns _ s) => s.m_defineList.map (fun d => (s.symbols.getSymbol d.1, d.2))
  | _ => []

/-- The status a run of `parseCommandLine` returned. -/
def statusOf : Option ParseEnd → Option Bool
  | some (ParseEnd.returns status _) => some status
  | _ => none

/-- A clean run: the command line parsed, the compiler started, no error. -/
def runClean : Run :=
  { success := true, parseOnly := false, help := false, pythonListener := false
    pythonEvalScriptPerFile := false, pythonEvalScript := false, isListenerLoaded := false
    compilerStarted := true, stats := ⟨0, 0, 0⟩, printStats := true, exeCommand := ""
    systemResult := 0, report := (true, true) }

/-- A run with one syntax error. -/
def runSyntax : Run := { runClean with stats := ⟨0, 1, 0⟩ }

/-- A run with one syntax error in parse-only mode. -/
def runParseOnly : Run := { runSyntax with parseOnly := true }

/-- A run with one error that is neither fatal nor a syntax error. -/
def runError : Run := { runClean with stats := ⟨0, 0, 1⟩ }

/-- The surroundings of the example batch: three lines, the first with a
syntax error, the second clean, the third with an error; a line that holds
`bad.sv` gives the run with the syntax error, one that holds `missing.sv` the
run with the error. -/
def batchEnv : BatchEnv Unit :=
  { getcwdOk := true
    streamGood := true
    lines := ["-cd t1 bad.sv", "", "-cd /abs good.sv", "missing.sv"]
    tokenize := fun line => cutAtSeparators [' ', Char.ofNat 13, Char.ofNat 9] line.data []
    unquoted := fun text => text
    compile := fun w argv =>
      (if "bad.sv" ∈ argv then runSyntax else if "missing.sv" ∈ argv then runError
        else runClean, w)
    chdir := fun w => (true, w) }

/-- The same surroundings with a batch file of one line that holds a single
blank. -/
def batchEnvBlank : BatchEnv Unit := { batchEnv with lines := [" "] }

/-! ## Lemmas on `compareVectors` -/

theorem compareVectors_iff {T : Type} [LinearOrder T] (a b : List T) :
    compareVectors a b = true ↔ List.Perm a b := by
  unfold compareVectors
  simp only [decide_eq_true_eq]
  constructor
  · intro he
    have h1 := (List.perm_insertionSort (· ≤ ·) a).symm
    rw [he] at h1
    exact h1.trans (List.perm_insertionSort _ b)
  · intro h
    have h1 : (a.insertionSort (· ≤ ·)).Perm (b.insertionSort (· ≤ ·)) :=
      ((List.perm_insertionSort _ a).trans h).trans (List.perm_insertionSort _ b).symm
    exact List.eq_of_perm_of_sorted h1 (List.sorted_insertionSort _ a)
      (List.sorted_insertionSort _ b)

theorem compareVectors_eq_false_iff {T : Type} [LinearOrder T] (a b : List T) :
    compareVectors a b = false ↔ ¬ List.Perm a b := by
  rw [← compareVectors_iff]; simp

/-! ## Unfolding the validator -/

theorem PPCache.checkCacheIsValid_succ {P : Type} [LinearOrder P] (env : Env P)
    (symbols : SymbolTable) (fn : String) (fuel : Nat) (name : String) (buf : PPBuffer)
    (pre : Bool) :
    PPCache.checkCacheIsValid_ env symbols fn (fuel + 1) name (some buf) pre =
      if env.clp.m_parseOnly || env.clp.m_lowMem then some (true, pre)
      else if !buf.hasIdentifier then some (false, pre)
      else if env.clp.m_noCacheHash then some (true, pre)
      else if !pre then
        if !env.checkIfCacheIsValid buf.ppcache.header FlbSchemaVersion name then
          some (false, pre)
        else if !compareVectors ((includePathVec env.clp symbols).map env.toPath)
            (buf.ppcache.cmd_include_paths.map env.toPath) then
          some (false, pre)
        else if !compareVectors (defineVec env.clp symbols) buf.ppcache.cmd_define_options then
          some (false, pre)
        else
          match buf.ppcache.includes with
          | none => some (true, pre)
          | some includes =>
            checkIncludes (PPCache.validateInclude env symbols fn fuel) includes pre
      else some (true, pre) := by
  rfl

theorem PPCache.checkCacheIsValid_none {P : Type} [LinearOrder P] (env : Env P)
    (symbols : SymbolTable) (fn : String) (fuel : Nat) (name : String) (pre : Bool) :
    PPCache.checkCacheIsValid_ env symbols fn (fuel + 1) name none pre = some (false, pre) := by
  rfl

theorem PPCache.getCacheFileName_isPrecompiled_of_none {P : Type} (env : Env P)
    (hnp : ∀ f, env.isFilePrecompiled f = false) (fn inc : String) :
    (PPCache.getCacheFileName_ env fn false inc).isPrecompiled = false := by
  simp [PPCache.getCacheFileName_, hnp]

theorem some_pair_snd {a r b p : Bool} (h : some (a, b) = some (r, p)) : p = b := by
  cases h; rfl

theorem checkIncludes_state_false (check : String → Bool → Option (Bool × Bool))
    (hstate : ∀ inc r p, check inc false = some (r, p) → p = false) :
    ∀ (l : List String) (r p : Bool), checkIncludes check l false = some (r, p) → p = false := by
  intro l
  induction l with
  | nil => intro r p h; exact some_pair_snd h
  | cons inc rest ih =>
    intro r p h
    unfold checkIncludes at h
    cases hc : check inc false with
    | none => simp [hc] at h
    | some v =>
      obtain ⟨b, q⟩ := v
      have hq := hstate inc b q hc
      subst hq
      cases b with
      | false => simp only [hc] at h; exact some_pair_snd h
      | true => simp only [hc] at h; exact ih r p h

theorem checkIncludes_hit_iff (check : String → Bool → Option (Bool × Bool))
    (hstate : ∀ inc r p, check inc false = some (r, p) → p = false) (l : List String) :
    (∃ p, checkIncludes check l false = some (true, p)) ↔
      ∀ inc ∈ l, check inc false = some (true, false) := by
  induction l with
  | nil => simp [checkIncludes]
  | cons inc rest ih =>
    unfold checkIncludes
    cases hc : check inc false with
    | none =>
      constructor
      · rintro ⟨p, hp⟩; simp at hp
      · intro h; have := h inc (List.mem_cons_self _ _); simp [hc] at this
    | some v =>
      obtain ⟨b, q⟩ := v
      have hq := hstate inc b q hc
      subst hq
      cases b with
      | false =>
        constructor
        · rintro ⟨p, hp⟩; simp at hp
        · intro h; have := h inc (List.mem_cons_self _ _); simp [hc] at this
      | true =>
        simp only []
        rw [ih]
        constructor
        · intro h x hx
          rcases List.mem_cons.mp hx with rfl | hx
          · exact hc
          · exact h x hx
        · intro h x hx
          exact h x (List.mem_cons_of_mem _ hx)

theorem checkIncludes_first_miss (check : String → Bool → Option (Bool × Bool))
    (l1 : List String) (inc : String) (l2 : List String)
    (h1 : ∀ x ∈ l1, check x false = some (true, false))
    (h2 : check inc false = some (false, false)) :
    checkIncludes check (l1 ++ inc :: l2) false = some (false, false) := by
  induction l1 with
  | nil => simp [checkIncludes, h2]
  | cons x rest ih =>
    have hx := h1 x (List.mem_cons_self _ _)
    simp only [List.cons_append, checkIncludes, hx]
    exact ih (fun y hy => h1 y (List.mem_cons_of_mem _ hy))

theorem PPCache.checkCacheIsValid_state_false {P : Type} [LinearOrder P] (env : Env P)
    (symbols : SymbolTable) (fn : String) (hnp : ∀ f, env.isFilePrecompiled f = false) :
    ∀ (fuel : Nat) (name : String) (buffer : Option PPBuffer) (r p : Bool),
      PPCache.checkCacheIsValid_ env symbols fn fuel name buffer false = some (r, p) →
      p = false := by
  intro fuel
  induction fuel with
  | zero => intro name buffer r p h; simp [PPCache.checkCacheIsValid_] at h
  | succ fuel ih =>
    intro name buffer r p h
    cases buffer with
    | none => rw [PPCache.checkCacheIsValid_none] at h; exact some_pair_snd h
    | some buf =>
      rw [PPCache.checkCacheIsValid_succ] at h
      split_ifs at h <;> try (exact some_pair_snd h)
      cases hinc : buf.ppcache.includes with
      | none => simp only [hinc] at h; exact some_pair_snd h
      | some includes =>
        simp only [hinc] at h
        refine checkIncludes_state_false _ ?_ includes r p h
        intro inc r1 p1 h1
        unfold PPCache.validateInclude PPCache.checkCacheIsValid_file at h1
        simp only [PPCache.getCacheFileName_isPrecompiled_of_none env hnp] at h1
        split_ifs at h1
        first | exact some_pair_snd h1 | exact ih _ _ r1 p1 h1

theorem PPCache.validateInclude_state_false {P : Type} [LinearOrder P] (env : Env P)
    (symbols : SymbolTable) (fn : String) (hnp : ∀ f, env.isFilePrecompiled f = false)
    (fuel : Nat) (inc : String) (r p : Bool)
    (h : PPCache.validateInclude env symbols fn fuel inc false = some (r, p)) : p = false := by
  unfold PPCache.validateInclude PPCache.checkCacheIsValid_file at h
  simp only [PPCache.getCacheFileName_isPrecompiled_of_none env hnp] at h
  split_ifs at h
  · exact some_pair_snd h
  · exact PPCache.checkCacheIsValid_state_false env symbols fn hnp _ _ _ r p h

/-! ## C1 -/

/-- C1: for a cache that is not precompiled, whose buffer is present and
carries the PP magic, with none of parse-only, low-memory and no-hash set,
`PPCache::checkCacheIsValid_` returns miss whenever the `NAME=value` strings
stored in the cache are not a permutation of those built from the current
command-line define map. -/
theorem PPCache.define_mismatch_is_miss {P : Type} [LinearOrder P] (env : Env P)
    (symbols : SymbolTable) (fn : String) (fuel : Nat) (name : String) (buf : PPBuffer)
    (hpo : env.clp.m_parseOnly = false) (hlm : env.clp.m_lowMem = false)
    (hnh : env.clp.m_noCacheHash = false) (hid : buf.hasIdentifier = true)
    (hdef : ¬ List.Perm buf.ppcache.cmd_define_options (defineVec env.clp symbols)) :
    PPCache.checkCacheIsValid_ env symbols fn (fuel + 1) name (some buf) false =
      some (false, false) := by
  have hd : compareVectors (defineVec env.clp symbols) buf.ppcache.cmd_define_options = false := by
    rw [compareVectors_eq_false_iff]
    exact fun h => hdef h.symm
  rw [PPCache.checkCacheIsValid_succ]
  simp only [hpo, hlm, hnh, hid, hd]
  by_cases h1 : env.checkIfCacheIsValid buf.ppcache.header FlbSchemaVersion name = true
  · by_cases h2 : compareVectors ((includePathVec env.clp symbols).map env.toPath)
        (buf.ppcache.cmd_include_paths.map env.toPath) = true
    · simp [h1, h2]
    · simp [h1, h2]
  · simp [h1]

/-- C1, the scenario of the spec: a cache saved with `W=8` is a miss when it is
validated with `W=16` on the command line. -/
theorem PPCache.define_mismatch_is_miss_witness :
    PPCache.checkCacheIsValid_ envW16 symsW "top.sv" 1 "cache/work/h/top.sv.slpp"
      (some ⟨true, recW8⟩) false = some (false, false) :=
  PPCache.define_mismatch_is_miss envW16 symsW "top.sv" 0 "cache/work/h/top.sv.slpp"
    ⟨true, recW8⟩ rfl rfl rfl rfl
    (by
      have h : defineVec envW16.clp symsW = ["W=16"] := by decide
      rw [h]
      simp [recW8])

/-! ## C2 -/

/-- C2: `compareVectors a b` is true exactly when `b` is a permutation of `a`
(for any element type with a linear order: strings, or paths under the path
ordering).  Hence the result is the same for any rearrangement of either
argument, and it is false whenever some element occurs a different number of
times in `a` than in `b`. -/
theorem compareVectors_true_iff_perm {T : Type} [LinearOrder T] (a b : List T) :
    (compareVectors a b = true ↔ List.Perm b a) ∧
    (∀ a1 b1 : List T, List.Perm a1 a → List.Perm b1 b →
      compareVectors a1 b1 = compareVectors a b) ∧
    ((∃ x, List.count x a ≠ List.count x b) → compareVectors a b = false) := by
  refine ⟨?_, ?_, ?_⟩
  · rw [compareVectors_iff]; exact ⟨List.Perm.symm, List.Perm.symm⟩
  · intro a1 b1 ha hb
    have key : List.Perm a1 b1 ↔ List.Perm a b :=
      ⟨fun h => (ha.symm.trans h).trans hb, fun h => (ha.trans h).trans hb.symm⟩
    cases h : compareVectors a b
    · rw [compareVectors_eq_false_iff] at h ⊢
      exact fun h1 => h (key.mp h1)
    · rw [compareVectors_iff] at h ⊢
      exact key.mpr h
  · rintro ⟨x, hx⟩
    rw [compareVectors_eq_false_iff]
    intro hp
    exact hx (hp.count_eq x)

/-! ## C3 -/

/-- C3: in the regime where no shortcut applies (buffer present with the PP
magic, not parse-only, not low-memory, not no-hash, file not precompiled),
`PPCache::checkCacheIsValid_` returns hit exactly when the header check against
schema version `"1.2"` passes, the cached include paths are a permutation of
the current ones, the cached defines are a permutation of the current ones, and
the walk over the record's includes list validates every include as a hit.  It
returns miss at the first of the header, include-path and define checks that
fails, and otherwise the result of the walk over the includes.  When no file is
precompiled the walk is a hit exactly when each include validates as a hit, and
a miss at the first include that validates as a miss. -/
theorem PPCache.hit_iff_all_checks {P : Type} [LinearOrder P] (env : Env P)
    (symbols : SymbolTable) (fn : String) (fuel : Nat) (name : String) (buf : PPBuffer)
    (hpo : env.clp.m_parseOnly = false) (hlm : env.clp.m_lowMem = false)
    (hnh : env.clp.m_noCacheHash = false) (hid : buf.hasIdentifier = true) :
    ((∃ pre, PPCache.checkCacheIsValid_ env symbols fn (fuel + 1) name (some buf) false =
          some (true, pre)) ↔
        (env.checkIfCacheIsValid buf.ppcache.header "1.2" name = true ∧
         List.Perm (buf.ppcache.cmd_include_paths.map env.toPath)
           ((includePathVec env.clp symbols).map env.toPath) ∧
         List.Perm buf.ppcache.cmd_define_options (defineVec env.clp symbols) ∧
         ∃ pre, checkIncludes (PPCache.validateInclude env symbols fn fuel)
           (buf.ppcache.includes.getD []) false = some (true, pre))) ∧
    (env.checkIfCacheIsValid buf.ppcache.header "1.2" name = false →
      PPCache.checkCacheIsValid_ env symbols fn (fuel + 1) name (some buf) false =
        some (false, false)) ∧
    (¬ List.Perm (buf.ppcache.cmd_include_paths.map env.toPath)
          ((includePathVec env.clp symbols).map env.toPath) →
      PPCache.checkCacheIsValid_ env symbols fn (fuel + 1) name (some buf) false =
        some (false, false)) ∧
    (¬ List.Perm buf.ppcache.cmd_define_options (defineVec env.clp symbols) →
      PPCache.checkCacheIsValid_ env symbols fn (fuel + 1) name (some buf) false =
        some (false, false)) ∧
    (env.checkIfCacheIsValid buf.ppcache.header "1.2" name = true →
      List.Perm (buf.ppcache.cmd_include_paths.map env.toPath)
          ((includePathVec env.clp symbols).map env.toPath) →
      List.Perm buf.ppcache.cmd_define_options (defineVec env.clp symbols) →
      PPCache.checkCacheIsValid_ env symbols fn (fuel + 1) name (some buf) false =
        checkIncludes (PPCache.validateInclude env symbols fn fuel)
          (buf.ppcache.includes.getD []) false) ∧
    ((∀ f, env.isFilePrecompiled f = false) →
      ((∃ pre, checkIncludes (PPCache.validateInclude env symbols fn fuel)
            (buf.ppcache.includes.getD []) false = some (true, pre)) ↔
          ∀ inc ∈ buf.ppcache.includes.getD [],
            PPCache.validateInclude env symbols fn fuel inc false = some (true, false)) ∧
      (∀ l1 inc l2, buf.ppcache.includes.getD [] = l1 ++ inc :: l2 →
        (∀ x ∈ l1, PPCache.validateInclude env symbols fn fuel x false = some (true, false)) →
        PPCache.validateInclude env symbols fn fuel inc false = some (false, false) →
        checkIncludes (PPCache.validateInclude env symbols fn fuel)
          (buf.ppcache.includes.getD []) false = some (false, false))) := by
  have hv : FlbSchemaVersion = "1.2" := rfl
  have hmain := PPCache.checkCacheIsValid_succ env symbols fn fuel name buf false
  simp only [hpo, hlm, hnh, hid, hv] at hmain
  have hwalk : (match buf.ppcache.includes with
      | none => some (true, false)
      | some includes =>
        checkIncludes (PPCache.validateInclude env symbols fn fuel) includes false) =
      checkIncludes (PPCache.validateInclude env symbols fn fuel)
        (buf.ppcache.includes.getD []) false := by
    cases buf.ppcache.includes <;> simp [checkIncludes]
  rw [hwalk] at hmain
  rw [hmain]
  have hi := compareVectors_iff ((includePathVec env.clp symbols).map env.toPath)
    (buf.ppcache.cmd_include_paths.map env.toPath)
  have hd := compareVectors_iff (defineVec env.clp symbols) buf.ppcache.cmd_define_options
  have hi2 : List.Perm (buf.ppcache.cmd_include_paths.map env.toPath)
      ((includePathVec env.clp symbols).map env.toPath) ↔
      compareVectors ((includePathVec env.clp symbols).map env.toPath)
        (buf.ppcache.cmd_include_paths.map env.toPath) = true :=
    ⟨fun h => hi.mpr h.symm, fun h => (hi.mp h).symm⟩
  have hd2 : List.Perm buf.ppcache.cmd_define_options (defineVec env.clp symbols) ↔
      compareVectors (defineVec env.clp symbols) buf.ppcache.cmd_define_options = true :=
    ⟨fun h => hd.mpr h.symm, fun h => (hd.mp h).symm⟩
  rw [hi2, hd2]
  refine ⟨?_, ?_, ?_, ?_, ?_, ?_⟩
  · cases env.checkIfCacheIsValid buf.ppcache.header "1.2" name <;>
      cases compareVectors ((includePathVec env.clp symbols).map env.toPath)
        (buf.ppcache.cmd_include_paths.map env.toPath) <;>
      cases compareVectors (defineVec env.clp symbols) buf.ppcache.cmd_define_options <;>
      simp
  · intro h; simp [h]
  · intro h
    cases env.checkIfCacheIsValid buf.ppcache.header "1.2" name <;> simp [h]
  · intro h
    cases env.checkIfCacheIsValid buf.ppcache.header "1.2" name <;>
      cases compareVectors ((includePathVec env.clp symbols).map env.toPath)
        (buf.ppcache.cmd_include_paths.map env.toPath) <;> simp [h]
  · intro h1 h2 h3; simp [h1, h2, h3]
  · intro hnp
    refine ⟨?_, ?_⟩
    · exact checkIncludes_hit_iff _
        (fun inc r p h => PPCache.validateInclude_state_false env symbols fn hnp fuel inc r p h)
        _
    · intro l1 inc l2 hl h1 h2
      rw [hl]
      exact checkIncludes_first_miss _ l1 inc l2 h1 h2

/-- C3 on the example: the cache saved with `W=16` and validated with `W=16` is
a hit: header, include paths and defines agree and there is no include. -/
theorem PPCache.hit_iff_all_checks_witness :
    ∃ pre, PPCache.checkCacheIsValid_ envW16 symsW "top.sv" 1 "cache/work/h/top.sv.slpp"
      (some ⟨true, recW16⟩) false = some (true, pre) :=
  (PPCache.hit_iff_all_checks envW16 symsW "top.sv" 0 "cache/work/h/top.sv.slpp"
    ⟨true, recW16⟩ rfl rfl rfl rfl).1.mpr
    ⟨by decide, by
      have h : List.map envW16.toPath (includePathVec envW16.clp symsW) = ["/inc"] := by decide
      rw [h]; exact List.Perm.refl _, by
      have h : defineVec envW16.clp symsW = ["W=16"] := by decide
      rw [h]; exact List.Perm.refl _, ⟨false, rfl⟩⟩

/-! ## C4 -/

theorem envCycle_paths_ok (rec : FbPPCache) (h : rec.cmd_include_paths = ["/inc"]) :
    compareVectors ((includePathVec envCycle.clp symsW).map envCycle.toPath)
      (rec.cmd_include_paths.map envCycle.toPath) = true := by
  rw [compareVectors_iff, h]
  have h : List.map envCycle.toPath (includePathVec envCycle.clp symsW) = ["/inc"] := by decide
  rw [h]; exact List.Perm.refl _

theorem envCycle_defines_ok (rec : FbPPCache) (h : rec.cmd_define_options = ["W=16"]) :
    compareVectors (defineVec envCycle.clp symsW) rec.cmd_define_options = true := by
  rw [compareVectors_iff, h]
  have h : defineVec envCycle.clp symsW = ["W=16"] := by decide
  rw [h]

theorem envCycle_step (fuel : Nat) (rec : FbPPCache) (name inc incName : String)
    (other : PPBuffer)
    (hp : rec.cmd_include_paths = ["/inc"]) (hd : rec.cmd_define_options = ["W=16"])
    (hi : rec.includes = some [inc]) (hh : rec.header.schemaVersion = "1.2")
    (hn : PPCache.getCacheFileName_ envCycle "a.sv" false inc = ⟨incName, "cache/work/h", false⟩)
    (ho : envCycle.openFlatBuffers incName = some other)
    (hb : PPCache.checkCacheIsValid_ envCycle symsW "a.sv" fuel incName (some other) false =
      none) :
    PPCache.checkCacheIsValid_ envCycle symsW "a.sv" (fuel + 1) name (some ⟨true, rec⟩) false =
      none := by
  rw [PPCache.checkCacheIsValid_succ]
  have h3 : PPCache.validateInclude envCycle symsW "a.sv" fuel inc false = none := by
    unfold PPCache.validateInclude PPCache.checkCacheIsValid_file
    rw [hn]
    simp only [ho]
    exact hb
  have h4 : envCycle.checkIfCacheIsValid rec.header FlbSchemaVersion name = true := by
    simp [envCycle, envW16, hh, FlbSchemaVersion]
  have h5 : envCycle.clp.m_parseOnly = false := rfl
  have h6 : envCycle.clp.m_lowMem = false := rfl
  have h7 : envCycle.clp.m_noCacheHash = false := rfl
  simp only [h4, h5, h6, h7, envCycle_paths_ok rec hp, envCycle_defines_ok rec hd, hi]
  simp [checkIncludes, h3]

theorem envCycle_never_returns (fuel : Nat) :
    PPCache.checkCacheIsValid_ envCycle symsW "a.sv" fuel "cache/work/h/a.sv.slpp"
        (some ⟨true, recA⟩) false = none ∧
    PPCache.checkCacheIsValid_ envCycle symsW "a.sv" fuel "cache/work/h/b.sv.slpp"
        (some ⟨true, recB⟩) false = none := by
  induction fuel with
  | zero => exact ⟨rfl, rfl⟩
  | succ fuel ih =>
    refine ⟨?_, ?_⟩
    · exact envCycle_step fuel recA _ "b.sv" "cache/work/h/b.sv.slpp" ⟨true, recB⟩ rfl rfl rfl rfl
        (by decide) (by decide) ih.2
    · exact envCycle_step fuel recB _ "a.sv" "cache/work/h/a.sv.slpp" ⟨true, recA⟩ rfl rfl rfl rfl
        (by decide) (by decide) ih.1

/-- C4, as stated, fails: on the circular include graph (the cache of `a.sv`
lists `b.sv`, the cache of `b.sv` lists `a.sv`), with both caches present and
passing their own checks, the validation of `a.sv` returns for no recursion
budget: the walk has no visited set and recurses forever. -/
theorem PPCache.circular_includes_never_return :
    envCycle.openFlatBuffers (PPCache.cacheNameOf envCycle "a.sv" "a.sv") = some ⟨true, recA⟩ ∧
    envCycle.openFlatBuffers (PPCache.cacheNameOf envCycle "a.sv" "b.sv") = some ⟨true, recB⟩ ∧
    (∀ fuel, PPCache.checkCacheIsValid_ envCycle symsW "a.sv" fuel
        (PPCache.cacheNameOf envCycle "a.sv" "a.sv")
        (envCycle.openFlatBuffers (PPCache.cacheNameOf envCycle "a.sv" "a.sv")) false = none) := by
  have ha : PPCache.cacheNameOf envCycle "a.sv" "a.sv" = "cache/work/h/a.sv.slpp" := by decide
  have hb : PPCache.cacheNameOf envCycle "a.sv" "b.sv" = "cache/work/h/b.sv.slpp" := by decide
  have hoa : envCycle.openFlatBuffers "cache/work/h/a.sv.slpp" = some ⟨true, recA⟩ := by decide
  have hob : envCycle.openFlatBuffers "cache/work/h/b.sv.slpp" = some ⟨true, recB⟩ := by decide
  rw [ha, hb, hoa]
  exact ⟨rfl, hob, fun fuel => (envCycle_never_returns fuel).1⟩

/-! ### Validation on an include graph without a cycle -/

theorem PPCache.getCacheFileName_name {P : Type} (env : Env P) (fn : String) (pre : Bool)
    (inc : String) :
    (PPCache.getCacheFileName_ env fn pre inc).cacheFileName = PPCache.cacheNameOf env fn inc := by
  rfl

theorem checkIncludes_mono (c1 c2 : String → Bool → Option (Bool × Bool))
    (h : ∀ inc pre r, c1 inc pre = some r → c2 inc pre = some r) :
    ∀ (l : List String) (pre : Bool) (r : Bool × Bool),
      checkIncludes c1 l pre = some r → checkIncludes c2 l pre = some r := by
  intro l
  induction l with
  | nil => intro pre r hr; simpa [checkIncludes] using hr
  | cons inc rest ih =>
    intro pre r hr
    unfold checkIncludes at hr ⊢
    cases hc : c1 inc pre with
    | none => simp [hc] at hr
    | some v =>
      rw [h inc pre v hc]
      rw [hc] at hr
      obtain ⟨b, q⟩ := v
      cases b with
      | false => exact hr
      | true => exact ih q r hr

theorem PPCache.checkCacheIsValid_mono_succ {P : Type} [LinearOrder P] (env : Env P)
    (symbols : SymbolTable) (fn : String) :
    ∀ (fuel : Nat) (name : String) (buffer : Option PPBuffer) (pre : Bool) (r : Bool × Bool),
      PPCache.checkCacheIsValid_ env symbols fn fuel name buffer pre = some r →
      PPCache.checkCacheIsValid_ env symbols fn (fuel + 1) name buffer pre = some r := by
  intro fuel
  induction fuel with
  | zero => intro name buffer pre r h; simp [PPCache.checkCacheIsValid_] at h
  | succ fuel ih =>
    intro name buffer pre r h
    cases buffer with
    | none => rw [PPCache.checkCacheIsValid_none] at h ⊢; exact h
    | some buf =>
      rw [PPCache.checkCacheIsValid_succ] at h ⊢
      split_ifs at h ⊢ <;> try exact h
      cases hinc : buf.ppcache.includes with
      | none => simp only [hinc] at h ⊢; exact h
      | some includes =>
        simp only [hinc] at h ⊢
        refine checkIncludes_mono _ _ ?_ includes pre r h
        intro inc p r1 h1
        unfold PPCache.validateInclude PPCache.checkCacheIsValid_file at h1 ⊢
        split_ifs at h1 ⊢
        first | exact h1 | exact ih _ _ _ r1 h1

theorem PPCache.checkCacheIsValid_mono {P : Type} [LinearOrder P] (env : Env P)
    (symbols : SymbolTable) (fn : String) (fuel fuel1 : Nat) (hle : fuel ≤ fuel1)
    (name : String) (buffer : Option PPBuffer) (pre : Bool) (r : Bool × Bool)
    (h : PPCache.checkCacheIsValid_ env symbols fn fuel name buffer pre = some r) :
    PPCache.checkCacheIsValid_ env symbols fn fuel1 name buffer pre = some r := by
  induction hle with
  | refl => exact h
  | step _ ih => exact PPCache.checkCacheIsValid_mono_succ env symbols fn _ name buffer pre r ih

theorem checkIncludes_total (c : String → Bool → Option (Bool × Bool)) :
    ∀ (l : List String), (∀ inc ∈ l, ∀ p, ∃ r, c inc p = some r) →
      ∀ p, ∃ r, checkIncludes c l p = some r := by
  intro l
  induction l with
  | nil => intro _ p; exact ⟨(true, p), rfl⟩
  | cons inc rest ih =>
    intro h p
    obtain ⟨⟨b, q⟩, hr⟩ := h inc (List.mem_cons_self _ _) p
    unfold checkIncludes
    rw [hr]
    cases b with
    | false => exact ⟨(false, q), rfl⟩
    | true => exact ih (fun x hx => h x (List.mem_cons_of_mem _ hx)) q

theorem PPCache.checkCacheIsValid_terminates {P : Type} [LinearOrder P] (env : Env P)
    (symbols : SymbolTable) (fn : String) (S : String → Prop) (rank : String → Nat)
    (hacyc : ∀ f, S f → ∀ inc ∈ PPCache.includesOf env fn f, S inc ∧ rank inc < rank f) :
    ∀ (bound : Nat) (name : String) (buffer : Option PPBuffer) (pre : Bool),
      (∀ inc ∈ PPCache.bufferIncludes buffer, S inc ∧ rank inc < bound) →
      ∃ r, PPCache.checkCacheIsValid_ env symbols fn (bound + 1) name buffer pre = some r := by
  intro bound
  induction bound using Nat.strong_induction_on with
  | _ bound ih =>
    intro name buffer pre hroot
    cases buffer with
    | none => exact ⟨(false, pre), rfl⟩
    | some buf =>
      rw [PPCache.checkCacheIsValid_succ]
      split_ifs <;> try exact ⟨_, rfl⟩
      cases hinc : buf.ppcache.includes with
      | none => exact ⟨_, rfl⟩
      | some includes =>
        simp only []
        apply checkIncludes_total
        intro inc hmem p
        have hlt : S inc ∧ rank inc < bound := by
          apply hroot
          simp [PPCache.bufferIncludes, hinc, hmem]
        unfold PPCache.validateInclude PPCache.checkCacheIsValid_file
        split_ifs
        show ∃ r, PPCache.checkCacheIsValid_ env symbols fn bound
          (PPCache.cacheNameOf env fn inc) (env.openFlatBuffers (PPCache.cacheNameOf env fn inc))
          (PPCache.getCacheFileName_ env fn p inc).isPrecompiled = some r
        obtain ⟨r, hr⟩ := ih (rank inc) hlt.2 (PPCache.cacheNameOf env fn inc)
          (env.openFlatBuffers (PPCache.cacheNameOf env fn inc))
          (PPCache.getCacheFileName_ env fn p inc).isPrecompiled
          (fun x hx => hacyc inc hlt.1 x hx)
        exact ⟨r, PPCache.checkCacheIsValid_mono env symbols fn _ _ (by omega) _ _ _ r hr⟩

theorem PPCache.reaches_of_include {P : Type} (env : Env P) (fn : String) (incs : List String)
    (inc : String) (hinc : inc ∈ incs) :
    ∀ f, PPCache.Reaches env fn (PPCache.includesOf env fn inc) f → PPCache.Reaches env fn incs f := by
  intro f h
  induction h with
  | direct hf => exact PPCache.Reaches.step (PPCache.Reaches.direct hinc) hf
  | step _ hf ih => exact PPCache.Reaches.step ih hf

theorem PPCache.reaches_decompose {P : Type} (env : Env P) (fn : String) (incs : List String) :
    ∀ f, PPCache.Reaches env fn incs f →
      ∃ inc ∈ incs, f = inc ∨ PPCache.Reaches env fn (PPCache.includesOf env fn inc) f := by
  intro f h
  induction h with
  | direct hf => exact ⟨_, hf, Or.inl rfl⟩
  | step _ hf ih =>
    obtain ⟨inc, hmem, hor⟩ := ih
    refine ⟨inc, hmem, Or.inr ?_⟩
    rcases hor with rfl | hr
    · exact PPCache.Reaches.direct hf
    · exact PPCache.Reaches.step hr hf

theorem PPCache.validateInclude_eq {P : Type} [LinearOrder P] (env : Env P)
    (symbols : SymbolTable) (fn : String)
    (hpo : env.clp.m_parseOnly = false) (hlm : env.clp.m_lowMem = false)
    (hnp : ∀ f, env.isFilePrecompiled f = false) (fuel : Nat) (inc : String) :
    PPCache.validateInclude env symbols fn fuel inc false =
      PPCache.checkCacheIsValid_ env symbols fn fuel (PPCache.cacheNameOf env fn inc)
        (env.openFlatBuffers (PPCache.cacheNameOf env fn inc)) false := by
  unfold PPCache.validateInclude PPCache.checkCacheIsValid_file
  simp only [hpo, hlm, PPCache.getCacheFileName_isPrecompiled_of_none env hnp,
    PPCache.getCacheFileName_name]
  rfl

theorem PPCache.checkCacheIsValid_regular {P : Type} [LinearOrder P] (env : Env P)
    (symbols : SymbolTable) (fn : String) (fuel : Nat) (name : String) (buf : PPBuffer)
    (hpo : env.clp.m_parseOnly = false) (hlm : env.clp.m_lowMem = false)
    (hnh : env.clp.m_noCacheHash = false) (hid : buf.hasIdentifier = true) :
    PPCache.checkCacheIsValid_ env symbols fn (fuel + 1) name (some buf) false =
      if env.checkIfCacheIsValid buf.ppcache.header FlbSchemaVersion name = true ∧
          List.Perm (buf.ppcache.cmd_include_paths.map env.toPath)
            ((includePathVec env.clp symbols).map env.toPath) ∧
          List.Perm buf.ppcache.cmd_define_options (defineVec env.clp symbols)
      then checkIncludes (PPCache.validateInclude env symbols fn fuel)
        (PPCache.bufferIncludes (some buf)) false
      else some (false, false) := by
  have hmain := PPCache.checkCacheIsValid_succ env symbols fn fuel name buf false
  simp only [hpo, hlm, hnh, hid] at hmain
  rw [hmain]
  have hi := compareVectors_iff ((includePathVec env.clp symbols).map env.toPath)
    (buf.ppcache.cmd_include_paths.map env.toPath)
  have hd := compareVectors_iff (defineVec env.clp symbols) buf.ppcache.cmd_define_options
  have hi2 : List.Perm (buf.ppcache.cmd_include_paths.map env.toPath)
      ((includePathVec env.clp symbols).map env.toPath) ↔
      compareVectors ((includePathVec env.clp symbols).map env.toPath)
        (buf.ppcache.cmd_include_paths.map env.toPath) = true :=
    ⟨fun h => hi.mpr h.symm, fun h => (hi.mp h).symm⟩
  have hd2 : List.Perm buf.ppcache.cmd_define_options (defineVec env.clp symbols) ↔
      compareVectors (defineVec env.clp symbols) buf.ppcache.cmd_define_options = true :=
    ⟨fun h => hd.mpr h.symm, fun h => (hd.mp h).symm⟩
  simp only [hi2, hd2]
  have hwalk : (match buf.ppcache.includes with
      | none => some (true, false)
      | some includes =>
        checkIncludes (PPCache.validateInclude env symbols fn fuel) includes false) =
      checkIncludes (PPCache.validateInclude env symbols fn fuel)
        (PPCache.bufferIncludes (some buf)) false := by
    have hb : PPCache.bufferIncludes (some buf) = buf.ppcache.includes.getD [] := rfl
    rw [hb]
    cases buf.ppcache.includes <;> simp [checkIncludes]
  rw [hwalk]
  cases env.checkIfCacheIsValid buf.ppcache.header FlbSchemaVersion name <;>
    cases compareVectors ((includePathVec env.clp symbols).map env.toPath)
      (buf.ppcache.cmd_include_paths.map env.toPath) <;>
    cases compareVectors (defineVec env.clp symbols) buf.ppcache.cmd_define_options <;>
    simp

theorem PPCache.hit_iff_reachable_valid {P : Type} [LinearOrder P] (env : Env P)
    (symbols : SymbolTable) (fn : String) (S : String → Prop) (rank : String → Nat)
    (hacyc : ∀ f, S f → ∀ inc ∈ PPCache.includesOf env fn f, S inc ∧ rank inc < rank f)
    (hpo : env.clp.m_parseOnly = false) (hlm : env.clp.m_lowMem = false)
    (hnh : env.clp.m_noCacheHash = false) (hnp : ∀ f, env.isFilePrecompiled f = false) :
    ∀ (bound : Nat) (name : String) (buffer : Option PPBuffer),
      (∀ inc ∈ PPCache.bufferIncludes buffer, S inc ∧ rank inc < bound) →
      ∀ r p, PPCache.checkCacheIsValid_ env symbols fn (bound + 1) name buffer false =
          some (r, p) →
        (r = true ↔
          (PPCache.IndividuallyValid env symbols name buffer ∧
           ∀ f, PPCache.Reaches env fn (PPCache.bufferIncludes buffer) f →
             PPCache.IndividuallyValid env symbols (PPCache.cacheNameOf env fn f)
               (env.openFlatBuffers (PPCache.cacheNameOf env fn f)))) := by
  intro bound
  induction bound using Nat.strong_induction_on with
  | _ bound ih =>
    intro name buffer hroot r p hres
    cases buffer with
    | none =>
      rw [PPCache.checkCacheIsValid_none] at hres
      have hr : r = false := by cases hres; rfl
      subst hr
      simp [PPCache.IndividuallyValid]
    | some buf =>
      cases hid : buf.hasIdentifier with
      | false =>
        rw [PPCache.checkCacheIsValid_succ] at hres
        simp only [hpo, hlm, hid] at hres
        have hr : r = false := by
          simp only [Bool.or_self, Bool.false_eq_true, if_false, Bool.not_false, if_true] at hres
          cases hres; rfl
        subst hr
        simp [PPCache.IndividuallyValid, hid]
      | true =>
        rw [PPCache.checkCacheIsValid_regular env symbols fn bound name buf hpo hlm hnh hid]
          at hres
        have hinc : ∀ inc ∈ PPCache.bufferIncludes (some buf),
            (PPCache.validateInclude env symbols fn bound inc false = some (true, false) ↔
              (PPCache.IndividuallyValid env symbols (PPCache.cacheNameOf env fn inc)
                  (env.openFlatBuffers (PPCache.cacheNameOf env fn inc)) ∧
                ∀ f, PPCache.Reaches env fn (PPCache.includesOf env fn inc) f →
                  PPCache.IndividuallyValid env symbols (PPCache.cacheNameOf env fn f)
                    (env.openFlatBuffers (PPCache.cacheNameOf env fn f)))) := by
          intro inc hmem
          have hlt := hroot inc hmem
          rw [PPCache.validateInclude_eq env symbols fn hpo hlm hnp]
          obtain ⟨⟨b1, p1⟩, hr1⟩ := PPCache.checkCacheIsValid_terminates env symbols fn S rank
            hacyc (rank inc) (PPCache.cacheNameOf env fn inc)
            (env.openFlatBuffers (PPCache.cacheNameOf env fn inc)) false
            (fun x hx => hacyc inc hlt.1 x hx)
          have hp1 := PPCache.checkCacheIsValid_state_false env symbols fn hnp _ _ _ b1 p1 hr1
          subst hp1
          have hih := ih (rank inc) hlt.2 (PPCache.cacheNameOf env fn inc)
            (env.openFlatBuffers (PPCache.cacheNameOf env fn inc))
            (fun x hx => hacyc inc hlt.1 x hx) b1 false hr1
          rw [PPCache.checkCacheIsValid_mono env symbols fn _ bound (by omega) _ _ _ _ hr1]
          have hih2 : b1 = true ↔
              (PPCache.IndividuallyValid env symbols (PPCache.cacheNameOf env fn inc)
                  (env.openFlatBuffers (PPCache.cacheNameOf env fn inc)) ∧
                ∀ f, PPCache.Reaches env fn (PPCache.includesOf env fn inc) f →
                  PPCache.IndividuallyValid env symbols (PPCache.cacheNameOf env fn f)
                    (env.openFlatBuffers (PPCache.cacheNameOf env fn f))) := hih
          rw [← hih2]
          simp
        have hwalk := checkIncludes_hit_iff (PPCache.validateInclude env symbols fn bound)
          (fun inc r p h => PPCache.validateInclude_state_false env symbols fn hnp bound inc r p h)
          (PPCache.bufferIncludes (some buf))
        have hreach : (∀ inc ∈ PPCache.bufferIncludes (some buf),
              PPCache.validateInclude env symbols fn bound inc false = some (true, false)) ↔
            ∀ f, PPCache.Reaches env fn (PPCache.bufferIncludes (some buf)) f →
              PPCache.IndividuallyValid env symbols (PPCache.cacheNameOf env fn f)
                (env.openFlatBuffers (PPCache.cacheNameOf env fn f)) := by
          constructor
          · intro h f hf
            obtain ⟨inc, hmem, hor⟩ := PPCache.reaches_decompose env fn _ f hf
            have h1 := (hinc inc hmem).mp (h inc hmem)
            rcases hor with rfl | hr
            · exact h1.1
            · exact h1.2 f hr
          · intro h inc hmem
            refine (hinc inc hmem).mpr ⟨h inc (PPCache.Reaches.direct hmem), ?_⟩
            intro f hf
            exact h f (PPCache.reaches_of_include env fn _ inc hmem f hf)
        rw [← hreach, ← hwalk]
        unfold PPCache.IndividuallyValid
        by_cases hc : env.checkIfCacheIsValid buf.ppcache.header FlbSchemaVersion name = true ∧
            List.Perm (buf.ppcache.cmd_include_paths.map env.toPath)
              ((includePathVec env.clp symbols).map env.toPath) ∧
            List.Perm buf.ppcache.cmd_define_options (defineVec env.clp symbols)
        · rw [if_pos hc] at hres
          rw [hres]
          constructor
          · intro hr
            subst hr
            exact ⟨⟨buf, rfl, hid, hc⟩, ⟨p, rfl⟩⟩
          · rintro ⟨_, ⟨q, hq⟩⟩
            cases hq
            rfl
        · rw [if_neg hc] at hres
          have hr : r = false := by cases hres; rfl
          subst hr
          constructor
          · intro h; cases h
          · rintro ⟨⟨b, hb, _, hb2⟩, _⟩
            cases hb
            exact absurd hb2 hc

/-- C4, amended: the walk has no visited set.  On an include graph without a
cycle (a set of files closed under the includes lists of the caches on disk,
with a rank that decreases along every include) the validation of a file of
the set returns for every large enough recursion budget, with one result.  In
the regime without shortcut and without precompiled files the result is hit
exactly when the cache of the file and the cache of every file reachable
through the includes lists is valid on its own. -/
theorem PPCache.validation_returns_on_acyclic_graph {P : Type} [LinearOrder P] (env : Env P)
    (symbols : SymbolTable) (fn : String) (S : String → Prop) (rank : String → Nat)
    (hacyc : ∀ f, S f → ∀ inc ∈ PPCache.includesOf env fn f, S inc ∧ rank inc < rank f)
    (f : String) (hf : S f) :
    (∀ pre, ∃ r, ∀ fuel, rank f < fuel →
      PPCache.checkCacheIsValid_ env symbols fn fuel (PPCache.cacheNameOf env fn f)
        (env.openFlatBuffers (PPCache.cacheNameOf env fn f)) pre = some r) ∧
    (env.clp.m_parseOnly = false → env.clp.m_lowMem = false → env.clp.m_noCacheHash = false →
      (∀ g, env.isFilePrecompiled g = false) →
      ∃ b, (∀ fuel, rank f < fuel →
          PPCache.checkCacheIsValid_ env symbols fn fuel (PPCache.cacheNameOf env fn f)
            (env.openFlatBuffers (PPCache.cacheNameOf env fn f)) false = some (b, false)) ∧
        (b = true ↔
          ∀ g, (g = f ∨ PPCache.Reaches env fn (PPCache.includesOf env fn f) g) →
            PPCache.IndividuallyValid env symbols (PPCache.cacheNameOf env fn g)
              (env.openFlatBuffers (PPCache.cacheNameOf env fn g)))) := by
  have hroot : ∀ inc ∈ PPCache.bufferIncludes
      (env.openFlatBuffers (PPCache.cacheNameOf env fn f)), S inc ∧ rank inc < rank f :=
    fun inc hinc => hacyc f hf inc hinc
  refine ⟨?_, ?_⟩
  · intro pre
    obtain ⟨r, hr⟩ := PPCache.checkCacheIsValid_terminates env symbols fn S rank hacyc (rank f)
      (PPCache.cacheNameOf env fn f) (env.openFlatBuffers (PPCache.cacheNameOf env fn f)) pre hroot
    exact ⟨r, fun fuel hfuel =>
      PPCache.checkCacheIsValid_mono env symbols fn _ fuel (by omega) _ _ _ r hr⟩
  · intro hpo hlm hnh hnp
    obtain ⟨⟨b, p⟩, hr⟩ := PPCache.checkCacheIsValid_terminates env symbols fn S rank hacyc
      (rank f) (PPCache.cacheNameOf env fn f)
      (env.openFlatBuffers (PPCache.cacheNameOf env fn f)) false hroot
    have hp := PPCache.checkCacheIsValid_state_false env symbols fn hnp _ _ _ b p hr
    subst hp
    refine ⟨b, fun fuel hfuel =>
      PPCache.checkCacheIsValid_mono env symbols fn _ fuel (by omega) _ _ _ _ hr, ?_⟩
    rw [PPCache.hit_iff_reachable_valid env symbols fn S rank hacyc hpo hlm hnh hnp (rank f)
      _ _ hroot b false hr]
    constructor
    · rintro ⟨h1, h2⟩ g (rfl | hg)
      · exact h1
      · exact h2 g hg
    · intro h
      exact ⟨h f (Or.inl rfl), fun g hg => h g (Or.inr hg)⟩

theorem envDiamond_closed :
    ∀ f, inDiamond f → ∀ inc ∈ PPCache.includesOf envDiamond "top.sv" f,
      inDiamond inc ∧ rankDiamond inc < rankDiamond f := by
  have h1 : PPCache.includesOf envDiamond "top.sv" "top.sv" = ["a.svh", "b.svh"] := by decide
  have h2 : PPCache.includesOf envDiamond "top.sv" "a.svh" = ["common.svh"] := by decide
  have h3 : PPCache.includesOf envDiamond "top.sv" "b.svh" = ["common.svh"] := by decide
  have h4 : PPCache.includesOf envDiamond "top.sv" "common.svh" = [] := by decide
  rintro f (rfl | rfl | rfl | rfl) inc hinc
  · rw [h1] at hinc
    simp at hinc
    rcases hinc with rfl | rfl
    · exact ⟨Or.inr (Or.inl rfl), by decide⟩
    · exact ⟨Or.inr (Or.inr (Or.inl rfl)), by decide⟩
  · rw [h2] at hinc
    simp at hinc
    subst hinc
    exact ⟨Or.inr (Or.inr (Or.inr rfl)), by decide⟩
  · rw [h3] at hinc
    simp at hinc
    subst hinc
    exact ⟨Or.inr (Or.inr (Or.inr rfl)), by decide⟩
  · rw [h4] at hinc
    simp at hinc

/-- C4, amended, on the include diamond of the spec (`top.sv` includes `a.svh`
and `b.svh`, both include `common.svh`): the validation of `top.sv` returns. -/
theorem PPCache.validation_returns_on_acyclic_graph_witness :
    ∃ r, ∀ fuel, rankDiamond "top.sv" < fuel →
      PPCache.checkCacheIsValid_ envDiamond symsW "top.sv" fuel
        (PPCache.cacheNameOf envDiamond "top.sv" "top.sv")
        (envDiamond.openFlatBuffers (PPCache.cacheNameOf envDiamond "top.sv" "top.sv")) false =
        some r :=
  (PPCache.validation_returns_on_acyclic_graph envDiamond symsW "top.sv" inDiamond rankDiamond
    envDiamond_closed "top.sv" (Or.inl rfl)).1 false

/-! ## Lemmas on the symbol store -/

theorem SymbolTable.extends_refl (t : SymbolTable) : t.Extends t :=
  ⟨[], by simp⟩

theorem SymbolTable.extends_trans {t1 t2 t3 : SymbolTable} (h1 : t1.Extends t2)
    (h2 : t2.Extends t3) : t1.Extends t3 := by
  obtain ⟨m1, h1⟩ := h1
  obtain ⟨m2, h2⟩ := h2
  exact ⟨m1 ++ m2, by rw [h2, h1, List.append_assoc]⟩

theorem SymbolTable.extends_registerSymbol (t : SymbolTable) (s : String) :
    t.Extends (t.registerSymbol s).2 := by
  unfold SymbolTable.registerSymbol
  split_ifs
  · exact SymbolTable.extends_refl t
  · exact ⟨[s], rfl⟩

theorem SymbolTable.live_registerSymbol (t : SymbolTable) (s : String) :
    (t.registerSymbol s).2.Live (t.registerSymbol s).1 := by
  unfold SymbolTable.registerSymbol SymbolTable.Live
  split_ifs with h
  · exact ⟨Nat.succ_pos _, List.indexOf_lt_length.mpr h⟩
  · simp

theorem SymbolTable.getSymbol_registerSymbol (t : SymbolTable) (s : String) :
    (t.registerSymbol s).2.getSymbol (t.registerSymbol s).1 = s := by
  unfold SymbolTable.registerSymbol
  split_ifs with h
  · simp only [SymbolTable.getSymbol]
    have hlt : List.indexOf s t.m_id2SymbolMap < t.m_id2SymbolMap.length :=
      List.indexOf_lt_length.mpr h
    rw [List.getD_eq_getElem _ _ hlt]
    exact List.indexOf_get hlt
  · simp [SymbolTable.getSymbol]

theorem SymbolTable.getSymbol_of_extends {t t1 : SymbolTable} (h : t.Extends t1)
    {id : SymbolId} (hl : t.Live id) : t1.getSymbol id = t.getSymbol id := by
  obtain ⟨more, hm⟩ := h
  obtain ⟨hpos, hle⟩ := hl
  cases id with
  | zero => exact absurd hpos (Nat.lt_irrefl 0)
  | succ k =>
    have hk : k < t.m_id2SymbolMap.length := hle
    simp only [SymbolTable.getSymbol, hm]
    rw [List.getD_eq_getElem _ _ (by rw [List.length_append]; omega),
      List.getD_eq_getElem _ _ hk, List.getElem_append_left hk]

theorem SymbolTable.getSymbol_registered {t T : SymbolTable} (s : String)
    (h : (t.registerSymbol s).2.Extends T) : T.getSymbol (t.registerSymbol s).1 = s := by
  rw [SymbolTable.getSymbol_of_extends h (SymbolTable.live_registerSymbol t s)]
  exact SymbolTable.getSymbol_registerSymbol t s

theorem mapAccum_extends {α β : Type} (f : SymbolTable → α → β × SymbolTable)
    (hf : ∀ (t : SymbolTable) (a : α), t.Extends (f t a).2) :
    ∀ (l : List α) (t : SymbolTable), t.Extends (mapAccum f t l).2 := by
  intro l
  induction l with
  | nil => intro t; exact SymbolTable.extends_refl t
  | cons a as ih =>
    intro t
    exact SymbolTable.extends_trans (hf t a) (ih (f t a).2)

theorem mapAccum_view {α β γ : Type} (f : SymbolTable → α → β × SymbolTable)
    (view : SymbolTable → β → γ) (g : α → γ)
    (hf : ∀ (t : SymbolTable) (a : α), t.Extends (f t a).2)
    (hv : ∀ (t : SymbolTable) (a : α) (T : SymbolTable), (f t a).2.Extends T →
      view T (f t a).1 = g a) :
    ∀ (l : List α) (t T : SymbolTable), (mapAccum f t l).2.Extends T →
      (mapAccum f t l).1.map (view T) = l.map g := by
  intro l
  induction l with
  | nil => intro t T _; rfl
  | cons a as ih =>
    intro t T hT
    have h1 : (f t a).2.Extends T :=
      SymbolTable.extends_trans (mapAccum_extends f hf as (f t a).2) hT
    simp only [mapAccum, List.map_cons]
    rw [hv t a T h1, ih (f t a).2 T hT]

theorem mapAccum_length {σ α β : Type} (f : σ → α → β × σ) :
    ∀ (l : List α) (s : σ), (mapAccum f s l).1.length = l.length := by
  intro l
  induction l with
  | nil => intro s; rfl
  | cons a as ih => intro s; simp [mapAccum, ih]

/-! ## Lemmas on decoding -/

theorem restoreLocation_extends (cs t : SymbolTable) (loc : FbLocation) :
    t.Extends (restoreLocation cs t loc).2 :=
  SymbolTable.extends_trans (SymbolTable.extends_registerSymbol _ _)
    (SymbolTable.extends_registerSymbol _ _)

theorem restoreErrorList_extends (cs t : SymbolTable) (errors : List FbError) :
    t.Extends (restoreErrorList cs t errors).2 := by
  unfold restoreErrorList
  apply mapAccum_extends
  intro t1 e
  exact mapAccum_extends _ (restoreLocation_extends cs) e.locations t1

theorem restoreTimeInfo_extends (cs t : SymbolTable) (fb : FbTimeInfo) :
    t.Extends (restoreTimeInfo cs t fb).2 :=
  SymbolTable.extends_registerSymbol _ _

theorem restoreLineTranslationInfo_extends (t : SymbolTable) (fb : FbLineTranslationInfo) :
    t.Extends (restoreLineTranslationInfo t fb).2 :=
  SymbolTable.extends_registerSymbol _ _

theorem restoreIncludeFileInfo_extends (t : SymbolTable) (fb : FbIncludeFileInfo) :
    t.Extends (restoreIncludeFileInfo t fb).2 :=
  SymbolTable.extends_registerSymbol _ _

theorem restoreVObject_extends (cs t : SymbolTable) (o : FbVObject) :
    t.Extends (restoreVObject cs t o).2 :=
  SymbolTable.extends_trans (SymbolTable.extends_registerSymbol _ _)
    (SymbolTable.extends_registerSymbol _ _)

theorem restoreVObjects_extends (objects : List FbVObject) (cs t : SymbolTable)
    (fc : FileContent) : t.Extends (restoreVObjects objects cs t fc).2 :=
  mapAccum_extends _ (restoreVObject_extends cs) objects t

theorem includeContext_ofCode_toCode (c : IncludeContext) :
    IncludeContext.ofCode (c.toCode % 4294967296) = c := by
  cases c <;> rfl

theorem includeAction_ofCode_toCode (a : IncludeAction) :
    IncludeAction.ofCode (a.toCode % 4294967296) = a := by
  cases a <;> rfl

theorem timeInfoType_ofCode_toCode (k : TimeInfoType) :
    TimeInfoType.ofCode (k.toCode % 65536) = k := by
  cases k <;> rfl

theorem timeUnit_ofCode_toCode (u : TimeUnit) : TimeUnit.ofCode (u.toCode % 65536) = u := by
  cases u <;> rfl

theorem elemType_ofCode_toCode (k : ElemType) : ElemType.ofCode k.toCode = k := by
  cases k <;> rfl

theorem restoreLineTranslations_view (canonical : SymbolTable)
    (infos : List LineTranslationInfo) (t T : SymbolTable)
    (hT : (mapAccum restoreLineTranslationInfo t
      (infos.map (cacheLineTranslationInfo canonical))).2.Extends T) :
    (mapAccum restoreLineTranslationInfo t
        (infos.map (cacheLineTranslationInfo canonical))).1.map
      (LineTranslationInfo.withStrings T) =
    infos.map (LineTranslationInfo.withStrings canonical) := by
  rw [mapAccum_view restoreLineTranslationInfo (LineTranslationInfo.withStrings)
    (fun fb => (fb.pretend_file, fb.original_line, fb.pretend_line))
    restoreLineTranslationInfo_extends ?_ _ t T hT]
  · rw [List.map_map]; rfl
  · intro t1 fb T1 h1
    simp only [LineTranslationInfo.withStrings, restoreLineTranslationInfo]
    rw [SymbolTable.getSymbol_registered fb.pretend_file h1]

theorem restoreIncludeFileInfos_view (canonical : SymbolTable)
    (infos : List IncludeFileInfo) (t T : SymbolTable)
    (hT : (mapAccum restoreIncludeFileInfo t
      (infos.map (cacheIncludeFileInfo canonical))).2.Extends T) :
    (mapAccum restoreIncludeFileInfo t
        (infos.map (cacheIncludeFileInfo canonical))).1.map
      (IncludeFileInfo.withStrings T) =
    infos.map (IncludeFileInfo.withStrings canonical) := by
  rw [mapAccum_view restoreIncludeFileInfo (IncludeFileInfo.withStrings)
    (fun fb => (IncludeContext.ofCode fb.context, fb.section_start_line, fb.section_file,
      fb.original_start_line, fb.original_start_column, fb.original_end_line,
      fb.original_end_column, IncludeAction.ofCode fb.action, fb.index_opening,
      fb.index_closing))
    restoreIncludeFileInfo_extends ?_ _ t T hT]
  · rw [List.map_map]
    apply List.map_congr_left
    intro info _
    simp only [Function.comp, cacheIncludeFileInfo, IncludeFileInfo.withStrings,
      includeContext_ofCode_toCode, includeAction_ofCode_toCode]
  · intro t1 fb T1 h1
    simp only [IncludeFileInfo.withStrings, restoreIncludeFileInfo]
    rw [SymbolTable.getSymbol_registered fb.section_file h1]

theorem restoreMacros_macros (pp : PreprocessFile) (macros : List FbMacro) :
    (restoreMacros pp macros).m_macros.map macroFields =
      pp.m_macros.map macroFields ++ macros.map (fun m =>
        (m.name, m.start_line, m.start_column, m.end_line, m.end_column, m.arguments,
          m.tokens)) := by
  unfold restoreMacros
  induction macros generalizing pp with
  | nil => simp
  | cons m ms ih =>
    simp only [List.foldl_cons, List.map_cons]
    rw [ih]
    simp [PreprocessFile.recordMacro, macroFields]

theorem restoreMacros_frame (pp : PreprocessFile) (macros : List FbMacro) :
    (restoreMacros pp macros).symbols = pp.symbols ∧
    (restoreMacros pp macros).errors = pp.errors ∧
    (restoreMacros pp macros).timeInfo = pp.timeInfo ∧
    (restoreMacros pp macros).ppFileContents = pp.ppFileContents ∧
    (restoreMacros pp macros).m_result = pp.m_result ∧
    (restoreMacros pp macros).m_lineTranslationVec = pp.m_lineTranslationVec ∧
    (restoreMacros pp macros).m_includeFileInfo = pp.m_includeFileInfo ∧
    (restoreMacros pp macros).m_fileContent = pp.m_fileContent ∧
    (restoreMacros pp macros).m_fileName = pp.m_fileName ∧
    (restoreMacros pp macros).m_fileId = pp.m_fileId ∧
    (restoreMacros pp macros).m_libraryName = pp.m_libraryName := by
  unfold restoreMacros
  induction macros generalizing pp with
  | nil => simp
  | cons m ms ih =>
    simp only [List.foldl_cons]
    have h := ih (pp.recordMacro m.name m.start_line m.start_column m.end_line m.end_column
      m.arguments m.tokens)
    simpa [PreprocessFile.recordMacro] using h

/-! ## Lemmas on `PPCache::restore_` -/

theorem PPCache.restore__succ {P : Type} (env : Env P) (fuel : Nat) (name : String)
    (buf : PPBuffer) (errorsOnly : Bool) (c : PPCache) :
    PPCache.restore_ env (fuel + 1) name (some buf) errorsOnly c =
      match (match buf.ppcache.includes with
        | none => some ({ c with m_pp := (c.m_pp.restoreRecordData buf.ppcache errorsOnly).2 } :
            PPCache)
        | some includes =>
          restoreIncludes (PPCache.restoreInclude env fuel errorsOnly) includes
            { c with m_pp := (c.m_pp.restoreRecordData buf.ppcache errorsOnly).2 }) with
      | none => none
      | some c6 =>
        some (true, { c6 with m_pp :=
          ((c6.m_pp.restoreBody errorsOnly buf.ppcache.body).restoreFileContent errorsOnly
            (c.m_pp.restoreRecordData buf.ppcache errorsOnly).1 buf.ppcache.objects) }) := by
  rfl

theorem PPCache.restore__none {P : Type} (env : Env P) (fuel : Nat) (name : String)
    (errorsOnly : Bool) (c : PPCache) :
    PPCache.restore_ env (fuel + 1) name none errorsOnly c = some (false, c) := by
  rfl

theorem PreprocessFile.restoreRecordData_frame (pp : PreprocessFile) (ppcache : FbPPCache)
    (errorsOnly : Bool) :
    (pp.restoreRecordData ppcache errorsOnly).2.m_fileName = pp.m_fileName ∧
    (pp.restoreRecordData ppcache errorsOnly).2.m_result = pp.m_result ∧
    (pp.restoreRecordData ppcache errorsOnly).2.m_fileContent = pp.m_fileContent ∧
    (pp.restoreRecordData ppcache errorsOnly).2.m_fileId = pp.m_fileId ∧
    (pp.restoreRecordData ppcache errorsOnly).2.m_libraryName = pp.m_libraryName ∧
    (pp.restoreRecordData ppcache errorsOnly).2.ppFileContents = pp.ppFileContents := by
  obtain ⟨_, _, _, h4, h5, _, _, h8, h9, h10, h11⟩ := restoreMacros_frame pp ppcache.macros
  cases errorsOnly <;>
    simp [PreprocessFile.restoreRecordData, PreprocessFile.restoreIncludeFileInfos,
      PreprocessFile.restoreLineTranslations, PreprocessFile.restoreTimeInfos,
      PreprocessFile.restoreErrors, h4, h5, h8, h9, h10, h11]

theorem restoreIncludes_absent {P : Type} (env : Env P) (fuel : Nat) (errorsOnly : Bool) :
    ∀ (l : List String) (c : PPCache),
      (∀ inc ∈ l, env.openFlatBuffers
        (PPCache.cacheNameOf env (c.m_pp.m_fileName LINE1) inc) = none) →
      ∃ pre, restoreIncludes (PPCache.restoreInclude env (fuel + 1) errorsOnly) l c =
        some { c with m_isPrecompiled := pre } := by
  intro l
  induction l with
  | nil => intro c _; exact ⟨c.m_isPrecompiled, rfl⟩
  | cons inc rest ih =>
    intro c h
    have h1 := h inc (List.mem_cons_self _ _)
    have hstep : PPCache.restoreInclude env (fuel + 1) errorsOnly inc c =
        some (false, { c with m_isPrecompiled :=
          (PPCache.getCacheFileName_ env (c.m_pp.m_fileName LINE1) c.m_isPrecompiled
            inc).isPrecompiled }) := by
      unfold PPCache.restoreInclude
      simp only [PPCache.getCacheFileName_name, h1]
      rfl
    simp only [restoreIncludes, hstep]
    obtain ⟨pre, hpre⟩ := ih { c with m_isPrecompiled :=
        (PPCache.getCacheFileName_ env (c.m_pp.m_fileName LINE1) c.m_isPrecompiled
          inc).isPrecompiled }
      (fun x hx => h x (List.mem_cons_of_mem _ hx))
    exact ⟨pre, hpre⟩

theorem PPCache.restore__of_absent_includes {P : Type} (env : Env P) (fuel : Nat)
    (name : String) (buf : PPBuffer) (errorsOnly : Bool) (c : PPCache)
    (habs : ∀ inc ∈ PPCache.bufferIncludes (some buf), env.openFlatBuffers
      (PPCache.cacheNameOf env (c.m_pp.m_fileName LINE1) inc) = none) :
    ∃ pre, PPCache.restore_ env (fuel + 2) name (some buf) errorsOnly c =
      some (true,
        { m_pp := (((c.m_pp.restoreRecordData buf.ppcache errorsOnly).2.restoreBody errorsOnly
            buf.ppcache.body).restoreFileContent errorsOnly
              (c.m_pp.restoreRecordData buf.ppcache errorsOnly).1 buf.ppcache.objects)
          m_isPrecompiled := pre }) := by
  rw [PPCache.restore__succ]
  cases hinc : buf.ppcache.includes with
  | none => exact ⟨c.m_isPrecompiled, rfl⟩
  | some includes =>
    obtain ⟨pre, hpre⟩ := restoreIncludes_absent env fuel errorsOnly includes
      { c with m_pp := (c.m_pp.restoreRecordData buf.ppcache errorsOnly).2 }
      (by
        intro inc hmem
        simp only [(PreprocessFile.restoreRecordData_frame c.m_pp buf.ppcache errorsOnly).1]
        apply habs
        simp [PPCache.bufferIncludes, hinc, hmem])
    simp only [hpre]
    exact ⟨pre, rfl⟩

theorem PreprocessFile.restoreRecordData_split (pp : PreprocessFile) (ppcache : FbPPCache)
    (errorsOnly : Bool) :
    ∃ pp3 : PreprocessFile,
      pp3.m_macros.map macroFields = pp.m_macros.map macroFields ++ ppcache.macros.map (fun m =>
        (m.name, m.start_line, m.start_column, m.end_line, m.end_column, m.arguments,
          m.tokens)) ∧
      pp3.m_lineTranslationVec = pp.m_lineTranslationVec ∧
      pp3.m_includeFileInfo = pp.m_includeFileInfo ∧
      pp3.m_result = pp.m_result ∧
      (errorsOnly = true → pp3.timeInfo = pp.timeInfo) ∧
      (pp.restoreRecordData ppcache errorsOnly).2 =
        (pp3.restoreLineTranslations ppcache.line_translation_vec).restoreIncludeFileInfos
          ppcache.include_file_info := by
  obtain ⟨_, _, h3, _, h5, h6, h7, _, _, _, _⟩ := restoreMacros_frame pp ppcache.macros
  have hm := restoreMacros_macros pp ppcache.macros
  cases errorsOnly with
  | true =>
    exact ⟨((restoreMacros pp ppcache.macros).restoreErrors ppcache.errors ppcache.symbols).2,
      hm, h6, h7, h5, fun _ => h3, rfl⟩
  | false =>
    exact ⟨(((restoreMacros pp ppcache.macros).restoreErrors ppcache.errors
        ppcache.symbols).2.restoreTimeInfos
        ((restoreMacros pp ppcache.macros).restoreErrors ppcache.errors ppcache.symbols).1
        ppcache.time_info),
      hm, h6, h7, h5, fun h => absurd h (by simp), rfl⟩

theorem PreprocessFile.restoreBody_frame (pp : PreprocessFile) (errorsOnly : Bool)
    (body : Option String) :
    (pp.restoreBody errorsOnly body).m_macros = pp.m_macros ∧
    (pp.restoreBody errorsOnly body).m_lineTranslationVec = pp.m_lineTranslationVec ∧
    (pp.restoreBody errorsOnly body).m_includeFileInfo = pp.m_includeFileInfo ∧
    (pp.restoreBody errorsOnly body).timeInfo = pp.timeInfo ∧
    (pp.restoreBody errorsOnly body).symbols = pp.symbols ∧
    (pp.restoreBody errorsOnly body).m_fileContent = pp.m_fileContent := by
  unfold PreprocessFile.restoreBody
  cases errorsOnly <;> cases body <;> simp [PreprocessFile.append]
  split_ifs <;> simp

theorem PreprocessFile.restoreBody_result (pp : PreprocessFile) (body : String) :
    (pp.restoreBody false (some body)).m_result = pp.m_result ++ body := by
  unfold PreprocessFile.restoreBody
  by_cases h : body.isEmpty = true
  · have hb : body = "" := (String.isEmpty_iff body).mp h
    simp only [h, Bool.not_true, Bool.false_eq_true, if_false, Bool.not_false, if_true]
    rw [hb, String.append_empty]
  · simp [h, PreprocessFile.append]

theorem PreprocessFile.restoreFileContent_frame (pp : PreprocessFile) (errorsOnly : Bool)
    (cs : SymbolTable) (objects : List FbVObject) :
    (pp.restoreFileContent errorsOnly cs objects).m_macros = pp.m_macros ∧
    (pp.restoreFileContent errorsOnly cs objects).m_result = pp.m_result ∧
    (pp.restoreFileContent errorsOnly cs objects).m_lineTranslationVec =
      pp.m_lineTranslationVec ∧
    (pp.restoreFileContent errorsOnly cs objects).m_includeFileInfo = pp.m_includeFileInfo ∧
    (pp.restoreFileContent errorsOnly cs objects).timeInfo = pp.timeInfo ∧
    pp.symbols.Extends (pp.restoreFileContent errorsOnly cs objects).symbols := by
  unfold PreprocessFile.restoreFileContent
  cases errorsOnly <;> cases hfc : pp.m_fileContent <;>
    simp [SymbolTable.extends_refl, restoreVObjects_extends]

theorem PPCache.pp_buffer_of_save_written {P : Type} (env : Env P) (c : PPCache)
    (cacheFileName : String) (buffer : PPBuffer)
    (hw : (PPCache.save env c).written = some (cacheFileName, buffer)) :
    buffer = ⟨true, PPCache.buildRecord env c.m_pp⟩ := by
  unfold PPCache.save at hw
  split_ifs at hw
  all_goals simp at hw
  exact hw.2.2.symm

/-! ## Lemmas on encoding -/

theorem SymbolTable.wellFormed_registerSymbol (t : SymbolTable) (s : String)
    (h : t.WellFormed) : (t.registerSymbol s).2.WellFormed := by
  unfold SymbolTable.registerSymbol SymbolTable.WellFormed
  split_ifs with hs
  · exact h
  · simp only []
    rw [List.nodup_append]
    refine ⟨h, List.nodup_singleton s, ?_⟩
    intro a ha hb
    simp at hb
    subst hb
    exact hs ha

theorem mapAccum_wellFormed {α β : Type} (f : SymbolTable → α → β × SymbolTable)
    (hf : ∀ (t : SymbolTable) (a : α), t.WellFormed → (f t a).2.WellFormed) :
    ∀ (l : List α) (t : SymbolTable), t.WellFormed → (mapAccum f t l).2.WellFormed := by
  intro l
  induction l with
  | nil => intro t h; exact h
  | cons a as ih => intro t h; exact ih (f t a).2 (hf t a h)

theorem restoreSymbols_aux (l : List String) :
    ∀ acc : List String, (acc ++ l).Nodup →
      l.foldl (fun t s => (SymbolTable.registerSymbol t s).2) ⟨acc⟩ = ⟨acc ++ l⟩ := by
  induction l with
  | nil => intro acc _; simp
  | cons s rest ih =>
    intro acc h
    have hs : s ∉ acc := by
      intro hmem
      rw [List.nodup_append] at h
      exact h.2.2 hmem (List.mem_cons_self _ _)
    have hreg : (SymbolTable.registerSymbol ⟨acc⟩ s).2 = ⟨acc ++ [s]⟩ := by
      simp [SymbolTable.registerSymbol, hs]
    simp only [List.foldl_cons, hreg]
    rw [ih (acc ++ [s]) (by simpa using h)]
    simp

theorem restoreSymbols_createSymbolCache (cs : SymbolTable) (h : cs.WellFormed) :
    restoreSymbols (createSymbolCache cs) = cs := by
  unfold restoreSymbols createSymbolCache SymbolTable.empty
  rw [restoreSymbols_aux cs.m_id2SymbolMap [] (by simpa using h)]
  simp

theorem cacheLocation_extends (canon t : SymbolTable) (loc : Location) :
    t.Extends (cacheLocation canon t loc).2 :=
  SymbolTable.extends_trans (SymbolTable.extends_registerSymbol _ _)
    (SymbolTable.extends_registerSymbol _ _)

theorem cacheLocation_wellFormed (canon t : SymbolTable) (loc : Location) (h : t.WellFormed) :
    (cacheLocation canon t loc).2.WellFormed :=
  SymbolTable.wellFormed_registerSymbol _ _ (SymbolTable.wellFormed_registerSymbol _ _ h)

theorem cacheErrors_wellFormed (t : SymbolTable) (errors : List Error) (canon : SymbolTable)
    (subject : SymbolId) (h : t.WellFormed) :
    (cacheErrors t errors canon subject).2.WellFormed := by
  unfold cacheErrors
  apply mapAccum_wellFormed _ _ _ _ h
  intro t1 e h1
  exact mapAccum_wellFormed _ (cacheLocation_wellFormed canon) e.m_locations t1 h1

theorem cacheTimeInfo_extends (canon t : SymbolTable) (info : TimeInfo) :
    t.Extends (cacheTimeInfo canon t info).2 :=
  SymbolTable.extends_registerSymbol _ _

theorem cacheTimeInfo_wellFormed (canon t : SymbolTable) (info : TimeInfo) (h : t.WellFormed) :
    (cacheTimeInfo canon t info).2.WellFormed :=
  SymbolTable.wellFormed_registerSymbol _ _ h

theorem cacheDesignElement_extends (canon t : SymbolTable) (e : DesignElement) :
    t.Extends (cacheDesignElement canon t e).2 :=
  SymbolTable.extends_trans (SymbolTable.extends_registerSymbol _ _)
    (SymbolTable.extends_trans (SymbolTable.extends_registerSymbol _ _)
      (SymbolTable.extends_registerSymbol _ _))

theorem cacheDesignElement_wellFormed (canon t : SymbolTable) (e : DesignElement)
    (h : t.WellFormed) : (cacheDesignElement canon t e).2.WellFormed :=
  SymbolTable.wellFormed_registerSymbol _ _ (SymbolTable.wellFormed_registerSymbol _ _
    (SymbolTable.wellFormed_registerSymbol _ _ h))

theorem cacheVObject_extends (canon t : SymbolTable) (o : VObject) :
    t.Extends (cacheVObject canon t o).2 :=
  SymbolTable.extends_trans (SymbolTable.extends_registerSymbol _ _)
    (SymbolTable.extends_registerSymbol _ _)

theorem cacheVObject_wellFormed (canon t : SymbolTable) (o : VObject) (h : t.WellFormed) :
    (cacheVObject canon t o).2.WellFormed :=
  SymbolTable.wellFormed_registerSymbol _ _ (SymbolTable.wellFormed_registerSymbol _ _ h)

theorem cacheVObjects_extends (fcontent : Option FileContent) (t canon : SymbolTable) :
    t.Extends (cacheVObjects fcontent t canon).2 := by
  unfold cacheVObjects
  cases fcontent with
  | none => exact SymbolTable.extends_refl t
  | some fc => exact mapAccum_extends _ (cacheVObject_extends canon) fc.m_objects t

theorem cacheVObjects_wellFormed (fcontent : Option FileContent) (t canon : SymbolTable)
    (h : t.WellFormed) : (cacheVObjects fcontent t canon).2.WellFormed := by
  unfold cacheVObjects
  cases fcontent with
  | none => exact h
  | some fc => exact mapAccum_wellFormed _ (cacheVObject_wellFormed canon) fc.m_objects t h

theorem cacheDesignElement_view (canon t T : SymbolTable) (e : DesignElement)
    (hT : (cacheDesignElement canon t e).2.Extends T) :
    (cacheDesignElement canon t e).1.withStrings T = e.withStrings canon := by
  have h4 : (((t.registerSymbol (canon.getSymbol e.m_timeInfo.m_fileId)).2.registerSymbol
      (canon.getSymbol e.m_name)).2.registerSymbol (canon.getSymbol e.m_fileId)).2.Extends T :=
    hT
  have h3 : ((t.registerSymbol (canon.getSymbol e.m_timeInfo.m_fileId)).2.registerSymbol
      (canon.getSymbol e.m_name)).2.Extends T :=
    SymbolTable.extends_trans (SymbolTable.extends_registerSymbol _ _) h4
  have h2 : (t.registerSymbol (canon.getSymbol e.m_timeInfo.m_fileId)).2.Extends T :=
    SymbolTable.extends_trans (SymbolTable.extends_registerSymbol _ _) h3
  simp only [FbDesignElement.withStrings, DesignElement.withStrings, TimeInfo.withStrings,
    cacheDesignElement, cacheTimeInfo, elemType_ofCode_toCode, timeInfoType_ofCode_toCode,
    timeUnit_ofCode_toCode]
  rw [SymbolTable.getSymbol_registered _ h2, SymbolTable.getSymbol_registered _ h3,
    SymbolTable.getSymbol_registered _ h4]

theorem restoreDesignElement_extends (cs : SymbolTable) (lib : String) (t : SymbolTable)
    (fb : FbDesignElement) : t.Extends (restoreDesignElement cs lib t fb).2 :=
  SymbolTable.extends_trans (SymbolTable.extends_registerSymbol _ _)
    (SymbolTable.extends_trans (SymbolTable.extends_registerSymbol _ _)
      (SymbolTable.extends_registerSymbol _ _))

theorem restoreDesignElement_view (cs : SymbolTable) (lib : String) (t T : SymbolTable)
    (fb : FbDesignElement) (hT : (restoreDesignElement cs lib t fb).2.Extends T) :
    ((restoreDesignElement cs lib t fb).1.1,
        (restoreDesignElement cs lib t fb).1.2.withStrings T) =
      (lib ++ "@" ++ (fb.withStrings cs).1, fb.withStrings cs) := by
  have h3 : (((t.registerSymbol (cs.getSymbol fb.name)).2.registerSymbol
      (cs.getSymbol fb.file_id)).2.registerSymbol
        (cs.getSymbol fb.time_info.file_id)).2.Extends T := hT
  have h2 : ((t.registerSymbol (cs.getSymbol fb.name)).2.registerSymbol
      (cs.getSymbol fb.file_id)).2.Extends T :=
    SymbolTable.extends_trans (SymbolTable.extends_registerSymbol _ _) h3
  have h1 : (t.registerSymbol (cs.getSymbol fb.name)).2.Extends T :=
    SymbolTable.extends_trans (SymbolTable.extends_registerSymbol _ _) h2
  simp only [FbDesignElement.withStrings, DesignElement.withStrings, TimeInfo.withStrings,
    restoreDesignElement, restoreTimeInfo]
  rw [SymbolTable.getSymbol_registered _ h1, SymbolTable.getSymbol_registered _ h2,
    SymbolTable.getSymbol_registered _ h3]

/-! ## C5 -/

/-- C5, as stated, fails: in parse-only mode with caching enabled the validator
called on an absent buffer reports miss, because the null test on the buffer
comes before the parse-only test. -/
theorem PPCache.parse_only_absent_buffer_is_miss :
    envParseOnly.clp.m_cacheAllowed = true ∧ envParseOnly.clp.m_parseOnly = true ∧
    PPCache.checkCacheIsValid_ envParseOnly symsW "top.sv" 1 "top.sv.slpp" none false =
      some (false, false) :=
  ⟨rfl, rfl, rfl⟩

/-- C5, amended: with parse-only or low-memory mode set, the validator returns
hit for every present buffer, with or without the PP magic and whatever the
header, include paths, defines and includes are; the overload that takes only
a file name returns hit without opening the file; on an absent buffer the
two-argument validator returns miss, and `PPCache::restore` returns false when
the cache file cannot be opened. -/
theorem PPCache.parse_only_or_low_mem_trusts_present_buffer {P : Type} [LinearOrder P]
    (env : Env P) (symbols : SymbolTable) (fn : String)
    (h : (env.clp.m_parseOnly || env.clp.m_lowMem) = true) :
    (∀ (fuel : Nat) (name : String) (buf : PPBuffer) (pre : Bool),
      PPCache.checkCacheIsValid_ env symbols fn (fuel + 1) name (some buf) pre =
        some (true, pre)) ∧
    (∀ (fuel : Nat) (name : String) (pre : Bool),
      PPCache.checkCacheIsValid_file env symbols fn fuel name pre = some (true, pre)) ∧
    (∀ (fuel : Nat) (name : String) (pre : Bool),
      PPCache.checkCacheIsValid_ env symbols fn (fuel + 1) name none pre =
        some (false, pre)) ∧
    (∀ (fuel : Nat) (errorsOnly : Bool) (c : PPCache),
      env.openFlatBuffers (PPCache.getCacheFileName_ env (c.m_pp.m_fileName LINE1)
        c.m_isPrecompiled "").cacheFileName = none →
      (PPCache.restore env fuel errorsOnly c).map Prod.fst = some false) := by
  refine ⟨?_, ?_, ?_, ?_⟩
  · intro fuel name buf pre
    rw [PPCache.checkCacheIsValid_succ, if_pos h]
  · intro fuel name pre
    unfold PPCache.checkCacheIsValid_file
    rw [if_pos h]
  · intro fuel name pre
    rfl
  · intro fuel errorsOnly c hopen
    unfold PPCache.restore
    split_ifs
    · rfl
    · rfl
    · simp only [hopen]
      rfl

/-- C5, amended, on the example: in parse-only mode a buffer without the PP
magic is a hit. -/
theorem PPCache.parse_only_or_low_mem_trusts_present_buffer_witness :
    PPCache.checkCacheIsValid_ envParseOnly symsW "top.sv" 1 "top.sv.slpp"
      (some ⟨false, recW8⟩) false = some (true, false) :=
  (PPCache.parse_only_or_low_mem_trusts_present_buffer envParseOnly symsW "top.sv" rfl).1
    0 "top.sv.slpp" ⟨false, recW8⟩ false

/-! ## C6 -/

/-- C6, as stated, fails: for a cache marked precompiled whose header check
fails, both validators return hit. -/
theorem precompiled_with_failing_header_is_hit :
    envStale.checkIfCacheIsValid recW8.header FlbSchemaVersion "pkg/work/top.sv.slpp" = false ∧
    PPCache.checkCacheIsValid_ envStale symsW "top.sv" 1 "pkg/work/top.sv.slpp"
      (some ⟨true, recW8⟩) true = some (true, true) ∧
    envStale.checkIfCacheIsValid recParse.header FlbSchemaVersion "pkg/work/top.sv.slpa" = false ∧
    ParseCache.checkCacheIsValid_ envStale "pkg/work/top.sv.slpa" (some ⟨true, recParse⟩) true =
      true :=
  ⟨rfl, rfl, rfl, rfl⟩

/-- C6, amended: for a cache marked precompiled, with none of parse-only,
low-memory and no-hash set, the PP and Parse validators do not run the header
check: on a present buffer they return hit exactly when the buffer carries the
identifier magic, whatever the header, include paths, defines and includes are,
and they return miss on an absent buffer. -/
theorem precompiled_trusts_magic_only {P : Type} [LinearOrder P] (env : Env P)
    (symbols : SymbolTable) (fn : String)
    (hpo : env.clp.m_parseOnly = false) (hlm : env.clp.m_lowMem = false)
    (hnh : env.clp.m_noCacheHash = false) :
    (∀ (fuel : Nat) (name : String) (buf : PPBuffer),
      PPCache.checkCacheIsValid_ env symbols fn (fuel + 1) name (some buf) true =
        some (buf.hasIdentifier, true)) ∧
    (∀ (name : String) (buf : ParseBuffer),
      ParseCache.checkCacheIsValid_ env name (some buf) true = buf.hasIdentifier) ∧
    (∀ (fuel : Nat) (name : String),
      PPCache.checkCacheIsValid_ env symbols fn (fuel + 1) name none true = some (false, true)) ∧
    (∀ (name : String), ParseCache.checkCacheIsValid_ env name none true = false) := by
  refine ⟨?_, ?_, ?_, ?_⟩
  · intro fuel name buf
    rw [PPCache.checkCacheIsValid_succ]
    cases hb : buf.hasIdentifier <;> simp [hpo, hlm, hnh]
  · intro name buf
    unfold ParseCache.checkCacheIsValid_
    cases hb : buf.hasIdentifier <;> simp [hnh, hb]
  · intro fuel name; rfl
  · intro name; rfl

/-- C6, amended, on the example: a precompiled cache with the PP magic is a hit
although its header check fails. -/
theorem precompiled_trusts_magic_only_witness :
    PPCache.checkCacheIsValid_ envStale symsW "top.sv" 1 "pkg/work/top.sv.slpp"
      (some ⟨true, recW8⟩) true = some (true, true) :=
  (precompiled_trusts_magic_only envStale symsW "top.sv" rfl rfl rfl).1
    0 "pkg/work/top.sv.slpp" ⟨true, recW8⟩

/-! ## C7 -/

/-- C7: with no-hash mode set (and, for the PP cache, neither parse-only nor
low-memory), on every present buffer the PP and Parse validators return hit
exactly when the buffer carries the identifier magic of its cache kind; the
header, the include paths, the defines, the includes and the precompiled mark
play no part. -/
theorem no_hash_hit_iff_magic {P : Type} [LinearOrder P] (env : Env P)
    (symbols : SymbolTable) (fn : String)
    (hnh : env.clp.m_noCacheHash = true)
    (hpo : env.clp.m_parseOnly = false) (hlm : env.clp.m_lowMem = false) :
    (∀ (fuel : Nat) (name : String) (buf : PPBuffer) (pre : Bool),
      PPCache.checkCacheIsValid_ env symbols fn (fuel + 1) name (some buf) pre =
        some (buf.hasIdentifier, pre)) ∧
    (∀ (name : String) (buf : ParseBuffer) (pre : Bool),
      ParseCache.checkCacheIsValid_ env name (some buf) pre = buf.hasIdentifier) := by
  refine ⟨?_, ?_⟩
  · intro fuel name buf pre
    rw [PPCache.checkCacheIsValid_succ]
    cases hb : buf.hasIdentifier <;> simp [hpo, hlm, hnh]
  · intro name buf pre
    unfold ParseCache.checkCacheIsValid_
    cases hb : buf.hasIdentifier <;> simp [hnh, hb]

/-- C7 on the example: in no-hash mode a stale cache with the PP magic and with
the defines of another run is a hit. -/
theorem no_hash_hit_iff_magic_witness :
    PPCache.checkCacheIsValid_ envNoHash symsW "top.sv" 1 "cache/work/top.sv.slpp"
      (some ⟨true, recW8⟩) false = some (true, false) :=
  (no_hash_hit_iff_magic envNoHash symsW "top.sv" rfl rfl rfl).1
    0 "cache/work/top.sv.slpp" ⟨true, recW8⟩ false

/-! ## C9 -/

theorem ParseCache.parse_buffer_of_save_written {P : Type} (env : Env P) (c : ParseCache)
    (cacheFileName : String) (buffer : ParseBuffer)
    (hw : (ParseCache.save env c).written = some (cacheFileName, buffer)) :
    ∃ orig subj, buffer =
      ⟨true, ParseCache.buildRecord env c.m_parse orig (ParseCache.save env c).symbols subj⟩ := by
  by_cases h1 : env.clp.m_cacheAllowed = true
  · by_cases h2 : overCapacity c.m_parse.m_fileContent env.Capacity = true
    · simp [ParseCache.save, h1, h2] at hw
    · by_cases h3 : containsChars "@@BAD_SYMBOL@@".data
          (ParseCache.getCacheFileName_ env c.m_parse.m_ppFileName c.m_isPrecompiled
            "").cacheFileName.data = true
      · simp [ParseCache.save, h1, h2, h3] at hw
      · by_cases h4 : env.saveFlatbuffers
            (ParseCache.getCacheFileName_ env c.m_parse.m_ppFileName c.m_isPrecompiled
              "").cacheFileName = true
        · simp only [ParseCache.save, h1, h2, h3, h4, Bool.not_true, Bool.false_eq_true,
            if_false, if_true, Option.some.injEq, Prod.mk.injEq] at hw ⊢
          exact ⟨_, _, hw.2.symm⟩
        · simp [ParseCache.save, h1, h2, h3, h4] at hw
  · simp [ParseCache.save, h1] at hw

theorem ParseCache.restore__elements (buf : ParseBuffer) (c : ParseCache) :
    (ParseCache.restore_ (some buf) c).1 = true ∧
    (ParseCache.restore_ (some buf) c).2.m_parse.m_fileContent.map
        (fun fc => (fc.m_libraryName, fc.m_elements)) =
      some (c.m_parse.contentLibrary, c.m_parse.contentElements ++
        (mapAccum (restoreDesignElement (restoreSymbols buf.parsecache.symbols)
          c.m_parse.contentLibrary)
          (restoreErrorList (restoreSymbols buf.parsecache.symbols) c.m_parse.symbols
            buf.parsecache.errors).2 buf.parsecache.elements).1) ∧
    (mapAccum (restoreDesignElement (restoreSymbols buf.parsecache.symbols)
        c.m_parse.contentLibrary)
        (restoreErrorList (restoreSymbols buf.parsecache.symbols) c.m_parse.symbols
          buf.parsecache.errors).2 buf.parsecache.elements).2.Extends
      (ParseCache.restore_ (some buf) c).2.m_parse.symbols := by
  unfold ParseFile.contentLibrary ParseFile.contentElements
  cases hfc : c.m_parse.m_fileContent with
  | none =>
    refine ⟨rfl, ?_, ?_⟩
    · simp [ParseCache.restore_, hfc, restoreVObjects]
    · simp only [ParseCache.restore_, hfc]
      exact restoreVObjects_extends _ _ _ _
  | some fc0 =>
    refine ⟨rfl, ?_, ?_⟩
    · simp [ParseCache.restore_, hfc, restoreVObjects]
    · simp only [ParseCache.restore_, hfc]
      exact restoreVObjects_extends _ _ _ _

/-- C9: for every file content, restoring from what `ParseCache::save` wrote
returns true and appends to the file content one design element per saved
element, in the same order, with equal name string, file string, element kind,
unique id, begin line and column, end line and column, parent node id, root
node id, default net type and time-info (kind, file string, line, unit, unit
value, precision, precision value), each inserted under the key
`<library>@<name>`, where the library is that of the file content restored
into.  That is the key the parser's `addDesignElement` registers an element
under: it inserts under `<library>@<name>` an element whose name symbol
reads `<name>`.  Strings on the saving side are read in the symbol table as
`save` leaves it. -/
theorem ParseCache.save_restore_design_elements {P : Type} (envSave : Env P)
    (saved fresh : ParseCache) (cacheFileName : String) (buffer : ParseBuffer)
    (hw : (ParseCache.save envSave saved).written = some (cacheFileName, buffer)) :
    (∃ (fcR : FileContent) (added : List (String × DesignElement)),
      (ParseCache.restore_ (some buffer) fresh).1 = true ∧
      (ParseCache.restore_ (some buffer) fresh).2.m_parse.m_fileContent = some fcR ∧
      fcR.m_libraryName = fresh.m_parse.contentLibrary ∧
      fcR.m_elements = fresh.m_parse.contentElements ++ added ∧
      added.map (fun ke => (ke.1, ke.2.withStrings
          (ParseCache.restore_ (some buffer) fresh).2.m_parse.symbols)) =
        (designElementsOf saved.m_parse.m_fileContent).map (fun e =>
          (fresh.m_parse.contentLibrary ++ "@" ++
              (ParseCache.save envSave saved).symbols.getSymbol e.m_name,
            e.withStrings (ParseCache.save envSave saved).symbols))) ∧
    (∀ (libraryName : String) (symbols : SymbolTable) (fileContent : FileContent)
        (site : ElementSite) (elemName : String) (elemtype : ElemType),
      ∃ e, (SV3_1aTreeShapeHelper.addDesignElement libraryName symbols fileContent site
            elemName elemtype).1.m_elements =
          fileContent.m_elements ++ [(libraryName ++ "@" ++ elemName, e)] ∧
        (SV3_1aTreeShapeHelper.addDesignElement libraryName symbols fileContent site
            elemName elemtype).2.getSymbol e.m_name = elemName) := by
  refine ⟨?_, ?_⟩
  · obtain ⟨orig, subj, hb⟩ := ParseCache.parse_buffer_of_save_written envSave saved cacheFileName
      buffer hw
    generalize (ParseCache.save envSave saved).symbols = TS at hb ⊢
    subst hb
    obtain ⟨h1, h24, h5⟩ := ParseCache.restore__elements
      ⟨true, ParseCache.buildRecord envSave saved.m_parse orig TS subj⟩ fresh
    cases hfcR : (ParseCache.restore_
        (some ⟨true, ParseCache.buildRecord envSave saved.m_parse orig TS subj⟩)
        fresh).2.m_parse.m_fileContent with
    | none => rw [hfcR] at h24; simp at h24
    | some fcR =>
    rw [hfcR] at h24
    simp only [Option.map_some', Option.some.injEq, Prod.mk.injEq] at h24
    obtain ⟨h3, h4⟩ := h24
    refine ⟨fcR, _, h1, rfl, h3, h4, ?_⟩
    have hwf0 : (cacheErrors SymbolTable.empty saved.m_parse.errors TS subj).2.WellFormed :=
      cacheErrors_wellFormed _ _ _ _ List.nodup_nil
    have hwfE := mapAccum_wellFormed _ (cacheDesignElement_wellFormed TS)
      (designElementsOf saved.m_parse.m_fileContent) _ hwf0
    have hwfF := cacheVObjects_wellFormed saved.m_parse.m_fileContent _ TS hwfE
    have hsym : restoreSymbols
        (ParseCache.buildRecord envSave saved.m_parse orig TS subj).symbols =
        (cacheVObjects saved.m_parse.m_fileContent
          (mapAccum (cacheDesignElement TS)
            (cacheErrors SymbolTable.empty saved.m_parse.errors TS subj).2
            (designElementsOf saved.m_parse.m_fileContent)).2 TS).2 :=
      restoreSymbols_createSymbolCache _ hwfF
    have hel : (ParseCache.buildRecord envSave saved.m_parse orig TS subj).elements =
        (mapAccum (cacheDesignElement TS)
          (cacheErrors SymbolTable.empty saved.m_parse.errors TS subj).2
          (designElementsOf saved.m_parse.m_fileContent)).1 := rfl
    simp only [] at h5 ⊢
    rw [hsym, hel] at h5 ⊢
    have hview := mapAccum_view
      (restoreDesignElement
        (cacheVObjects saved.m_parse.m_fileContent
          (mapAccum (cacheDesignElement TS)
            (cacheErrors SymbolTable.empty saved.m_parse.errors TS subj).2
            (designElementsOf saved.m_parse.m_fileContent)).2 TS).2
        fresh.m_parse.contentLibrary)
      (fun T (ke : String × DesignElement) => (ke.1, ke.2.withStrings T))
      (fun fb => (fresh.m_parse.contentLibrary ++ "@" ++ (fb.withStrings
          (cacheVObjects saved.m_parse.m_fileContent
            (mapAccum (cacheDesignElement TS)
              (cacheErrors SymbolTable.empty saved.m_parse.errors TS subj).2
              (designElementsOf saved.m_parse.m_fileContent)).2 TS).2).1,
        fb.withStrings
          (cacheVObjects saved.m_parse.m_fileContent
            (mapAccum (cacheDesignElement TS)
              (cacheErrors SymbolTable.empty saved.m_parse.errors TS subj).2
              (designElementsOf saved.m_parse.m_fileContent)).2 TS).2))
      (restoreDesignElement_extends _ _)
      (fun t fb T hT => restoreDesignElement_view _ _ t T fb hT)
      _ _ _ h5
    rw [hview]
    have hsave := mapAccum_view (cacheDesignElement TS)
      (fun T (fb : FbDesignElement) => fb.withStrings T)
      (fun e => e.withStrings TS)
      (cacheDesignElement_extends TS)
      (fun t e T hT => cacheDesignElement_view TS t T e hT)
      (designElementsOf saved.m_parse.m_fileContent)
      (cacheErrors SymbolTable.empty saved.m_parse.errors TS subj).2
      (cacheVObjects saved.m_parse.m_fileContent
        (mapAccum (cacheDesignElement TS)
          (cacheErrors SymbolTable.empty saved.m_parse.errors TS subj).2
          (designElementsOf saved.m_parse.m_fileContent)).2 TS).2
      (cacheVObjects_extends _ _ _)
    have hcomp : ∀ (l : List FbDesignElement) (cs : SymbolTable) (lib : String),
        l.map (fun fb => (lib ++ "@" ++ (fb.withStrings cs).1, fb.withStrings cs)) =
          (l.map (fun fb => fb.withStrings cs)).map (fun v => (lib ++ "@" ++ v.1, v)) := by
      intro l cs lib
      rw [List.map_map]
      rfl
    rw [hcomp, hsave, List.map_map]
    rfl
  · intro libraryName symbols fileContent site elemName elemtype
    refine ⟨_, rfl, ?_⟩
    exact SymbolTable.getSymbol_registerSymbol symbols elemName

/-- C9 on the example: module `m` of library `work`, registered by the parser
under `work@m`, is re-created from the saved cache in a later run. -/
theorem ParseCache.save_restore_design_elements_witness :
    ∃ (fcR : FileContent) (added : List (String × DesignElement)),
      (ParseCache.restore_ (some parseBufM) ⟨pfFresh, false⟩).1 = true ∧
      (ParseCache.restore_ (some parseBufM) ⟨pfFresh, false⟩).2.m_parse.m_fileContent =
        some fcR ∧
      fcR.m_libraryName = pfFresh.contentLibrary ∧
      fcR.m_elements = pfFresh.contentElements ++ added ∧
      added.map (fun ke => (ke.1, ke.2.withStrings
          (ParseCache.restore_ (some parseBufM) ⟨pfFresh, false⟩).2.m_parse.symbols)) =
        (designElementsOf pfSaved.m_fileContent).map (fun e =>
          (pfFresh.contentLibrary ++ "@" ++
              (ParseCache.save envW16 ⟨pfSaved, false⟩).symbols.getSymbol e.m_name,
            e.withStrings (ParseCache.save envW16 ⟨pfSaved, false⟩).symbols)) :=
  (ParseCache.save_restore_design_elements envW16 ⟨pfSaved, false⟩ ⟨pfFresh, false⟩
    "cache/work/top.sv.slpa" parseBufM (by decide)).1

/-! ## C8 -/

/-- C8, as stated, fails: `top.sv` includes `inc.svh`, and both cache files are
what `PPCache::save` wrote.  A full restore of the cache of `top.sv` into a
fresh preprocess file also restores the cache of `inc.svh` into it: the macro
list has two entries instead of one and the body is the body of the include
followed by the saved body. -/
theorem PPCache.restore_with_included_cache_differs :
    (PPCache.save envW16 ⟨ppTop, false⟩).written =
      some ("cache/work/h/top.sv.slpp", ⟨true, PPCache.buildRecord envW16 ppTop⟩) ∧
    (PPCache.save envW16 ⟨ppInc, false⟩).written =
      some ("cache/work/h/inc.svh.slpp", ⟨true, PPCache.buildRecord envW16 ppInc⟩) ∧
    (PPCache.restore_ envRestoreTop 2 "cache/work/h/top.sv.slpp"
        (some ⟨true, PPCache.buildRecord envW16 ppTop⟩) false ⟨ppFresh, false⟩).map
      (fun r => (r.1, r.2.m_pp.m_result, r.2.m_pp.m_macros.map macroFields)) =
      some (true, "wire w; wire w; module m; endmodule",
        [("DEPTH", 2, 1, 2, 20, ["n"], ["n", "", "+1"]), ("WIDTH", 1, 1, 1, 16, [], ["8", ""])]) ∧
    ppTop.m_result = "wire w; module m; endmodule" ∧
    ppTop.m_macros.map macroFields = [("DEPTH", 2, 1, 2, 20, ["n"], ["n", "", "+1"])] := by
  refine ⟨by decide, by decide, by rfl, by decide, by rfl⟩


/-- C8, amended: for every preprocess-file state, when none of the files of the
saved includes list has a cache file that can be opened at restore time (in
particular when the file includes nothing), a full restore into a fresh
preprocess file from exactly what `PPCache::save` wrote returns true and yields
a macro list, body text, line-translation list and include-file-info list
equal to the originals: same entries in the same order, macro by macro (name,
positions, ordered arguments, ordered tokens), all ten include-file-info
fields, original and pretend line, with symbols compared by their strings. -/
theorem PPCache.save_restore_roundtrip {P : Type} (envSave envRestore : Env P)
    (saved fresh : PPCache) (fuel : Nat) (name cacheFileName : String) (buffer : PPBuffer)
    (hw : (PPCache.save envSave saved).written = some (cacheFileName, buffer))
    (hfresh : fresh.m_pp.m_macros = [] ∧ fresh.m_pp.m_result = "" ∧
      fresh.m_pp.m_lineTranslationVec = [] ∧ fresh.m_pp.m_includeFileInfo = [])
    (habs : ∀ inc ∈ PPCache.bufferIncludes (some buffer), envRestore.openFlatBuffers
      (PPCache.cacheNameOf envRestore (fresh.m_pp.m_fileName LINE1) inc) = none) :
    ∃ restored, PPCache.restore_ envRestore (fuel + 2) name (some buffer) false fresh =
        some (true, restored) ∧
      restored.m_pp.m_macros.map macroFields = saved.m_pp.m_macros.map macroFields ∧
      restored.m_pp.m_result = saved.m_pp.m_result ∧
      restored.m_pp.m_lineTranslationVec.map
          (LineTranslationInfo.withStrings restored.m_pp.symbols) =
        saved.m_pp.m_lineTranslationVec.map
          (LineTranslationInfo.withStrings saved.m_pp.symbols) ∧
      restored.m_pp.m_includeFileInfo.map
          (IncludeFileInfo.withStrings restored.m_pp.symbols) =
        saved.m_pp.m_includeFileInfo.map
          (IncludeFileInfo.withStrings saved.m_pp.symbols) := by
  have hb := PPCache.pp_buffer_of_save_written envSave saved cacheFileName buffer hw
  subst hb
  obtain ⟨hfm, hfr, hfl, hfi⟩ := hfresh
  obtain ⟨pre, hres⟩ := PPCache.restore__of_absent_includes envRestore fuel name
    ⟨true, PPCache.buildRecord envSave saved.m_pp⟩ false fresh habs
  refine ⟨_, hres, ?_⟩
  obtain ⟨pp3, h3m, h3l, h3i, h3r, _, hd⟩ := PreprocessFile.restoreRecordData_split fresh.m_pp
    (PPCache.buildRecord envSave saved.m_pp) false
  simp only []
  rw [hd]
  generalize (fresh.m_pp.restoreRecordData (PPCache.buildRecord envSave saved.m_pp) false).1 = cs
  obtain ⟨fm, fr, fl, fi, _, fs⟩ := PreprocessFile.restoreFileContent_frame
    (((pp3.restoreLineTranslations
      (PPCache.buildRecord envSave saved.m_pp).line_translation_vec).restoreIncludeFileInfos
      (PPCache.buildRecord envSave saved.m_pp).include_file_info).restoreBody false
      (PPCache.buildRecord envSave saved.m_pp).body) false cs
    (PPCache.buildRecord envSave saved.m_pp).objects
  obtain ⟨bm, bl, bi, _, bs, _⟩ := PreprocessFile.restoreBody_frame
    ((pp3.restoreLineTranslations
      (PPCache.buildRecord envSave saved.m_pp).line_translation_vec).restoreIncludeFileInfos
      (PPCache.buildRecord envSave saved.m_pp).include_file_info) false
    (PPCache.buildRecord envSave saved.m_pp).body
  rw [bs] at fs
  rw [fm, fr, fl, fi, bm, bl, bi]
  have hlt : (PPCache.buildRecord envSave saved.m_pp).line_translation_vec =
      saved.m_pp.m_lineTranslationVec.map (cacheLineTranslationInfo saved.m_pp.symbols) := rfl
  have hii : (PPCache.buildRecord envSave saved.m_pp).include_file_info =
      saved.m_pp.m_includeFileInfo.map (cacheIncludeFileInfo saved.m_pp.symbols) := rfl
  have hbody : (PPCache.buildRecord envSave saved.m_pp).body = some saved.m_pp.m_result := rfl
  have hmac : (PPCache.buildRecord envSave saved.m_pp).macros =
      saved.m_pp.m_macros.map cacheMacro := rfl
  rw [hlt, hii, hbody] at fs ⊢
  rw [hmac] at h3m
  refine ⟨?_, ?_, ?_, ?_⟩
  · show pp3.m_macros.map macroFields = _
    rw [h3m, hfm, List.map_map]
    rfl
  · rw [PreprocessFile.restoreBody_result]
    show pp3.m_result ++ saved.m_pp.m_result = _
    rw [h3r, hfr, String.empty_append]
  · show (pp3.m_lineTranslationVec ++ (mapAccum restoreLineTranslationInfo pp3.symbols
        (saved.m_pp.m_lineTranslationVec.map
          (cacheLineTranslationInfo saved.m_pp.symbols))).1).map _ = _
    rw [h3l, hfl, List.nil_append]
    apply restoreLineTranslations_view
    refine SymbolTable.extends_trans ?_ fs
    exact mapAccum_extends _ restoreIncludeFileInfo_extends _ _
  · show (pp3.m_includeFileInfo ++ (mapAccum restoreIncludeFileInfo
        (mapAccum restoreLineTranslationInfo pp3.symbols
          (saved.m_pp.m_lineTranslationVec.map
            (cacheLineTranslationInfo saved.m_pp.symbols))).2
        (saved.m_pp.m_includeFileInfo.map (cacheIncludeFileInfo saved.m_pp.symbols))).1).map _
      = _
    rw [h3i, hfi, List.nil_append]
    apply restoreIncludeFileInfos_view
    exact fs

/-- C8, amended, on the example: the cache saved for `top.sv` (one macro with an
empty token, a body, one line translation, two include-file infos) restores
into a fresh preprocess file of a later run with equal lists. -/
theorem PPCache.save_restore_roundtrip_witness :
    ∃ restored, PPCache.restore_ envW16 2 "cache/work/h/top.sv.slpp"
        (some ⟨true, PPCache.buildRecord envW16 ppLeaf⟩) false ⟨ppFresh, false⟩ =
        some (true, restored) ∧
      restored.m_pp.m_macros.map macroFields = ppLeaf.m_macros.map macroFields ∧
      restored.m_pp.m_result = ppLeaf.m_result ∧
      restored.m_pp.m_lineTranslationVec.map
          (LineTranslationInfo.withStrings restored.m_pp.symbols) =
        ppLeaf.m_lineTranslationVec.map (LineTranslationInfo.withStrings ppLeaf.symbols) ∧
      restored.m_pp.m_includeFileInfo.map
          (IncludeFileInfo.withStrings restored.m_pp.symbols) =
        ppLeaf.m_includeFileInfo.map (IncludeFileInfo.withStrings ppLeaf.symbols) :=
  PPCache.save_restore_roundtrip envW16 envW16 ⟨ppLeaf, false⟩ ⟨ppFresh, false⟩ 0
    "cache/work/h/top.sv.slpp" "cache/work/h/top.sv.slpp"
    ⟨true, PPCache.buildRecord envW16 ppLeaf⟩ (by decide) ⟨rfl, rfl, rfl, rfl⟩
    (fun _ _ => rfl)

/-! ## C10 -/

theorem PPCache.grows_refl (errorsOnly : Bool) (c : PPCache) : PPCache.Grows errorsOnly c c :=
  ⟨le_refl _, le_refl _, le_refl _, fun _ => rfl⟩

theorem PPCache.grows_trans {errorsOnly : Bool} {c1 c2 c3 : PPCache}
    (h1 : PPCache.Grows errorsOnly c1 c2) (h2 : PPCache.Grows errorsOnly c2 c3) :
    PPCache.Grows errorsOnly c1 c3 :=
  ⟨le_trans h1.1 h2.1, le_trans h1.2.1 h2.2.1, le_trans h1.2.2.1 h2.2.2.1,
    fun h => (h2.2.2.2 h).trans (h1.2.2.2 h)⟩

theorem restoreIncludes_grows (errorsOnly : Bool)
    (one : String → PPCache → Option (Bool × PPCache))
    (hone : ∀ inc ci r, one inc ci = some r → PPCache.Grows errorsOnly ci r.2) :
    ∀ (l : List String) (c c1 : PPCache), restoreIncludes one l c = some c1 →
      PPCache.Grows errorsOnly c c1 := by
  intro l
  induction l with
  | nil =>
    intro c c1 h
    simp only [restoreIncludes, Option.some.injEq] at h
    subst h
    exact PPCache.grows_refl errorsOnly c
  | cons inc rest ih =>
    intro c c1 h
    unfold restoreIncludes at h
    cases hc : one inc c with
    | none => simp [hc] at h
    | some r =>
      simp only [hc] at h
      exact PPCache.grows_trans (hone inc c r hc) (ih r.2 c1 h)

theorem PreprocessFile.restoreRecordData_counts (pp : PreprocessFile) (ppcache : FbPPCache)
    (errorsOnly : Bool) :
    (pp.restoreRecordData ppcache errorsOnly).2.m_lineTranslationVec.length =
      pp.m_lineTranslationVec.length + ppcache.line_translation_vec.length ∧
    (pp.restoreRecordData ppcache errorsOnly).2.m_includeFileInfo.length =
      pp.m_includeFileInfo.length + ppcache.include_file_info.length ∧
    (pp.restoreRecordData ppcache errorsOnly).2.timeInfo.length =
      pp.timeInfo.length + (if errorsOnly then 0 else ppcache.time_info.length) ∧
    (errorsOnly = true → (pp.restoreRecordData ppcache errorsOnly).2.timeInfo = pp.timeInfo) := by
  obtain ⟨_, _, h3, _, _, h6, h7, _, _, _, _⟩ := restoreMacros_frame pp ppcache.macros
  cases errorsOnly <;>
    simp [PreprocessFile.restoreRecordData, PreprocessFile.restoreIncludeFileInfos,
      PreprocessFile.restoreLineTranslations, PreprocessFile.restoreTimeInfos,
      PreprocessFile.restoreErrors, h3, h6, h7, mapAccum_length]

theorem PPCache.restore__grows {P : Type} (env : Env P) (errorsOnly : Bool) :
    ∀ (fuel : Nat) (name : String) (buffer : Option PPBuffer) (c : PPCache)
      (r : Bool × PPCache),
      PPCache.restore_ env fuel name buffer errorsOnly c = some r →
      PPCache.Grows errorsOnly c r.2 ∧
      (∀ buf, buffer = some buf →
        c.m_pp.m_lineTranslationVec.length + buf.ppcache.line_translation_vec.length ≤
          r.2.m_pp.m_lineTranslationVec.length ∧
        c.m_pp.m_includeFileInfo.length + buf.ppcache.include_file_info.length ≤
          r.2.m_pp.m_includeFileInfo.length ∧
        c.m_pp.timeInfo.length + (if errorsOnly then 0 else buf.ppcache.time_info.length) ≤
          r.2.m_pp.timeInfo.length) := by
  intro fuel
  induction fuel with
  | zero => intro name buffer c r h; simp [PPCache.restore_] at h
  | succ fuel ih =>
    intro name buffer c r h
    cases buffer with
    | none =>
      rw [PPCache.restore__none] at h
      simp only [Option.some.injEq] at h
      subst h
      exact ⟨PPCache.grows_refl errorsOnly c, fun buf hb => by cases hb⟩
    | some buf =>
      rw [PPCache.restore__succ] at h
      obtain ⟨k1, k2, k3, k4⟩ := PreprocessFile.restoreRecordData_counts c.m_pp buf.ppcache
        errorsOnly
      have hwalk : ∀ c6 : PPCache,
          (match buf.ppcache.includes with
            | none => some ({ c with m_pp :=
                (c.m_pp.restoreRecordData buf.ppcache errorsOnly).2 } : PPCache)
            | some includes =>
              restoreIncludes (PPCache.restoreInclude env fuel errorsOnly) includes
                { c with m_pp := (c.m_pp.restoreRecordData buf.ppcache errorsOnly).2 }) =
            some c6 →
          PPCache.Grows errorsOnly
            { c with m_pp := (c.m_pp.restoreRecordData buf.ppcache errorsOnly).2 } c6 := by
        intro c6 h6
        cases hinc : buf.ppcache.includes with
        | none =>
          simp only [hinc, Option.some.injEq] at h6
          subst h6
          exact PPCache.grows_refl errorsOnly _
        | some includes =>
          simp only [hinc] at h6
          refine restoreIncludes_grows errorsOnly _ ?_ includes _ c6 h6
          intro inc ci r1 h1
          exact (ih _ _ _ _ h1).1
      cases hw : (match buf.ppcache.includes with
            | none => some ({ c with m_pp :=
                (c.m_pp.restoreRecordData buf.ppcache errorsOnly).2 } : PPCache)
            | some includes =>
              restoreIncludes (PPCache.restoreInclude env fuel errorsOnly) includes
                { c with m_pp := (c.m_pp.restoreRecordData buf.ppcache errorsOnly).2 }) with
      | none => rw [hw] at h; simp at h
      | some c6 =>
        rw [hw] at h
        simp only [Option.some.injEq] at h
        subst h
        obtain ⟨g1, g2, g3, g4⟩ := hwalk c6 hw
        obtain ⟨_, _, fl, fi, ft, _⟩ := PreprocessFile.restoreFileContent_frame
          (c6.m_pp.restoreBody errorsOnly buf.ppcache.body) errorsOnly
          (c.m_pp.restoreRecordData buf.ppcache errorsOnly).1 buf.ppcache.objects
        obtain ⟨_, bl, bi, bt, _, _⟩ := PreprocessFile.restoreBody_frame c6.m_pp errorsOnly
          buf.ppcache.body
        simp only [] at g1 g2 g3 g4
        have e1 : ((c6.m_pp.restoreBody errorsOnly buf.ppcache.body).restoreFileContent errorsOnly
            (c.m_pp.restoreRecordData buf.ppcache errorsOnly).1
            buf.ppcache.objects).m_lineTranslationVec = c6.m_pp.m_lineTranslationVec := by
          rw [fl, bl]
        have e2 : ((c6.m_pp.restoreBody errorsOnly buf.ppcache.body).restoreFileContent errorsOnly
            (c.m_pp.restoreRecordData buf.ppcache errorsOnly).1
            buf.ppcache.objects).m_includeFileInfo = c6.m_pp.m_includeFileInfo := by
          rw [fi, bi]
        have e3 : ((c6.m_pp.restoreBody errorsOnly buf.ppcache.body).restoreFileContent errorsOnly
            (c.m_pp.restoreRecordData buf.ppcache errorsOnly).1
            buf.ppcache.objects).timeInfo = c6.m_pp.timeInfo := by
          rw [ft, bt]
        refine ⟨⟨?_, ?_, ?_, ?_⟩, ?_⟩
        · simp only [e1]; omega
        · simp only [e2]; omega
        · simp only [e3]; omega
        · intro heo
          simp only [e3]
          rw [g4 heo, k4 heo]
        · intro b hb
          cases hb
          simp only [e1, e2, e3]
          refine ⟨by omega, by omega, by omega⟩

/-- C10, as stated, fails: a restore in errors-only mode of a cache record with
one line translation and two include-file infos adds them to a fresh
preprocess file. -/
theorem PPCache.errors_only_restores_line_and_include_info :
    (PPCache.restore_ envW16 1 "cache/work/h/top.sv.slpp"
        (some ⟨true, PPCache.buildRecord envW16 ppLeaf⟩) true ⟨ppFresh, false⟩).map
      (fun r => (r.1, r.2.m_pp.m_lineTranslationVec, r.2.m_pp.m_includeFileInfo)) =
      some (true, [⟨1, 1, 1⟩],
        [⟨IncludeContext.INCLUDE, 1, 2, 1, 1, 1, 19, IncludeAction.PUSH, 0, 1⟩,
         ⟨IncludeContext.INCLUDE, 2, 1, 1, 19, 1, 19, IncludeAction.POP, 1, 0⟩]) ∧
    ppFresh.m_lineTranslationVec = [] ∧ ppFresh.m_includeFileInfo = [] := by
  refine ⟨by rfl, rfl, rfl⟩

/-- C10, amended: when `PPCache::restore_` runs in errors-only mode no
time-scale directive is added to the compilation unit, neither by the record
nor by the caches of the included files restored in the same walk; with
errors-only off every time-scale directive of the record is registered.  The
line-translation entries and the include-file-info entries of the record are
added to the preprocess file in both modes. -/
theorem PPCache.errors_only_adds_no_time_info {P : Type} (env : Env P) (fuel : Nat)
    (name : String) (buf : PPBuffer) (errorsOnly : Bool) (c : PPCache) (r : Bool × PPCache)
    (h : PPCache.restore_ env fuel name (some buf) errorsOnly c = some r) :
    (errorsOnly = true → r.2.m_pp.timeInfo = c.m_pp.timeInfo) ∧
    (errorsOnly = false →
      c.m_pp.timeInfo.length + buf.ppcache.time_info.length ≤ r.2.m_pp.timeInfo.length) ∧
    c.m_pp.m_lineTranslationVec.length + buf.ppcache.line_translation_vec.length ≤
      r.2.m_pp.m_lineTranslationVec.length ∧
    c.m_pp.m_includeFileInfo.length + buf.ppcache.include_file_info.length ≤
      r.2.m_pp.m_includeFileInfo.length := by
  obtain ⟨hg, hown⟩ := PPCache.restore__grows env errorsOnly fuel name (some buf) c r h
  obtain ⟨h1, h2, h3⟩ := hown buf rfl
  refine ⟨hg.2.2.2, ?_, h1, h2⟩
  intro heo
  subst heo
  simpa using h3

/-- C10, amended, on the example: the errors-only restore of a cache record
that holds a timescale directive returns and leaves the time-infos of the
compilation unit as they were. -/
theorem PPCache.errors_only_adds_no_time_info_witness :
    (PPCache.buildRecord envW16 ppTimed).time_info.length = 1 ∧
    ∃ r, PPCache.restore_ envW16 1 "cache/work/h/top.sv.slpp"
        (some ⟨true, PPCache.buildRecord envW16 ppTimed⟩) true ⟨ppFresh, false⟩ = some r ∧
      r.2.m_pp.timeInfo = ppFresh.timeInfo := by
  refine ⟨by decide, ?_⟩
  cases h : PPCache.restore_ envW16 1 "cache/work/h/top.sv.slpp"
      (some ⟨true, PPCache.buildRecord envW16 ppTimed⟩) true ⟨ppFresh, false⟩ with
  | none =>
    have hs : (PPCache.restore_ envW16 1 "cache/work/h/top.sv.slpp"
        (some ⟨true, PPCache.buildRecord envW16 ppTimed⟩) true ⟨ppFresh, false⟩).isSome =
        true := by rfl
    rw [h] at hs
    exact absurd hs (by simp)
  | some r =>
    exact ⟨r, rfl, (PPCache.errors_only_adds_no_time_info envW16 1 "cache/work/h/top.sv.slpp"
      ⟨true, PPCache.buildRecord envW16 ppTimed⟩ true ⟨ppFresh, false⟩ r h).1 rfl⟩

/-! ## C11 -/

theorem overCapacity_of_lt (fc : FileContent) (capacity : Nat)
    (h : capacity < fc.m_objects.length) : overCapacity (some fc) capacity = true := by
  simp [overCapacity, h]

theorem overCapacity_of_le (fc : FileContent) (capacity : Nat)
    (h : fc.m_objects.length ≤ capacity) : overCapacity (some fc) capacity = false := by
  simp [overCapacity, h]

theorem PPCache.pp_save_over {P : Type} (env : Env P) (c : PPCache)
    (hca : env.clp.m_cacheAllowed = true)
    (h : overCapacity c.m_pp.m_fileContent env.Capacity = true) :
    PPCache.save env c =
      { status := false, cacheAllowed := false, errors := c.m_pp.errors ++ [capacityError]
        isPrecompiled := c.m_isPrecompiled, mkDirs := none, written := none } := by
  simp [PPCache.save, hca, h]

theorem PPCache.pp_save_within {P : Type} (env : Env P) (c : PPCache)
    (h : overCapacity c.m_pp.m_fileContent env.Capacity = false) :
    (PPCache.save env c).errors = c.m_pp.errors ∧
      (PPCache.save env c).cacheAllowed = env.clp.m_cacheAllowed := by
  unfold PPCache.save
  simp only [h]
  split_ifs <;> first | contradiction | simp

theorem ParseCache.parse_save_over {P : Type} (env : Env P) (c : ParseCache)
    (hca : env.clp.m_cacheAllowed = true)
    (h : overCapacity c.m_parse.m_fileContent env.Capacity = true) :
    ParseCache.save env c =
      { status := false, cacheAllowed := false, errors := c.m_parse.errors ++ [capacityError]
        isPrecompiled := c.m_isPrecompiled, symbols := c.m_parse.symbols, mkDirs := none
        written := none } := by
  simp [ParseCache.save, hca, h]

theorem ParseCache.parse_save_within {P : Type} (env : Env P) (c : ParseCache)
    (h : overCapacity c.m_parse.m_fileContent env.Capacity = false) :
    (ParseCache.save env c).errors = c.m_parse.errors ∧
      (ParseCache.save env c).cacheAllowed = env.clp.m_cacheAllowed := by
  unfold ParseCache.save
  simp only [h]
  split_ifs <;> first | contradiction | simp

/-- C11: with caching enabled, `PPCache::save` and `ParseCache::save` on a file
content with more than `Cache::Capacity` parse-tree nodes return false, write
no cache file, leave `cacheAllowed` false and add exactly the one error
`CMD_CACHE_CAPACITY_EXCEEDED`; with at most `Cache::Capacity` nodes (equality
included) the error container is as before and `cacheAllowed` stays true. -/
theorem save_capacity_check {P : Type} (env : Env P) (pc : PPCache) (qc : ParseCache)
    (hca : env.clp.m_cacheAllowed = true) :
    capacityError.m_errorId = ErrorType.CMD_CACHE_CAPACITY_EXCEEDED ∧
    (∀ fc, pc.m_pp.m_fileContent = some fc → env.Capacity < fc.m_objects.length →
      (PPCache.save env pc).status = false ∧ (PPCache.save env pc).written = none ∧
      (PPCache.save env pc).cacheAllowed = false ∧
      (PPCache.save env pc).errors = pc.m_pp.errors ++ [capacityError]) ∧
    (∀ fc, qc.m_parse.m_fileContent = some fc → env.Capacity < fc.m_objects.length →
      (ParseCache.save env qc).status = false ∧ (ParseCache.save env qc).written = none ∧
      (ParseCache.save env qc).cacheAllowed = false ∧
      (ParseCache.save env qc).errors = qc.m_parse.errors ++ [capacityError]) ∧
    (∀ fc, pc.m_pp.m_fileContent = some fc → fc.m_objects.length ≤ env.Capacity →
      (PPCache.save env pc).errors = pc.m_pp.errors ∧
      (PPCache.save env pc).cacheAllowed = true) ∧
    (∀ fc, qc.m_parse.m_fileContent = some fc → fc.m_objects.length ≤ env.Capacity →
      (ParseCache.save env qc).errors = qc.m_parse.errors ∧
      (ParseCache.save env qc).cacheAllowed = true) := by
  refine ⟨rfl, ?_, ?_, ?_, ?_⟩
  · intro fc hfc hlt
    have h := overCapacity_of_lt fc env.Capacity hlt
    rw [← hfc] at h
    rw [PPCache.pp_save_over env pc hca h]
    exact ⟨rfl, rfl, rfl, rfl⟩
  · intro fc hfc hlt
    have h := overCapacity_of_lt fc env.Capacity hlt
    rw [← hfc] at h
    rw [ParseCache.parse_save_over env qc hca h]
    exact ⟨rfl, rfl, rfl, rfl⟩
  · intro fc hfc hle
    have h := overCapacity_of_le fc env.Capacity hle
    rw [← hfc] at h
    have := PPCache.pp_save_within env pc h
    rw [hca] at this
    exact this
  · intro fc hfc hle
    have h := overCapacity_of_le fc env.Capacity hle
    rw [← hfc] at h
    have := ParseCache.parse_save_within env qc h
    rw [hca] at this
    exact this

/-- Witness for C11: with room for two nodes, saving three nodes is refused
with the one error and saving two nodes adds none, in both caches. -/
theorem save_capacity_check_witness :
    envSmall.clp.m_cacheAllowed = true ∧
    ((PPCache.save envSmall ⟨ppThreeNodes, false⟩).status = false ∧
      (PPCache.save envSmall ⟨ppThreeNodes, false⟩).written = none ∧
      (PPCache.save envSmall ⟨ppThreeNodes, false⟩).cacheAllowed = false ∧
      (PPCache.save envSmall ⟨ppThreeNodes, false⟩).errors = [capacityError]) ∧
    ((ParseCache.save envSmall ⟨pfThreeNodes, false⟩).status = false ∧
      (ParseCache.save envSmall ⟨pfThreeNodes, false⟩).written = none ∧
      (ParseCache.save envSmall ⟨pfThreeNodes, false⟩).cacheAllowed = false ∧
      (ParseCache.save envSmall ⟨pfThreeNodes, false⟩).errors = [capacityError]) ∧
    ((PPCache.save envSmall ⟨ppTwoNodes, false⟩).errors = [] ∧
      (PPCache.save envSmall ⟨ppTwoNodes, false⟩).cacheAllowed = true) ∧
    ((ParseCache.save envSmall ⟨pfTwoNodes, false⟩).errors = [] ∧
      (ParseCache.save envSmall ⟨pfTwoNodes, false⟩).cacheAllowed = true) :=
  have h := save_capacity_check envSmall ⟨ppThreeNodes, false⟩ ⟨pfThreeNodes, false⟩ rfl
  have k := save_capacity_check envSmall ⟨ppTwoNodes, false⟩ ⟨pfTwoNodes, false⟩ rfl
  ⟨rfl, h.2.1 _ rfl (by decide), h.2.2.1 _ rfl (by decide), k.2.2.2.1 _ rfl (by decide),
    k.2.2.2.2 _ rfl (by decide)⟩

/-! ## C12 -/

theorem SaveRun.step_disabled {P : Type} (env : Env P) (run : SaveRun) (call : SaveCall)
    (h : run.cacheAllowed = false) : SaveRun.step env run call = run := by
  cases run with
  | mk ca added written =>
    simp only at h
    subst h
    cases call <;> simp [SaveRun.step, PPCache.save, ParseCache.save]

theorem SaveRun.steps_disabled {P : Type} (env : Env P) (calls : List SaveCall) (run : SaveRun)
    (h : run.cacheAllowed = false) : SaveRun.steps env run calls = run := by
  induction calls with
  | nil => rfl
  | cons call rest ih =>
    show SaveRun.steps env (SaveRun.step env run call) rest = run
    rw [SaveRun.step_disabled env run call h]
    exact ih

theorem SaveRun.step_over {P : Type} (env : Env P) (run : SaveRun) (call : SaveCall)
    (h : run.cacheAllowed = true) (hover : call.overCapacity env = true) :
    SaveRun.step env run call =
      { cacheAllowed := false, added := run.added ++ [capacityError], written := run.written } := by
  cases call with
  | pp c =>
    have := PPCache.pp_save_over
      { env with clp := { env.clp with m_cacheAllowed := run.cacheAllowed } } c h hover
    simp [SaveRun.step, this]
  | parse c =>
    have := ParseCache.parse_save_over
      { env with clp := { env.clp with m_cacheAllowed := run.cacheAllowed } } c h hover
    simp [SaveRun.step, this]

theorem SaveRun.step_within {P : Type} (env : Env P) (run : SaveRun) (call : SaveCall)
    (hover : call.overCapacity env = false) :
    (SaveRun.step env run call).cacheAllowed = run.cacheAllowed ∧
      (SaveRun.step env run call).added = run.added := by
  cases call with
  | pp c =>
    have := PPCache.pp_save_within
      { env with clp := { env.clp with m_cacheAllowed := run.cacheAllowed } } c hover
    simp [SaveRun.step, this.1, this.2]
  | parse c =>
    have := ParseCache.parse_save_within
      { env with clp := { env.clp with m_cacheAllowed := run.cacheAllowed } } c hover
    simp [SaveRun.step, this.1, this.2]

theorem SaveRun.steps_invariant {P : Type} (env : Env P) (calls : List SaveCall) (run : SaveRun)
    (h : (run.cacheAllowed = true ∧ run.added = []) ∨
      (run.cacheAllowed = false ∧ run.added = [capacityError])) :
    ((SaveRun.steps env run calls).cacheAllowed = true ∧
        (SaveRun.steps env run calls).added = []) ∨
      ((SaveRun.steps env run calls).cacheAllowed = false ∧
        (SaveRun.steps env run calls).added = [capacityError]) := by
  induction calls generalizing run with
  | nil => exact h
  | cons call rest ih =>
    show _ ∨ _
    apply ih
    rcases h with ⟨h1, h2⟩ | ⟨h1, h2⟩
    · cases hover : call.overCapacity env
      · left
        have := SaveRun.step_within env run call hover
        exact ⟨this.1.trans h1, this.2.trans h2⟩
      · right
        rw [SaveRun.step_over env run call h1 hover]
        exact ⟨rfl, by simp [h2]⟩
    · right
      rw [SaveRun.step_disabled env run call h1]
      exact ⟨h1, h2⟩

theorem SaveRun.steps_append {P : Type} (env : Env P) (run : SaveRun)
    (a b : List SaveCall) :
    SaveRun.steps env run (a ++ b) = SaveRun.steps env (SaveRun.steps env run a) b := by
  simp [SaveRun.steps, List.foldl_append]

/-- C12: over any sequence of `PPCache::save` and `ParseCache::save` calls on
one command line that starts with caching enabled, the calls together add
either no error or the one `CMD_CACHE_CAPACITY_EXCEEDED`; the first
over-capacity save adds it and turns `cacheAllowed` off, and from a command
line with `cacheAllowed` off every later sequence of saves adds no error,
writes no cache file and leaves the flag off. -/
theorem capacity_error_at_most_once {P : Type} (env : Env P) (calls : List SaveCall) :
    ((SaveRun.steps env ⟨true, [], []⟩ calls).added = [] ∨
      (SaveRun.steps env ⟨true, [], []⟩ calls).added = [capacityError]) ∧
    (∀ (before later : List SaveCall) (call : SaveCall),
      calls = before ++ call :: later →
      (SaveRun.steps env ⟨true, [], []⟩ before).cacheAllowed = true →
      call.overCapacity env = true →
      SaveRun.steps env ⟨true, [], []⟩ calls =
        { cacheAllowed := false, added := [capacityError]
          written := (SaveRun.steps env ⟨true, [], []⟩ before).written }) ∧
    (∀ run : SaveRun, run.cacheAllowed = false → SaveRun.steps env run calls = run) := by
  refine ⟨?_, ?_, ?_⟩
  · rcases SaveRun.steps_invariant env calls ⟨true, [], []⟩ (Or.inl ⟨rfl, rfl⟩) with h | h
    · exact Or.inl h.2
    · exact Or.inr h.2
  · intro before later call hcalls hallowed hover
    subst hcalls
    rw [SaveRun.steps_append]
    show SaveRun.steps env (SaveRun.step env _ call) later = _
    rw [SaveRun.step_over env _ call hallowed hover]
    rw [SaveRun.steps_disabled env later _ rfl]
    rcases SaveRun.steps_invariant env before ⟨true, [], []⟩ (Or.inl ⟨rfl, rfl⟩) with h | h
    · rw [h.2]
      rfl
    · rw [h.1] at hallowed
      cases hallowed
  · intro run h
    exact SaveRun.steps_disabled env calls run h

/-- Witness for C12: a save of two nodes, then two saves of three nodes, then
a save of two nodes, with room for two: the first goes to disk, the second
adds the one error, the last two add nothing and write nothing. -/
theorem capacity_error_at_most_once_witness :
    SaveRun.steps envSmall ⟨true, [], []⟩
        [SaveCall.pp ⟨ppTwoNodes, false⟩, SaveCall.parse ⟨pfThreeNodes, false⟩,
          SaveCall.pp ⟨ppThreeNodes, false⟩, SaveCall.parse ⟨pfTwoNodes, false⟩] =
      { cacheAllowed := false, added := [capacityError]
        written := ["cache/work/h/top.sv.slpp"] } :=
  (capacity_error_at_most_once envSmall
    [SaveCall.pp ⟨ppTwoNodes, false⟩, SaveCall.parse ⟨pfThreeNodes, false⟩,
      SaveCall.pp ⟨ppThreeNodes, false⟩, SaveCall.parse ⟨pfTwoNodes, false⟩]).2.1
    [SaveCall.pp ⟨ppTwoNodes, false⟩]
    [SaveCall.pp ⟨ppThreeNodes, false⟩, SaveCall.parse ⟨pfTwoNodes, false⟩]
    (SaveCall.parse ⟨pfThreeNodes, false⟩) rfl rfl rfl

/-! ## C14 -/

theorem containsChars_iff (needle : List Char) (s : List Char) :
    containsChars needle s = true ↔ ∃ a b, s = a ++ needle ++ b := by
  have key : containsChars needle s = true ↔ needle <:+: s := by
    induction s with
    | nil => simp [containsChars, List.isEmpty_iff]
    | cons c cs ih =>
      rw [containsChars, Bool.or_eq_true, ih, List.infix_cons_iff, List.isPrefixOf_iff_prefix]
  rw [key]
  constructor
  · rintro ⟨a, b, h⟩
    exact ⟨a, b, h.symm⟩
  · rintro ⟨a, b, h⟩
    exact ⟨a, b, h.symm⟩

/-- C14: with caching enabled and the node count within capacity,
`ParseCache::save` returns true and writes no cache file whenever the cache
file name it computed contains `@@BAD_SYMBOL@@`; it registers no symbol and
adds no error on the way. -/
theorem ParseCache.save_bad_symbol_is_silent_success {P : Type} (env : Env P) (c : ParseCache)
    (hca : env.clp.m_cacheAllowed = true)
    (hcap : overCapacity c.m_parse.m_fileContent env.Capacity = false)
    (hbad : ∃ a b : String,
      (ParseCache.getCacheFileName_ env c.m_parse.m_ppFileName c.m_isPrecompiled "").cacheFileName
        = a ++ "@@BAD_SYMBOL@@" ++ b) :
    (ParseCache.save env c).status = true ∧ (ParseCache.save env c).written = none ∧
      (ParseCache.save env c).symbols = c.m_parse.symbols ∧
      (ParseCache.save env c).errors = c.m_parse.errors := by
  have hc : containsChars "@@BAD_SYMBOL@@".data
      (ParseCache.getCacheFileName_ env c.m_parse.m_ppFileName c.m_isPrecompiled
        "").cacheFileName.data = true := by
    obtain ⟨a, b, h⟩ := hbad
    rw [containsChars_iff]
    exact ⟨a.data, b.data, by rw [h]; simp⟩
  simp [ParseCache.save, hca, hcap, hc]

/-- Witness for C14: the parse file of a built-in file, whose cache file would
be `cache/work/@@BAD_SYMBOL@@.slpa`. -/
theorem ParseCache.save_bad_symbol_is_silent_success_witness :
    (ParseCache.getCacheFileName_ envW16 "@@BAD_SYMBOL@@" false "").cacheFileName
      = "cache/work/@@BAD_SYMBOL@@.slpa" ∧
    (ParseCache.save envW16 ⟨pfBuiltin, false⟩).status = true ∧
    (ParseCache.save envW16 ⟨pfBuiltin, false⟩).written = none ∧
    (ParseCache.save envW16 ⟨pfBuiltin, false⟩).symbols = pfBuiltin.symbols ∧
    (ParseCache.save envW16 ⟨pfBuiltin, false⟩).errors = pfBuiltin.errors :=
  ⟨by decide, ParseCache.save_bad_symbol_is_silent_success envW16 ⟨pfBuiltin, false⟩ rfl rfl
    ⟨"cache/work/", ".slpa", by decide⟩⟩

/-! ## C13 -/

theorem IncludedFile.relocate_injective (σ : Nat → Nat) (hσ : Function.Injective σ) :
    Function.Injective (IncludedFile.relocate σ) := by
  intro a b h
  cases a
  cases b
  simp only [IncludedFile.relocate, IncludedFile.mk.injEq] at h
  rw [hσ h.1, h.2]

theorem PreprocessFile.collect_relocate_perm (σ : Nat → Nat) (hσ : Function.Injective σ)
    (pp : PreprocessFile) :
    ((pp.relocate σ).collectIncludedFiles.map (fun inc => inc.rawFileId)).Perm
      (pp.collectIncludedFiles.map (fun inc => inc.rawFileId)) := by
  unfold PreprocessFile.collectIncludedFiles PreprocessFile.relocate
  simp only
  rw [List.dedup_map_of_injective (IncludedFile.relocate_injective σ hσ)]
  refine ((List.perm_insertionSort _ _).map _).trans ?_
  rw [List.map_map]
  exact ((List.perm_insertionSort _ _).map _).symm

theorem PreprocessFile.collect_relocate_strictMono (σ : Nat → Nat) (hσ : StrictMono σ)
    (pp : PreprocessFile) :
    (pp.relocate σ).collectIncludedFiles.map (fun inc => inc.rawFileId) =
      pp.collectIncludedFiles.map (fun inc => inc.rawFileId) := by
  unfold PreprocessFile.collectIncludedFiles PreprocessFile.relocate
  simp only
  rw [List.dedup_map_of_injective (IncludedFile.relocate_injective σ hσ.injective)]
  rw [← List.map_insertionSort (fun a b => a.address ≤ b.address)
    (fun a b => a.address ≤ b.address) (IncludedFile.relocate σ)]
  · rw [List.map_map]
    rfl
  · intro a _ b _
    exact hσ.le_iff_le.symm

theorem PPCache.buildRecord_relocate {P : Type} (env : Env P) (σ : Nat → Nat)
    (pp : PreprocessFile) :
    PPCache.buildRecord env (pp.relocate σ) =
      { PPCache.buildRecord env pp with
        includes := some ((pp.relocate σ).collectIncludedFiles.map
          (fun inc => pp.symbols.getSymbol inc.rawFileId)) } := rfl

theorem otherOrder_injective : Function.Injective otherOrder := by
  have inv : Function.Involutive otherOrder := by
    intro a
    unfold otherOrder
    split_ifs <;> omega
  exact inv.injective

theorem onePageUp_strictMono : StrictMono onePageUp := by
  intro a b h
  unfold onePageUp
  omega

/-- C13, as stated, fails: `top.sv` includes `a.svh` and `b.svh`; in a run that
allocates the two objects at increasing addresses the saved includes list is
`a.svh, b.svh`, in a run with the same inputs that allocates them at
decreasing addresses it is `b.svh, a.svh`, and the two cache files differ. -/
theorem PPCache.includes_order_follows_addresses :
    (PPCache.buildRecord envW16 ppTwoIncludes).includes = some ["a.svh", "b.svh"] ∧
    (PPCache.buildRecord envW16 (ppTwoIncludes.relocate otherOrder)).includes
      = some ["b.svh", "a.svh"] ∧
    (PPCache.save envW16 ⟨ppTwoIncludes, false⟩).written ≠
      (PPCache.save envW16 ⟨ppTwoIncludes.relocate otherOrder, false⟩).written := by
  refine ⟨by decide, by decide, ?_⟩
  intro h
  have w1 : (PPCache.save envW16 ⟨ppTwoIncludes, false⟩).written =
      some ("cache/work/h/top.sv.slpp", ⟨true, PPCache.buildRecord envW16 ppTwoIncludes⟩) := rfl
  have w2 : (PPCache.save envW16 ⟨ppTwoIncludes.relocate otherOrder, false⟩).written =
      some ("cache/work/h/top.sv.slpp",
        ⟨true, PPCache.buildRecord envW16 (ppTwoIncludes.relocate otherOrder)⟩) := rfl
  rw [w1, w2] at h
  have h1 : (PPCache.buildRecord envW16 ppTwoIncludes).includes =
      (PPCache.buildRecord envW16 (ppTwoIncludes.relocate otherOrder)).includes := by
    injection h with h
    injection h with _ h
    injection h with _ h
    rw [h]
  revert h1
  decide

/-- C13, amended: two executions of `PPCache::save` on the same inputs, the
included `PreprocessFile` objects lying at other addresses in the second,
build records that agree in every field but the includes list, so the macro
list and its order are a function of the inputs alone; the two includes lists
hold the same entries, each in the order of the addresses of its run, and are
equal when the second run allocates the objects in the same order. -/
theorem PPCache.save_deterministic_up_to_include_order {P : Type} (env : Env P)
    (pp : PreprocessFile) (σ : Nat → Nat) (hσ : Function.Injective σ) :
    (∃ l1 l2 : List String,
      (PPCache.buildRecord env pp).includes = some l1 ∧
      PPCache.buildRecord env (pp.relocate σ) =
        { PPCache.buildRecord env pp with includes := some l2 } ∧
      l2.Perm l1 ∧
      l1 = (pp.collectIncludedFiles.map
        (fun inc => pp.symbols.getSymbol inc.rawFileId)) ∧
      l2 = ((pp.relocate σ).collectIncludedFiles.map
        (fun inc => pp.symbols.getSymbol inc.rawFileId))) ∧
    (StrictMono σ → PPCache.buildRecord env (pp.relocate σ) = PPCache.buildRecord env pp) := by
  constructor
  · refine ⟨_, _, rfl, PPCache.buildRecord_relocate env σ pp, ?_, rfl, rfl⟩
    have := (PreprocessFile.collect_relocate_perm σ hσ pp).map pp.symbols.getSymbol
    simpa [List.map_map] using this
  · intro hmono
    rw [PPCache.buildRecord_relocate]
    have := congrArg (List.map pp.symbols.getSymbol)
      (PreprocessFile.collect_relocate_strictMono σ hmono pp)
    simp only [List.map_map] at this
    have h2 : (pp.relocate σ).collectIncludedFiles.map
        (fun inc => pp.symbols.getSymbol inc.rawFileId) =
        pp.collectIncludedFiles.map (fun inc => pp.symbols.getSymbol inc.rawFileId) := this
    rw [h2]
    rfl

/-- Witness for C13, amended: the two runs on `top.sv` with `a.svh` and `b.svh`
save the same two names in either order; a run that moves every object up by
one page saves the same record. -/
theorem PPCache.save_deterministic_up_to_include_order_witness :
    Function.Injective otherOrder ∧ StrictMono onePageUp ∧
    (∃ l1 l2 : List String,
      (PPCache.buildRecord envW16 ppTwoIncludes).includes = some l1 ∧
      PPCache.buildRecord envW16 (ppTwoIncludes.relocate otherOrder) =
        { PPCache.buildRecord envW16 ppTwoIncludes with includes := some l2 } ∧
      l2.Perm l1 ∧
      l1 = (ppTwoIncludes.collectIncludedFiles.map
        (fun inc => ppTwoIncludes.symbols.getSymbol inc.rawFileId)) ∧
      l2 = ((ppTwoIncludes.relocate otherOrder).collectIncludedFiles.map
        (fun inc => ppTwoIncludes.symbols.getSymbol inc.rawFileId))) ∧
    PPCache.buildRecord envW16 (ppTwoIncludes.relocate onePageUp) =
      PPCache.buildRecord envW16 ppTwoIncludes :=
  ⟨otherOrder_injective, onePageUp_strictMono,
    (PPCache.save_deterministic_up_to_include_order envW16 ppTwoIncludes otherOrder
      otherOrder_injective).1,
    (PPCache.save_deterministic_up_to_include_order envW16 ppTwoIncludes onePageUp
      onePageUp_strictMono.injective).2 onePageUp_strictMono⟩

/-! ## C15 -/

theorem fsAppendChars_assoc (d h b e : List Char) (hb : b.head? ≠ some '/')
    (he : e.head? ≠ some '/') :
    fsAppendChars d (fsAppendChars h b ++ e) = fsAppendChars (fsAppendChars d h) (b ++ e) := by
  have hbe : (b ++ e).head? ≠ some '/' := by
    cases b with
    | nil => simpa using he
    | cons c cs => simpa using hb
  have hbe2 : ¬(b.head? = some '/' ∨ b = [] ∧ e.head? = some '/') := by
    rintro (h | ⟨_, h⟩)
    · exact hb h
    · exact he h
  cases h with
  | nil =>
    have h1 : fsAppendChars [] b = b := by
      unfold fsAppendChars
      split_ifs <;> simp_all
    rw [h1]
    unfold fsAppendChars
    simp only [List.head?_nil, reduceCtorEq, if_false, List.append_nil]
    by_cases hd : d = []
    · simp [hd, hbe, hbe2]
    · by_cases hl : d.getLast? = some '/'
      · simp [hd, hl, hbe, hbe2]
      · simp [hd, hl, hbe, hbe2]
  | cons c cs =>
    by_cases hc : c = '/'
    · subst hc
      unfold fsAppendChars
      simp only [List.head?_cons, if_true, hb, if_false, reduceCtorEq]
      by_cases hl : ('/' :: cs).getLast? = some '/'
      · simp [hl, hbe, hbe2]
      · simp [hl, hbe, hbe2]
    · have hh : ∀ x : List Char, ((c :: cs) ++ x).head? ≠ some '/' := by
        intro x
        simpa using hc
      unfold fsAppendChars
      simp only [List.head?_cons, hb, if_false, reduceCtorEq, Option.some.injEq, hc]
      by_cases hl : (c :: cs).getLast? = some '/'
      · by_cases hd : d = []
        · simp [hl, hd, hbe, hbe2, hc]
        · by_cases hdl : d.getLast? = some '/'
          · simp [hl, hd, hdl, hbe, hbe2, hc, List.getLast?_append]
          · simp [hl, hd, hdl, hbe, hbe2, hc, List.getLast?_append]
      · by_cases hd : d = []
        · simp [hl, hd, hbe, hbe2, hc]
        · by_cases hdl : d.getLast? = some '/'
          · simp [hl, hd, hdl, hbe, hbe2, hc, List.getLast?_append]
          · simp [hl, hd, hdl, hbe, hbe2, hc, List.getLast?_append]

theorem fsAppend_assoc_ext (d h b : String) (hb : b.data.head? ≠ some '/') :
    fsAppend d (fsAppend h b ++ ".slpp") = fsAppend (fsAppend d h) (b ++ ".slpp") := by
  unfold fsAppend
  simp only [String.data_append]
  rw [fsAppendChars_assoc d.data h.data b.data ".slpp".data hb (by decide)]

/-- C15: for a file that is not precompiled, outside parse-only mode,
`PPCache::getCacheFileName_` returns the path built from the cache directory,
the library name, `H` and the base name with `.slpp` appended, and hands the
path built from the cache directory, the library name and `H` to `mkDirs`;
`H` is the hash of the parent directory, and the parent directory itself in
no-hash mode.  With `operator/` for the path operator the returned name is
`cache-dir / library-name / H / (base-name + ".slpp")`. -/
theorem PPCache.cache_file_name_layout {P : Type} (env : Env P)
    (fileNameLine1 requested_file : String) (isPrecompiled : Bool)
    (hpre : env.isFilePrecompiled (env.basename
      (if requested_file.isEmpty then fileNameLine1 else requested_file)) = false)
    (hpo : env.clp.m_parseOnly = false) :
    (PPCache.getCacheFileName_ env fileNameLine1 isPrecompiled requested_file).cacheFileName =
      env.pathAppend (env.pathAppend env.clp.cacheDirName env.libName)
        (env.pathAppend
          (if env.clp.m_noCacheHash then
            env.getPathName (if requested_file.isEmpty then fileNameLine1 else requested_file)
          else env.hashPath
            (env.getPathName (if requested_file.isEmpty then fileNameLine1 else requested_file)))
          (env.basename (if requested_file.isEmpty then fileNameLine1 else requested_file))
          ++ ".slpp") ∧
    (PPCache.getCacheFileName_ env fileNameLine1 isPrecompiled requested_file).mkDirs =
      env.pathAppend (env.pathAppend env.clp.cacheDirName env.libName)
        (if env.clp.m_noCacheHash then
          env.getPathName (if requested_file.isEmpty then fileNameLine1 else requested_file)
        else env.hashPath
          (env.getPathName (if requested_file.isEmpty then fileNameLine1 else requested_file))) ∧
    (env.pathAppend = fsAppend →
      (env.basename (if requested_file.isEmpty then fileNameLine1
        else requested_file)).data.head? ≠ some '/' →
      (PPCache.getCacheFileName_ env fileNameLine1 isPrecompiled requested_file).cacheFileName =
        fsAppend
          (fsAppend (fsAppend env.clp.cacheDirName env.libName)
            (if env.clp.m_noCacheHash then
              env.getPathName (if requested_file.isEmpty then fileNameLine1 else requested_file)
            else env.hashPath
              (env.getPathName
                (if requested_file.isEmpty then fileNameLine1 else requested_file))))
          (env.basename (if requested_file.isEmpty then fileNameLine1 else requested_file)
            ++ ".slpp")) := by
  have h1 : (PPCache.getCacheFileName_ env fileNameLine1 isPrecompiled
      requested_file).cacheFileName =
      env.pathAppend (env.pathAppend env.clp.cacheDirName env.libName)
        (env.pathAppend
          (if env.clp.m_noCacheHash then
            env.getPathName (if requested_file.isEmpty then fileNameLine1 else requested_file)
          else env.hashPath
            (env.getPathName (if requested_file.isEmpty then fileNameLine1 else requested_file)))
          (env.basename (if requested_file.isEmpty then fileNameLine1 else requested_file))
          ++ ".slpp") := by
    simp [PPCache.getCacheFileName_, hpre, hpo]
  refine ⟨h1, ?_, ?_⟩
  · simp [PPCache.getCacheFileName_, hpre, hpo]
  · intro hj hb
    rw [h1, hj]
    exact fsAppend_assoc_ext _ _ _ hb

/-- Witness for C15: `top.sv` in directory `rtl` with hash `5f2a`, library
`work`, cache directory `cache`; and the same file in `/proj/rtl` in no-hash
mode, where the absolute parent directory takes the place of all that stands
before it. -/
theorem PPCache.cache_file_name_layout_witness :
    ((PPCache.getCacheFileName_ envFs "top.sv" false "").cacheFileName
        = "cache/work/5f2a/top.sv.slpp" ∧
      (PPCache.getCacheFileName_ envFs "top.sv" false "").mkDirs = "cache/work/5f2a") ∧
    ((PPCache.getCacheFileName_ envFsNoHash "top.sv" false "").cacheFileName
        = "/proj/rtl/top.sv.slpp" ∧
      (PPCache.getCacheFileName_ envFsNoHash "top.sv" false "").mkDirs = "/proj/rtl") := by
  have h := PPCache.cache_file_name_layout envFs "top.sv" "" false rfl rfl
  have k := PPCache.cache_file_name_layout envFsNoHash "top.sv" "" false rfl rfl
  refine ⟨⟨?_, ?_⟩, ⟨?_, ?_⟩⟩
  · rw [h.2.2 rfl (by decide)]
    decide
  · rw [h.2.1]
    decide
  · rw [k.2.2 rfl (by decide)]
    decide
  · rw [k.2.1]
    decide

/-! ## C16 -/

/-- C16, as stated, fails: with `uvm_pkg.sv` registered as precompiled, library
`work` and precompiled directory `pkg`, the cache file names are
`pkg/work/uvm_pkg.sv.slpp` and `pkg/work/uvm_pkg.sv.slpa`, with the library
name in them. -/
theorem precompiled_name_keeps_library :
    (PPCache.getCacheFileName_ envPkg "uvm_pkg.sv" false "").cacheFileName
      = "pkg/work/uvm_pkg.sv.slpp" ∧
    (ParseCache.getCacheFileName_ envPkg "uvm_pkg.sv" false "").cacheFileName
      = "pkg/work/uvm_pkg.sv.slpa" ∧
    (PPCache.getCacheFileName_ envPkg "uvm_pkg.sv" false "").cacheFileName
      ≠ "pkg/uvm_pkg.sv.slpp" ∧
    (ParseCache.getCacheFileName_ envPkg "uvm_pkg.sv" false "").cacheFileName
      ≠ "pkg/uvm_pkg.sv.slpa" := by
  decide

/-- C16, amended: for a file whose base name is registered as precompiled the
PP and Parse cache file names are built from the precompiled directory, the
library name and the base name with `.slpp` or `.slpa` appended: the
precompiled directory replaces the cache directory and there is no
hashed-parent component, but the library-name component stays (for the PP
cache it is empty in parse-only mode); both caches are marked precompiled. -/
theorem precompiled_name_layout {P : Type} (env : Env P) (fileName requested_file : String)
    (isPrecompiled : Bool)
    (hpre : env.isFilePrecompiled (env.basename
      (if requested_file.isEmpty then fileName else requested_file)) = true) :
    (PPCache.getCacheFileName_ env fileName isPrecompiled requested_file).cacheFileName =
      env.pathAppend
        (env.pathAppend env.clp.precompiledDirName
          (if env.clp.m_parseOnly then "" else env.libName))
        (env.basename (if requested_file.isEmpty then fileName else requested_file)
          ++ ".slpp") ∧
    (PPCache.getCacheFileName_ env fileName isPrecompiled requested_file).mkDirs =
      env.pathAppend
        (env.pathAppend env.clp.precompiledDirName
          (if env.clp.m_parseOnly then "" else env.libName)) "" ∧
    (PPCache.getCacheFileName_ env fileName isPrecompiled requested_file).isPrecompiled = true ∧
    (ParseCache.getCacheFileName_ env fileName isPrecompiled requested_file).cacheFileName =
      env.pathAppend (env.pathAppend env.clp.precompiledDirName env.libName)
        (env.basename (if requested_file.isEmpty then fileName else requested_file)
          ++ ".slpa") ∧
    (ParseCache.getCacheFileName_ env fileName isPrecompiled requested_file).mkDirs =
      env.pathAppend env.clp.precompiledDirName env.libName ∧
    (ParseCache.getCacheFileName_ env fileName isPrecompiled requested_file).isPrecompiled
      = true := by
  have he : "".isEmpty = true := rfl
  refine ⟨?_, ?_, ?_, ?_, ?_, ?_⟩ <;>
    simp [PPCache.getCacheFileName_, ParseCache.getCacheFileName_, hpre, he]

/-- Witness for C16, amended: `uvm_pkg.sv` registered as precompiled. -/
theorem precompiled_name_layout_witness :
    envPkg.isFilePrecompiled (envPkg.basename "uvm_pkg.sv") = true ∧
    (PPCache.getCacheFileName_ envPkg "uvm_pkg.sv" false "").cacheFileName =
      fsAppend (fsAppend "pkg" "work") "uvm_pkg.sv.slpp" ∧
    (ParseCache.getCacheFileName_ envPkg "uvm_pkg.sv" false "").cacheFileName =
      fsAppend (fsAppend "pkg" "work") "uvm_pkg.sv.slpa" :=
  ⟨rfl, (precompiled_name_layout envPkg "uvm_pkg.sv" "" false rfl).1,
    (precompiled_name_layout envPkg "uvm_pkg.sv" "" false rfl).2.2.2.1⟩

/-! ## C17 -/

theorem CmdLine.stage_flag_step (env : CmdEnv) (s : CmdLine) (flag : String)
    (rest : List String) (h : flag ∈ stageFlagNames) :
    ∃ s1, s.processArgument env flag rest = Step.next false s1 ∧
      s1.stageFlags = stageTable flag s.stageFlags := by
  simp only [stageFlagNames, List.mem_cons, List.mem_singleton, List.not_mem_nil,
    or_false] at h
  rcases h with h | h | h | h | h | h | h <;> subst h <;> exact ⟨_, rfl, rfl⟩

theorem CmdLine.mainLoop_stage_flags (env : CmdEnv) (args : List String) (s : CmdLine)
    (h : ∀ a ∈ args, a ∈ stageFlagNames) :
    ∃ s1, CmdLine.mainLoop env false args s = LoopEnd.finished s1 ∧
      s1.stageFlags = args.foldl (fun f a => stageTable a f) s.stageFlags := by
  induction args generalizing s with
  | nil => exact ⟨s, rfl, rfl⟩
  | cons a rest ih =>
    obtain ⟨s1, hstep, hflags⟩ :=
      CmdLine.stage_flag_step env s a rest (h a (List.mem_cons_self a rest))
    obtain ⟨s2, hloop, hfinal⟩ := ih s1 (fun b hb => h b (List.mem_cons_of_mem a hb))
    refine ⟨s2, ?_, ?_⟩
    · rw [CmdLine.mainLoop, hstep]
      exact hloop
    · rw [hfinal, hflags]
      rfl

/-- C17: in the main loop of `parseCommandLine` each stage-selection flag
changes the four stage flags as its row of the table says, whatever the
arguments after it, and a sequence of such flags is read to its end and leaves
the left-to-right composition of the rows. -/
theorem stage_flags_follow_table (env : CmdEnv) (s : CmdLine) (args : List String)
    (h : ∀ a ∈ args, a ∈ stageFlagNames) :
    (∀ flag ∈ args, ∀ (s0 : CmdLine) (rest : List String),
      ∃ s1, s0.processArgument env flag rest = Step.next false s1 ∧
        s1.stageFlags = stageTable flag s0.stageFlags) ∧
    (∃ s1, CmdLine.mainLoop env false args s = LoopEnd.finished s1 ∧
      s1.stageFlags = args.foldl (fun f a => stageTable a f) s.stageFlags) :=
  ⟨fun flag hflag s0 rest => CmdLine.stage_flag_step env s0 flag rest (h flag hflag),
    CmdLine.mainLoop_stage_flags env args s h⟩

/-- Witness for C17: `-parse -noelab -nocomp -elabuhdm` on a fresh command line
leaves parse on, compile off, elaborate on, writePP on. -/
theorem stage_flags_follow_table_witness :
    (∀ a ∈ ["-parse", "-noelab", "-nocomp", "-elabuhdm"], a ∈ stageFlagNames) ∧
    ∃ s1, CmdLine.mainLoop cmdEnv false ["-parse", "-noelab", "-nocomp", "-elabuhdm"] cmdFresh
        = LoopEnd.finished s1 ∧
      s1.stageFlags =
        { parse := true, compile := false, elaborate := true, writePP := true } :=
  ⟨by decide,
    (stage_flags_follow_table cmdEnv cmdFresh ["-parse", "-noelab", "-nocomp", "-elabuhdm"]
      (by decide)).2⟩

/-! ## C18 -/

theorem CmdLine.processArgument_threads (env : CmdEnv) (s : CmdLine) (arg level : String)
    (rest : List String) (harg : arg = "-mt" ∨ arg = "--threads") :
    s.processArgument env arg (level :: rest) =
      match s.threadOption env arg level with
      | none => Step.throws s
      | some s1 => Step.next true s1 := by
  rcases harg with h | h <;> subst h <;> rfl

theorem CmdLine.threadOption_of_stoi (env : CmdEnv) (s : CmdLine) (arg level : String)
    (n : Nat) (harg : arg = "-mt" ∨ arg = "--threads") (hdiff : s.m_diff_comp_mode = false)
    (hlevel : level ≠ "max") (hstoi : env.stoi level = some (n : Int))
    (hn : n < 4294967296) :
    s.threadOption env arg level =
      if n > 512 then some (s.report ErrorDefinition.CMD_MT_INCORRECT_LEVEL level)
      else if n = 0 then some { s with m_nbMaxTreads := 0 }
      else if s.m_profile then
        some (CmdLine.report { s with m_nbMaxTreads := if n < 2 then 2 else n }
          ErrorDefinition.CMD_NUMBER_THREADS
          (toString s.m_nbMaxProcesses ++ " processes and " ++
            toString (if n < 2 then 2 else n)))
      else some { s with m_nbMaxTreads := if n < 2 then 2 else n } := by
  have hmod : ((n : Int) % 4294967296).toNat = n := by
    have : ((n : Int) % 4294967296) = ((n % 4294967296 : Nat) : Int) := by norm_cast
    rw [this, Int.toNat_ofNat, Nat.mod_eq_of_lt hn]
  have hmt : (decide (arg = "-mt") || decide (arg = "--threads")) = true := by
    rcases harg with h | h <;> simp [h]
  unfold CmdLine.threadOption
  simp only [hlevel, if_false, hstoi, Option.map_some', hmod, hdiff, hmt, Bool.false_eq_true,
    false_and, Bool.not_true, if_true]
  by_cases h512 : n > 512
  · simp [h512]
  · by_cases h0 : n = 0
    · simp [h0]
    · simp only [h512, if_false, h0]

/-- C18, the behaviour of the code: outside diff-compilation mode `-mt N` and
`--threads N` leave the max thread count 0 for N = 0, 2 for N = 1, and N for
2 ≤ N ≤ 512; for N > 512 they record `CMD_MT_INCORRECT_LEVEL` and leave the
count as it was, so a count of at most 512 stays at most 512.  The count for
N = 1 is 2, not the single-threaded configuration of the help text. -/
theorem mt_level_sets_thread_count (env : CmdEnv) (s : CmdLine) (arg level : String)
    (rest : List String) (n : Nat) (harg : arg = "-mt" ∨ arg = "--threads")
    (hdiff : s.m_diff_comp_mode = false) (hlevel : level ≠ "max")
    (hstoi : env.stoi level = some (n : Int)) (hn : n < 4294967296) :
    ∃ s1, s.processArgument env arg (level :: rest) = Step.next true s1 ∧
      (n = 0 → s1.m_nbMaxTreads = 0) ∧
      (n = 1 → s1.m_nbMaxTreads = 2) ∧
      (2 ≤ n → n ≤ 512 → s1.m_nbMaxTreads = n) ∧
      (512 < n → s1.m_nbMaxTreads = s.m_nbMaxTreads ∧
        s1.errors = s.errors ++ [⟨ErrorDefinition.CMD_MT_INCORRECT_LEVEL,
          [Location.ofSymbol (s.symbols.registerSymbol level).1]⟩]) ∧
      (s.m_nbMaxTreads ≤ 512 → s1.m_nbMaxTreads ≤ 512) := by
  rw [CmdLine.processArgument_threads env s arg level rest harg,
    CmdLine.threadOption_of_stoi env s arg level n harg hdiff hlevel hstoi hn]
  by_cases h512 : n > 512
  · rw [if_pos h512]
    refine ⟨_, rfl, ?_, ?_, ?_, ?_, ?_⟩
    · intro h; omega
    · intro h; omega
    · intro h1 h2; omega
    · intro _; exact ⟨rfl, rfl⟩
    · intro h; exact h
  · rw [if_neg h512]
    by_cases h0 : n = 0
    · rw [if_pos h0]
      refine ⟨_, rfl, ?_, ?_, ?_, ?_, ?_⟩
      · intro _; rfl
      · intro h; omega
      · intro h1 h2; omega
      · intro h; omega
      · intro _; exact Nat.zero_le _
    · rw [if_neg h0]
      have hval : (if n < 2 then 2 else n) ≤ 512 := by split_ifs <;> omega
      have h1 : n = 1 → (if n < 2 then 2 else n) = 2 := by intro h; simp [h]
      have h2 : 2 ≤ n → (if n < 2 then 2 else n) = n := by intro h; simp; omega
      by_cases hp : s.m_profile = true
      · rw [if_pos hp]
        refine ⟨_, rfl, ?_, ?_, ?_, ?_, ?_⟩
        · intro h; omega
        · exact h1
        · intro h _; exact h2 h
        · intro h; omega
        · intro _; exact hval
      · rw [if_neg hp]
        refine ⟨_, rfl, ?_, ?_, ?_, ?_, ?_⟩
        · intro h; omega
        · exact h1
        · intro h _; exact h2 h
        · intro h; omega
        · intro _; exact hval

/-- Witness for C18: `-mt 1` on a fresh command line outside diff-compilation
mode is read to the end and leaves a max thread count of 2. -/
theorem mt_level_sets_thread_count_witness :
    cmdFresh.m_diff_comp_mode = false ∧ cmdEnv.stoi "1" = some 1 ∧
    ∃ s1, cmdFresh.processArgument cmdEnv "-mt" ["1"] = Step.next true s1 ∧
      s1.m_nbMaxTreads = 2 ∧
      CmdLine.mainLoop cmdEnv false ["-mt", "1"] cmdFresh = LoopEnd.finished s1 := by
  obtain ⟨s1, h1, _, h2, _⟩ :=
    mt_level_sets_thread_count cmdEnv cmdFresh "-mt" "1" [] 1 (Or.inl rfl) rfl (by decide)
      (by decide) (by decide)
  refine ⟨rfl, by decide, s1, h1, h2 rfl, ?_⟩
  rw [CmdLine.mainLoop, h1]
  rfl

/-! ## Lemmas on the strings of the command line -/

theorem findChar_absent (s : String) (c : Char) (h : c ∉ s.data) : findChar s c = none := by
  simp [findChar, h]

theorem findChar_first (pre post : List Char) (c : Char) (h : c ∉ pre) :
    findChar (String.mk (pre ++ c :: post)) c = some pre.length := by
  have hm : c ∈ pre ++ c :: post := by simp
  simp only [findChar, hm, if_true]
  rw [List.indexOf_append_of_not_mem h]
  simp

theorem splitDefine_with_value (skip : List Char) (name value : String)
    (hs : '=' ∉ skip) (hn : '=' ∉ name.data) :
    splitDefine (String.mk skip ++ name ++ "=" ++ value) skip.length = (name, value) := by
  have hd : (String.mk skip ++ name ++ "=" ++ value) =
      String.mk ((skip ++ name.data) ++ '=' :: value.data) := by
    apply String.ext
    simp [String.data_append]
  have hne : '=' ∉ skip ++ name.data := by simp [hs, hn]
  rw [hd]
  unfold splitDefine
  rw [findChar_first _ _ _ hne]
  simp only [List.length_append]
  have h1 : ¬ (skip.length + name.data.length < skip.length) := by omega
  simp only [h1, if_false, substr, substrFrom]
  congr 1
  · simp
  · have : skip.length + name.data.length + 1 = (skip ++ name.data ++ ['=']).length := by
      simp [Nat.add_assoc]
    rw [this]
    have h2 : skip ++ name.data ++ '=' :: value.data =
        (skip ++ name.data ++ ['=']) ++ value.data := by
      simp
    rw [h2, List.drop_left]

theorem splitDefine_without_value (skip : List Char) (name : String)
    (hs : '=' ∉ skip) (hn : '=' ∉ name.data) :
    splitDefine (String.mk skip ++ name) skip.length = (name, "") := by
  have hd : (String.mk skip ++ name) = String.mk (skip ++ name.data) := by
    apply String.ext
    simp [String.data_append]
  rw [hd]
  unfold splitDefine
  rw [findChar_absent _ _ (by simp [hs, hn])]
  simp [substrFrom]

theorem getlines_no_delim (delim : Char) (l cur : List Char) (h : delim ∉ l) :
    getlines delim l cur =
      if cur.reverse ++ l = [] then [] else [String.mk (cur.reverse ++ l)] := by
  induction l generalizing cur with
  | nil => simp [getlines]
  | cons c cs ih =>
    have hc : c ≠ delim := by
      intro hc
      apply h
      simp [hc]
    have hcs : delim ∉ cs := by
      intro hcs
      apply h
      simp [hcs]
    rw [getlines, if_neg hc, ih _ hcs]
    simp

theorem startsWith_iff (p s : String) :
    startsWith p s = true ↔ ∃ t : List Char, s = String.mk (p.data ++ t) := by
  unfold startsWith
  rw [List.isPrefixOf_iff_prefix]
  constructor
  · rintro ⟨t, h⟩
    exact ⟨t, String.ext h.symm⟩
  · rintro ⟨t, h⟩
    exact ⟨t, by rw [h]⟩

/-! ## Lemmas on the main loop -/

theorem CmdLine.processArgument_dashD (env : CmdEnv) (s : CmdLine) (arg : String)
    (rest : List String) (h : startsWith "-D" arg = true) :
    s.processArgument env arg rest = Step.next false (s.dashD arg) := by
  obtain ⟨t, rfl⟩ := (startsWith_iff _ _).1 h
  have hdata : "-D".data ++ t = '-' :: 'D' :: t := rfl
  rw [hdata] at h ⊢
  have h1 : (String.mk ('-' :: 'D' :: t)) ≠ "" := by
    intro e
    have := congrArg String.data e
    simp at this
  have h2 : (s.plus_arguments_ (String.mk ('-' :: 'D' :: t))).isSome = false := by
    simp [CmdLine.plus_arguments_, h1]
  have h3 : (String.mk ('-' :: 'D' :: t)) ≠ "-d" := by
    intro e
    have := congrArg String.data e
    have hd : "-d".data = ['-', 'd'] := rfl
    rw [hd] at this
    simp at this
  have h4 : startsWith "--enable-feature=" (String.mk ('-' :: 'D' :: t)) = false := by
    have hd : "--enable-feature=".data = '-' :: '-' :: "enable-feature=".data := rfl
    simp [startsWith, hd, List.isPrefixOf]
  have h5 : startsWith "--disable-feature=" (String.mk ('-' :: 'D' :: t)) = false := by
    have hd : "--disable-feature=".data = '-' :: '-' :: "disable-feature=".data := rfl
    simp [startsWith, hd, List.isPrefixOf]
  have h6 : startsWith "-timescale=" (String.mk ('-' :: 'D' :: t)) = false := by
    have hd : "-timescale=".data = '-' :: 't' :: "imescale=".data := rfl
    simp [startsWith, hd, List.isPrefixOf]
  unfold CmdLine.processArgument
  rw [if_neg h1, if_neg (by simp [h2]), if_neg h3, if_neg (by simp [h4]),
    if_neg (by simp [h5]), if_neg (by simp [h6]), if_pos h]

theorem CmdLine.dashD_with_value (s : CmdLine) (name value : String)
    (heq : '=' ∉ name.data) :
    s.dashD ("-D" ++ name ++ "=" ++ value) =
      if name ≠ "" then
        { s with envVars := s.envVars ++ [(name, value)]
                 symbols := (s.symbols.registerSymbol name).2
                 m_defineList := emplace s.m_defineList (s.symbols.registerSymbol name).1 value }
      else s := by
  have hlit : ("-D" : String) = String.mk ['-', 'D'] := rfl
  have h := splitDefine_with_value ['-', 'D'] name value (by decide) heq
  rw [← hlit] at h
  unfold CmdLine.dashD
  simp only [List.length_cons, List.length_nil] at h
  simp only [h, registerEnvVar]

theorem CmdLine.dashD_without_value (s : CmdLine) (name : String) (heq : '=' ∉ name.data) :
    s.dashD ("-D" ++ name) =
      if name ≠ "" then
        { s with envVars := s.envVars ++ [(name, "")]
                 symbols := (s.symbols.registerSymbol name).2
                 m_defineList := emplace s.m_defineList (s.symbols.registerSymbol name).1 "" }
      else s := by
  have hlit : ("-D" : String) = String.mk ['-', 'D'] := rfl
  have h := splitDefine_without_value ['-', 'D'] name (by decide) heq
  rw [← hlit] at h
  unfold CmdLine.dashD
  simp only [List.length_cons, List.length_nil] at h
  simp only [h, registerEnvVar]

theorem startsWith_append (p t : String) : startsWith p (p ++ t) = true := by
  rw [startsWith_iff]
  exact ⟨t.data, String.ext (by simp [String.data_append])⟩

theorem getlines_define (piece : List Char) (h : '+' ∉ piece) :
    getlines '+' ("+define+".data ++ piece) [] =
      "" :: "define" :: (if piece = [] then [] else [String.mk piece]) := by
  have hd : "+define+".data = ['+', 'd', 'e', 'f', 'i', 'n', 'e', '+'] := rfl
  rw [hd]
  simp only [List.cons_append, List.nil_append, getlines, if_true]
  simp only [show ('d' : Char) ≠ '+' by decide, show ('e' : Char) ≠ '+' by decide,
    show ('f' : Char) ≠ '+' by decide, show ('i' : Char) ≠ '+' by decide,
    show ('n' : Char) ≠ '+' by decide, if_false]
  have hnil : ([] : List Char).append piece = piece := rfl
  rw [hnil, getlines_no_delim _ _ _ h]
  simp only [List.reverse_nil, List.nil_append]
  rfl

theorem CmdLine.plus_arguments_define (s : CmdLine) (piece : String)
    (hplus : '+' ∉ piece.data) (hne : piece ≠ "") (hword : piece ≠ "define") :
    s.plus_arguments_ ("+define+" ++ piece) =
      some
        (if (splitDefine piece 0).1 ≠ "" then
          { s with
            m_defineList := emplace s.m_defineList
              (s.symbols.registerSymbol (splitDefine piece 0).1).1 (splitDefine piece 0).2
            symbols := (s.symbols.registerSymbol (splitDefine piece 0).1).2 }
        else s) := by
  have harg : ("+define+" ++ piece) ≠ "" := by
    intro e
    have := congrArg String.data e
    rw [String.data_append] at this
    have hd : "+define+".data = '+' :: "define+".data := rfl
    rw [hd] at this
    simp at this
  have hhead : ("+define+" ++ piece).data.head? = some '+' := by
    rw [String.data_append]
    rfl
  have hinc : startsWith "+incdir+" ("+define+" ++ piece) = false := by
    have hd : "+incdir+".data = '+' :: 'i' :: "ncdir+".data := rfl
    have he : "+define+".data = '+' :: 'd' :: "efine+".data := rfl
    simp [startsWith, String.data_append, hd, he, List.isPrefixOf]
  have hlib : startsWith "+libext+" ("+define+" ++ piece) = false := by
    have hd : "+libext+".data = '+' :: 'l' :: "ibext+".data := rfl
    have he : "+define+".data = '+' :: 'd' :: "efine+".data := rfl
    simp [startsWith, String.data_append, hd, he, List.isPrefixOf]
  have hdef : startsWith "+define+" ("+define+" ++ piece) = true := startsWith_append _ _
  have hpiece : piece.data ≠ [] := by
    intro e
    apply hne
    exact String.ext e
  have hcut : (match findChar piece '=' with
      | none => (piece, "")
      | some loc => (substr piece 0 loc, substrFrom piece (loc + 1))) = splitDefine piece 0 := by
    unfold splitDefine
    cases findChar piece '=' with
    | none => simp [substrFrom]
    | some loc => simp
  unfold CmdLine.plus_arguments_
  rw [if_neg harg, if_neg (by simp [hhead]), if_neg (by simp [hinc]), if_neg (by simp [hlib]),
    if_pos hdef]
  unfold splitPlusArg_map
  rw [String.data_append, getlines_define _ hplus, if_neg hpiece]
  simp only [List.foldl_cons, List.foldl_nil, ne_eq, not_true_eq_false, false_and, if_false,
    and_false, hne, hword, not_false_eq_true, and_self, if_true, hcut]
  split_ifs <;> rfl

theorem CmdLine.processArgument_plus (env : CmdEnv) (s s1 : CmdLine) (arg : String)
    (rest : List String) (h : s.plus_arguments_ arg = some s1) :
    s.processArgument env arg rest = Step.next false s1 := by
  have harg : arg ≠ "" := by
    intro e
    subst e
    simp [CmdLine.plus_arguments_] at h
  unfold CmdLine.processArgument
  rw [if_neg harg, if_pos (by simp [h]), h]
  rfl

theorem dashD_ne_option (t : List Char) (c : Char) (rest : List Char) (hc : c ≠ 'D') :
    String.mk ('-' :: 'D' :: t) ≠ String.mk ('-' :: c :: rest) := by
  intro e
  have := congrArg String.data e
  simp only [List.cons.injEq, true_and] at this
  exact hc this.1.symm

theorem CmdLine.firstPass_dashD (s : CmdLine) (raw : String) (rest : List String)
    (h : startsWith "-D" (undecorateArg raw) = true) :
    CmdLine.firstPass (raw :: rest) s = CmdLine.firstPass rest (s.dashD (undecorateArg raw)) := by
  obtain ⟨t, ht⟩ := (startsWith_iff _ _).1 h
  have hdata : "-D".data ++ t = '-' :: 'D' :: t := rfl
  rw [hdata] at ht
  have h1 : undecorateArg raw ≠ "-help" := by
    rw [ht]; exact dashD_ne_option t 'h' "elp".data (by decide)
  have h2 : undecorateArg raw ≠ "-h" := by
    rw [ht]; exact dashD_ne_option t 'h' [] (by decide)
  have h3 : undecorateArg raw ≠ "--help" := by
    rw [ht]; exact dashD_ne_option t '-' "help".data (by decide)
  have h4 : undecorateArg raw ≠ "--version" := by
    rw [ht]; exact dashD_ne_option t '-' "version".data (by decide)
  have h5 : undecorateArg raw ≠ "-cd" := by
    rw [ht]; exact dashD_ne_option t 'c' "d".data (by decide)
  have h6 : undecorateArg raw ≠ "-builtin" := by
    rw [ht]; exact dashD_ne_option t 'b' "uiltin".data (by decide)
  have h7 : undecorateArg raw ≠ "-l" := by
    rw [ht]; exact dashD_ne_option t 'l' [] (by decide)
  simp only [CmdLine.firstPass, h1, h2, h3, h4, h5, h6, h7, or_self, if_false, h, if_true]

theorem emplace_of_mem (m : List (SymbolId × String)) (id : SymbolId) (value : String)
    (h : id ∈ m.map Prod.fst) : emplace m id value = m := by
  simp only [emplace, h, if_true]

theorem insertKey_perm (m : List (SymbolId × String)) (id : SymbolId) (value : String) :
    (insertKey m id value).Perm ((id, value) :: m) := by
  induction m with
  | nil => exact List.Perm.refl _
  | cons e es ih =>
    unfold insertKey
    split_ifs
    · exact List.Perm.refl _
    · exact (List.Perm.cons e ih).trans (List.Perm.swap _ _ _)

theorem emplace_of_not_mem (m : List (SymbolId × String)) (id : SymbolId) (value : String)
    (h : id ∉ m.map Prod.fst) : (emplace m id value).Perm ((id, value) :: m) := by
  simp only [emplace, h, if_false]
  exact insertKey_perm m id value

/-! ## C19 -/

/-- C19, as stated, fails: `+define+W=8` on a fresh command line enters `W`
with the value `8` in the map of defines and registers no environment
variable, where `-DW=8` registers `W=8`. -/
theorem plus_define_registers_no_env_var :
    (∃ s1, CmdLine.mainLoop cmdEnv false ["+define+W=8"] cmdFresh = LoopEnd.finished s1 ∧
      s1.m_defineList.map (fun d => (s1.symbols.getSymbol d.1, d.2)) = [("W", "8")] ∧
      s1.envVars = []) ∧
    (∃ s1, CmdLine.mainLoop cmdEnv false ["-DW=8"] cmdFresh = LoopEnd.finished s1 ∧
      s1.m_defineList.map (fun d => (s1.symbols.getSymbol d.1, d.2)) = [("W", "8")] ∧
      s1.envVars = [("W", "8")]) :=
  ⟨⟨_, rfl, by decide, by decide⟩, ⟨_, rfl, by decide, by decide⟩⟩

/-- C19, amended: a define given as `-D<name>[=<value>]` with a non-empty name
is registered as an environment variable with that name and value (the empty
value without `=`) and emplaced in the map of defines under the symbol of the
name, in the first pass over `argv` and in the main loop alike; a define
given as `+define+<name>[=<value>]`, name and value without `+` and the piece
not the bare word `define`, is emplaced in the same way and registers no
environment variable.  Emplacing enters the define when the map has none of
that name and leaves the map as it is otherwise.  A define with an empty name
is ignored. -/
theorem define_options (env : CmdEnv) (s : CmdLine) (rest : List String)
    (name value : String) (hname : name ≠ "") (heq : '=' ∉ name.data) :
    (s.processArgument env ("-D" ++ name ++ "=" ++ value) rest = Step.next false
      { s with envVars := s.envVars ++ [(name, value)]
               symbols := (s.symbols.registerSymbol name).2
               m_defineList :=
                 emplace s.m_defineList (s.symbols.registerSymbol name).1 value }) ∧
    (s.processArgument env ("-D" ++ name) rest = Step.next false
      { s with envVars := s.envVars ++ [(name, "")]
               symbols := (s.symbols.registerSymbol name).2
               m_defineList := emplace s.m_defineList (s.symbols.registerSymbol name).1 "" }) ∧
    (∀ raw : String, undecorateArg raw = "-D" ++ name ++ "=" ++ value →
      CmdLine.firstPass (raw :: rest) s = CmdLine.firstPass rest
        { s with envVars := s.envVars ++ [(name, value)]
                 symbols := (s.symbols.registerSymbol name).2
                 m_defineList :=
                   emplace s.m_defineList (s.symbols.registerSymbol name).1 value }) ∧
    ('+' ∉ name.data → '+' ∉ value.data →
      s.processArgument env ("+define+" ++ (name ++ "=" ++ value)) rest = Step.next false
        { s with envVars := s.envVars
                 symbols := (s.symbols.registerSymbol name).2
                 m_defineList :=
                   emplace s.m_defineList (s.symbols.registerSymbol name).1 value }) ∧
    ('+' ∉ name.data → name ≠ "define" →
      s.processArgument env ("+define+" ++ name) rest = Step.next false
        { s with envVars := s.envVars
                 symbols := (s.symbols.registerSymbol name).2
                 m_defineList :=
                   emplace s.m_defineList (s.symbols.registerSymbol name).1 "" }) ∧
    ((s.symbols.registerSymbol name).1 ∉ s.m_defineList.map Prod.fst →
      (emplace s.m_defineList (s.symbols.registerSymbol name).1 value).Perm
        (((s.symbols.registerSymbol name).1, value) :: s.m_defineList)) ∧
    ((s.symbols.registerSymbol name).1 ∈ s.m_defineList.map Prod.fst →
      emplace s.m_defineList (s.symbols.registerSymbol name).1 value = s.m_defineList) ∧
    s.processArgument env ("-D" ++ "" ++ "=" ++ value) rest = Step.next false s ∧
    s.processArgument env ("-D" ++ "") rest = Step.next false s ∧
    ('+' ∉ value.data →
      s.processArgument env ("+define+" ++ ("" ++ "=" ++ value)) rest = Step.next false s) := by
  have hnil : '=' ∉ ("" : String).data := by decide
  refine ⟨?_, ?_, ?_, ?_, ?_, ?_, ?_, ?_, ?_, ?_⟩
  · rw [CmdLine.processArgument_dashD env s _ rest
      (by rw [String.append_assoc, String.append_assoc]; exact startsWith_append _ _),
      CmdLine.dashD_with_value s name value heq, if_pos hname]
  · rw [CmdLine.processArgument_dashD env s _ rest (startsWith_append _ _),
      CmdLine.dashD_without_value s name heq, if_pos hname]
  · intro raw hraw
    rw [CmdLine.firstPass_dashD s raw rest
      (by rw [hraw, String.append_assoc, String.append_assoc]; exact startsWith_append _ _),
      hraw, CmdLine.dashD_with_value s name value heq, if_pos hname]
  · intro hp hv
    have hpiece : '+' ∉ (name ++ "=" ++ value).data := by
      simp only [String.data_append, List.mem_append, not_or]
      exact ⟨⟨hp, by decide⟩, hv⟩
    have hne : name ++ "=" ++ value ≠ "" := by
      intro e
      have := congrArg String.data e
      simp only [String.data_append] at this
      simp at this
    have hword : name ++ "=" ++ value ≠ "define" := by
      intro e
      have := congrArg String.data e
      simp only [String.data_append] at this
      have hmem : '=' ∈ ['d', 'e', 'f', 'i', 'n', 'e'] := by
        rw [← this]
        simp
      revert hmem
      decide
    have hsplit := splitDefine_with_value [] name value (by decide) heq
    have hmk : String.mk [] ++ name = name := by
      apply String.ext
      simp [String.data_append]
    rw [hmk] at hsplit
    simp only [List.length_nil] at hsplit
    rw [CmdLine.processArgument_plus env s _ _ rest
      (CmdLine.plus_arguments_define s _ hpiece hne hword)]
    simp only [hsplit, ne_eq, hname, not_false_eq_true, if_true]
  · intro hp hword
    have hsplit := splitDefine_without_value [] name (by decide) heq
    have hmk : String.mk [] ++ name = name := by
      apply String.ext
      simp [String.data_append]
    rw [hmk] at hsplit
    simp only [List.length_nil] at hsplit
    rw [CmdLine.processArgument_plus env s _ _ rest
      (CmdLine.plus_arguments_define s _ hp hname hword)]
    simp only [hsplit, ne_eq, hname, not_false_eq_true, if_true]
  · exact emplace_of_not_mem _ _ _
  · exact emplace_of_mem _ _ _
  · rw [CmdLine.processArgument_dashD env s _ rest
      (by rw [String.append_assoc, String.append_assoc]; exact startsWith_append _ _),
      CmdLine.dashD_with_value s "" value hnil]
    rfl
  · rw [CmdLine.processArgument_dashD env s _ rest (startsWith_append _ _),
      CmdLine.dashD_without_value s "" hnil]
    rfl
  · intro hv
    have hpiece : '+' ∉ ("" ++ "=" ++ value).data := by
      simp only [String.data_append, List.mem_append, not_or]
      exact ⟨⟨by decide, by decide⟩, hv⟩
    have hne : "" ++ "=" ++ value ≠ "" := by
      intro e
      have := congrArg String.data e
      simp only [String.data_append] at this
      simp at this
    have hword : "" ++ "=" ++ value ≠ "define" := by
      intro e
      have := congrArg String.data e
      simp only [String.data_append] at this
      have hmem : '=' ∈ ['d', 'e', 'f', 'i', 'n', 'e'] := by
        rw [← this]
        simp
      revert hmem
      decide
    have hsplit := splitDefine_with_value [] "" value (by decide) hnil
    have hmk : String.mk [] ++ "" = "" := rfl
    rw [hmk] at hsplit
    simp only [List.length_nil] at hsplit
    rw [CmdLine.processArgument_plus env s _ _ rest
      (CmdLine.plus_arguments_define s _ hpiece hne hword)]
    simp only [hsplit, ne_eq, not_true_eq_false, if_false]

/-- Witness for C19, amended: the define `W=8` on a fresh command line, given
with `-D` and given with `+define+`. -/
theorem define_options_witness :
    ("W" : String) ≠ "" ∧ '=' ∉ ("W" : String).data ∧
    (cmdFresh.processArgument cmdEnv ("-D" ++ "W" ++ "=" ++ "8") [] = Step.next false
      { cmdFresh with
        envVars := cmdFresh.envVars ++ [("W", "8")]
        symbols := (cmdFresh.symbols.registerSymbol "W").2
        m_defineList :=
          emplace cmdFresh.m_defineList (cmdFresh.symbols.registerSymbol "W").1 "8" }) ∧
    (cmdFresh.processArgument cmdEnv ("+define+" ++ ("W" ++ "=" ++ "8")) [] = Step.next false
      { cmdFresh with
        envVars := cmdFresh.envVars
        symbols := (cmdFresh.symbols.registerSymbol "W").2
        m_defineList :=
          emplace cmdFresh.m_defineList (cmdFresh.symbols.registerSymbol "W").1 "8" }) :=
  ⟨by decide, by decide,
    (define_options cmdEnv cmdFresh [] "W" "8" (by decide) (by decide)).1,
    (define_options cmdEnv cmdFresh [] "W" "8" (by decide) (by decide)).2.2.2.1
      (by decide) (by decide)⟩

/-! ## C20 -/

/-- C20, the behaviour of the code: `+incdir+a+a` leaves the two include paths
`a`, `a`, and so does `-Ia -Ia`; the directory of the source files, which goes
through `m_includePathSet`, is entered once for `a.sv b.sv`. -/
theorem duplicate_include_paths_are_kept :
    (∃ s1, CmdLine.mainLoop cmdEnv false ["+incdir+a+a"] cmdFresh = LoopEnd.finished s1 ∧
      s1.m_includePaths.map s1.symbols.getSymbol = ["a", "a"]) ∧
    (∃ s1, CmdLine.mainLoop cmdEnv false ["-Ia", "-Ia"] cmdFresh = LoopEnd.finished s1 ∧
      s1.m_includePaths.map s1.symbols.getSymbol = ["a", "a"]) ∧
    (∃ s1, CmdLine.mainLoop cmdEnvRtl false ["a.sv", "b.sv"] cmdFresh = LoopEnd.finished s1 ∧
      s1.m_includePaths.map s1.symbols.getSymbol = ["rtl"]) :=
  ⟨⟨_, rfl, by decide⟩, ⟨_, rfl, by decide⟩, ⟨_, rfl, by decide⟩⟩

/-! ## C27 -/

theorem PPCache.getCacheFileName_mark {P : Type} (env : Env P) (fn : String) (pre : Bool)
    (inc : String) :
    (PPCache.getCacheFileName_ env fn pre inc).isPrecompiled =
      (pre || env.isFilePrecompiled (env.basename (if inc.isEmpty then fn else inc))) := by
  rfl

theorem PPCache.checkCacheIsValid_mark {P : Type} [LinearOrder P] (env : Env P)
    (symbols : SymbolTable) (fn : String) (fuel : Nat) (name : String)
    (buffer : Option PPBuffer) (r : Bool × Bool)
    (h : PPCache.checkCacheIsValid_ env symbols fn fuel name buffer true = some r) :
    r.2 = true := by
  cases fuel with
  | zero => simp [PPCache.checkCacheIsValid_] at h
  | succ fuel =>
    cases buffer with
    | none =>
      rw [PPCache.checkCacheIsValid_none] at h
      cases h
      rfl
    | some buf =>
      rw [PPCache.checkCacheIsValid_succ] at h
      simp only [Bool.not_true, Bool.false_eq_true, if_false] at h
      split_ifs at h <;> cases h <;> rfl

theorem restoreIncludes_mark (one : String → PPCache → Option (Bool × PPCache))
    (hone : ∀ inc ci r, ci.m_isPrecompiled = true → one inc ci = some r →
      r.2.m_isPrecompiled = true) :
    ∀ (l : List String) (c c1 : PPCache), c.m_isPrecompiled = true →
      restoreIncludes one l c = some c1 → c1.m_isPrecompiled = true := by
  intro l
  induction l with
  | nil =>
    intro c c1 hc h
    simp only [restoreIncludes, Option.some.injEq] at h
    subst h
    exact hc
  | cons inc rest ih =>
    intro c c1 hc h
    unfold restoreIncludes at h
    cases hr : one inc c with
    | none => simp [hr] at h
    | some r =>
      simp only [hr] at h
      exact ih r.2 c1 (hone inc c r hc hr) h

theorem PPCache.restore__mark {P : Type} (env : Env P) (errorsOnly : Bool) :
    ∀ (fuel : Nat) (name : String) (buffer : Option PPBuffer) (c : PPCache)
      (r : Bool × PPCache), c.m_isPrecompiled = true →
      PPCache.restore_ env fuel name buffer errorsOnly c = some r →
      r.2.m_isPrecompiled = true := by
  intro fuel
  induction fuel with
  | zero => intro name buffer c r _ h; simp [PPCache.restore_] at h
  | succ fuel ih =>
    intro name buffer c r hc h
    cases buffer with
    | none =>
      rw [PPCache.restore__none] at h
      cases h
      exact hc
    | some buf =>
      rw [PPCache.restore__succ] at h
      have hone : ∀ inc ci r, ci.m_isPrecompiled = true →
          PPCache.restoreInclude env fuel errorsOnly inc ci = some r →
          r.2.m_isPrecompiled = true := by
        intro inc ci r1 hci h1
        unfold PPCache.restoreInclude at h1
        refine ih _ _ _ r1 ?_ h1
        simp [PPCache.getCacheFileName_mark, hci]
      cases hinc : buf.ppcache.includes with
      | none =>
        simp only [hinc] at h
        cases h
        exact hc
      | some includes =>
        simp only [hinc] at h
        cases hw : restoreIncludes (PPCache.restoreInclude env fuel errorsOnly) includes
            { c with m_pp := (c.m_pp.restoreRecordData buf.ppcache errorsOnly).2 } with
        | none => simp [hw] at h
        | some c6 =>
          simp only [hw] at h
          cases h
          exact restoreIncludes_mark _ hone includes
            { c with m_pp := (c.m_pp.restoreRecordData buf.ppcache errorsOnly).2 } c6 hc hw

theorem PPCache.restore_mark {P : Type} [LinearOrder P] (env : Env P) (fuel : Nat)
    (errorsOnly : Bool) (c : PPCache) (r : Bool × PPCache) (hc : c.m_isPrecompiled = true)
    (h : PPCache.restore env fuel errorsOnly c = some r) : r.2.m_isPrecompiled = true := by
  have hn : (PPCache.getCacheFileName_ env (c.m_pp.m_fileName LINE1) c.m_isPrecompiled
      "").isPrecompiled = true := by
    simp [PPCache.getCacheFileName_mark, hc]
  unfold PPCache.restore at h
  split_ifs at h
  · cases h; exact hc
  · cases h; exact hc
  · cases hb : env.openFlatBuffers
        (PPCache.getCacheFileName_ env (c.m_pp.m_fileName LINE1) c.m_isPrecompiled
          "").cacheFileName with
    | none =>
      simp only [hb] at h
      cases h
      exact hn
    | some buf =>
      simp only [hb, hn] at h
      cases hv : PPCache.checkCacheIsValid_ env c.m_pp.symbols (c.m_pp.m_fileName LINE1) fuel
          (PPCache.getCacheFileName_ env (c.m_pp.m_fileName LINE1) c.m_isPrecompiled
            "").cacheFileName (some buf) true with
      | none => simp [hv] at h
      | some v =>
        obtain ⟨b, p⟩ := v
        have hp : p = true := PPCache.checkCacheIsValid_mark env _ _ _ _ _ _ hv
        subst hp
        simp only [hv] at h
        cases b with
        | false =>
          simp only at h
          cases h
          rfl
        | true =>
          simp only at h
          exact PPCache.restore__mark env errorsOnly fuel _ _ _ r rfl h

/-- C27: the precompiled mark of a `PPCache` is only ever set.
`getCacheFileName_` leaves it true when it was true or when the base name of
the requested file is precompiled; validation, restore and save of a cache
whose mark is true leave it true.  With the mark true `checkCacheIsValid_`
returns hit on every present buffer with the PP magic, whatever its header,
include paths, defines and includes are. -/
theorem PPCache.precompiled_mark_is_sticky {P : Type} [LinearOrder P] (env : Env P)
    (symbols : SymbolTable) (fn : String) :
    (∀ (pre : Bool) (inc : String),
      (PPCache.getCacheFileName_ env fn pre inc).isPrecompiled =
        (pre || env.isFilePrecompiled (env.basename (if inc.isEmpty then fn else inc)))) ∧
    (∀ (fuel : Nat) (name : String) (buffer : Option PPBuffer) (r : Bool × Bool),
      PPCache.checkCacheIsValid_ env symbols fn fuel name buffer true = some r → r.2 = true) ∧
    (∀ (fuel : Nat) (name : String) (buffer : Option PPBuffer) (errorsOnly : Bool)
      (c : PPCache) (r : Bool × PPCache), c.m_isPrecompiled = true →
      PPCache.restore_ env fuel name buffer errorsOnly c = some r →
      r.2.m_isPrecompiled = true) ∧
    (∀ (fuel : Nat) (errorsOnly : Bool) (c : PPCache) (r : Bool × PPCache),
      c.m_isPrecompiled = true → PPCache.restore env fuel errorsOnly c = some r →
      r.2.m_isPrecompiled = true) ∧
    (∀ c : PPCache, c.m_isPrecompiled = true → (PPCache.save env c).isPrecompiled = true) ∧
    (∀ (fuel : Nat) (name : String) (buf : PPBuffer), buf.hasIdentifier = true →
      PPCache.checkCacheIsValid_ env symbols fn (fuel + 1) name (some buf) true =
        some (true, true)) := by
  refine ⟨fun pre inc => rfl, ?_, ?_, ?_, ?_, ?_⟩
  · intro fuel name buffer r h
    exact PPCache.checkCacheIsValid_mark env symbols fn fuel name buffer r h
  · intro fuel name buffer errorsOnly c r hc h
    exact PPCache.restore__mark env errorsOnly fuel name buffer c r hc h
  · intro fuel errorsOnly c r hc h
    exact PPCache.restore_mark env fuel errorsOnly c r hc h
  · intro c hc
    unfold PPCache.save
    split_ifs <;> simp [PPCache.getCacheFileName_mark, hc]
  · intro fuel name buf hb
    rw [PPCache.checkCacheIsValid_succ]
    simp only [hb, Bool.not_true, Bool.false_eq_true, if_false]
    split_ifs <;> rfl

/-- Witness for C27: with `uvm_pkg.sv` registered as precompiled, resolving its
name sets the mark, and the validation that follows is a hit on a buffer whose
header check fails and whose defines differ from the command line. -/
theorem PPCache.precompiled_mark_is_sticky_witness :
    (PPCache.getCacheFileName_ envPkgStale "top.sv" false "uvm_pkg.sv").isPrecompiled = true ∧
    PPCache.checkCacheIsValid_ envPkgStale symsW "top.sv" 1 "cache/work/5f2a/top.sv.slpp"
      (some ⟨true, recW8⟩) true = some (true, true) :=
  ⟨((PPCache.precompiled_mark_is_sticky envPkgStale symsW "top.sv").1 false
      "uvm_pkg.sv").trans (by decide),
    (PPCache.precompiled_mark_is_sticky envPkgStale symsW "top.sv").2.2.2.2.2 0
      "cache/work/5f2a/top.sv.slpp" ⟨true, recW8⟩ rfl⟩

/-! ## C30 -/

theorem NodeTree.root_ne_zero_iff (fC : FileContent) (t : NodeTree) (h : t.Stored fC) :
    t.root ≠ 0 ↔ t ≠ NodeTree.empty := by
  cases t with
  | empty => simp [NodeTree.root]
  | node id type child sibling => simpa [NodeTree.root] using h.1

theorem NodeTree.preorder_of_root_zero (fC : FileContent) (stopPoints : List Nat)
    (t : NodeTree) (h : t.Stored fC) (h0 : t.root = 0) : t.preorder stopPoints = [] := by
  cases t with
  | empty => rfl
  | node id type child sibling => exact absurd h0 h.1

theorem NodeTree.size_of_root_zero (fC : FileContent) (t : NodeTree) (h : t.Stored fC)
    (h0 : t.root = 0) : t.size = 0 := by
  cases t with
  | empty => rfl
  | node id type child sibling => exact absurd h0 h.1

theorem collectWalk_forest {σ : Type} (fC : FileContent) (stopPoints : List Nat)
    (visit : σ → NodeId → σ) :
    ∀ (fuel : Nat) (ts : List NodeTree) (st : σ),
      (∀ t ∈ ts, t.Stored fC ∧ t.root ≠ 0) → (ts.map NodeTree.size).sum ≤ fuel →
      collectWalk fC stopPoints visit fuel (ts.map NodeTree.root) st =
        some ((preorderForest stopPoints ts).foldl visit st) := by
  intro fuel
  induction fuel with
  | zero =>
    intro ts st hts hsize
    cases ts with
    | nil => rfl
    | cons t ts =>
      obtain ⟨hst, hroot⟩ := hts t (List.mem_cons_self _ _)
      cases t with
      | empty => exact absurd rfl hroot
      | node id type child sibling =>
        simp only [List.map_cons, List.sum_cons, NodeTree.size] at hsize
        omega
  | succ fuel ih =>
    intro ts st hts hsize
    cases ts with
    | nil => rfl
    | cons t ts =>
      obtain ⟨hst, hroot⟩ := hts t (List.mem_cons_self _ _)
      have hrest : ∀ u ∈ ts, u.Stored fC ∧ u.root ≠ 0 :=
        fun u hu => hts u (List.mem_cons_of_mem _ hu)
      cases t with
      | empty => exact absurd rfl hroot
      | node id type child sibling =>
        obtain ⟨hid, htype, hchild, hsibling, hc, hs⟩ := hst
        simp only [List.map_cons, List.sum_cons, NodeTree.size] at hsize
        show collectWalk fC stopPoints visit fuel
          (pushLinks stopPoints (fC.Object id) (ts.map NodeTree.root)) (visit st id) = _
        have key : ∃ new : List NodeTree,
            pushLinks stopPoints (fC.Object id) (ts.map NodeTree.root) =
              (new ++ ts).map NodeTree.root ∧
            (∀ u ∈ new, u.Stored fC ∧ u.root ≠ 0) ∧
            (new.map NodeTree.size).sum ≤ child.size + sibling.size ∧
            preorderForest stopPoints new =
              (if type ∈ stopPoints then [] else child.preorder stopPoints) ++
                sibling.preorder stopPoints := by
          unfold pushLinks
          rw [htype, hchild, hsibling]
          by_cases hs0 : sibling.root = 0
          · have hps := NodeTree.preorder_of_root_zero fC stopPoints sibling hs hs0
            by_cases hc0 : child.root = 0
            · have hpc := NodeTree.preorder_of_root_zero fC stopPoints child hc hc0
              refine ⟨[], ?_, ?_, ?_, ?_⟩
              · simp [hs0, hc0]
              · intro u hu; cases hu
              · simp
              · simp [preorderForest, hps, hpc]
            · by_cases hstop : type ∈ stopPoints
              · refine ⟨[], ?_, ?_, ?_, ?_⟩
                · have hne : stopPoints ≠ [] := by
                    intro e
                    rw [e] at hstop
                    cases hstop
                  simp [hs0, hc0, hstop, hne]
                · intro u hu; cases hu
                · simp
                · simp [preorderForest, hps, hstop]
              · refine ⟨[child], ?_, ?_, ?_, ?_⟩
                · by_cases hne : stopPoints = [] <;> simp [hs0, hc0, hstop, hne]
                · intro u hu
                  simp only [List.mem_singleton] at hu
                  subst hu
                  exact ⟨hc, hc0⟩
                · simp
                · simp [preorderForest, hps, hstop]
          · by_cases hc0 : child.root = 0
            · have hpc := NodeTree.preorder_of_root_zero fC stopPoints child hc hc0
              refine ⟨[sibling], ?_, ?_, ?_, ?_⟩
              · simp [hs0, hc0]
              · intro u hu
                simp only [List.mem_singleton] at hu
                subst hu
                exact ⟨hs, hs0⟩
              · simp
              · simp [preorderForest, hpc]
            · by_cases hstop : type ∈ stopPoints
              · refine ⟨[sibling], ?_, ?_, ?_, ?_⟩
                · have hne : stopPoints ≠ [] := by
                    intro e
                    rw [e] at hstop
                    cases hstop
                  simp [hs0, hc0, hstop, hne]
                · intro u hu
                  simp only [List.mem_singleton] at hu
                  subst hu
                  exact ⟨hs, hs0⟩
                · simp
                · simp [preorderForest, hstop]
              · refine ⟨[child, sibling], ?_, ?_, ?_, ?_⟩
                · by_cases hne : stopPoints = [] <;> simp [hs0, hc0, hstop, hne]
                · intro u hu
                  simp only [List.mem_cons, List.mem_singleton, List.not_mem_nil,
                    or_false] at hu
                  rcases hu with hu | hu
                  · subst hu; exact ⟨hc, hc0⟩
                  · subst hu; exact ⟨hs, hs0⟩
                · simp
                · simp [preorderForest, hstop]
        obtain ⟨new, hpush, hnew, hnewsize, hpre⟩ := key
        rw [hpush, ih (new ++ ts) (visit st id)]
        · have happ : ∀ a b : List NodeTree, preorderForest stopPoints (a ++ b) =
              preorderForest stopPoints a ++ preorderForest stopPoints b := by
            intro a b
            induction a with
            | nil => rfl
            | cons x xs ihx => simp [preorderForest, ihx]
          simp only [preorderForest, NodeTree.preorder, happ, hpre, List.cons_append,
            List.foldl_cons, List.append_assoc]
        · intro u hu
          rcases List.mem_append.1 hu with h | h
          · exact hnew u h
          · exact hrest u h
        · simp only [List.map_append, List.sum_append]
          omega

theorem NodeTree.start_stored (fC : FileContent) (t : NodeTree) (h : t.Stored fC) :
    t.start.Stored fC := by
  cases t with
  | empty => trivial
  | node id type child sibling =>
    cases child with
    | empty => exact h.2.2.2.2.2
    | node i ty c s => exact h.2.2.2.2.1

theorem NodeTree.start_size (t : NodeTree) : t.start.size ≤ t.size := by
  cases t with
  | empty => exact Nat.le_refl _
  | node id type child sibling =>
    cases child with
    | empty => simp only [NodeTree.start, NodeTree.size]; omega
    | node i ty c s => simp only [NodeTree.start, NodeTree.size]; omega

theorem collectStart_eq (fC : FileContent) (t : NodeTree) (h : t.Stored fC)
    (hne : t ≠ NodeTree.empty) : collectStart fC t.root = t.start.root := by
  cases t with
  | empty => exact absurd rfl hne
  | node id type child sibling =>
    obtain ⟨_, _, hchild, hsibling, hc, _⟩ := h
    unfold collectStart
    simp only [NodeTree.root]
    rw [hchild, hsibling]
    cases child with
    | empty => simp [NodeTree.root, NodeTree.start]
    | node i ty c s => simp [NodeTree.root, NodeTree.start, hc.1]

theorem NodeTree.ne_empty_of_start (t : NodeTree) (h : t.start.root ≠ 0) :
    t ≠ NodeTree.empty := by
  intro e
  subst e
  exact h rfl

theorem collectWalk_tree {σ : Type} (fC : FileContent) (stopPoints : List Nat)
    (visit : σ → NodeId → σ) (t : NodeTree) (h : t.Stored fC) (hroot : t.root ≠ 0)
    (fuel : Nat) (hfuel : t.size ≤ fuel) (st : σ) :
    collectWalk fC stopPoints visit fuel [t.root] st =
      some ((t.preorder stopPoints).foldl visit st) := by
  have := collectWalk_forest fC stopPoints visit fuel [t] st
    (by intro u hu; simp only [List.mem_singleton] at hu; subst hu; exact ⟨h, hroot⟩)
    (by simpa using hfuel)
  simpa [preorderForest] using this

theorem NodeTree.root_mem_preorder (stopPoints : List Nat) (t : NodeTree)
    (h : t ≠ NodeTree.empty) : t.root ∈ t.preorder stopPoints := by
  cases t with
  | empty => exact absurd rfl h
  | node id type child sibling => simp [NodeTree.root, NodeTree.preorder]

theorem Walked.trans {fC : FileContent} {stopPoints : List Nat} {a b x : NodeId}
    (hab : Walked fC stopPoints a b) (hbx : Walked fC stopPoints b x) :
    Walked fC stopPoints a x := by
  induction hbx with
  | start => exact hab
  | sibling _ hs ih => exact Walked.sibling ih hs
  | child _ hc ht ih => exact Walked.child ih hc ht

theorem NodeTree.walked_of_mem_preorder (fC : FileContent) (stopPoints : List Nat) :
    ∀ (t : NodeTree), t.Stored fC → ∀ x, x ∈ t.preorder stopPoints →
      Walked fC stopPoints t.root x := by
  intro t
  induction t with
  | empty => intro _ x hx; cases hx
  | node id type child sibling ihc ihs =>
    intro h x hx
    obtain ⟨hid, htype, hchild, hsibling, hc, hs⟩ := h
    simp only [NodeTree.preorder, List.mem_cons, List.mem_append] at hx
    simp only [NodeTree.root]
    rcases hx with hx | hx | hx
    · subst hx
      exact Walked.start
    · by_cases hstop : type ∈ stopPoints
      · simp [hstop] at hx
      · simp only [hstop, if_false] at hx
        have hcr : child.root ≠ 0 := by
          intro e
          rw [NodeTree.preorder_of_root_zero fC stopPoints child hc e] at hx
          cases hx
        have h1 : Walked fC stopPoints id child.root := by
          have := Walked.child (Walked.start : Walked fC stopPoints id id)
            (by rw [hchild]; exact hcr) (by rw [htype]; exact hstop)
          rwa [hchild] at this
        exact h1.trans (ihc hc x hx)
    · have hsr : sibling.root ≠ 0 := by
        intro e
        rw [NodeTree.preorder_of_root_zero fC stopPoints sibling hs e] at hx
        cases hx
      have h1 : Walked fC stopPoints id sibling.root := by
        have := Walked.sibling (Walked.start : Walked fC stopPoints id id)
          (by rw [hsibling]; exact hsr)
        rwa [hsibling] at this
      exact h1.trans (ihs hs x hx)

theorem NodeTree.preorder_closed (fC : FileContent) (stopPoints : List Nat) :
    ∀ (t : NodeTree), t.Stored fC → ∀ n, n ∈ t.preorder stopPoints →
      ((fC.Object n).m_sibling ≠ 0 → (fC.Object n).m_sibling ∈ t.preorder stopPoints) ∧
      ((fC.Object n).m_child ≠ 0 → (fC.Object n).m_type ∉ stopPoints →
        (fC.Object n).m_child ∈ t.preorder stopPoints) := by
  intro t
  induction t with
  | empty => intro _ n hn; cases hn
  | node id type child sibling ihc ihs =>
    intro h n hn
    obtain ⟨hid, htype, hchild, hsibling, hc, hs⟩ := h
    simp only [NodeTree.preorder, List.mem_cons, List.mem_append] at hn ⊢
    rcases hn with hn | hn | hn
    · subst hn
      rw [htype, hchild, hsibling]
      constructor
      · intro h0
        right; right
        exact NodeTree.root_mem_preorder stopPoints sibling
          ((NodeTree.root_ne_zero_iff fC sibling hs).1 h0)
      · intro h0 hstop
        right; left
        simp only [hstop, if_false]
        exact NodeTree.root_mem_preorder stopPoints child
          ((NodeTree.root_ne_zero_iff fC child hc).1 h0)
    · by_cases hstop : type ∈ stopPoints
      · simp [hstop] at hn
      · simp only [hstop, if_false] at hn ⊢
        obtain ⟨k1, k2⟩ := ihc hc n hn
        exact ⟨fun h0 => Or.inr (Or.inl (k1 h0)), fun h0 ht => Or.inr (Or.inl (k2 h0 ht))⟩
    · obtain ⟨k1, k2⟩ := ihs hs n hn
      exact ⟨fun h0 => Or.inr (Or.inr (k1 h0)), fun h0 ht => Or.inr (Or.inr (k2 h0 ht))⟩

theorem NodeTree.mem_preorder_iff_walked (fC : FileContent) (stopPoints : List Nat)
    (t : NodeTree) (h : t.Stored fC) (hne : t ≠ NodeTree.empty) (x : NodeId) :
    x ∈ t.preorder stopPoints ↔ Walked fC stopPoints t.root x := by
  constructor
  · exact NodeTree.walked_of_mem_preorder fC stopPoints t h x
  · intro hw
    induction hw with
    | start => exact NodeTree.root_mem_preorder stopPoints t hne
    | sibling _ hs ih => exact (NodeTree.preorder_closed fC stopPoints t h _ ih).1 hs
    | child _ hc ht ih => exact (NodeTree.preorder_closed fC stopPoints t h _ ih).2 hc ht

theorem NodeTree.preorder_sublist (stopPoints : List Nat) :
    ∀ t : NodeTree, (t.preorder stopPoints).Sublist t.ids := by
  intro t
  induction t with
  | empty => exact List.Sublist.refl _
  | node id type child sibling ihc ihs =>
    simp only [NodeTree.preorder, NodeTree.ids]
    refine List.Sublist.cons₂ _ (List.Sublist.append ?_ ihs)
    split_ifs
    · exact List.nil_sublist _
    · exact ihc

theorem findAttributeInstance_returns (types : VObjectTypes) (fC : FileContent) :
    ∀ (t : NodeTree), t.Stored fC → t ≠ NodeTree.empty → ∀ fuel, t.size ≤ fuel →
      ∃ attr, findAttributeInstance types fC fuel t.root = some attr := by
  intro t
  induction t with
  | empty => intro _ hne; exact absurd rfl hne
  | node id type child sibling ihc _ =>
    intro h _ fuel hfuel
    obtain ⟨hid, htype, hchild, hsibling, hc, hs⟩ := h
    simp only [NodeTree.size] at hfuel
    cases fuel with
    | zero => omega
    | succ fuel =>
      simp only [NodeTree.root, findAttributeInstance]
      split_ifs with hcond
      · rw [hchild]
        have hcne : child ≠ NodeTree.empty := by
          rw [hchild] at hcond
          exact (NodeTree.root_ne_zero_iff fC child hc).1 hcond.1
        exact ihc hc hcne fuel (by omega)
      · exact ⟨_, rfl⟩

theorem CompilePackage.collectFiles_result {σ : Type} (types : VObjectTypes)
    (importPackages : σ → FileContent → σ) (visit : CollectType → FileContent → σ → NodeId → σ)
    (collectType : CollectType) (fuel : Nat) :
    ∀ (files : List (FileContent × NodeTree)) (st : σ),
      (∀ f ∈ files, f.2.Stored f.1 ∧ f.2.start.root ≠ 0 ∧ f.2.size ≤ fuel) →
      CompilePackage.collectFiles types importPackages visit collectType fuel
          (files.map (fun f => (f.1, f.2.root))) st =
        some (true, files.foldl
          (fun acc f =>
            (f.2.start.preorder
              [types.slClass_declaration, types.slFunction_body_declaration,
                types.slTask_body_declaration]).foldl (visit collectType f.1)
              (if collectType = CollectType.FUNCTION then importPackages acc f.1 else acc))
          st) := by
  intro files
  induction files with
  | nil => intro st _; rfl
  | cons f rest ih =>
    intro st h
    obtain ⟨hst, hroot, hsize⟩ := h f (List.mem_cons_self _ _)
    have hne := NodeTree.ne_empty_of_start f.2 hroot
    have hstart := collectStart_eq f.1 f.2 hst hne
    simp only [List.map_cons, CompilePackage.collectFiles, hstart, hroot, if_false,
      List.foldl_cons]
    rw [collectWalk_tree f.1 _ _ f.2.start (NodeTree.start_stored f.1 f.2 hst) hroot fuel
      (Nat.le_trans (NodeTree.start_size f.2) hsize)]
    exact ih _ (fun g hg => h g (List.mem_cons_of_mem _ hg))

/-- C30: on a file content that holds the finite tree of a declaration node,
the walk of `collectObjects_` starts at the first child of the node (at its
sibling when it has no child), ends within as many iterations as the tree has
nodes, and runs the `switch` on the nodes in pre-order (a node, the tree under
its child, the tree of its sibling) without descending below a stop point:
these are exactly the nodes come to from the start through sibling links and
through child links of nodes that are not stop points, each once when the ids
of the tree are distinct.  `CompileProgram::collectObjects_` does so with the
class declarations as stop points, `CompilePackage::collectObjects_` with the
class, function-body and task-body declarations, file content after file
content. -/
theorem collectObjects_walks_in_preorder {σ : Type} (types : VObjectTypes) (fC : FileContent)
    (decl : NodeTree) (hstored : decl.Stored fC) (hstart : decl.start.root ≠ 0) :
    (∀ (stopPoints : List Nat) (visit : σ → NodeId → σ) (fuel : Nat) (st : σ),
      decl.start.size ≤ fuel →
      collectWalk fC stopPoints visit fuel [collectStart fC decl.root] st =
        some ((decl.start.preorder stopPoints).foldl visit st)) ∧
    (∀ (stopPoints : List Nat) (x : NodeId),
      x ∈ decl.start.preorder stopPoints ↔
        Walked fC stopPoints (collectStart fC decl.root) x) ∧
    (∀ stopPoints : List Nat, decl.start.ids.Nodup → (decl.start.preorder stopPoints).Nodup) ∧
    (fC.m_objects.length ≠ 0 →
      ∀ (compileAttributes : σ → NodeId → σ) (importPackages : σ → σ)
        (visit : CollectType → σ → NodeId → σ) (collectType : CollectType) (fuel : Nat) (st : σ),
        decl.size ≤ fuel →
        ∃ attr, findAttributeInstance types fC fuel decl.root = some attr ∧
          CompileProgram.collectObjects_ types fC decl.root compileAttributes importPackages
              visit collectType fuel st =
            some (true, (decl.start.preorder [types.slClass_declaration]).foldl
              (visit collectType)
              (if collectType = CollectType.FUNCTION then
                importPackages (if attr ≠ 0 then compileAttributes st attr else st)
              else (if attr ≠ 0 then compileAttributes st attr else st)))) ∧
    (∀ (files : List (FileContent × NodeTree)) (setDesign : σ → σ)
        (importPackages : σ → FileContent → σ)
        (visit : CollectType → FileContent → σ → NodeId → σ) (collectType : CollectType)
        (fuel : Nat) (st : σ),
        (∀ f ∈ (fC, decl) :: files, f.2.Stored f.1 ∧ f.2.start.root ≠ 0 ∧ f.2.size ≤ fuel) →
        CompilePackage.collectObjects_ types
            (((fC, decl) :: files).map (fun f => (f.1, f.2.root))) setDesign importPackages
            visit collectType fuel st =
          some (true, ((fC, decl) :: files).foldl
            (fun acc f =>
              (f.2.start.preorder
                [types.slClass_declaration, types.slFunction_body_declaration,
                  types.slTask_body_declaration]).foldl (visit collectType f.1)
                (if collectType = CollectType.FUNCTION then importPackages acc f.1 else acc))
            (setDesign st))) := by
  have hne := NodeTree.ne_empty_of_start decl hstart
  have hcs := collectStart_eq fC decl hstored hne
  have hss := NodeTree.start_stored fC decl hstored
  have hsne : decl.start ≠ NodeTree.empty := (NodeTree.root_ne_zero_iff fC _ hss).1 hstart
  refine ⟨?_, ?_, ?_, ?_, ?_⟩
  · intro stopPoints visit fuel st hfuel
    rw [hcs]
    exact collectWalk_tree fC stopPoints visit decl.start hss hstart fuel hfuel st
  · intro stopPoints x
    rw [hcs]
    exact NodeTree.mem_preorder_iff_walked fC stopPoints decl.start hss hsne x
  · intro stopPoints hnodup
    exact hnodup.sublist (NodeTree.preorder_sublist stopPoints decl.start)
  · intro hsize compileAttributes importPackages visit collectType fuel st hfuel
    obtain ⟨attr, hattr⟩ := findAttributeInstance_returns types fC decl hstored hne fuel hfuel
    refine ⟨attr, hattr, ?_⟩
    unfold CompileProgram.collectObjects_
    simp only [hattr, hsize, if_false, hcs, hstart]
    rw [collectWalk_tree fC _ _ decl.start hss hstart fuel
      (Nat.le_trans (NodeTree.start_size decl) hfuel)]
    rfl
  · intro files setDesign importPackages visit collectType fuel st h
    exact CompilePackage.collectFiles_result types importPackages visit collectType fuel
      ((fC, decl) :: files) (setDesign st) h

/-- Witness for C30: a program with a class declaration (node 2, holding node
3) followed by a data declaration (node 4, holding node 5).  The walk visits
2, 4 and 5 in this order and leaves node 3, below the stop point, out. -/
theorem collectObjects_walks_in_preorder_witness :
    (NodeTree.node 1 1 treeProgram NodeTree.empty).Stored fcProgram ∧
    (NodeTree.node 1 1 treeProgram NodeTree.empty).start.root ≠ 0 ∧
    collectWalk fcProgram [typesEx.slClass_declaration]
        (fun (st : List NodeId) id => st ++ [id]) 4 [collectStart fcProgram 1] [] =
      some [2, 4, 5] ∧
    CompileProgram.collectObjects_ typesEx fcProgram 1 (fun (st : List NodeId) _ => st)
        (fun st => st) (fun _ st id => st ++ [id]) CollectType.OTHER 5 [] =
      some (true, [2, 4, 5]) := by
  have hst : (NodeTree.node 1 1 treeProgram NodeTree.empty).Stored fcProgram := by
    simp [NodeTree.Stored, NodeTree.root, treeProgram, fcProgram, FileContent.Object, linkNode]
  have hroot : (NodeTree.node 1 1 treeProgram NodeTree.empty).start.root ≠ 0 := by decide
  have h := collectObjects_walks_in_preorder (σ := List NodeId) typesEx fcProgram
    (NodeTree.node 1 1 treeProgram NodeTree.empty) hst hroot
  refine ⟨hst, hroot, ?_, ?_⟩
  · exact h.1 [typesEx.slClass_declaration] (fun st id => st ++ [id]) 4 [] (by decide)
  · obtain ⟨attr, _, hres⟩ := h.2.2.2.1 (by decide) (fun st _ => st) (fun st => st)
      (fun _ st id => st ++ [id]) CollectType.OTHER 5 [] (by decide)
    refine Eq.trans hres ?_
    simp only [ite_self]
    rfl

/-! ## C26 -/

theorem PPCache.restoredOnto_refl (c : PPCache) : PPCache.RestoredOnto c c [] [] [] "" := by
  refine ⟨rfl, SymbolTable.extends_refl _, by simp, ⟨[], by simp, fun _ _ => rfl⟩,
    ⟨[], by simp, fun _ _ => rfl⟩, by simp⟩

theorem PPCache.restoredOnto_trans {c c1 c2 : PPCache}
    {m1 m2 : List (String × Nat × Nat × Nat × Nat × List String × List String)}
    {l1 l2 : List (String × Nat × Nat)}
    {i1 i2 : List
      (IncludeContext × Nat × String × Nat × Nat × Nat × Nat × IncludeAction × Nat × Nat)}
    {b1 b2 : String}
    (h1 : PPCache.RestoredOnto c c1 m1 l1 i1 b1) (h2 : PPCache.RestoredOnto c1 c2 m2 l2 i2 b2) :
    PPCache.RestoredOnto c c2 (m1 ++ m2) (l1 ++ l2) (i1 ++ i2) (b1 ++ b2) := by
  obtain ⟨f1, e1, k1, ⟨a1, ha1, va1⟩, ⟨d1, hd1, vd1⟩, r1⟩ := h1
  obtain ⟨f2, e2, k2, ⟨a2, ha2, va2⟩, ⟨d2, hd2, vd2⟩, r2⟩ := h2
  refine ⟨f2.trans f1, SymbolTable.extends_trans e1 e2, ?_, ⟨a1 ++ a2, ?_, ?_⟩,
    ⟨d1 ++ d2, ?_, ?_⟩, ?_⟩
  · rw [k2, k1, List.append_assoc]
  · rw [ha2, ha1, List.append_assoc]
  · intro T hT
    rw [List.map_append, va1 T (SymbolTable.extends_trans e2 hT), va2 T hT]
  · rw [hd2, hd1, List.append_assoc]
  · intro T hT
    rw [List.map_append, vd1 T (SymbolTable.extends_trans e2 hT), vd2 T hT]
  · rw [r2, r1, String.append_assoc]

theorem PPCache.restoredOnto_mark {c c1 : PPCache}
    {m : List (String × Nat × Nat × Nat × Nat × List String × List String)}
    {l : List (String × Nat × Nat)}
    {i : List
      (IncludeContext × Nat × String × Nat × Nat × Nat × Nat × IncludeAction × Nat × Nat)}
    {b : String} (pre : Bool)
    (h : PPCache.RestoredOnto { c with m_isPrecompiled := pre } c1 m l i b) :
    PPCache.RestoredOnto c c1 m l i b := h

theorem PreprocessFile.restoreRecordData_split_ext (pp : PreprocessFile) (ppcache : FbPPCache)
    (errorsOnly : Bool) :
    ∃ pp3 : PreprocessFile,
      pp.symbols.Extends pp3.symbols ∧
      pp3.m_macros.map macroFields =
        pp.m_macros.map macroFields ++ ppcache.macros.map FbMacro.fields ∧
      pp3.m_lineTranslationVec = pp.m_lineTranslationVec ∧
      pp3.m_includeFileInfo = pp.m_includeFileInfo ∧
      pp3.m_result = pp.m_result ∧
      (pp.restoreRecordData ppcache errorsOnly).2 =
        (pp3.restoreLineTranslations ppcache.line_translation_vec).restoreIncludeFileInfos
          ppcache.include_file_info := by
  obtain ⟨h1, _, _, _, h5, h6, h7, _, _, _, _⟩ := restoreMacros_frame pp ppcache.macros
  have hm : (restoreMacros pp ppcache.macros).m_macros.map macroFields =
      pp.m_macros.map macroFields ++ ppcache.macros.map FbMacro.fields :=
    restoreMacros_macros pp ppcache.macros
  have he : pp.symbols.Extends
      ((restoreMacros pp ppcache.macros).restoreErrors ppcache.errors ppcache.symbols).2.symbols := by
    show pp.symbols.Extends (restoreErrorList _ (restoreMacros pp ppcache.macros).symbols _).2
    rw [h1]
    exact restoreErrorList_extends _ _ _
  cases errorsOnly with
  | true =>
    exact ⟨((restoreMacros pp ppcache.macros).restoreErrors ppcache.errors ppcache.symbols).2,
      he, hm, h6, h7, h5, rfl⟩
  | false =>
    refine ⟨(((restoreMacros pp ppcache.macros).restoreErrors ppcache.errors
        ppcache.symbols).2.restoreTimeInfos
        ((restoreMacros pp ppcache.macros).restoreErrors ppcache.errors ppcache.symbols).1
        ppcache.time_info), ?_, hm, h6, h7, h5, rfl⟩
    refine SymbolTable.extends_trans he ?_
    exact mapAccum_extends _ (restoreTimeInfo_extends _) _ _

theorem PPCache.restoreRecordData_onto (c : PPCache) (ppcache : FbPPCache)
    (errorsOnly : Bool) :
    PPCache.RestoredOnto c { c with m_pp := (c.m_pp.restoreRecordData ppcache errorsOnly).2 }
      (ppcache.macros.map FbMacro.fields)
      (ppcache.line_translation_vec.map FbLineTranslationInfo.fields)
      (ppcache.include_file_info.map FbIncludeFileInfo.fields) "" := by
  obtain ⟨pp3, h3e, h3m, h3l, h3i, h3r, hd⟩ :=
    PreprocessFile.restoreRecordData_split_ext c.m_pp ppcache errorsOnly
  have hf := (PreprocessFile.restoreRecordData_frame c.m_pp ppcache errorsOnly).1
  have hlt : pp3.symbols.Extends
      (mapAccum restoreLineTranslationInfo pp3.symbols ppcache.line_translation_vec).2 :=
    mapAccum_extends _ restoreLineTranslationInfo_extends _ _
  have hii : (mapAccum restoreLineTranslationInfo pp3.symbols
        ppcache.line_translation_vec).2.Extends
      (mapAccum restoreIncludeFileInfo
        (mapAccum restoreLineTranslationInfo pp3.symbols ppcache.line_translation_vec).2
        ppcache.include_file_info).2 :=
    mapAccum_extends _ restoreIncludeFileInfo_extends _ _
  refine ⟨hf, ?_, ?_, ⟨(mapAccum restoreLineTranslationInfo pp3.symbols
      ppcache.line_translation_vec).1, ?_, ?_⟩,
    ⟨(mapAccum restoreIncludeFileInfo
      (mapAccum restoreLineTranslationInfo pp3.symbols ppcache.line_translation_vec).2
      ppcache.include_file_info).1, ?_, ?_⟩, ?_⟩
  · show c.m_pp.symbols.Extends (c.m_pp.restoreRecordData ppcache errorsOnly).2.symbols
    rw [hd]
    exact SymbolTable.extends_trans h3e (SymbolTable.extends_trans hlt hii)
  · show (c.m_pp.restoreRecordData ppcache errorsOnly).2.m_macros.map macroFields = _
    rw [hd]
    exact h3m
  · show (c.m_pp.restoreRecordData ppcache errorsOnly).2.m_lineTranslationVec = _
    rw [hd, ← h3l]
    rfl
  · intro T hT
    have hT2 : (c.m_pp.restoreRecordData ppcache errorsOnly).2.symbols.Extends T := hT
    rw [hd] at hT2
    refine mapAccum_view restoreLineTranslationInfo LineTranslationInfo.withStrings
      FbLineTranslationInfo.fields restoreLineTranslationInfo_extends ?_ _ _ T
      (SymbolTable.extends_trans hii hT2)
    intro t1 fb T1 h1
    simp only [LineTranslationInfo.withStrings, restoreLineTranslationInfo,
      FbLineTranslationInfo.fields]
    rw [SymbolTable.getSymbol_registered fb.pretend_file h1]
  · show (c.m_pp.restoreRecordData ppcache errorsOnly).2.m_includeFileInfo = _
    rw [hd, ← h3i]
    rfl
  · intro T hT
    have hT2 : (c.m_pp.restoreRecordData ppcache errorsOnly).2.symbols.Extends T := hT
    rw [hd] at hT2
    refine mapAccum_view restoreIncludeFileInfo IncludeFileInfo.withStrings
      FbIncludeFileInfo.fields restoreIncludeFileInfo_extends ?_ _ _ T hT2
    intro t1 fb T1 h1
    simp only [IncludeFileInfo.withStrings, restoreIncludeFileInfo, FbIncludeFileInfo.fields]
    rw [SymbolTable.getSymbol_registered fb.section_file h1]
  · show (c.m_pp.restoreRecordData ppcache errorsOnly).2.m_result = _
    rw [(PreprocessFile.restoreRecordData_frame c.m_pp ppcache errorsOnly).2.1,
      String.append_empty]

theorem PreprocessFile.restoreBody_fileName (pp : PreprocessFile) (errorsOnly : Bool)
    (body : Option String) : (pp.restoreBody errorsOnly body).m_fileName = pp.m_fileName := by
  unfold PreprocessFile.restoreBody
  cases errorsOnly <;> cases body <;> simp [PreprocessFile.append]
  split_ifs <;> simp

theorem PreprocessFile.restoreFileContent_fileName (pp : PreprocessFile) (errorsOnly : Bool)
    (cs : SymbolTable) (objects : List FbVObject) :
    (pp.restoreFileContent errorsOnly cs objects).m_fileName = pp.m_fileName := by
  unfold PreprocessFile.restoreFileContent
  cases errorsOnly <;> cases hfc : pp.m_fileContent <;> simp

theorem PPCache.restoreTail_onto (c : PPCache) (errorsOnly : Bool) (body : Option String)
    (cs : SymbolTable) (objects : List FbVObject) :
    PPCache.RestoredOnto c
      { c with m_pp :=
          ((c.m_pp.restoreBody errorsOnly body).restoreFileContent errorsOnly cs objects) }
      [] [] [] (if errorsOnly then "" else body.getD "") := by
  obtain ⟨fm, fr, fl, fi, _, fs⟩ := PreprocessFile.restoreFileContent_frame
    (c.m_pp.restoreBody errorsOnly body) errorsOnly cs objects
  obtain ⟨bm, bl, bi, _, bs, _⟩ := PreprocessFile.restoreBody_frame c.m_pp errorsOnly body
  have hname : ((c.m_pp.restoreBody errorsOnly body).restoreFileContent errorsOnly cs
      objects).m_fileName = c.m_pp.m_fileName := by
    rw [PreprocessFile.restoreFileContent_fileName, PreprocessFile.restoreBody_fileName]
  refine ⟨hname, ?_, ?_, ⟨[], ?_, fun _ _ => rfl⟩, ⟨[], ?_, fun _ _ => rfl⟩, ?_⟩
  · rw [bs] at fs
    exact fs
  · show ((c.m_pp.restoreBody errorsOnly body).restoreFileContent errorsOnly cs
      objects).m_macros.map macroFields = _
    rw [fm, bm, List.append_nil]
  · show ((c.m_pp.restoreBody errorsOnly body).restoreFileContent errorsOnly cs
      objects).m_lineTranslationVec = _
    rw [fl, bl, List.append_nil]
  · show ((c.m_pp.restoreBody errorsOnly body).restoreFileContent errorsOnly cs
      objects).m_includeFileInfo = _
    rw [fi, bi, List.append_nil]
  · show ((c.m_pp.restoreBody errorsOnly body).restoreFileContent errorsOnly cs
      objects).m_result = _
    rw [fr]
    cases errorsOnly with
    | true => simp [PreprocessFile.restoreBody]
    | false =>
      cases body with
      | none => simp [PreprocessFile.restoreBody]
      | some b => simpa using PreprocessFile.restoreBody_result c.m_pp b

theorem restoreIncludes_onto {P : Type} (env : Env P) (fn : String) (fuel : Nat)
    (errorsOnly : Bool) :
    ∀ (l : List String) (c : PPCache), c.m_pp.m_fileName LINE1 = fn →
      (∀ inc ∈ l, ∀ ci : PPCache, ci.m_pp.m_fileName LINE1 = fn →
        ∃ r c1, PPCache.restoreInclude env fuel errorsOnly inc ci = some (r, c1) ∧
          PPCache.RestoredOnto ci c1
            (PPCache.cachedEntries env fn (fun r => r.macros.map FbMacro.fields) fuel
              (env.openFlatBuffers (PPCache.cacheNameOf env fn inc)))
            (PPCache.cachedEntries env fn
              (fun r => r.line_translation_vec.map FbLineTranslationInfo.fields) fuel
              (env.openFlatBuffers (PPCache.cacheNameOf env fn inc)))
            (PPCache.cachedEntries env fn
              (fun r => r.include_file_info.map FbIncludeFileInfo.fields) fuel
              (env.openFlatBuffers (PPCache.cacheNameOf env fn inc)))
            (if errorsOnly then "" else PPCache.cachedBody env fn fuel
              (env.openFlatBuffers (PPCache.cacheNameOf env fn inc)))) →
      ∃ c1, restoreIncludes (PPCache.restoreInclude env fuel errorsOnly) l c = some c1 ∧
        PPCache.RestoredOnto c c1
          (l.foldr (fun inc acc =>
            PPCache.cachedEntries env fn (fun r => r.macros.map FbMacro.fields) fuel
              (env.openFlatBuffers (PPCache.cacheNameOf env fn inc)) ++ acc) [])
          (l.foldr (fun inc acc =>
            PPCache.cachedEntries env fn
              (fun r => r.line_translation_vec.map FbLineTranslationInfo.fields) fuel
              (env.openFlatBuffers (PPCache.cacheNameOf env fn inc)) ++ acc) [])
          (l.foldr (fun inc acc =>
            PPCache.cachedEntries env fn
              (fun r => r.include_file_info.map FbIncludeFileInfo.fields) fuel
              (env.openFlatBuffers (PPCache.cacheNameOf env fn inc)) ++ acc) [])
          (if errorsOnly then "" else l.foldr (fun inc acc =>
            PPCache.cachedBody env fn fuel
              (env.openFlatBuffers (PPCache.cacheNameOf env fn inc)) ++ acc) "") := by
  intro l
  induction l with
  | nil =>
    intro c _ _
    refine ⟨c, rfl, ?_⟩
    have := PPCache.restoredOnto_refl c
    cases errorsOnly <;> exact this
  | cons inc rest ih =>
    intro c hc hone
    obtain ⟨r, c1, hstep, h1⟩ := hone inc (List.mem_cons_self _ _) c hc
    have hc1 : c1.m_pp.m_fileName LINE1 = fn := by rw [h1.1]; exact hc
    obtain ⟨c2, hrest, h2⟩ := ih c1 hc1
      (fun i hi ci hci => hone i (List.mem_cons_of_mem _ hi) ci hci)
    refine ⟨c2, ?_, ?_⟩
    · simp only [restoreIncludes, hstep]
      exact hrest
    · have := PPCache.restoredOnto_trans h1 h2
      cases errorsOnly
      · simpa using this
      · simpa using this

theorem PPCache.restore__onto {P : Type} (env : Env P) (fn : String) (errorsOnly : Bool)
    (S : String → Prop) (rank : String → Nat)
    (hacyc : ∀ f, S f → ∀ inc ∈ PPCache.includesOf env fn f, S inc ∧ rank inc < rank f) :
    ∀ (fuel n : Nat), n < fuel → ∀ (name : String) (buffer : Option PPBuffer) (c : PPCache),
      c.m_pp.m_fileName LINE1 = fn →
      (∀ inc ∈ PPCache.bufferIncludes buffer, S inc ∧ rank inc < n) →
      ∃ c1, PPCache.restore_ env fuel name buffer errorsOnly c = some (buffer.isSome, c1) ∧
        PPCache.RestoredOnto c c1
          (PPCache.cachedEntries env fn (fun r => r.macros.map FbMacro.fields) fuel buffer)
          (PPCache.cachedEntries env fn
            (fun r => r.line_translation_vec.map FbLineTranslationInfo.fields) fuel buffer)
          (PPCache.cachedEntries env fn
            (fun r => r.include_file_info.map FbIncludeFileInfo.fields) fuel buffer)
          (if errorsOnly then "" else PPCache.cachedBody env fn fuel buffer) := by
  intro fuel
  induction fuel with
  | zero => intro n hn; omega
  | succ fuel ih =>
    intro n hn name buffer c hc hinc
    cases buffer with
    | none =>
      refine ⟨c, PPCache.restore__none env fuel name errorsOnly c, ?_⟩
      have := PPCache.restoredOnto_refl c
      cases errorsOnly <;> exact this
    | some buf =>
      have h5 := PPCache.restoreRecordData_onto c buf.ppcache errorsOnly
      have hc5 : (c.m_pp.restoreRecordData buf.ppcache errorsOnly).2.m_fileName LINE1 = fn := by
        rw [(PreprocessFile.restoreRecordData_frame c.m_pp buf.ppcache errorsOnly).1]
        exact hc
      have hwalk : ∃ c6,
          (match buf.ppcache.includes with
            | none => some ({ c with m_pp :=
                (c.m_pp.restoreRecordData buf.ppcache errorsOnly).2 } : PPCache)
            | some includes =>
              restoreIncludes (PPCache.restoreInclude env fuel errorsOnly) includes
                { c with m_pp := (c.m_pp.restoreRecordData buf.ppcache errorsOnly).2 })
            = some c6 ∧
          PPCache.RestoredOnto
            { c with m_pp := (c.m_pp.restoreRecordData buf.ppcache errorsOnly).2 } c6
            ((buf.ppcache.includes.getD []).foldr (fun inc acc =>
              PPCache.cachedEntries env fn (fun r => r.macros.map FbMacro.fields) fuel
                (env.openFlatBuffers (PPCache.cacheNameOf env fn inc)) ++ acc) [])
            ((buf.ppcache.includes.getD []).foldr (fun inc acc =>
              PPCache.cachedEntries env fn
                (fun r => r.line_translation_vec.map FbLineTranslationInfo.fields) fuel
                (env.openFlatBuffers (PPCache.cacheNameOf env fn inc)) ++ acc) [])
            ((buf.ppcache.includes.getD []).foldr (fun inc acc =>
              PPCache.cachedEntries env fn
                (fun r => r.include_file_info.map FbIncludeFileInfo.fields) fuel
                (env.openFlatBuffers (PPCache.cacheNameOf env fn inc)) ++ acc) [])
            (if errorsOnly then "" else (buf.ppcache.includes.getD []).foldr (fun inc acc =>
              PPCache.cachedBody env fn fuel
                (env.openFlatBuffers (PPCache.cacheNameOf env fn inc)) ++ acc) "") := by
        cases hi : buf.ppcache.includes with
        | none =>
          refine ⟨_, rfl, ?_⟩
          have := PPCache.restoredOnto_refl
            { c with m_pp := (c.m_pp.restoreRecordData buf.ppcache errorsOnly).2 }
          cases errorsOnly <;> exact this
        | some includes =>
          refine restoreIncludes_onto env fn fuel errorsOnly includes _ hc5 ?_
          intro inc hmem ci hci
          obtain ⟨hS, hrank⟩ := hinc inc (by simp [PPCache.bufferIncludes, hi, hmem])
          obtain ⟨c1, hres, honto⟩ := ih (rank inc) (by omega)
            (PPCache.getCacheFileName_ env (ci.m_pp.m_fileName LINE1) ci.m_isPrecompiled
              inc).cacheFileName
            (env.openFlatBuffers (PPCache.cacheNameOf env fn inc))
            { ci with m_isPrecompiled :=
              (PPCache.getCacheFileName_ env (ci.m_pp.m_fileName LINE1) ci.m_isPrecompiled
                inc).isPrecompiled }
            hci (fun i hi2 => hacyc inc hS i hi2)
          refine ⟨(env.openFlatBuffers (PPCache.cacheNameOf env fn inc)).isSome, c1, ?_,
            PPCache.restoredOnto_mark _ honto⟩
          have e : (PPCache.getCacheFileName_ env (ci.m_pp.m_fileName LINE1) ci.m_isPrecompiled
              inc).cacheFileName = PPCache.cacheNameOf env fn inc := by
            rw [PPCache.getCacheFileName_name, hci]
          simp only [PPCache.restoreInclude]
          rw [e]
          rw [e] at hres
          exact hres
      obtain ⟨c6, hw, h6⟩ := hwalk
      have h7 := PPCache.restoreTail_onto c6 errorsOnly buf.ppcache.body
        (c.m_pp.restoreRecordData buf.ppcache errorsOnly).1 buf.ppcache.objects
      refine ⟨{ c6 with m_pp :=
          ((c6.m_pp.restoreBody errorsOnly buf.ppcache.body).restoreFileContent errorsOnly
            (c.m_pp.restoreRecordData buf.ppcache errorsOnly).1 buf.ppcache.objects) }, ?_, ?_⟩
      · rw [PPCache.restore__succ, hw]
        rfl
      · have := PPCache.restoredOnto_trans (PPCache.restoredOnto_trans h5 h6) h7
        cases errorsOnly
        · simpa [PPCache.cachedEntries, PPCache.cachedBody] using this
        · simpa [PPCache.cachedEntries, PPCache.cachedBody] using this

theorem envRestoreTop_closed :
    ∀ f, inTop f → ∀ inc ∈ PPCache.includesOf envRestoreTop "top.sv" f,
      inTop inc ∧ rankTop inc < rankTop f := by
  have h1 : PPCache.includesOf envRestoreTop "top.sv" "top.sv" = ["inc.svh"] := by decide
  have h2 : PPCache.includesOf envRestoreTop "top.sv" "inc.svh" = [] := by decide
  rintro f (rfl | rfl) inc hinc
  · rw [h1] at hinc
    simp at hinc
    subst hinc
    exact ⟨Or.inr rfl, by decide⟩
  · rw [h2] at hinc
    simp at hinc

/-- C26: when the include graph recorded in the caches is acyclic (every listed
include has a rank below `n ≤ fuel`), `PPCache::restore_` on an opened cache
returns true and leaves the same preprocess file with, appended in this order,
the macros, line translations and include-file infos of the file's own record
followed by those of the caches of the listed includes (in list order,
recursively), and with the body text extended by the bodies of the listed
includes (recursively, in list order) followed by the file's own body, or by
nothing in an errors-only restore; an include whose cache file cannot be opened
makes its restore return false with the preprocess file untouched, which the
walk over the includes ignores. -/
theorem PPCache.restore_includes_into_same_file {P : Type} (env : Env P) (fn : String)
    (S : String → Prop) (rank : String → Nat)
    (hacyc : ∀ f, S f → ∀ inc ∈ PPCache.includesOf env fn f, S inc ∧ rank inc < rank f)
    (n fuel : Nat) (hfuel : n ≤ fuel) (name : String) (buf : PPBuffer) (errorsOnly : Bool)
    (c : PPCache) (hc : c.m_pp.m_fileName LINE1 = fn)
    (hinc : ∀ inc ∈ PPCache.bufferIncludes (some buf), S inc ∧ rank inc < n) :
    (∃ c1, PPCache.restore_ env (fuel + 1) name (some buf) errorsOnly c = some (true, c1) ∧
      PPCache.RestoredOnto c c1
        (buf.ppcache.macros.map FbMacro.fields ++
          (buf.ppcache.includes.getD []).foldr (fun inc acc =>
            PPCache.cachedEntries env fn (fun r => r.macros.map FbMacro.fields) fuel
              (env.openFlatBuffers (PPCache.cacheNameOf env fn inc)) ++ acc) [])
        (buf.ppcache.line_translation_vec.map FbLineTranslationInfo.fields ++
          (buf.ppcache.includes.getD []).foldr (fun inc acc =>
            PPCache.cachedEntries env fn
              (fun r => r.line_translation_vec.map FbLineTranslationInfo.fields) fuel
              (env.openFlatBuffers (PPCache.cacheNameOf env fn inc)) ++ acc) [])
        (buf.ppcache.include_file_info.map FbIncludeFileInfo.fields ++
          (buf.ppcache.includes.getD []).foldr (fun inc acc =>
            PPCache.cachedEntries env fn
              (fun r => r.include_file_info.map FbIncludeFileInfo.fields) fuel
              (env.openFlatBuffers (PPCache.cacheNameOf env fn inc)) ++ acc) [])
        (if errorsOnly then "" else
          (buf.ppcache.includes.getD []).foldr (fun inc acc =>
            PPCache.cachedBody env fn fuel
              (env.openFlatBuffers (PPCache.cacheNameOf env fn inc)) ++ acc) "" ++
          buf.ppcache.body.getD "")) ∧
    (∀ (inc : String) (ci : PPCache) (k : Nat),
      env.openFlatBuffers (PPCache.cacheNameOf env (ci.m_pp.m_fileName LINE1) inc) = none →
      ∃ pre, PPCache.restoreInclude env (k + 1) errorsOnly inc ci =
        some (false, { ci with m_isPrecompiled := pre })) := by
  constructor
  · obtain ⟨c1, hres, honto⟩ := PPCache.restore__onto env fn errorsOnly S rank hacyc (fuel + 1) n
      (by omega) name (some buf) c hc hinc
    exact ⟨c1, hres, honto⟩
  · intro inc ci k hnone
    refine ⟨(PPCache.getCacheFileName_ env (ci.m_pp.m_fileName LINE1) ci.m_isPrecompiled
      inc).isPrecompiled, ?_⟩
    have e : (PPCache.getCacheFileName_ env (ci.m_pp.m_fileName LINE1) ci.m_isPrecompiled
        inc).cacheFileName = PPCache.cacheNameOf env (ci.m_pp.m_fileName LINE1) inc := by
      rw [PPCache.getCacheFileName_name]
    simp only [PPCache.restoreInclude]
    rw [e, hnone]
    rfl

/-- C26 on the later run of `top.sv`, whose cache lists `inc.svh`: the full
restore returns true, the macro of `inc.svh` is recorded after the macro of
`top.sv`, and the body is the body of `inc.svh` followed by the body of
`top.sv`. -/
theorem PPCache.restore_includes_into_same_file_witness :
    ∃ c1, PPCache.restore_ envRestoreTop 2 "cache/work/h/top.sv.slpp"
        (some ⟨true, PPCache.buildRecord envW16 ppTop⟩) false ⟨ppFresh, false⟩ =
        some (true, c1) ∧
      c1.m_pp.m_macros.map macroFields =
        [("DEPTH", 2, 1, 2, 20, ["n"], ["n", "", "+1"]),
         ("WIDTH", 1, 1, 1, 16, [], ["8", ""])] ∧
      c1.m_pp.m_result = "wire w; " ++ "wire w; module m; endmodule" := by
  obtain ⟨c1, hres, honto⟩ := (PPCache.restore_includes_into_same_file envRestoreTop "top.sv"
    inTop rankTop envRestoreTop_closed 1 1 (le_refl 1) "cache/work/h/top.sv.slpp"
    ⟨true, PPCache.buildRecord envW16 ppTop⟩ false ⟨ppFresh, false⟩ rfl
    (fun inc hinc => by
      have h : PPCache.bufferIncludes (some ⟨true, PPCache.buildRecord envW16 ppTop⟩) =
          ["inc.svh"] := by decide
      rw [h] at hinc
      simp at hinc
      subst hinc
      exact ⟨Or.inr rfl, by decide⟩)).1
  refine ⟨c1, hres, ?_, ?_⟩
  · rw [honto.2.2.1]
    rfl
  · rw [honto.2.2.2.2.2]
    rfl

/-! ## C21 -/

theorem CmdLine.processArgument_dashI (env : CmdEnv) (s : CmdLine) (dir : String)
    (rest : List String) (hdir : dir ≠ "") :
    s.processArgument env ("-I" ++ dir) rest =
      Step.next false
        { s with symbols := (s.symbols.registerSymbol (env.getPreferredPath dir)).2
                 m_includePaths := s.m_includePaths ++
                   [(s.symbols.registerSymbol (env.getPreferredPath dir)).1] } := by
  have harg : "-I" ++ dir = String.mk ('-' :: 'I' :: dir.data) := String.ext rfl
  rw [harg]
  have h1 : (String.mk ('-' :: 'I' :: dir.data)) ≠ "" := by
    intro e
    have := congrArg String.data e
    simp at this
  have h2 : (s.plus_arguments_ (String.mk ('-' :: 'I' :: dir.data))).isSome = false := by
    simp [CmdLine.plus_arguments_, h1]
  have h3 : (String.mk ('-' :: 'I' :: dir.data)) ≠ "-d" := by
    intro e
    have := congrArg String.data e
    have hd : "-d".data = ['-', 'd'] := rfl
    rw [hd] at this
    simp at this
  have h4 : startsWith "--enable-feature=" (String.mk ('-' :: 'I' :: dir.data)) = false := by
    have hd : "--enable-feature=".data = '-' :: '-' :: "enable-feature=".data := rfl
    simp [startsWith, hd, List.isPrefixOf]
  have h5 : startsWith "--disable-feature=" (String.mk ('-' :: 'I' :: dir.data)) = false := by
    have hd : "--disable-feature=".data = '-' :: '-' :: "disable-feature=".data := rfl
    simp [startsWith, hd, List.isPrefixOf]
  have h6 : startsWith "-timescale=" (String.mk ('-' :: 'I' :: dir.data)) = false := by
    have hd : "-timescale=".data = '-' :: 't' :: "imescale=".data := rfl
    simp [startsWith, hd, List.isPrefixOf]
  have h7 : startsWith "-D" (String.mk ('-' :: 'I' :: dir.data)) = false := by
    have hd : "-D".data = ['-', 'D'] := rfl
    simp [startsWith, hd, List.isPrefixOf]
  have h8 : startsWith "-P" (String.mk ('-' :: 'I' :: dir.data)) = false := by
    have hd : "-P".data = ['-', 'P'] := rfl
    simp [startsWith, hd, List.isPrefixOf]
  have h9 : startsWith "-pvalue+" (String.mk ('-' :: 'I' :: dir.data)) = false := by
    have hd : "-pvalue+".data = '-' :: 'p' :: "value+".data := rfl
    simp [startsWith, hd, List.isPrefixOf]
  have h10 : startsWith "-I" (String.mk ('-' :: 'I' :: dir.data)) = true := by
    have hd : "-I".data = ['-', 'I'] := rfl
    simp [startsWith, hd, List.isPrefixOf]
  have h11 : substrFrom (String.mk ('-' :: 'I' :: dir.data)) 2 = dir := by
    simp [substrFrom]
  unfold CmdLine.processArgument
  rw [if_neg h1, if_neg (by simp [h2]), if_neg h3, if_neg (by simp [h4]),
    if_neg (by simp [h5]), if_neg (by simp [h6]), if_neg (by simp [h7]),
    if_neg (by simp [h8]), if_neg (by simp [h9]), if_pos h10, h11, if_neg hdir]

/-- C21, as stated: with `build.f` holding `-I`, a blank, the directory and
`top.sv`, the invocation with `-DINC_ROOT=/proj` and `-f build.f` (in either
order) returns true without `/proj/rtl` among its include paths.  The variable
is expanded and the file is cut into `-I`, `/proj/rtl` and `top.sv`, but an
include option reads its directory from its own argument, which is empty for
the lone `-I`, and never looks at the argument after it. -/
theorem spaced_include_option_is_not_resolved :
    (statusOf (CmdLine.parseCommandLine parseEnvBuild 2 "surelog"
        ["-DINC_ROOT=/proj", "-f", "build.f"] cmdFresh) = some true ∧
      "/proj/rtl" ∉ includePathsOf (CmdLine.parseCommandLine parseEnvBuild 2 "surelog"
        ["-DINC_ROOT=/proj", "-f", "build.f"] cmdFresh)) ∧
    (statusOf (CmdLine.parseCommandLine parseEnvBuild 2 "surelog"
        ["-f", "build.f", "-DINC_ROOT=/proj"] cmdFresh) = some true ∧
      "/proj/rtl" ∉ includePathsOf (CmdLine.parseCommandLine parseEnvBuild 2 "surelog"
        ["-f", "build.f", "-DINC_ROOT=/proj"] cmdFresh)) ∧
    CmdLine.processArgs_ parseEnvBuild 2 ["-DINC_ROOT=/proj", "-f", "build.f"]
        (CmdLine.firstPass ["-DINC_ROOT=/proj", "-f", "build.f"] cmdFresh).1 [] =
      some (ArgsEnd.done (CmdLine.firstPass ["-DINC_ROOT=/proj", "-f", "build.f"] cmdFresh).1
        ["-DINC_ROOT=/proj", "-I", "/proj/rtl", "top.sv"]) ∧
    substrFrom "-I" 2 = "" ∧
    (∀ (env : CmdEnv) (s : CmdLine) (rest rest2 : List String),
      s.processArgument env "-I" rest = s.processArgument env "-I" rest2) := by
  have h1 : includePathsOf (CmdLine.parseCommandLine parseEnvBuild 2 "surelog"
      ["-DINC_ROOT=/proj", "-f", "build.f"] cmdFresh) = [] := rfl
  have h2 : includePathsOf (CmdLine.parseCommandLine parseEnvBuild 2 "surelog"
      ["-f", "build.f", "-DINC_ROOT=/proj"] cmdFresh) = [] := rfl
  refine ⟨⟨rfl, ?_⟩, ⟨rfl, ?_⟩, rfl, rfl, fun _ _ _ _ => rfl⟩
  · rw [h1]
    exact List.not_mem_nil _
  · rw [h2]
    exact List.not_mem_nil _

/-- C21, amended: with the directory attached to the include option in
`build.f` (`-I` directly followed by the reference to `INC_ROOT` and `/rtl`,
then `top.sv`), the invocation with `-DINC_ROOT=/proj` and `-f build.f`
returns true with `/proj/rtl` as its include path and `top.sv` as its source
file, whether the `-D` stands before or after the `-f`: the first pass over
`argv` registers the variable before any file is expanded.  An include option
takes its directory from its own argument: `-I` followed in the same argument
by a non-empty directory puts that directory (in preferred form) at the back
of the include paths and leaves the argument after it to be read on its
own. -/
theorem attached_include_option_is_resolved (env : CmdEnv) (s : CmdLine) (dir : String)
    (rest : List String) (hdir : dir ≠ "") :
    (statusOf (CmdLine.parseCommandLine parseEnvAttached 2 "surelog"
        ["-DINC_ROOT=/proj", "-f", "build.f"] cmdFresh) = some true ∧
      includePathsOf (CmdLine.parseCommandLine parseEnvAttached 2 "surelog"
        ["-DINC_ROOT=/proj", "-f", "build.f"] cmdFresh) = ["/proj/rtl"] ∧
      sourceFilesOf (CmdLine.parseCommandLine parseEnvAttached 2 "surelog"
        ["-DINC_ROOT=/proj", "-f", "build.f"] cmdFresh) = ["top.sv"]) ∧
    (statusOf (CmdLine.parseCommandLine parseEnvAttached 2 "surelog"
        ["-f", "build.f", "-DINC_ROOT=/proj"] cmdFresh) = some true ∧
      includePathsOf (CmdLine.parseCommandLine parseEnvAttached 2 "surelog"
        ["-f", "build.f", "-DINC_ROOT=/proj"] cmdFresh) = ["/proj/rtl"] ∧
      sourceFilesOf (CmdLine.parseCommandLine parseEnvAttached 2 "surelog"
        ["-f", "build.f", "-DINC_ROOT=/proj"] cmdFresh) = ["top.sv"]) ∧
    (∀ (args : List String) (s0 : CmdLine),
      (CmdLine.firstPass ("-DINC_ROOT=/proj" :: args) s0).1.envVars =
        (CmdLine.firstPass args (s0.dashD "-DINC_ROOT=/proj")).1.envVars) ∧
    s.processArgument env ("-I" ++ dir) rest =
      Step.next false
        { s with symbols := (s.symbols.registerSymbol (env.getPreferredPath dir)).2
                 m_includePaths := s.m_includePaths ++
                   [(s.symbols.registerSymbol (env.getPreferredPath dir)).1] } ∧
    CmdLine.mainLoop env false (("-I" ++ dir) :: rest) s =
      CmdLine.mainLoop env false rest
        { s with symbols := (s.symbols.registerSymbol (env.getPreferredPath dir)).2
                 m_includePaths := s.m_includePaths ++
                   [(s.symbols.registerSymbol (env.getPreferredPath dir)).1] } := by
  refine ⟨⟨rfl, rfl, rfl⟩, ⟨rfl, rfl, rfl⟩, fun _ _ => rfl,
    CmdLine.processArgument_dashI env s dir rest hdir, ?_⟩
  rw [CmdLine.mainLoop, CmdLine.processArgument_dashI env s dir rest hdir]

/-- C21, amended, on `-I/proj/rtl` before `top.sv` on a fresh command line:
the directory goes to the include paths and the loop goes on with `top.sv`. -/
theorem attached_include_option_is_resolved_witness :
    ("/proj/rtl" : String) ≠ "" ∧
    CmdLine.mainLoop cmdEnv false (("-I" ++ "/proj/rtl") :: ["top.sv"]) cmdFresh =
      CmdLine.mainLoop cmdEnv false ["top.sv"]
        { cmdFresh with
          symbols := (cmdFresh.symbols.registerSymbol (cmdEnv.getPreferredPath "/proj/rtl")).2
          m_includePaths := cmdFresh.m_includePaths ++
            [(cmdFresh.symbols.registerSymbol (cmdEnv.getPreferredPath "/proj/rtl")).1] } :=
  ⟨by decide,
    (attached_include_option_is_resolved cmdEnv cmdFresh "/proj/rtl" ["top.sv"]
      (by decide)).2.2.2.2⟩

/-! ## C22 -/

/-- C22: `-I` with an empty directory and `-timescale=` with an empty value
record their diagnostic and leave the main loop by `break`, whatever follows
them, so that no later argument is read; a `-d` level out of range records its
diagnostic and the loop goes on.  On the example surroundings `-I top.sv`
ends without a source file, `-d 9 top.sv` with `top.sv`. -/
theorem empty_option_value_ends_the_loop :
    (∀ (env : CmdEnv) (s : CmdLine) (rest : List String),
      CmdLine.mainLoop env false ("-I" :: rest) s =
        LoopEnd.stopped (s.report ErrorDefinition.CMD_INCLUDE_PATH_DOES_NOT_EXIST "-I")) ∧
    (∀ (env : CmdEnv) (s : CmdLine) (rest : List String),
      CmdLine.mainLoop env false ("-timescale=" :: rest) s =
        LoopEnd.stopped (s.report ErrorDefinition.CMD_TIMESCALE_MISSING_SETTING
          "-timescale=")) ∧
    (∀ (s : CmdLine) (rest : List String),
      CmdLine.mainLoop cmdEnv false ("-d" :: "9" :: rest) s =
        CmdLine.mainLoop cmdEnv false rest
          (s.report ErrorDefinition.CMD_DEBUG_INCORRECT_LEVEL "9")) ∧
    sourceFilesOf (CmdLine.parseCommandLine parseEnv 1 "surelog" ["-I", "top.sv"] cmdFresh) =
      [] ∧
    sourceFilesOf (CmdLine.parseCommandLine parseEnv 1 "surelog" ["-timescale=", "top.sv"]
      cmdFresh) = [] ∧
    sourceFilesOf (CmdLine.parseCommandLine parseEnv 1 "surelog" ["-d", "9", "top.sv"]
      cmdFresh) = ["top.sv"] :=
  ⟨fun _ _ _ => rfl, fun _ _ _ => rfl, fun _ _ => rfl, rfl, rfl, rfl⟩

/-! ## C29 -/

/-- C29: each of `-exe`, `-top`, `--top-module`, `-bb_mod`, `-bb_inst`, `-L`,
`-map`, `-cfgfile` and `-cfg` as the last argument makes the main loop read
`all_arguments[i]` beyond the last argument, and `-f` as the last argument
makes `processArgs_` read `args[++i]` beyond the last argument, whatever the
state and the arguments before it were worth; an option such as `-v`, which
looks whether it is the last argument, reports and stops.  On the example
surroundings `top.sv -top` ends in such a read. -/
theorem value_option_at_the_end_reads_beyond (env : CmdEnv) (penv : ParseEnv) (s : CmdLine) :
    (∀ opt ∈ ["-exe", "-top", "--top-module", "-bb_mod", "-bb_inst", "-L", "-map", "-cfgfile",
        "-cfg"], CmdLine.mainLoop env false [opt] s = LoopEnd.beyond s) ∧
    (∀ (fuel : Nat) (container : List String),
      CmdLine.processArgs_ penv (fuel + 1) ["-f"] s container =
        some (ArgsEnd.beyond s container)) ∧
    CmdLine.mainLoop env false ["-v"] s =
      LoopEnd.stopped (s.report ErrorDefinition.CMD_LIBRARY_FILE_MISSING_FILE "-v") ∧
    (∃ s1, CmdLine.parseCommandLine parseEnv 1 "surelog" ["top.sv", "-top"] cmdFresh =
      some (ParseEnd.beyond s1)) ∧
    (∃ s1, CmdLine.parseCommandLine parseEnv 1 "surelog" ["top.sv", "-f"] cmdFresh =
      some (ParseEnd.beyond s1)) := by
  refine ⟨?_, fun _ _ => rfl, rfl, ⟨_, rfl⟩, ⟨_, rfl⟩⟩
  intro opt hopt
  simp only [List.mem_cons, List.mem_singleton, List.not_mem_nil, or_false] at hopt
  rcases hopt with h | h | h | h | h | h | h | h | h <;> subst h <;> rfl

/-! ## C28 -/

theorem foldl_related {α β : Type} (R : α → α → Prop) (hrefl : ∀ a, R a a)
    (htrans : ∀ a b c, R a b → R b c → R a c) (f : α → β → α) (hstep : ∀ a b, R a (f a b)) :
    ∀ (l : List β) (a : α), R a (l.foldl f a) := by
  intro l
  induction l with
  | nil => intro a; exact hrefl a
  | cons b rest ih => intro a; exact htrans _ _ _ (hstep a b) (ih (f a b))

theorem mem_emplace (m : List (SymbolId × String)) (id : SymbolId) (value : String)
    (e : SymbolId × String) (h : e ∈ m) : e ∈ emplace m id value := by
  unfold emplace
  split_ifs
  · exact h
  · exact (insertKey_perm m id value).mem_iff.mpr (List.mem_cons_of_mem _ h)

theorem emplace_keys_nodup (m : List (SymbolId × String)) (id : SymbolId) (value : String)
    (h : (m.map Prod.fst).Nodup) : ((emplace m id value).map Prod.fst).Nodup := by
  unfold emplace
  split_ifs with hm
  · exact h
  · rw [((insertKey_perm m id value).map Prod.fst).nodup_iff]
    exact List.nodup_cons.mpr ⟨hm, h⟩

theorem CmdLine.definesKept_refl (s : CmdLine) : s.DefinesKept s :=
  ⟨SymbolTable.extends_refl _, fun _ h => h, fun h => h⟩

theorem CmdLine.definesKept_trans {s1 s2 s3 : CmdLine} (h1 : s1.DefinesKept s2)
    (h2 : s2.DefinesKept s3) : s1.DefinesKept s3 :=
  ⟨SymbolTable.extends_trans h1.1 h2.1, fun e he => h2.2.1 e (h1.2.1 e he),
    fun h => h2.2.2 (h1.2.2 h)⟩

theorem CmdLine.dashD_keeps (s : CmdLine) (arg : String) : s.DefinesKept (s.dashD arg) := by
  unfold CmdLine.dashD
  dsimp only
  split_ifs
  · exact ⟨SymbolTable.extends_registerSymbol _ _, fun e he => mem_emplace _ _ _ e he,
      fun h => emplace_keys_nodup _ _ _ h⟩
  · exact CmdLine.definesKept_refl s

theorem splitPlusArg__extends (symbols : SymbolTable) (s pfx : String)
    (container : List SymbolId) :
    symbols.Extends (splitPlusArg_ symbols s pfx container).2 := by
  unfold splitPlusArg_
  refine foldl_related (fun (a b : List SymbolId × SymbolTable) => a.2.Extends b.2)
    (fun a => SymbolTable.extends_refl _) (fun a b c h1 h2 => SymbolTable.extends_trans h1 h2)
    _ ?_ _ (container, symbols)
  intro a tmp
  dsimp only
  split_ifs
  · exact SymbolTable.extends_registerSymbol _ _
  · exact SymbolTable.extends_refl _

theorem splitPlusArg_map_keeps (symbols : SymbolTable) (s pfx : String)
    (container : List (SymbolId × String)) :
    symbols.Extends (splitPlusArg_map symbols s pfx container).2 ∧
    (∀ e ∈ container, e ∈ (splitPlusArg_map symbols s pfx container).1) ∧
    ((container.map Prod.fst).Nodup →
      ((splitPlusArg_map symbols s pfx container).1.map Prod.fst).Nodup) := by
  unfold splitPlusArg_map
  refine foldl_related
    (fun (a b : List (SymbolId × String) × SymbolTable) =>
      a.2.Extends b.2 ∧ (∀ e ∈ a.1, e ∈ b.1) ∧
        ((a.1.map Prod.fst).Nodup → (b.1.map Prod.fst).Nodup))
    (fun a => ⟨SymbolTable.extends_refl _, fun _ h => h, fun h => h⟩)
    (fun a b c h1 h2 => ⟨SymbolTable.extends_trans h1.1 h2.1,
      fun e he => h2.2.1 e (h1.2.1 e he), fun h => h2.2.2 (h1.2.2 h)⟩)
    _ ?_ _ (container, symbols)
  intro a tmp
  dsimp only
  split_ifs
  · exact ⟨SymbolTable.extends_registerSymbol _ _, fun e he => mem_emplace _ _ _ e he,
      fun h => emplace_keys_nodup _ _ _ h⟩
  · exact ⟨SymbolTable.extends_refl _, fun _ h => h, fun h => h⟩
  · exact ⟨SymbolTable.extends_refl _, fun _ h => h, fun h => h⟩

theorem CmdLine.plus_arguments_keeps (s s1 : CmdLine) (arg : String)
    (h : s.plus_arguments_ arg = some s1) : s.DefinesKept s1 := by
  unfold CmdLine.plus_arguments_ at h
  split_ifs at h
  · injection h with h
    subst h
    exact ⟨splitPlusArg__extends _ _ _ _, fun _ he => he, fun hn => hn⟩
  · injection h with h
    subst h
    exact ⟨splitPlusArg__extends _ _ _ _, fun _ he => he, fun hn => hn⟩
  · injection h with h
    subst h
    exact splitPlusArg_map_keeps _ _ _ _

theorem CmdLine.firstPass_keeps :
    ∀ (args : List String) (s : CmdLine), s.DefinesKept (CmdLine.firstPass args s).1 := by
  intro args
  induction args with
  | nil => intro s; exact CmdLine.definesKept_refl s
  | cons raw rest ih =>
    intro s
    unfold CmdLine.firstPass
    dsimp only
    split_ifs
    · exact ⟨SymbolTable.extends_refl _, fun _ h => h, fun h => h⟩
    · exact ⟨SymbolTable.extends_refl _, fun _ h => h, fun h => h⟩
    · cases rest with
      | nil => exact ih s
      | cons a rest2 =>
        have h1 : s.DefinesKept { s with changedDirs := s.changedDirs ++ [undecorateArg a] } :=
          ⟨SymbolTable.extends_refl _, fun _ h => h, fun h => h⟩
        exact CmdLine.definesKept_trans h1
          (ih { s with changedDirs := s.changedDirs ++ [undecorateArg a] })
    · cases rest with
      | nil => exact ih s
      | cons a rest2 =>
        have h1 : s.DefinesKept { s with m_builtinPath := undecorateArg a } :=
          ⟨SymbolTable.extends_refl _, fun _ h => h, fun h => h⟩
        exact CmdLine.definesKept_trans h1 (ih { s with m_builtinPath := undecorateArg a })
    · cases rest with
      | nil => exact ih s
      | cons a rest2 =>
        have h1 : s.DefinesKept
            { s with symbols := (s.symbols.registerSymbol (undecorateArg a)).2
                     m_logFileId := (s.symbols.registerSymbol (undecorateArg a)).1 } :=
          ⟨SymbolTable.extends_registerSymbol _ _, fun _ h => h, fun h => h⟩
        exact CmdLine.definesKept_trans h1
          (ih { s with symbols := (s.symbols.registerSymbol (undecorateArg a)).2
                       m_logFileId := (s.symbols.registerSymbol (undecorateArg a)).1 })
    · exact CmdLine.definesKept_trans (CmdLine.dashD_keeps s (undecorateArg raw))
        (ih (s.dashD (undecorateArg raw)))
    · exact ih s

theorem CmdLine.plus_arguments_define_some (s : CmdLine) (arg : String)
    (h : startsWith "+define+" arg = true) : (s.plus_arguments_ arg).isSome = true := by
  obtain ⟨t, rfl⟩ := (startsWith_iff _ _).mp h
  have h1 : String.mk ("+define+".data ++ t) ≠ "" := by
    intro hc
    have := congrArg String.data hc
    simp at this
  have h2 : (String.mk ("+define+".data ++ t)).data.head? = some '+' := rfl
  have h3 : startsWith "+incdir+" (String.mk ("+define+".data ++ t)) = false := rfl
  have h4 : startsWith "+libext+" (String.mk ("+define+".data ++ t)) = false := rfl
  unfold CmdLine.plus_arguments_
  simp only [h1, h2, h3, h4, h, if_false, ne_eq, not_true_eq_false, if_true, Option.isSome_some,
    Bool.false_eq_true]

theorem CmdLine.mainLoop_defines (env : CmdEnv) :
    ∀ (args : List String) (s : CmdLine),
      (∀ a ∈ args, startsWith "-D" a = true ∨ startsWith "+define+" a = true) →
      ∃ s1, CmdLine.mainLoop env false args s = LoopEnd.finished s1 ∧ s.DefinesKept s1 := by
  intro args
  induction args with
  | nil => intro s _; exact ⟨s, rfl, CmdLine.definesKept_refl s⟩
  | cons a rest ih =>
    intro s h
    rcases h a (List.mem_cons_self _ _) with hd | hp
    · obtain ⟨s1, hloop, hk⟩ := ih (s.dashD a) (fun b hb => h b (List.mem_cons_of_mem _ hb))
      refine ⟨s1, ?_, CmdLine.definesKept_trans (CmdLine.dashD_keeps s a) hk⟩
      rw [CmdLine.mainLoop, CmdLine.processArgument_dashD env s a rest hd]
      exact hloop
    · have hsome := CmdLine.plus_arguments_define_some s a hp
      obtain ⟨s0, hs0⟩ := Option.isSome_iff_exists.mp hsome
      obtain ⟨s1, hloop, hk⟩ := ih s0 (fun b hb => h b (List.mem_cons_of_mem _ hb))
      refine ⟨s1, ?_, CmdLine.definesKept_trans (CmdLine.plus_arguments_keeps s s0 a hs0) hk⟩
      rw [CmdLine.mainLoop, CmdLine.processArgument_plus env s s0 a rest hs0]
      exact hloop

/-- C28: a define, once in the map, stays there with its value.  `-D` (in the
first pass over `argv` and in the main loop) and `+define+` go through
`emplace`, which leaves the map as it is when the name is present; so the
first pass, whatever the arguments, and the main loop over any sequence of
`-D` and `+define+` options keep every entry, every symbol and the
one-entry-per-name property, and the value found for a name afterwards is the
one it had.  On the example surroundings `-DW=8 -DW=16` ends with `W=8`, and
`+define+W=1 -DW=2` ends with `W=2` because the first pass has put `W=2` in
the map before the main loop reads `+define+W=1`. -/
theorem first_definition_is_kept (env : CmdEnv) :
    (∀ (m : List (SymbolId × String)) (id : SymbolId) (value : String),
      id ∈ m.map Prod.fst → emplace m id value = m) ∧
    (∀ (s : CmdLine) (arg : String), s.DefinesKept (s.dashD arg)) ∧
    (∀ (s s1 : CmdLine) (arg : String), s.plus_arguments_ arg = some s1 → s.DefinesKept s1) ∧
    (∀ (args : List String) (s : CmdLine), s.DefinesKept (CmdLine.firstPass args s).1) ∧
    (∀ (args : List String) (s : CmdLine),
      (∀ a ∈ args, startsWith "-D" a = true ∨ startsWith "+define+" a = true) →
      ∃ s1, CmdLine.mainLoop env false args s = LoopEnd.finished s1 ∧ s.DefinesKept s1) ∧
    (∀ (s s1 : CmdLine) (id : SymbolId) (v w : String), s.DefinesKept s1 →
      (s.m_defineList.map Prod.fst).Nodup → (id, v) ∈ s.m_defineList →
      (id, w) ∈ s1.m_defineList → w = v) ∧
    definesOf (CmdLine.parseCommandLine parseEnv 1 "surelog" ["-DW=8", "-DW=16"] cmdFresh) =
      [("W", "8")] ∧
    definesOf (CmdLine.parseCommandLine parseEnv 1 "surelog" ["+define+W=1", "-DW=2"]
      cmdFresh) = [("W", "2")] ∧
    definesOf (CmdLine.parseCommandLine parseEnv 1 "surelog" ["+define+W=1", "+define+W=2"]
      cmdFresh) = [("W", "1")] := by
  refine ⟨emplace_of_mem, CmdLine.dashD_keeps, CmdLine.plus_arguments_keeps,
    CmdLine.firstPass_keeps, CmdLine.mainLoop_defines env, ?_, rfl, rfl, rfl⟩
  intro s s1 id v w hk hn hv hw
  have h1 := hk.2.1 _ hv
  have hn1 := hk.2.2 hn
  have := List.inj_on_of_nodup_map hn1 h1 hw rfl
  exact (congrArg Prod.snd this).symm

/-- C28 on the arguments `-DW=8 -DW=16` after a first pass over them: the main
loop runs to its end and the map still holds `W=8` alone. -/
theorem first_definition_is_kept_witness :
    (∀ a ∈ ["-DW=8", "-DW=16"], startsWith "-D" a = true ∨ startsWith "+define+" a = true) ∧
    ∃ s1, CmdLine.mainLoop cmdEnv false ["-DW=8", "-DW=16"]
        (CmdLine.firstPass ["-DW=8", "-DW=16"] cmdFresh).1 = LoopEnd.finished s1 ∧
      (CmdLine.firstPass ["-DW=8", "-DW=16"] cmdFresh).1.DefinesKept s1 :=
  ⟨by decide,
    (first_definition_is_kept cmdEnv).2.2.2.2.1 ["-DW=8", "-DW=16"]
      (CmdLine.firstPass ["-DW=8", "-DW=16"] cmdFresh).1 (by decide)⟩

/-! ## C25 -/

theorem executeCompilation_eq (diff_comp_mode fileunit : Bool) (r : Run)
    (hhelp : r.help = false) (hexe : r.exeCommand = "") (hpo : r.parseOnly = false) :
    executeCompilation diff_comp_mode fileunit r =
      ((((if r.success && !r.compilerStarted then 1 else 0) |||
        (if r.stats.nbFatal ≠ 0 then 1 else 0)) |||
        (if r.stats.nbSyntax ≠ 0 then 2 else 0)) |||
        (if r.stats.nbError ≠ 0 then 4 else 0)) |||
        (if (!(if diff_comp_mode && fileunit then r.report.2 else r.printStats) ||
            !(if diff_comp_mode && fileunit then r.report.1 else r.success)) = true
          then 1 else 0) := by
  obtain ⟨success, parseOnly, help, pl, pe, ps, il, started, ⟨nf, ns, ne⟩, pstats, exe, sys,
    ⟨r1, r2⟩⟩ := r
  simp only at hhelp hexe hpo
  subst hhelp hexe hpo
  unfold executeCompilation
  by_cases hf : nf = 0 <;> by_cases hs : ns = 0 <;> by_cases he : ne = 0 <;>
    cases diff_comp_mode <;> cases fileunit <;> cases success <;> cases started <;>
    cases pstats <;> cases r1 <;> cases r2 <;> simp [hf, hs, he]

/-- C25, as stated: a run in parse-only mode that is not a help run, has no
`-exe` command and counts one syntax error returns 0, so that bit 1 is not
set although the syntax-error count is not zero. -/
theorem parse_only_run_returns_zero :
    runParseOnly.help = false ∧ runParseOnly.exeCommand = "" ∧
    runParseOnly.stats.nbSyntax ≠ 0 ∧
    executeCompilation false false runParseOnly = 0 ∧
    (executeCompilation false false runParseOnly).testBit 1 = false := by
  decide

/-- C25, amended: for a run that is not a help run, has no `-exe` command and
is not in parse-only mode, the return code of `executeCompilation` has bit 1
set exactly when the syntax-error count is not zero and bit 2 set exactly when
the error count is not zero; bit 0 is set exactly when the fatal count is not
zero, or the command line parsed and no compiler was started, or the
statistics report (in diff mode the unit report) signalled fatal errors, or the
command line (in diff mode the unit report) failed; the code is below 8, and
it is 0 only when the three counts are zero.  A run in parse-only mode returns
0 whatever it counted. -/
theorem executeCompilation_is_the_bitmask (diff_comp_mode fileunit : Bool) (r : Run)
    (hhelp : r.help = false) (hexe : r.exeCommand = "") (hpo : r.parseOnly = false) :
    ((executeCompilation diff_comp_mode fileunit r).testBit 1 = true ↔
      r.stats.nbSyntax ≠ 0) ∧
    ((executeCompilation diff_comp_mode fileunit r).testBit 2 = true ↔
      r.stats.nbError ≠ 0) ∧
    (r.stats.nbFatal ≠ 0 → (executeCompilation diff_comp_mode fileunit r).testBit 0 = true) ∧
    ((executeCompilation diff_comp_mode fileunit r).testBit 0 = true ↔
      (r.stats.nbFatal ≠ 0 ∨ (r.success && !r.compilerStarted) = true ∨
        (!(if diff_comp_mode && fileunit then r.report.2 else r.printStats) ||
          !(if diff_comp_mode && fileunit then r.report.1 else r.success)) = true)) ∧
    (executeCompilation diff_comp_mode fileunit r = 0 →
      r.stats.nbFatal = 0 ∧ r.stats.nbSyntax = 0 ∧ r.stats.nbError = 0) ∧
    executeCompilation diff_comp_mode fileunit r < 8 ∧
    (∀ r1 : Run, r1.parseOnly = true → executeCompilation diff_comp_mode fileunit r1 = 0) := by
  have hlast : ∀ r1 : Run, r1.parseOnly = true →
      executeCompilation diff_comp_mode fileunit r1 = 0 := by
    intro r1 h1
    unfold executeCompilation
    simp only [h1, if_true]
  rw [executeCompilation_eq diff_comp_mode fileunit r hhelp hexe hpo]
  generalize (r.success && !r.compilerStarted) = x
  generalize (!(if (diff_comp_mode && fileunit) = true then r.report.2 else r.printStats) ||
    !(if (diff_comp_mode && fileunit) = true then r.report.1 else r.success)) = y
  refine ⟨?_, ?_, ?_, ?_, ?_, ?_, hlast⟩ <;>
    by_cases hf : r.stats.nbFatal = 0 <;> by_cases hs : r.stats.nbSyntax = 0 <;>
    by_cases he : r.stats.nbError = 0 <;> cases x <;> cases y <;> simp [hf, hs, he] <;>
    decide

/-- C25, amended, on the run with one syntax error: the code is 2. -/
theorem executeCompilation_is_the_bitmask_witness :
    runSyntax.help = false ∧ runSyntax.exeCommand = "" ∧ runSyntax.parseOnly = false ∧
    ((executeCompilation false false runSyntax).testBit 1 = true ↔
      runSyntax.stats.nbSyntax ≠ 0) ∧
    executeCompilation false false runSyntax = 2 :=
  ⟨rfl, rfl, rfl, (executeCompilation_is_the_bitmask false false runSyntax rfl rfl rfl).1,
    by decide⟩

/-! ## C23 -/

theorem findCd_absent (unquoted : String → String) :
    ∀ args : List String, "-cd" ∉ args.dropLast → findCd unquoted args = "" := by
  intro args
  induction args with
  | nil => intro _; rfl
  | cons a rest ih =>
    intro h
    cases rest with
    | nil => rfl
    | cons b rest2 =>
      have h1 : (a :: b :: rest2).dropLast = a :: (b :: rest2).dropLast := rfl
      rw [h1, List.mem_cons, not_or] at h
      have ha : ¬ a = "-cd" := fun hc => h.1 hc.symm
      simp only [findCd, ha, if_false]
      exact ih h.2

theorem findCd_first (unquoted : String → String) (d : String) (post : List String) :
    ∀ pre : List String, "-cd" ∉ pre →
      findCd unquoted (pre ++ "-cd" :: d :: post) = unquoted d := by
  intro pre
  induction pre with
  | nil => intro _; simp only [List.nil_append, findCd, if_true]
  | cons a rest ih =>
    intro h
    rw [List.mem_cons, not_or] at h
    have ha : ¬ a = "-cd" := fun hc => h.1 hc.symm
    cases rest with
    | nil =>
      simp only [List.cons_append, List.nil_append, findCd, ha, if_false, if_true]
    | cons b rest2 =>
      have ih2 := ih h.2
      simp only [List.cons_append] at ih2 ⊢
      simp only [findCd, ha, if_false]
      exact ih2

theorem fsAppend_ne_empty (a b : String) (ha : a ≠ "") : fsAppend a b ≠ "" := by
  intro h
  have hd := congrArg String.data h
  have hne : a.data ≠ [] := fun hc => ha (String.ext hc)
  simp only [fsAppend, fsAppendChars] at hd
  split_ifs at hd with h1 h2
  · have hb : b.data = [] := hd
    rw [hb] at h1
    simp at h1
  · have := congrArg List.length hd
    simp at this
    exact hne (List.length_eq_zero.mp this.1)
  · have := congrArg List.length hd
    simp at this

theorem batchOutputDir_ne_empty (outputDir cwd : String) (h : outputDir ≠ "") :
    batchOutputDir outputDir cwd ≠ "" := by
  unfold batchOutputDir
  split_ifs
  · exact h
  · exact fsAppend_ne_empty _ _ h

theorem batchArgs_eq (unquoted : String → String) (outputDir : String) (args : List String)
    (h : outputDir ≠ "") :
    batchArgs unquoted outputDir args =
      args ++ ["-o", batchOutputDir outputDir (findCd unquoted args)] := by
  unfold batchArgs batchOutputDir
  split_ifs <;> rfl

theorem CmdLine.processOutputDirectory__last (env : CmdEnv) (d : String) :
    ∀ (n : Nat) (xs : List String) (s : CmdLine), xs.length ≤ n →
      danglingOutputOption xs = false →
      CmdLine.processOutputDirectory_ env (xs ++ ["-o", d]) s =
        { (CmdLine.processOutputDirectory_ env xs s) with
          symbols := ((CmdLine.processOutputDirectory_ env xs s).symbols.registerSymbol
            (env.getPreferredPath (undecorateArg d))).2
          m_outputDir := ((CmdLine.processOutputDirectory_ env xs s).symbols.registerSymbol
            (env.getPreferredPath (undecorateArg d))).1 } := by
  have hopt : isOutputDirOption (undecorateArg "-o") = true := by decide
  intro n
  induction n with
  | zero =>
    intro xs s hlen _
    have hx : xs = [] := List.length_eq_zero.mp (Nat.le_zero.mp hlen)
    subst hx
    simp only [List.nil_append, CmdLine.processOutputDirectory_, hopt, if_true]
  | succ n ih =>
    intro xs s hlen hd
    match xs, hlen, hd with
    | [], _, _ =>
      simp only [List.nil_append, CmdLine.processOutputDirectory_, hopt, if_true]
    | [last], _, hd =>
      have hl : isOutputDirOption (undecorateArg last) = false := hd
      simp only [List.cons_append, List.nil_append, CmdLine.processOutputDirectory_, hl, hopt,
        if_true, if_false, Bool.false_eq_true]
    | arg :: a :: rest, hlen, hd =>
      simp only [List.length_cons] at hlen
      by_cases ho : isOutputDirOption (undecorateArg arg) = true
      · have hd2 : danglingOutputOption rest = false := by
          simpa only [danglingOutputOption, ho, if_true] using hd
        simp only [List.cons_append, CmdLine.processOutputDirectory_, ho, if_true]
        exact ih rest _ (by omega) hd2
      · have hd2 : danglingOutputOption (a :: rest) = false := by
          simpa only [danglingOutputOption, ho, if_false] using hd
        have h2 := ih (a :: rest) s (by simp only [List.length_cons]; omega) hd2
        simp only [List.cons_append] at h2
        simp only [List.cons_append, CmdLine.processOutputDirectory_, ho, if_false]
        exact h2

/-- C23, as stated: for the batch line `-cd t1 -o mine top.sv` and the output
directory `/out` the argument vector handed to the compilation has `-o` and
`/out/t1` behind the arguments of the line, not before them; and since
`processOutputDirectory_` lets the last output option win, the compilation
writes under `/out/t1`, where an option put before the line would have lost to
the `-o mine` of the line. -/
theorem batch_output_option_comes_last :
    batchArgv "surelog"
        (batchArgs batchEnv.unquoted "/out" (batchEnv.tokenize "-cd t1 -o mine top.sv")) =
      ["surelog", "-cd", "t1", "-o", "mine", "top.sv", "-o", "/out/t1"] ∧
    batchArgv "surelog"
        (batchArgs batchEnv.unquoted "/out" (batchEnv.tokenize "-cd t1 -o mine top.sv")) ≠
      ["surelog", "-o", "/out/t1", "-cd", "t1", "-o", "mine", "top.sv"] ∧
    (CmdLine.processOutputDirectory_ cmdEnv
        ["-cd", "t1", "-o", "mine", "top.sv", "-o", "/out/t1"] cmdFresh).symbols.getSymbol
      (CmdLine.processOutputDirectory_ cmdEnv
        ["-cd", "t1", "-o", "mine", "top.sv", "-o", "/out/t1"] cmdFresh).m_outputDir =
      "/out/t1" ∧
    (CmdLine.processOutputDirectory_ cmdEnv
        ["-o", "/out/t1", "-cd", "t1", "-o", "mine", "top.sv"] cmdFresh).symbols.getSymbol
      (CmdLine.processOutputDirectory_ cmdEnv
        ["-o", "/out/t1", "-cd", "t1", "-o", "mine", "top.sv"] cmdFresh).m_outputDir =
      "mine" := by
  refine ⟨by decide, by decide, rfl, rfl⟩

/-- C23, amended: for a non-empty batch output directory the argument vector
handed to the compilation is `argv0`, the non-empty arguments of the line, and
then `-o` and the directory, which is the output directory when no `-cd` of
the line has an argument after it or the unquoted argument of the first such
`-cd` is empty or absolute, and the output directory joined with that argument
otherwise; and when no output option of the line is left without its
argument, `processOutputDirectory_` on these arguments ends with that
directory (undecorated and in preferred form) as the output directory,
whatever output options the line holds. -/
theorem batch_output_option_is_appended (unquoted : String → String)
    (argv0 outputDir : String) (args : List String) (hout : outputDir ≠ "") :
    batchArgv argv0 (batchArgs unquoted outputDir args) =
      argv0 :: (args.filter (fun arg => arg ≠ "") ++
        ["-o", batchOutputDir outputDir (findCd unquoted args)]) ∧
    ("-cd" ∉ args.dropLast → batchOutputDir outputDir (findCd unquoted args) = outputDir) ∧
    (∀ (pre post : List String) (d : String), args = pre ++ "-cd" :: d :: post → "-cd" ∉ pre →
      batchOutputDir outputDir (findCd unquoted args) =
        if unquoted d = "" ∨ is_absolute (unquoted d) = true then outputDir
        else fsAppend outputDir (unquoted d)) ∧
    (∀ (env : CmdEnv) (s : CmdLine),
      danglingOutputOption ((args.filter (fun arg => arg ≠ "")).map undecorateArg) = false →
      (CmdLine.processOutputDirectory_ env
          ((batchArgv argv0 (batchArgs unquoted outputDir args)).tail.map undecorateArg)
          s).symbols.getSymbol
        (CmdLine.processOutputDirectory_ env
          ((batchArgv argv0 (batchArgs unquoted outputDir args)).tail.map undecorateArg)
          s).m_outputDir =
        env.getPreferredPath
          (undecorateArg (undecorateArg (batchOutputDir outputDir (findCd unquoted args))))) := by
  have hargv : batchArgv argv0 (batchArgs unquoted outputDir args) =
      argv0 :: (args.filter (fun arg => arg ≠ "") ++
        ["-o", batchOutputDir outputDir (findCd unquoted args)]) := by
    have hd := batchOutputDir_ne_empty outputDir (findCd unquoted args) hout
    have ho : ("-o" : String) ≠ "" := by decide
    rw [batchArgs_eq unquoted outputDir args hout]
    simp only [batchArgv, List.filter_append, List.filter_cons, List.filter_nil, ho, hd, ne_eq,
      not_false_eq_true, decide_True, if_true]
  refine ⟨hargv, ?_, ?_, ?_⟩
  · intro h
    rw [findCd_absent unquoted args h]
    simp [batchOutputDir]
  · intro pre post d hargs hpre
    rw [hargs, findCd_first unquoted d post pre hpre]
    rfl
  · intro env s hd
    rw [hargv]
    have ho : undecorateArg "-o" = "-o" := by decide
    simp only [List.tail_cons, List.map_append, List.map_cons, List.map_nil, ho]
    rw [CmdLine.processOutputDirectory__last env _ _ _ s (le_refl _) hd]
    exact SymbolTable.getSymbol_registerSymbol _ _

/-- C23, amended, on the batch line `-cd t1 -o mine top.sv` with the output
directory `/out`. -/
theorem batch_output_option_is_appended_witness :
    ("/out" : String) ≠ "" ∧
    batchArgv "surelog" (batchArgs batchEnv.unquoted "/out"
        ["-cd", "t1", "-o", "mine", "top.sv"]) =
      "surelog" :: (["-cd", "t1", "-o", "mine", "top.sv"].filter (fun arg => arg ≠ "") ++
        ["-o", batchOutputDir "/out"
          (findCd batchEnv.unquoted ["-cd", "t1", "-o", "mine", "top.sv"])]) ∧
    batchOutputDir "/out" (findCd batchEnv.unquoted ["-cd", "t1", "-o", "mine", "top.sv"]) =
      "/out/t1" :=
  ⟨by decide,
    (batch_output_option_is_appended batchEnv.unquoted "surelog" "/out"
      ["-cd", "t1", "-o", "mine", "top.sv"] (by decide)).1, by decide⟩

/-! ## C24 -/

theorem batchLoop_runs {W : Type} (env : BatchEnv W) (argv0 outputDir : String)
    (hchdir : ∀ w, (env.chdir w).1 = true) :
    ∀ (lines : List String) (st : BatchState W),
      (∀ line ∈ lines, line ≠ "" → env.tokenize line ≠ []) →
      ∃ (st1 : BatchState W) (added : List (List String × Nat)),
        batchLoop env argv0 outputDir lines st = some st1 ∧
        st1.runs = st.runs ++ added ∧
        added.map Prod.fst =
          (compiledLines env argv0 outputDir lines).map (batchLineArgv env argv0 outputDir) ∧
        st1.returnCode = (added.map Prod.snd).foldl (fun a b => a ||| b) st.returnCode ∧
        st1.count = st.count + added.length := by
  intro lines
  induction lines with
  | nil =>
    intro st _
    exact ⟨st, [], rfl, by simp, rfl, rfl, rfl⟩
  | cons line rest ih =>
    intro st htok
    have hrest : ∀ l ∈ rest, l ≠ "" → env.tokenize l ≠ [] :=
      fun l hl => htok l (List.mem_cons_of_mem _ hl)
    by_cases hline : line = ""
    · obtain ⟨st1, added, hloop, hruns, hargv, hcode, hcount⟩ := ih st hrest
      refine ⟨st1, added, ?_, hruns, ?_, hcode, hcount⟩
      · simp only [batchLoop, batchLine, hline, if_true]
        exact hloop
      · rw [hargv]
        simp [compiledLines, hline]
    · have ht := htok line (List.mem_cons_self _ _) hline
      by_cases hlen : (batchLineArgv env argv0 outputDir line).length < 2
      · obtain ⟨st1, added, hloop, hruns, hargv, hcode, hcount⟩ := ih st hrest
        have hlen2 : (batchArgv argv0
            (batchArgs env.unquoted outputDir (env.tokenize line))).length < 2 := hlen
        refine ⟨st1, added, ?_, hruns, ?_, hcode, hcount⟩
        · simp only [batchLoop, batchLine, hline, ht, hlen2, if_true, if_false]
          exact hloop
        · rw [hargv]
          have : ¬ 2 ≤ (batchLineArgv env argv0 outputDir line).length := by omega
          simp [compiledLines, this]
      · have hlen2 : ¬ (batchArgv argv0
            (batchArgs env.unquoted outputDir (env.tokenize line))).length < 2 := hlen
        obtain ⟨st1, added, hloop, hruns, hargv, hcode, hcount⟩ := ih
          { world := (env.chdir (env.compile st.world
              (batchLineArgv env argv0 outputDir line)).2).2
            returnCode := st.returnCode ||| executeCompilation false false
              (env.compile st.world (batchLineArgv env argv0 outputDir line)).1
            count := st.count + 1
            overallStats :=
              if !(env.compile st.world (batchLineArgv env argv0 outputDir line)).1.help then
                st.overallStats.add
                  (env.compile st.world (batchLineArgv env argv0 outputDir line)).1.stats
              else st.overallStats
            runs := st.runs ++ [(batchLineArgv env argv0 outputDir line,
              executeCompilation false false
                (env.compile st.world (batchLineArgv env argv0 outputDir line)).1)] } hrest
        refine ⟨st1, (batchLineArgv env argv0 outputDir line,
          executeCompilation false false
            (env.compile st.world (batchLineArgv env argv0 outputDir line)).1) :: added,
          ?_, ?_, ?_, ?_, ?_⟩
        · simp only [batchLoop, batchLine, hline, ht, hlen2, if_false, hchdir, if_true]
          exact hloop
        · rw [hruns]
          simp
        · have h2 : 2 ≤ (batchLineArgv env argv0 outputDir line).length := by omega
          have hc : compiledLines env argv0 outputDir (line :: rest) =
              line :: compiledLines env argv0 outputDir rest := by
            simp [compiledLines, hline, h2]
          rw [hc, List.map_cons, List.map_cons, hargv]
        · rw [hcode]
          rfl
        · rw [hcount]
          simp only [List.length_cons]
          omega

/-- C24, as stated: a batch file whose only line holds one blank is a file
with a non-empty line, yet with an empty output directory the line yields no
argument and `batchCompilation` skips it: no compilation is run. -/
theorem blank_batch_line_is_not_compiled :
    (∃ line ∈ batchEnvBlank.lines, line ≠ "") ∧
    batchLineArgv batchEnvBlank "surelog" "" " " = ["surelog"] ∧
    (batchCompilation batchEnvBlank "surelog" "" ()).map
      (fun st => (st.returnCode, st.count, st.runs)) = some (0, 0, []) := by
  refine ⟨⟨" ", by decide, by decide⟩, by decide, by decide⟩

/-- C24, amended: when the working directory can be read and restored, the
batch file can be opened and every non-empty line yields at least one token,
`batchCompilation` returns; it has handed to `executeCompilation`, in the order
of the file, the argument vector of every non-empty line whose vector holds an
argument besides `argv0` (which lines these are does not depend on what the
compilations return), its count is their number, and its return code is the
bitwise OR of the codes the compilations returned. -/
theorem batch_return_code_is_the_or {W : Type} (env : BatchEnv W) (argv0 outputDir : String)
    (w : W) (hcwd : env.getcwdOk = true) (hstream : env.streamGood = true)
    (hchdir : ∀ w, (env.chdir w).1 = true)
    (htok : ∀ line ∈ env.lines, line ≠ "" → env.tokenize line ≠ []) :
    ∃ st : BatchState W, batchCompilation env argv0 outputDir w = some st ∧
      st.runs.map Prod.fst =
        (compiledLines env argv0 outputDir env.lines).map (batchLineArgv env argv0 outputDir) ∧
      st.returnCode = (st.runs.map Prod.snd).foldl (fun a b => a ||| b) 0 ∧
      st.count = st.runs.length := by
  obtain ⟨st1, added, hloop, hruns, hargv, hcode, hcount⟩ :=
    batchLoop_runs env argv0 outputDir hchdir env.lines
      { world := w, returnCode := 0, count := 0, overallStats := ⟨0, 0, 0⟩, runs := [] } htok
  refine ⟨st1, ?_, ?_, ?_, ?_⟩
  · simp only [batchCompilation, hstream, hcwd, Bool.not_true, Bool.false_eq_true, if_false]
    exact hloop
  · rw [hruns, List.nil_append, hargv]
  · rw [hruns, List.nil_append, hcode]
  · rw [hruns, List.nil_append, hcount, Nat.zero_add]

/-- C24, amended, on the batch of scenario 5 with the output directory `/out`:
the three lines with arguments are compiled, the first with a syntax error,
the last with an error, and the return code is 6. -/
theorem batch_return_code_is_the_or_witness :
    batchEnv.getcwdOk = true ∧ batchEnv.streamGood = true ∧
    (∀ line ∈ batchEnv.lines, line ≠ "" → batchEnv.tokenize line ≠ []) ∧
    (∃ st : BatchState Unit, batchCompilation batchEnv "surelog" "/out" () = some st ∧
      st.runs.map Prod.fst = (compiledLines batchEnv "surelog" "/out" batchEnv.lines).map
        (batchLineArgv batchEnv "surelog" "/out") ∧
      st.returnCode = (st.runs.map Prod.snd).foldl (fun a b => a ||| b) 0 ∧
      st.count = st.runs.length) ∧
    (batchCompilation batchEnv "surelog" "/out" ()).map
      (fun st => (st.returnCode, st.count, st.runs.map Prod.snd)) = some (6, 3, [2, 0, 4]) :=
  ⟨rfl, rfl, by decide,
    batch_return_code_is_the_or batchEnv "surelog" "/out" () rfl rfl (fun _ => rfl)
      (by decide), by decide⟩

end SURELOG
